import Mathlib

/-!
Verification of fst: checksum kernel, snapshot block source, capture writer,
exit status.

A shallow embedding of parts of `crc.c`, `diskio.c` and `fst.c`.

Conventions of the embedding:

* `ULONG`, `crc_t` are `Nat` values below `2 ^ 32`; arithmetic that can
  overflow in C is reduced `% 2 ^ 32` explicitly.
* `BYTE` buffers and files are `List Nat` (one element per byte).
* C arrays are lists, read with `List.getD` and written with `List.set`.
* A function that can leave through `error ()` (process exit) returns an
  `Option`; `none` stands for that exit.
-/

namespace Fst

/-! ## crc.c -/

/-- Modelled from the spec: the type `crc_t` of crc.h, a header that is not among
the sources. The checksum is a "32-bit CRC", so `crc_t` is an unsigned 32-bit
integer; this is the modulus of its arithmetic. -/
def CRC_T_MODULUS : Nat := 2 ^ 32

/-- The generator polynomial, `CRC_POLYNOMIAL` of crc.c. -/
def CRC_POLYNOMIAL : Nat := 0x4c11db7

/-- The loop of `crc_build_table`: `for (i = 0, j = 0; i < 128; ++i, j += 2)`.
The first argument bounds the number of iterations. -/
def crc_build_loop : Nat → Nat → Nat → List Nat → List Nat
  | 0, _, _, crc_table => crc_table
  | fuel + 1, i, j, crc_table =>
    if i < 128 then
      let t := (crc_table.getD i 0 <<< 1) % CRC_T_MODULUS
      let crc_table1 :=
        if crc_table.getD i 0 &&& 0x80000000 ≠ 0 then
          (crc_table.set j (t ^^^ CRC_POLYNOMIAL)).set (j + 1) t
        else
          (crc_table.set j t).set (j + 1) (t ^^^ CRC_POLYNOMIAL)
      crc_build_loop fuel (i + 1) (j + 2) crc_table1
    else crc_table

/-- The table `crc_table[256]` after `crc_build_table ()`; the static array
starts zeroed and `crc_table[0] = 0` is stored before the loop. -/
def crc_build_table : List Nat :=
  crc_build_loop 128 0 0 ((List.replicate 256 0).set 0 0)

/-- One iteration of the loop body of `crc_compute`:
`crc = (crc << 8) ^ crc_table[(crc >> 24) ^ src[i]]`. -/
def crc_step (crc_table : List Nat) (crc byte : Nat) : Nat :=
  ((crc <<< 8) % CRC_T_MODULUS) ^^^ crc_table.getD ((crc >>> 24) ^^^ byte) 0

/-- The loop of `crc_compute`: `for (i = 0; i < size; ++i)`, reading `src[i]`.
The first argument bounds the number of iterations. -/
def crc_compute_loop (crc_table src : List Nat) (size : Nat) : Nat → Nat → Nat → Nat
  | 0, _, crc => crc
  | fuel + 1, i, crc =>
    if i < size then
      crc_compute_loop crc_table src size fuel (i + 1) (crc_step crc_table crc (src.getD i 0))
    else crc

/-- The value of the local `crc` of `crc_compute` when its loop is left; it
starts as `~0`. -/
def crc_state (src : List Nat) (size : Nat) : Nat :=
  crc_compute_loop crc_build_table src size size 0 (CRC_T_MODULUS - 1)

/-- The function `crc_compute (src, size)`, with the table built: start at `~0`
and return `~crc`, the complement being the XOR with the all-ones value. -/
def crc_compute (src : List Nat) (size : Nat) : Nat :=
  crc_state src size ^^^ (CRC_T_MODULUS - 1)

/-- Specification side of the table: one step of MSB-first polynomial long
division on a 32-bit word (shift left by one, XOR the polynomial `0x04C11DB7`
when the bit shifted out was 1). -/
def crc_division_step (w : Nat) : Nat :=
  if w / 2 ^ 31 % 2 = 1 then ((w * 2) % 2 ^ 32) ^^^ 0x04C11DB7 else (w * 2) % 2 ^ 32

/-- Specification side of the table: long division of the byte `i`, starting
with `i << 24` and doing eight division steps. -/
def crc_long_division (i : Nat) : Nat :=
  crc_division_step^[8] ((i * 2 ^ 24) % 2 ^ 32)

/-- Specification side of `crc_compute`: the incremental updater, feeding the
bytes one at a time into `crc -> (crc << 8) ^ T[(crc >> 24) ^ byte]`. -/
def crc_incremental (state : Nat) (bytes : List Nat) : Nat :=
  bytes.foldl (fun crc byte => ((crc * 2 ^ 8) % 2 ^ 32) ^^^ crc_build_table.getD ((crc / 2 ^ 24) ^^^ byte) 0) state

/-! ## fst.c: warnings and process exit -/

/-- What the process leaves behind when it exits through `quit`: the exit
status passed to `exit ()`, whether the open save file was closed and removed,
and the counts printed in the line "Total warnings: .., total errors: ..". -/
structure Exit where
  status : Int
  save_file_removed : Bool
  totals_shown : Option (Int × Int)
deriving DecidableEq

/-- The function `quit (rc, show)` of fst.c. `save_file_open` says whether
`save_file != NULL`; `warning_count` is the static array `warning_count[2]`. -/
def quit (save_file_open : Bool) (warning_count : List Int) (rc : Int) (show_totals : Bool) : Exit :=
  let w0 := warning_count.getD 0 0
  let w1 := warning_count.getD 1 0
  let rc1 := if rc = 0 ∧ w1 ≠ 0 then 1 else rc
  { status := rc1
    save_file_removed := save_file_open
    totals_shown := if w0 ≠ 0 ∨ w1 ≠ 0 ∨ show_totals then some (w0, w1) else none }

/-- The function `error (fmt, ...)` of fst.c: after the message,
`warning_count[1] += 1; quit (2, TRUE);`. -/
def error (save_file_open : Bool) (warning_count : List Int) : Exit :=
  quit save_file_open (warning_count.set 1 (warning_count.getD 1 0 + 1)) 2 true

/-- The counter update of `warning_prolog (level)`, which `warning (level, ...)`
calls first: `warning_count[level] += 1`, `abort ()` for a level other than 0
and 1. -/
def warning (warning_count : List Int) (level : Nat) : Option (List Int) :=
  if level = 0 ∨ level = 1 then
    some (warning_count.set level (warning_count.getD level 0 + 1))
  else none

/-! ## diskio.c: constants and byte order -/

/-- Size of the hash table, `HASH_SIZE`. -/
def HASH_SIZE : Nat := 997

/-- End marker of a hash chain, `HASH_END`. -/
def HASH_END : Nat := 0xffffffff

/-- Flag `DIO_DISK` of diskio.h. -/
def DIO_DISK : Nat := 0x01

/-- Flag `DIO_SNAPSHOT` of diskio.h. -/
def DIO_SNAPSHOT : Nat := 0x02

/-- Flag `DIO_CRC` of diskio.h. -/
def DIO_CRC : Nat := 0x04

/-- Magic number `CRC_MAGIC` of diskio.h. -/
def CRC_MAGIC : Nat := 0xac994df4

/-- Magic number `SNAPSHOT_MAGIC` of diskio.h. -/
def SNAPSHOT_MAGIC : Nat := 0xaf974803

/-- The constant `SNAPSHOT_SCRAMBLE` of diskio.h. -/
def SNAPSHOT_SCRAMBLE : Nat := 0x551234af

/-- The constant `LONG_MAX` of a 32-bit `long`. -/
def LONG_MAX : Nat := 0x7fffffff

/-- The four bytes in memory of a `ULONG` stored through `ULONG_TO_FS`
(byte order `LITTLE_ENDIAN` of fst.h); the value is truncated to 32 bits. -/
def ulong_to_bytes (x : Nat) : List Nat :=
  [x % 256, x / 256 % 256, x / 65536 % 256, x / 16777216 % 256]

/-- The `ULONG` read through `ULONG_FROM_FS` from the first four bytes of a
buffer. -/
def ulong_from_bytes (b : List Nat) : Nat :=
  b.getD 0 0 + 256 * b.getD 1 0 + 65536 * b.getD 2 0 + 16777216 * b.getD 3 0

/-- The statement `*(ULONG *)raw ^= ULONG_TO_FS (SNAPSHOT_SCRAMBLE)` on a
sector buffer `raw`. -/
def scramble (raw : List Nat) : List Nat :=
  ulong_to_bytes (ulong_from_bytes (raw.take 4) ^^^ SNAPSHOT_SCRAMBLE) ++ raw.drop 4

/-! ## diskio.c: files -/

/-- Model of a write of `data` at byte offset `pos` of a file (`DosWrite`,
`fwrite`): the bytes are replaced in place, the file grows when the write
passes its end, and a gap between the old end and `pos` reads as zero. -/
def file_write (file : List Nat) (pos : Nat) (data : List Nat) : List Nat :=
  file.take pos ++ List.replicate (pos - file.length) 0 ++ data ++ file.drop (pos + data.length)

/-- Model of a read of `len` bytes at byte offset `pos` of a file (`DosRead`):
the bytes present, fewer than `len` at the end of the file. -/
def file_read (file : List Nat) (pos len : Nat) : List Nat :=
  (file.drop pos).take len

/-- A C stream open for writing: the file written so far and the position. -/
structure Stream where
  data : List Nat
  pos : Nat
deriving DecidableEq

/-- Model of `fwrite` of the bytes `b` on a stream. -/
def Stream.fwrite (f : Stream) (b : List Nat) : Stream :=
  { data := file_write f.data f.pos b, pos := f.pos + b.length }

/-- Model of `fseek (f, pos, SEEK_SET)`. -/
def Stream.fseek (f : Stream) (pos : Nat) : Stream :=
  { f with pos := pos }

/-- Model of `ftell`. -/
def Stream.ftell (f : Stream) : Nat := f.pos

/-- The relative seeks of `seek_sec_hfile` for a negative `new_pos`:
`while (rc == 0 && rest != 0)`, each step advancing by
`MIN (rest, LONG_MAX / 512) * 512` bytes. Returns the file position. The first
argument bounds the number of iterations. -/
def seek_rel_loop : Nat → Nat → Nat → Nat
  | 0, _, act_pos => act_pos
  | fuel + 1, rest, act_pos =>
    if rest ≠ 0 then
      let n := min rest (LONG_MAX / 512)
      seek_rel_loop fuel (rest - n) (act_pos + n * 512)
    else act_pos

/-- The function `seek_sec_hfile (hf, sec_io, sec)`: the file position it
leaves, every `DosSetFilePtr` returning 0. `new_pos` is a `LONG`, negative
when the 32-bit value is `2 ^ 31` or more. -/
def seek_sec_hfile (sec_io : Bool) (sec : Nat) : Nat :=
  let new_pos := if sec_io then sec % 2 ^ 32 else (sec * 512) % 2 ^ 32
  if new_pos < 2 ^ 31 then new_pos
  else seek_rel_loop sec sec 0

/-- The function `read_sec_hfile (hf, sec_io, dst, sec, count)`: the bytes read,
`none` for the exit "EOF reached while reading sector". -/
def read_sec_hfile (hf : List Nat) (sec_io : Bool) (sec count : Nat) : Option (List Nat) :=
  let i := if sec_io then count else (512 * count) % 2 ^ 32
  let dst := file_read hf (seek_sec_hfile sec_io sec) i
  if dst.length ≠ i then none else some dst

/-- The function `write_sec_hfile (hf, sec_io, src, sec)`, `DosWrite` returning
0 and writing all bytes: the new file contents (the function then returns
`TRUE`). -/
def write_sec_hfile (hf : List Nat) (sec_io : Bool) (src : List Nat) (sec : Nat) : List Nat :=
  let i := if sec_io then 1 else 512
  file_write hf (seek_sec_hfile sec_io sec) (src.take i)

/-! ## diskio.c: snapshot block source -/

/-- The data of a `DISKIO` of type `DIOT_SNAPSHOT` (`struct diskio_snapshot`);
`hf` holds the contents of the file behind the handle. -/
structure diskio_snapshot where
  hf : List Nat
  sector_count : Nat
  sector_map : List Nat
  hash_next : List Nat
  version : Nat
  hash_start : List Nat
deriving DecidableEq

/-- The third loop of "Initialize hashing" in `diskio_open`:
`for (i = 0; i < sector_count; ++i)` linking entry `i` in front of the chain
of `map[i] % HASH_SIZE`. Returns `(hash_start, hash_next)`. The first argument
bounds the number of iterations. -/
def hash_insert_loop (sector_count : Nat) (map : List Nat) :
    Nat → Nat → List Nat → List Nat → List Nat × List Nat
  | 0, _, hash_start, hash_next => (hash_start, hash_next)
  | fuel + 1, i, hash_start, hash_next =>
    if i < sector_count then
      let hash := map.getD i 0 % HASH_SIZE
      hash_insert_loop sector_count map fuel (i + 1)
        (hash_start.set hash i) (hash_next.set i (hash_start.getD hash 0))
    else (hash_start, hash_next)

/-- The part of `diskio_open` after the sector map is loaded: initialise and
fill the hash, and set up the snapshot data. -/
def snapshot_init (hf : List Nat) (sector_count version : Nat) (map : List Nat) :
    diskio_snapshot :=
  let r := hash_insert_loop sector_count map sector_count 0
    (List.replicate HASH_SIZE HASH_END) (List.replicate sector_count HASH_END)
  { hf := hf, sector_count := sector_count, sector_map := map
    hash_next := r.2, version := version, hash_start := r.1 }

/-- The sector map as `diskio_open` loads it: `sector_count` values of type
`ULONG` decoded from the bytes read at `map_pos`. -/
def load_map : Nat → List Nat → List Nat
  | 0, _ => []
  | count + 1, bytes => ulong_from_bytes (bytes.take 4) :: load_map count (bytes.drop 4)

/-- The function `diskio_open (fname, flags, for_write)` for a name that is not
a drive name, `file` being the contents of the file of that name. The result is
the snapshot data of the new `DISKIO`; `none` stands for every exit through
`error ()` and for a file that is opened as a CRC file. The byte count
`sector_count * sizeof (ULONG)` is a 32-bit product; when it wraps, the loops
over `sector_count` entries leave the allocated arrays, which is `none` too. -/
def diskio_open (write_enable : Bool) (file : List Nat) (flags : Nat) (for_write : Bool) :
    Option diskio_snapshot :=
  if !for_write && write_enable then none
  else if for_write && !write_enable then none
  else if flags &&& (DIO_SNAPSHOT ||| DIO_CRC) = 0 then none
  else
    let hdr := file_read file 0 512
    let magic := ulong_from_bytes hdr
    if hdr.length ≠ 512
        ∨ ¬ ((flags &&& DIO_SNAPSHOT ≠ 0 ∧ magic = SNAPSHOT_MAGIC)
              ∨ (flags &&& DIO_CRC ≠ 0 ∧ magic = CRC_MAGIC)) then none
    else if magic = SNAPSHOT_MAGIC then
      let version := ulong_from_bytes (hdr.drop 12)
      let sector_count := ulong_from_bytes (hdr.drop 4)
      let map_pos := ulong_from_bytes (hdr.drop 8)
      if version > 1 then none
      else
        let size := (sector_count * 4) % 2 ^ 32
        let bytes := file_read file map_pos size
        if bytes.length ≠ size then none
        else if sector_count * 4 ≥ 2 ^ 32 then none
        else some (snapshot_init file sector_count version (load_map sector_count bytes))
    else none

/-- Specification side of the hash: the head of the chain of bucket `h` when the
first `k` entries of the map are linked, that is the largest index below `k`
whose sector number falls into bucket `h`, `HASH_END` when there is none. -/
def chain_head (map : List Nat) (h : Nat) : Nat → Nat
  | 0 => HASH_END
  | k + 1 => if map.getD k 0 % HASH_SIZE = h then k else chain_head map h k

/-- Specification side of the lookup: one more than the largest index below `k`
at which the map holds `n`, 0 when there is none. -/
def last_index (map : List Nat) (n : Nat) : Nat → Nat
  | 0 => 0
  | k + 1 => if map.getD k 0 = n then k + 1 else last_index map n k

/-- The loop of `find_sec_in_snapshot`:
`for (j = ..; j != HASH_END; j = hash_next[j]) if (sector_map[j] == n) return j + 1;`
and `return 0` after the loop. `none` when the iteration bound is used up or
an index lies outside `sector_map` or `hash_next`. -/
def find_sec_loop (d : diskio_snapshot) (n : Nat) : Nat → Nat → Option Nat
  | 0, j => if j ≠ HASH_END then none else some 0
  | fuel + 1, j =>
    if j ≠ HASH_END then
      match d.sector_map[j]?, d.hash_next[j]? with
      | some m, some next => if m = n then some ((j + 1) % 2 ^ 32) else find_sec_loop d n fuel next
      | _, _ => none
    else some 0

/-- The function `find_sec_in_snapshot (d, n)` run for at most `fuel` iterations
of its loop. -/
def find_sec_fuel (fuel : Nat) (d : diskio_snapshot) (n : Nat) : Option Nat :=
  match d.hash_start[n % HASH_SIZE]? with
  | some j => find_sec_loop d n fuel j
  | none => none

/-- The function `find_sec_in_snapshot (d, n)`; a chain has at most
`sector_count` entries. -/
def find_sec_in_snapshot (d : diskio_snapshot) (n : Nat) : Option Nat :=
  find_sec_fuel d.sector_count d n

/-- The loop of the case `DIOT_SNAPSHOT` of `read_sec`, `count` sectors from
sector `n` on: the bytes stored to `dst`, `none` for an exit through `error ()`
("Sector not found in snapshot file", end of file). -/
def read_sec_loop (d : diskio_snapshot) : Nat → Nat → Option (List Nat)
  | 0, _ => some []
  | count + 1, n =>
    match find_sec_in_snapshot d n with
    | none => none
    | some j =>
      if j = 0 then none
      else
        match read_sec_hfile d.hf false j 1 with
        | none => none
        | some p =>
          let p1 := if d.version ≥ 1 then scramble p else p
          match read_sec_loop d count ((n + 1) % 2 ^ 32) with
          | none => none
          | some rest => some (p1 ++ rest)

/-- The function `read_sec (d, dst, sec, count, save)` on a snapshot source,
without the copy to the save file (`save` is `FALSE`). -/
def read_sec (d : diskio_snapshot) (sec count : Nat) : Option (List Nat) :=
  read_sec_loop d count sec

/-- The result of `write_sec`: the value returned, the snapshot data with the
file as it is afterwards, and `warning_count`. -/
structure WriteResult where
  ok : Bool
  d : diskio_snapshot
  warning_count : List Int
deriving DecidableEq

/-- The function `write_sec_snapshot (d, src, sec)`; `none` when
`find_sec_in_snapshot` does not return. -/
def write_sec_snapshot (d : diskio_snapshot) (warning_count : List Int) (src : List Nat)
    (sec : Nat) : Option WriteResult :=
  match find_sec_in_snapshot d sec with
  | none => none
  | some j =>
    if j = 0 then
      match warning warning_count 1 with
      | none => none
      | some wc => some { ok := false, d := d, warning_count := wc }
    else
      let raw := src.take 512
      let raw1 := if d.version ≥ 1 then scramble raw else raw
      some { ok := true, d := { d with hf := write_sec_hfile d.hf false raw1 j }
             warning_count := warning_count }

/-- The function `write_sec (d, src, sec)` on a snapshot source. -/
def write_sec (d : diskio_snapshot) (warning_count : List Int) (src : List Nat) (sec : Nat) :
    Option WriteResult :=
  write_sec_snapshot d warning_count src sec

/-! ## diskio.c: capture writer -/

/-- The type `enum save_type` of diskio.h. -/
inductive save_type where
  | SAVE_RAW
  | SAVE_SNAPSHOT
  | SAVE_CRC
deriving DecidableEq

/-- The globals of the capture writer: `save_type`, `save_file`,
`save_sector_count`, `save_sector_alloc` and the array `save_sector_map`
(`save_sector_alloc` elements). -/
structure SaveState where
  type : save_type
  save_file : Stream
  save_sector_count : Nat
  save_sector_alloc : Nat
  save_sector_map : List Nat
deriving DecidableEq

/-- Model of `realloc` of a `ULONG` array to `n` elements: the old elements are
kept, new ones read as zero. -/
def realloc_ulong (p : List Nat) (n : Nat) : List Nat :=
  (p ++ List.replicate n 0).take n

/-- The first loop of `save_one_sec`:
`for (i = 0; i < save_sector_count; ++i) if (save_sector_map[i] == sec) return;`
The result is `true` when the function returns from inside the loop. The first
argument bounds the number of iterations. -/
def save_seen_loop (s : SaveState) (sec : Nat) : Nat → Nat → Bool
  | 0, _ => false
  | fuel + 1, i =>
    if i < s.save_sector_count then
      if s.save_sector_map.getD i 0 = sec then true
      else save_seen_loop s sec fuel (i + 1)
    else false

/-- The statement `if (save_sector_count >= save_sector_alloc) { ... }` of
`save_one_sec`, which makes room for 1024 more entries, `realloc` succeeding. -/
def save_grow (s : SaveState) : SaveState :=
  if s.save_sector_count ≥ s.save_sector_alloc then
    let alloc := (s.save_sector_alloc + 1024) % 2 ^ 32
    { s with save_sector_alloc := alloc
             save_sector_map := realloc_ulong s.save_sector_map alloc }
  else s

/-- The function `save_one_sec (src, sec)`, `realloc` and `fwrite` succeeding. -/
def save_one_sec (s : SaveState) (src : List Nat) (sec : Nat) : SaveState :=
  if save_seen_loop s sec s.save_sector_count 0 then s
  else
    let s1 := save_grow s
    let raw := src.take 512
    { s1 with save_sector_map := s1.save_sector_map.set s1.save_sector_count sec
              save_sector_count := (s1.save_sector_count + 1) % 2 ^ 32
              save_file := s1.save_file.fwrite (scramble raw) }

/-- The function `save_sec (src, sec, count)`:
`while (count != 0) { save_one_sec (p, sec); p += 512; ++sec; --count; }`. -/
def save_sec (s : SaveState) (src : List Nat) (sec : Nat) : Nat → SaveState
  | 0 => s
  | count + 1 => save_sec (save_one_sec s src sec) (src.drop 512) ((sec + 1) % 2 ^ 32) count

/-- The function `save_create (avoid_fname, type)` once the target file is
open: an empty file, and for a snapshot the zeroed counters and a zero header
of 512 bytes. -/
def save_create (type : save_type) : SaveState :=
  let f : Stream := { data := [], pos := 0 }
  match type with
  | save_type.SAVE_SNAPSHOT =>
    { type := type, save_file := f.fwrite (List.replicate 512 0)
      save_sector_count := 0, save_sector_alloc := 0, save_sector_map := [] }
  | save_type.SAVE_CRC =>
    { type := type, save_file := f.fwrite (List.replicate 512 0)
      save_sector_count := 0, save_sector_alloc := 0, save_sector_map := [] }
  | save_type.SAVE_RAW =>
    { type := type, save_file := f
      save_sector_count := 0, save_sector_alloc := 0, save_sector_map := [] }

/-- The snapshot header written by `save_close`: the fields `magic`,
`sector_count`, `map_pos`, `version` in a zeroed 512-byte block. -/
def snapshot_header (sector_count map_pos : Nat) : List Nat :=
  ulong_to_bytes SNAPSHOT_MAGIC ++ ulong_to_bytes sector_count ++ ulong_to_bytes map_pos
    ++ ulong_to_bytes 1 ++ List.replicate 496 0

/-- The CRC file header written by `save_close`: `magic`, `sector_count`,
`version`. -/
def crc_header (sector_count : Nat) : List Nat :=
  ulong_to_bytes CRC_MAGIC ++ ulong_to_bytes sector_count ++ ulong_to_bytes 1
    ++ List.replicate 500 0

/-- The bytes of the first `count` elements of a `ULONG` array, as `fwrite`
stores them. -/
def ulongs_to_bytes (p : List Nat) (count : Nat) : List Nat :=
  ((p.take count).map ulong_to_bytes).flatten

/-- The function `save_close ()`, the stream calls succeeding: the contents of
the closed save file. -/
def save_close (s : SaveState) : List Nat :=
  match s.type with
  | save_type.SAVE_SNAPSHOT =>
    let hdr := snapshot_header s.save_sector_count s.save_file.ftell
    let f1 := s.save_file.fwrite (ulongs_to_bytes s.save_sector_map s.save_sector_count)
    let f2 := (f1.fseek 0).fwrite hdr
    f2.data
  | save_type.SAVE_CRC =>
    let hdr := crc_header s.save_sector_count
    let f2 := (s.save_file.fseek 0).fwrite hdr
    f2.data
  | save_type.SAVE_RAW => s.save_file.data

/-! ## Capture sequences -/

/-- One call `save_sec (src, sec, count)`. -/
structure SaveCall where
  src : List Nat
  sec : Nat
  count : Nat
deriving DecidableEq

/-- A call is well formed when `src` holds `count` sectors of 512 bytes, each
element a byte, and `sec`, `count` are `ULONG` values. -/
def SaveCall.wf (c : SaveCall) : Prop :=
  c.src.length = 512 * c.count ∧ (∀ b ∈ c.src, b < 256) ∧ c.sec < 2 ^ 32 ∧ c.count < 2 ^ 32

instance (c : SaveCall) : Decidable c.wf := by
  unfold SaveCall.wf
  exact inferInstance

/-- The capture writer after a sequence of `save_sec` calls. -/
def save_run (s : SaveState) (calls : List SaveCall) : SaveState :=
  calls.foldl (fun s c => save_sec s c.src c.sec c.count) s

/-- The sectors a call `save_sec (src, sec, count)` passes to the capture, in
order: sector number and its 512 bytes. -/
def sectors_of_call (src : List Nat) (sec : Nat) : Nat → List (Nat × List Nat)
  | 0 => []
  | count + 1 => (sec, src.take 512) :: sectors_of_call (src.drop 512) ((sec + 1) % 2 ^ 32) count

/-- The sectors a sequence of calls passes to the capture, in order. -/
def sectors_of_calls (calls : List SaveCall) : List (Nat × List Nat) :=
  (calls.map (fun c => sectors_of_call c.src c.sec c.count)).flatten

/-- The data of the first capture of sector `n` in a sequence of captured
sectors. -/
def first_capture (caps : List (Nat × List Nat)) (n : Nat) : Option (List Nat) :=
  (caps.find? (fun c => c.1 = n)).map Prod.snd

/-- The captured sectors without the later captures of a sector number that
was captured before, in the order of capture. -/
def first_captures : List (Nat × List Nat) → List (Nat × List Nat)
  | [] => []
  | c :: caps => c :: (first_captures caps).filter (fun x => x.1 ≠ c.1)

/-- The sector numbers of a sequence of captured sectors, each once, in the
order of first capture. -/
def distinct_sectors (caps : List (Nat × List Nat)) : List Nat :=
  (first_captures caps).map Prod.fst

/-- A sample capture: sector 4096 (all zero), sectors 16 and 17 in one call, and
sector 4096 once more with other data. -/
def sample_calls : List SaveCall :=
  [{ src := List.replicate 512 0, sec := 4096, count := 1 },
   { src := List.replicate 512 7 ++ List.replicate 512 8, sec := 16, count := 2 },
   { src := List.replicate 512 9, sec := 4096, count := 1 }]

/-- A sample snapshot file in the layout `save_close` writes: the sectors 4096,
16 and 17, filled with the bytes 0, 7 and 8. -/
def sample_file : List Nat :=
  snapshot_header 3 2048
    ++ ((scramble (List.replicate 512 0)
          ++ (scramble (List.replicate 512 7) ++ scramble (List.replicate 512 8)))
        ++ (ulong_to_bytes 4096 ++ (ulong_to_bytes 16 ++ ulong_to_bytes 17)))

/-- The snapshot data `diskio_open` sets up for the sample file. -/
def sample_snapshot : diskio_snapshot :=
  snapshot_init sample_file 3 1 [4096, 16, 17]

/-- The capture of one all-zero sector numbered 4096. -/
def one_sector_call : List SaveCall :=
  [{ src := List.replicate 512 0, sec := 4096, count := 1 }]

/-- Specification side of `save_one_sec`: the captures kept so far, extended by
the capture `c` unless its sector number is among them. -/
def keep_step (kept : List (Nat × List Nat)) (c : Nat × List Nat) : List (Nat × List Nat) :=
  if c.1 ∈ kept.map Prod.fst then kept else kept ++ [c]

/-- The relation between the globals of the capture writer in snapshot mode and
the list `kept` of captures stored so far: the counter, the used part of the
map, the allocation and the save file written so far. -/
def SaveInv (s : SaveState) (kept : List (Nat × List Nat)) : Prop :=
  s.type = save_type.SAVE_SNAPSHOT
    ∧ s.save_sector_count = kept.length
    ∧ s.save_sector_map.take kept.length = kept.map Prod.fst
    ∧ s.save_sector_alloc = s.save_sector_map.length
    ∧ kept.length ≤ s.save_sector_alloc
    ∧ s.save_file.data
        = List.replicate 512 0 ++ (kept.map (fun c => scramble c.2)).flatten
    ∧ s.save_file.pos = s.save_file.data.length

/-! ## do_hpfs.c: checksum -/

/-- The loop of `chksum`: `while (size != 0) { sum += *p++; sum = (sum << 7) |
(sum >> 25); --size; }`, the pointer being the index `i` into the buffer. -/
def chksum_loop (p : List Nat) : Nat → Nat → Nat → Nat
  | 0, _, sum => sum
  | size + 1, i, sum =>
    let sum1 := (sum + p.getD i 0) % 2 ^ 32
    let sum2 := ((sum1 <<< 7) % 2 ^ 32) ||| (sum1 >>> 25)
    chksum_loop p size (i + 1) sum2

/-- The function `chksum (p, size)` of do_hpfs.c. -/
def chksum (p : List Nat) (size : Nat) : Nat :=
  chksum_loop p size 0 0

/-- Specification side of `chksum`: rotation to the left by `r` bits of a 32-bit
word. -/
def rotate_left_32 (x r : Nat) : Nat :=
  (x * 2 ^ r) % 2 ^ 32 + x / 2 ^ (32 - r)

/-- Specification side of `chksum`: the left fold
`acc -> rotate_left_32 ((acc + b) mod 2^32, 7)` over the bytes, from `acc`. -/
def rotating_sum (acc : Nat) (bytes : List Nat) : Nat :=
  bytes.foldl (fun acc b => rotate_left_32 ((acc + b) % 2 ^ 32) 7) acc

/-! ## do_fat.c: messages, geometry -/

/-- Usage class `USE_EMPTY` of do_fat.c. -/
def USE_EMPTY : Nat := 0

/-- Usage class `USE_FILE` of do_fat.c. -/
def USE_FILE : Nat := 1

/-- Usage class `USE_DIR` of do_fat.c. -/
def USE_DIR : Nat := 2

/-- The macro `DIVIDE_UP (x, y)` of fst.h, `((x)+(y)-1) / (y)`, on `ULONG`
operands: the sum is a 32-bit value. -/
def DIVIDE_UP (x y : Nat) : Nat :=
  ((x + y + (2 ^ 32 - 1)) % 2 ^ 32) / y

/-- The messages of the warnings of do_fat.c that the embedding covers, with
their arguments. -/
inductive fat_msg where
  | incorrect_fat_size (sectors sectors_per_fat : Nat)
  | too_many_clusters_on_disk
  | references_unused_cluster
  | references_bad_cluster
  | invalid_cluster_number (cluster : Nat)
  | cycle_after (count : Nat)
  | usage_conflict (cluster old what : Nat)
  | not_enough_clusters
  | too_many_clusters
  | unused_but_allocated (start count : Nat)
  | lost_clusters (count : Nat)
  | unused_entry_after_vfat_name
  | invalid_vfat_name
  | no_real_entry_after_vfat_name
  | vfat_name_not_null_terminated
  | incorrect_vfat_name_index
  | incorrect_vfat_checksum
  | vfat_name_too_long
  | incomplete_vfat_name
  | checksum_mismatch (stored computed : Nat)
  | must_not_have_vfat_name
  | invalid_ea_index (ea_index : Nat)
  | ea_index_unused_slot (ea_index : Nat)
  | invalid_relative_ea_cluster (rel_cluster : Nat)
deriving DecidableEq

/-- One call `warning (level, ...)` of do_fat.c: severity and message. -/
structure fat_warning where
  level : Nat
  msg : fat_msg
deriving DecidableEq

/-- The fatal errors of `do_fat`, each an exit through `error ()`. -/
inductive fat_fatal where
  | sector_size_not_supported
  | cluster_size_is_zero
  | number_of_fats_is_zero
  | reserved_exceeds_total
  | disk_too_small_for_fats_and_root
  | disk_too_small_no_data_clusters
deriving DecidableEq

/-- The fields of the boot sector (`FAT_SECTOR.boot` of fat.h) that `do_fat`
reads, already converted from file-system byte order. -/
structure boot_sector where
  bytes_per_sector : Nat
  sectors_per_cluster : Nat
  reserved_sectors : Nat
  fats : Nat
  root_entries : Nat
  sectors : Nat
  sectors_per_fat : Nat
  large_sectors : Nat
deriving DecidableEq

/-- The field widths of fat.h: `BYTE` for `sectors_per_cluster` and `fats`,
`ULONG` for `large_sectors`, `USHORT` for the others. -/
def boot_sector.wf (b : boot_sector) : Prop :=
  b.bytes_per_sector < 2 ^ 16 ∧ b.sectors_per_cluster < 2 ^ 8 ∧ b.reserved_sectors < 2 ^ 16
    ∧ b.fats < 2 ^ 8 ∧ b.root_entries < 2 ^ 16 ∧ b.sectors < 2 ^ 16
    ∧ b.sectors_per_fat < 2 ^ 16 ∧ b.large_sectors < 2 ^ 32

instance (b : boot_sector) : Decidable b.wf := by
  unfold boot_sector.wf
  exact inferInstance

/-- The static variables of do_fat.c that `do_fat` computes from the boot
sector. -/
structure fat_geometry where
  first_sector : Nat
  total_sectors : Nat
  total_clusters : Nat
  sectors_per_cluster : Nat
  bytes_per_cluster : Nat
  sectors_per_fat : Nat
  number_of_fats : Nat
  root_entries : Nat
  root_sectors : Nat
  data_sector : Nat
deriving DecidableEq

/-- The first part of `do_fat (d, pboot)`, up to the assignment of
`data_sector`: the geometry and the warnings, or the fatal error. -/
def do_fat_geometry (b : boot_sector) : Except fat_fatal (fat_geometry × List fat_warning) :=
  if b.bytes_per_sector ≠ 512 then .error fat_fatal.sector_size_not_supported
  else if b.sectors_per_cluster = 0 then .error fat_fatal.cluster_size_is_zero
  else if b.fats = 0 then .error fat_fatal.number_of_fats_is_zero
  else
    let first_sector := b.reserved_sectors
    let sectors_per_cluster := b.sectors_per_cluster
    let bytes_per_cluster := (sectors_per_cluster * 512) % 2 ^ 32
    let sectors_per_fat := b.sectors_per_fat
    let number_of_fats := b.fats
    let total_sectors := if b.sectors ≠ 0 then b.sectors else b.large_sectors
    if total_sectors < b.reserved_sectors then .error fat_fatal.reserved_exceeds_total
    else
      let total_sectors1 := total_sectors - b.reserved_sectors
      let root_entries := b.root_entries
      let root_sectors := DIVIDE_UP root_entries (512 / 32)
      if total_sectors1 < (number_of_fats * sectors_per_fat % 2 ^ 32 + root_sectors) % 2 ^ 32 then
        .error fat_fatal.disk_too_small_for_fats_and_root
      else
        let total_clusters :=
          ((total_sectors1 + 2 ^ 32 - number_of_fats * sectors_per_fat % 2 ^ 32 + 2 ^ 32
              - root_sectors) % 2 ^ 32) / sectors_per_cluster
        let total_clusters1 := (total_clusters + 2) % 2 ^ 32
        if total_clusters1 < 2 then .error fat_fatal.disk_too_small_no_data_clusters
        else
          let log := if total_clusters1 > 0xffff then
            [{ level := 0, msg := fat_msg.too_many_clusters_on_disk : fat_warning }] else []
          let data_sector :=
            ((first_sector + number_of_fats * sectors_per_fat % 2 ^ 32) % 2 ^ 32 + root_sectors)
              % 2 ^ 32
          .ok ({ first_sector := first_sector, total_sectors := total_sectors1
                 total_clusters := total_clusters1
                 sectors_per_cluster := sectors_per_cluster
                 bytes_per_cluster := bytes_per_cluster
                 sectors_per_fat := sectors_per_fat, number_of_fats := number_of_fats
                 root_entries := root_entries, root_sectors := root_sectors
                 data_sector := data_sector }, log)

/-- A sample boot sector: a 1.44 MB diskette. -/
def sample_boot : boot_sector :=
  { bytes_per_sector := 512, sectors_per_cluster := 1, reserved_sectors := 1, fats := 2
    root_entries := 224, sectors := 2880, sectors_per_fat := 9, large_sectors := 0 }

/-! ### Specification side of the geometry -/

/-- The total sector count of the specification: `sectors`, or `large_sectors`
when `sectors` is 0. -/
def spec_total_sectors (b : boot_sector) : Nat :=
  if b.sectors = 0 then b.large_sectors else b.sectors

/-- The size of all FAT copies in sectors. -/
def spec_fat_sectors (b : boot_sector) : Nat :=
  b.fats * b.sectors_per_fat

/-- The size of the root directory in sectors: 16 entries of 32 bytes fill a
sector of 512 bytes. -/
def spec_root_sectors (b : boot_sector) : Nat :=
  (b.root_entries + 15) / 16


/-! ## do_fat.c: reading the FAT -/

/-- The 16-bit FAT: `read_fat16 (d, secno)`.  `d secno count` is the content
of the `count` sectors that `read_sec (d, buf, secno, count, TRUE)` delivers.
The buffer of `sectors * 512` bytes is an array of `sectors * 256` values of
type `USHORT` in the byte order of the file system, which is little-endian. -/
def read_fat16 (total_clusters sectors_per_fat : Nat) (d : Nat → Nat → List Nat)
    (secno : Nat) : List Nat × List fat_warning :=
  let clusters := total_clusters
  let sectors := DIVIDE_UP ((clusters * 2) % 2 ^ 32) 512
  let log := if sectors ≠ sectors_per_fat then
    [{ level := 1, msg := fat_msg.incorrect_fat_size sectors sectors_per_fat : fat_warning }]
    else []
  let raw := d secno sectors
  ((List.range (sectors * 256)).map
    (fun i => raw.getD (2 * i) 0 + 256 * raw.getD (2 * i + 1) 0), log)

/-- How `read_fat` ends: with the array `fat`, or in a store to `fat[index]`
that does not lie inside the block allocated for `fat`; `fat` is then the
array as it is before that store. -/
inductive fat_read where
  | stored_beyond_block (index : Nat) (fat : List Nat)
  | decoded (fat : List Nat)
deriving DecidableEq

/-- The loop of `read_fat12`: two entries are unpacked from three bytes.
`fat_bytes` is the size of the block of `fat`; the store to `fat[k]` takes the
bytes `2 * k` and `2 * k + 1` of the block and ends the walk when these do not
lie inside it. -/
def read_fat12_loop (raw : List Nat) (clusters fat_bytes : Nat) :
    Nat → Nat → Nat → List Nat → fat_read
  | 0, _, _, fat => fat_read.decoded fat
  | fuel + 1, i, s, fat =>
    if i < clusters then
      let t := raw.getD s 0 ||| (raw.getD (s + 1) 0 <<< 8) ||| (raw.getD (s + 2) 0 <<< 16)
      let c1 := t &&& 0xfff
      let c1 := if c1 ≥ 0xff7 then c1 ||| 0xf000 else c1
      let c2 := (t >>> 12) &&& 0xfff
      let c2 := if c2 ≥ 0xff7 then c2 ||| 0xf000 else c2
      if 2 * i + 2 > fat_bytes then fat_read.stored_beyond_block i fat
      else if 2 * (i + 1) + 2 > fat_bytes then
        fat_read.stored_beyond_block (i + 1) (fat.set i c1)
      else
        read_fat12_loop raw clusters fat_bytes fuel ((i + 2) % 2 ^ 32) ((s + 3) % 2 ^ 32)
          ((fat.set i c1).set (i + 1) c2)
    else fat_read.decoded fat

/-- The 12-bit FAT: `read_fat12 (d, secno)`.  The block of `fat` comes from
`xmalloc (clusters * 2 + 1)` and holds `clusters` entries of type `USHORT` and
one more byte; every entry below `clusters` is stored to before the function
returns, so that the content of the new block does not matter. -/
def read_fat12 (total_clusters sectors_per_fat : Nat) (d : Nat → Nat → List Nat)
    (secno : Nat) : fat_read × List fat_warning :=
  let clusters := total_clusters
  let sectors := DIVIDE_UP ((clusters * 3) % 2 ^ 32) (512 * 2)
  let log := if sectors ≠ sectors_per_fat then
    [{ level := 1, msg := fat_msg.incorrect_fat_size sectors sectors_per_fat : fat_warning }]
    else []
  let raw := d secno sectors
  let fat_bytes := ((clusters * 2) % 2 ^ 32 + 1) % 2 ^ 32
  (read_fat12_loop raw clusters fat_bytes clusters 0 0 (List.replicate (fat_bytes / 2) 0), log)

/-- The function `read_fat (d, secno, fatno)`, without the `info` output. -/
def read_fat (total_clusters sectors_per_fat : Nat) (d : Nat → Nat → List Nat)
    (secno : Nat) : fat_read × List fat_warning :=
  if (total_clusters + 2 ^ 32 - 2) % 2 ^ 32 > 4085 then
    (fat_read.decoded (read_fat16 total_clusters sectors_per_fat d secno).1,
      (read_fat16 total_clusters sectors_per_fat d secno).2)
  else
    read_fat12 total_clusters sectors_per_fat d secno

/-! ### Specification side of the two FAT formats -/

/-- The 16-bit little-endian word at byte offset `o`. -/
def word_at (raw : List Nat) (o : Nat) : Nat :=
  raw.getD o 0 + 256 * raw.getD (o + 1) 0

/-- Entry `i` of a 16-bit FAT: the word at byte `2 * i`. -/
def fat16_entry (raw : List Nat) (i : Nat) : Nat :=
  word_at raw (2 * i)

/-- The 12-bit value of entry `i` of a packed FAT: it starts at bit `12 * i`,
which is the low or the high 12 bits of the word at byte `3 * i / 2`. -/
def fat12_packed (raw : List Nat) (i : Nat) : Nat :=
  if i % 2 = 0 then word_at raw (3 * i / 2) % 4096 else word_at raw (3 * i / 2) / 16

/-- Entry `i` of a 12-bit FAT: the values from `0xff7` up (bad cluster, end
of chain) are widened to their 16-bit counterparts. -/
def fat12_entry (raw : List Nat) (i : Nat) : Nat :=
  if fat12_packed raw i ≥ 0xff7 then fat12_packed raw i + 0xf000 else fat12_packed raw i

/-- A sample disk for the FAT readers: byte `k` of every read is
`(7 * k + 3) % 256`. -/
def sample_fat_disk (_secno count : Nat) : List Nat :=
  (List.range (count * 512)).map (fun k => (7 * k + 3) % 256)

/-! ## do_fat.c: comparing the FAT copies -/

/-- The memory image of an array of `USHORT`. -/
def ushorts_to_bytes (l : List Nat) : List Nat :=
  l.flatMap (fun x => [x % 256, x / 256 % 256])

/-- The value `memcmp (a, b, size) != 0` for two arrays of `USHORT`. -/
def memcmp_ne (a b : List Nat) (size : Nat) : Bool :=
  decide ((ushorts_to_bytes a).take size ≠ (ushorts_to_bytes b).take size)

/-- One warning `FATs i and j differ` together with the list
`Differing clusters:` that follows it. -/
structure fat_difference where
  i : Nat
  j : Nat
  clusters : List Nat
deriving DecidableEq

/-- The loop over `k` of `do_fats`: the cluster numbers passed to `list`. -/
def do_fats_k_loop (a b : List Nat) (total_clusters : Nat) : Nat → Nat → List Nat
  | 0, _ => []
  | fuel + 1, k =>
    if k < total_clusters then
      if a.getD k 0 ≠ b.getD k 0 then k :: do_fats_k_loop a b total_clusters fuel (k + 1)
      else do_fats_k_loop a b total_clusters fuel (k + 1)
    else []

/-- The loop over `j` of `do_fats`. -/
def do_fats_j_loop (fats : List (List Nat)) (number_of_fats total_clusters i : Nat) :
    Nat → Nat → List fat_difference
  | 0, _ => []
  | fuel + 1, j =>
    if j < number_of_fats then
      if memcmp_ne (fats.getD i []) (fats.getD j []) ((total_clusters * 2) % 2 ^ 32) then
        { i := i, j := j
          clusters := do_fats_k_loop (fats.getD i []) (fats.getD j []) total_clusters
            total_clusters 0 }
          :: do_fats_j_loop fats number_of_fats total_clusters i fuel (j + 1)
      else do_fats_j_loop fats number_of_fats total_clusters i fuel (j + 1)
    else []

/-- The loop over `i` of `do_fats`. -/
def do_fats_i_loop (fats : List (List Nat)) (number_of_fats total_clusters : Nat) :
    Nat → Nat → List fat_difference
  | 0, _ => []
  | fuel + 1, i =>
    if i < number_of_fats then
      do_fats_j_loop fats number_of_fats total_clusters i number_of_fats (i + 1)
        ++ do_fats_i_loop fats number_of_fats total_clusters fuel (i + 1)
    else []

/-- The loop of `do_fats` that counts the free and the bad clusters. -/
def do_fats_count_loop (fat : List Nat) (total_clusters : Nat) : Nat → Nat → Nat × Nat → Nat × Nat
  | 0, _, fb => fb
  | fuel + 1, i, (free, bad) =>
    if i < total_clusters then
      if fat.getD i 0 = 0 then
        do_fats_count_loop fat total_clusters fuel (i + 1) ((free + 1) % 2 ^ 32, bad)
      else if fat.getD i 0 = 0xfff7 then
        do_fats_count_loop fat total_clusters fuel (i + 1) (free, (bad + 1) % 2 ^ 32)
      else do_fats_count_loop fat total_clusters fuel (i + 1) (free, bad)
    else (free, bad)

/-- What `do_fats` leaves behind and prints. -/
structure do_fats_result where
  fat : List Nat
  differences : List fat_difference
  free : Nat
  bad : Nat
deriving DecidableEq

/-- The part of `do_fats (d)` that follows the reading of the copies: `fats`
are the decoded copies, `number_of_fats` many. -/
def do_fats_compare (fats : List (List Nat)) (total_clusters : Nat) : do_fats_result :=
  let number_of_fats := fats.length
  let differences := do_fats_i_loop fats number_of_fats total_clusters number_of_fats 0
  let fat := fats.getD 0 []
  let fb := do_fats_count_loop fat total_clusters total_clusters 2 (0, 0)
  { fat := fat, differences := differences, free := fb.1, bad := fb.2 }

/-- Three sample FAT copies of six entries: the second differs from the first
in clusters 3 and 5, the third equals the first. -/
def sample_fats : List (List Nat) :=
  [[0xfff8, 0xffff, 3, 4, 0xffff, 0], [0xfff8, 0xffff, 3, 5, 0xffff, 7],
   [0xfff8, 0xffff, 3, 4, 0xffff, 0]]


/-! ## do_fat.c: cluster usage, chains of clusters -/

/-- The function `use_cluster (cluster, what, path)`.  A path name chain is
represented by its address, `none` is the `NULL` pointer; the result `none`
is `abort ()`.  The result holds the return value, the two vectors and the
warnings. -/
def use_cluster (total_clusters : Nat) (usage_vector : List Nat)
    (path_vector : List (Option Nat)) (cluster what : Nat) (path : Option Nat) :
    Option (Bool × List Nat × List (Option Nat) × List fat_warning) :=
  if cluster ≥ total_clusters then none
  else
    let old := usage_vector.getD cluster 0
    if old ≠ USE_EMPTY then
      some (!(path ≠ none && path == path_vector.getD cluster none), usage_vector, path_vector,
        [{ level := 1, msg := fat_msg.usage_conflict cluster old what }])
    else
      some (true, usage_vector.set cluster what, path_vector.set cluster path, [])

/-- The state of `do_file` that the embedding follows: the number of clusters
walked, the two vectors and the warnings so far. -/
structure file_walk where
  count : Nat
  usage_vector : List Nat
  path_vector : List (Option Nat)
  log : List fat_warning
deriving DecidableEq

/-- The loop `while (cluster < 0xfff8)` of `do_file` for a file that is not a
directory and is not the object searched for: the `info` output, `do_dir` and
the copying are left out.  The result `none` is `abort ()` or the end of the
fuel. -/
def do_file_loop (fat : List Nat) (total_clusters : Nat) (path : Option Nat) :
    Nat → Nat → file_walk → Option file_walk
  | 0, _, _ => none
  | fuel + 1, cluster, w =>
    if cluster < 0xfff8 then
      if cluster = 0 then
        some { w with log := w.log ++ [{ level := 1, msg := fat_msg.references_unused_cluster }] }
      else if cluster = 0xfff7 then
        some { w with log := w.log ++ [{ level := 1, msg := fat_msg.references_bad_cluster }] }
      else if cluster < 0xfff8 ∧ (cluster < 2 ∨ cluster ≥ total_clusters) then
        some { w with
          log := w.log ++ [{ level := 1, msg := fat_msg.invalid_cluster_number cluster }] }
      else
        match use_cluster total_clusters w.usage_vector w.path_vector cluster USE_FILE path with
        | none => none
        | some (ok, usage_vector, path_vector, warnings) =>
          if !ok then
            some { count := w.count, usage_vector := usage_vector, path_vector := path_vector
                   log := w.log ++ warnings
                     ++ [{ level := 1, msg := fat_msg.cycle_after w.count }] }
          else
            do_file_loop fat total_clusters path fuel (fat.getD cluster 0)
              { count := (w.count + 1) % 2 ^ 32, usage_vector := usage_vector
                path_vector := path_vector, log := w.log ++ warnings }
    else some w

/-- The size check at the end of `do_file`, under `a_check` for a file that is
not a directory. -/
def do_file_check_size (count bytes_per_cluster file_size : Nat) : List fat_warning :=
  (if (count * bytes_per_cluster) % 2 ^ 32 < file_size then
      [{ level := 1, msg := fat_msg.not_enough_clusters : fat_warning }] else [])
    ++ (if count > DIVIDE_UP file_size bytes_per_cluster then
      [{ level := 1, msg := fat_msg.too_many_clusters : fat_warning }] else [])

/-- The function `do_file` under the action `check` for a file that is not a
directory, is not the object searched for and has no extended attributes
(`ea_index` is 0): the walk along the chain, then the size check. -/
def do_file (fat : List Nat) (total_clusters bytes_per_cluster : Nat)
    (usage_vector : List Nat) (path_vector : List (Option Nat)) (fuel : Nat)
    (start_cluster : Nat) (path : Option Nat) (file_size : Nat) : Option file_walk :=
  let w0 : file_walk :=
    { count := 0, usage_vector := usage_vector, path_vector := path_vector, log := [] }
  let walked := if start_cluster ≠ 0 then
    do_file_loop fat total_clusters path fuel start_cluster w0 else some w0
  match walked with
  | none => none
  | some w =>
    some { w with log := w.log ++ do_file_check_size w.count bytes_per_cluster file_size }

/-! ### Specification side of the walk -/

/-- The cluster reached from `cluster` after `n` links of the FAT. -/
def chain_cluster (fat : List Nat) (cluster : Nat) : Nat → Nat
  | 0 => cluster
  | n + 1 => chain_cluster fat (fat.getD cluster 0) n

/-- The first `n` clusters of the chain from `cluster` are cluster numbers of
the volume that are neither markers nor in use when the walk reaches them. -/
def fresh_chain (fat : List Nat) (total_clusters : Nat) (usage_vector : List Nat) :
    Nat → Nat → Bool
  | _, 0 => true
  | cluster, n + 1 =>
    decide (2 ≤ cluster) && decide (cluster < total_clusters) && decide (cluster < 0xfff7)
      && decide (usage_vector.getD cluster 0 = USE_EMPTY)
      && fresh_chain fat total_clusters (usage_vector.set cluster USE_FILE)
          (fat.getD cluster 0) n

/-- The usage vector after the first `n` clusters of the chain from `cluster`
have been taken for a file. -/
def mark_usage (fat : List Nat) (usage_vector : List Nat) : Nat → Nat → List Nat
  | _, 0 => usage_vector
  | cluster, n + 1 =>
    mark_usage fat (usage_vector.set cluster USE_FILE) (fat.getD cluster 0) n

/-- The path vector after the first `n` clusters of the chain from `cluster`
have been taken for the file `path`. -/
def mark_path (fat : List Nat) (path : Option Nat) (path_vector : List (Option Nat)) :
    Nat → Nat → List (Option Nat)
  | _, 0 => path_vector
  | cluster, n + 1 =>
    mark_path fat path (path_vector.set cluster path) (fat.getD cluster 0) n

/-- A sample FAT of ten entries: the chain 2, 3, 4 ends with an end mark, the
chain 5 reaches a free entry, the chain 6 reaches the mark of a bad cluster,
the chain 7 leaves the volume, and the chain 8, 9 returns to 8. -/
def sample_fat : List Nat :=
  [0xfff8, 0xffff, 3, 4, 0xffff, 0, 0xfff7, 12, 9, 8]

/-! ## do_fat.c: lost clusters -/

/-- The macro `ALLOCATED (x)` together with the test of the usage vector:
the condition under which `check_alloc` counts cluster `i`. -/
def unused_allocated (fat usage_vector : List Nat) (i : Nat) : Bool :=
  decide (usage_vector.getD i 0 = USE_EMPTY)
    && (decide (fat.getD i 0 ≠ 0) && decide (fat.getD i 0 ≠ 0xfff7))

/-- The inner `do ... while` loop of `check_alloc`: the value of `i` behind
the run of lost clusters; `none` is the end of the fuel. -/
def check_alloc_run (fat usage_vector : List Nat) (total_clusters : Nat) :
    Nat → Nat → Option Nat
  | 0, _ => none
  | fuel + 1, i =>
    let i1 := (i + 1) % 2 ^ 32
    if i1 < total_clusters ∧ unused_allocated fat usage_vector i1 then
      check_alloc_run fat usage_vector total_clusters fuel i1
    else some i1

/-- The outer loop of `check_alloc`: the value of `count` and the warnings;
`none` is the end of the fuel. -/
def check_alloc_loop (fat usage_vector : List Nat) (total_clusters : Nat) (check_unused : Bool) :
    Nat → Nat → Nat → List fat_warning → Option (Nat × List fat_warning)
  | 0, _, _, _ => none
  | fuel + 1, i, count, log =>
    if i < total_clusters then
      if unused_allocated fat usage_vector i then
        let start := i
        match check_alloc_run fat usage_vector total_clusters (fuel + 1) i with
        | none => none
        | some i1 =>
          let log1 := if check_unused then
            log ++ [{ level := 0, msg := fat_msg.unused_but_allocated start (i1 - start) }]
            else log
          check_alloc_loop fat usage_vector total_clusters check_unused fuel i1
            ((count + (i1 - start)) % 2 ^ 32) log1
      else
        check_alloc_loop fat usage_vector total_clusters check_unused fuel ((i + 1) % 2 ^ 32)
          count log
    else some (count, log)

/-- The function `check_alloc ()`: the final value of `count` and all the
warnings; `none` is the end of the fuel. -/
def check_alloc (fat usage_vector : List Nat) (total_clusters : Nat) (check_unused : Bool)
    (fuel : Nat) : Option (Nat × List fat_warning) :=
  match check_alloc_loop fat usage_vector total_clusters check_unused fuel 2 0 [] with
  | none => none
  | some (count, log) =>
    if count = 1 then some (count, log ++ [{ level := 0, msg := fat_msg.lost_clusters 1 }])
    else if count > 1 then
      some (count, log ++ [{ level := 0, msg := fat_msg.lost_clusters count }])
    else some (count, log)

/-- The number of lost clusters of the specification: the cluster numbers from
2 below `total_clusters` that no file uses and that the FAT marks neither
free nor bad. -/
def lost_cluster_count (fat usage_vector : List Nat) (total_clusters : Nat) : Nat :=
  ((List.range' 2 (total_clusters - 2)).filter (fun i =>
    decide (usage_vector.getD i 0 = USE_EMPTY ∧ fat.getD i 0 ≠ 0 ∧ fat.getD i 0 ≠ 0xfff7))).length

/-- A sample usage vector for `sample_fat`: the clusters 2, 3, 4 belong to a
file. -/
def sample_usage : List Nat :=
  [0, 0, 1, 1, 1, 0, 0, 0, 0, 0]


/-- The state that `do_file` returns after a walk over the first `m` clusters
of the chain from `start` with the warnings `ws` of the loop: they are
followed by the warnings of the size check. -/
def walk_outcome (fat : List Nat) (bytes_per_cluster : Nat) (usage_vector : List Nat)
    (path_vector : List (Option Nat)) (start : Nat) (path : Option Nat) (file_size m : Nat)
    (ws : List fat_warning) : file_walk :=
  { count := m
    usage_vector := mark_usage fat usage_vector start m
    path_vector := mark_path fat path path_vector start m
    log := ws ++ do_file_check_size m bytes_per_cluster file_size }


/-! ## do_fat.c: extended attributes -/

/-- The macro `CLUSTER_TO_SECTOR (c)`,
`((c) - 2) * sectors_per_cluster + data_sector`, on `ULONG` operands. -/
def CLUSTER_TO_SECTOR (sectors_per_cluster data_sector c : Nat) : Nat :=
  (((c + 2 ^ 32 - 2) % 2 ^ 32 * sectors_per_cluster) % 2 ^ 32 + data_sector) % 2 ^ 32

/-- The static variables of do_fat.c that `do_ea` reads. -/
structure ea_data where
  fat : List Nat
  total_clusters : Nat
  sectors_per_cluster : Nat
  bytes_per_cluster : Nat
  data_sector : Nat
  ea_data_start : Nat
  ea_data_size : Nat
  ea_table1 : List Nat
  ea_table2 : List Nat
  ea_table2_entries : Nat

/-- How the first part of `do_ea` ends: with a warning and `return`, or with
the call `read_sec (d, &ea3, secno, 1, FALSE)` for the cluster found. -/
inductive ea_lookup where
  | warned (w : fat_warning)
  | read (rel_cluster cluster secno : Nat)
deriving DecidableEq

/-- The loop `for (i = 0; i < rel_cluster; ++i)` of `do_ea`, by recursion on
the number of rounds left; `none` is `abort ()`. -/
def do_ea_follow (fat : List Nat) (total_clusters : Nat) : Nat → Nat → Option Nat
  | 0, cluster => some cluster
  | n + 1, cluster =>
    if cluster < 2 ∨ cluster ≥ total_clusters then none
    else do_ea_follow fat total_clusters n (fat.getD cluster 0)

/-- The first part of `do_ea (d, path, ea_index, show)`, up to the reading
of the sector with the extended attributes; `none` is `abort ()`. -/
def do_ea (e : ea_data) (ea_index : Nat) : Option ea_lookup :=
  if (ea_index >>> 7) ≥ 240 ∨ ea_index ≥ e.ea_table2_entries then
    some (.warned { level := 1, msg := fat_msg.invalid_ea_index ea_index })
  else if e.ea_table2.getD ea_index 0 = 0xffff then
    some (.warned { level := 1, msg := fat_msg.ea_index_unused_slot ea_index })
  else
    let rel_cluster := (e.ea_table1.getD (ea_index >>> 7) 0 + e.ea_table2.getD ea_index 0)
      % 2 ^ 32
    if ((rel_cluster + 1) % 2 ^ 32 * e.bytes_per_cluster) % 2 ^ 32 > e.ea_data_size then
      some (.warned { level := 1, msg := fat_msg.invalid_relative_ea_cluster rel_cluster })
    else
      match do_ea_follow e.fat e.total_clusters rel_cluster e.ea_data_start with
      | none => none
      | some cluster =>
        some (.read rel_cluster cluster
          (CLUSTER_TO_SECTOR e.sectors_per_cluster e.data_sector cluster))

/-- The function `rorb1 (b)`: rotate a byte right by one bit. -/
def rorb1 (b : Nat) : Nat :=
  if b &&& 1 ≠ 0 then (b >>> 1) ||| 0x80 else b >>> 1

/-- The `struct vfat` of do_fat.c; `name` has `256 + 1` bytes. -/
structure vfat where
  flag : Bool
  unprintable : Bool
  total : Nat
  index : Nat
  checksum : Nat
  start : Nat
  name : List Nat
deriving DecidableEq

/-- The 13 code units of a VFAT directory entry (`VFAT_DIRENT` of fat.h,
packed): `name1` at byte 1, `name2` at byte 14, `name3` at byte 28.  A
directory entry is the list of its 32 bytes. -/
def vfat_vname (p : List Nat) : List Nat :=
  (List.range 5).map (fun i => p.getD (1 + 2 * i) 0 + 256 * p.getD (1 + 2 * i + 1) 0)
    ++ (List.range 6).map (fun i => p.getD (14 + 2 * i) 0 + 256 * p.getD (14 + 2 * i + 1) 0)
    ++ (List.range 2).map (fun i => p.getD (28 + 2 * i) 0 + 256 * p.getD (28 + 2 * i + 1) 0)

/-- The loop `while (n > 0 && vname[n-1] == 0xffff) --n;` of `do_dirent`. -/
def vfat_length (vname : List Nat) : Nat → Nat
  | 0 => 0
  | n + 1 => if vname.getD n 0 = 0xffff then vfat_length vname n else n + 1

/-- The loop `for (i = n-1; i >= 0; --i)` of `do_dirent` that stores the code
units in front of the name collected so far; the first argument is `i + 1`. -/
def vfat_copy (vname : List Nat) : Nat → vfat → vfat
  | 0, pv => pv
  | i + 1, pv =>
    let unprintable :=
      if vname.getD i 0 < 0x20 ∨ vname.getD i 0 > 0xff then true else pv.unprintable
    vfat_copy vname i
      { pv with unprintable := unprintable, start := pv.start - 1
                name := pv.name.set (pv.start - 1) (vname.getD i 0 % 256) }

/-- The statements of the VFAT branch of `do_dirent` from the test of the
index on: `n` is the number of code units to store, `log` the warnings so
far. -/
def do_dirent_vfat_store (p : List Nat) (pv : vfat) (n : Nat) (log : List fat_warning) :
    vfat × List fat_warning :=
  if p.getD 0 0 &&& 0x3f ≠ pv.index ∨ pv.index = 0 then
    ({ pv with flag := false },
      log ++ [{ level := 1, msg := fat_msg.incorrect_vfat_name_index }])
  else
    let log1 := if p.getD 13 0 ≠ pv.checksum then
      log ++ [{ level := 1, msg := fat_msg.incorrect_vfat_checksum }] else log
    let pv1 := { pv with index := pv.index - 1 }
    if pv1.start < n then
      ({ pv1 with flag := false }, log1 ++ [{ level := 1, msg := fat_msg.vfat_name_too_long }])
    else (vfat_copy (vfat_vname p) n pv1, log1)

/-- The branch `if (p->attr == 0x0f)` of `do_dirent`, without the `info`
output: the new state of `*pv` and the warnings. -/
def do_dirent_vfat (p : List Nat) (pv : vfat) : vfat × List fat_warning :=
  let vname := vfat_vname p
  let n := vfat_length vname 13
  let flag := p.getD 0 0
  if flag > 0x7f then
    ({ pv with flag := false }, [{ level := 1, msg := fat_msg.invalid_vfat_name }])
  else if flag &&& 0x40 ≠ 0 then
    if pv.flag then
      do_dirent_vfat_store p pv n
        [{ level := 1, msg := fat_msg.no_real_entry_after_vfat_name }]
    else if n = 0 ∨ vname.getD (n - 1) 0 ≠ 0 then
      (pv, [{ level := 1, msg := fat_msg.vfat_name_not_null_terminated }])
    else
      do_dirent_vfat_store p
        { flag := true, unprintable := false, total := flag &&& 0x3f, index := flag &&& 0x3f
          checksum := p.getD 13 0, start := 256, name := pv.name.set 256 0 } (n - 1) []
  else do_dirent_vfat_store p pv n []

/-- The loop of `do_dirent` that computes the checksum of the short name. -/
def dirent_checksum_loop (p : List Nat) : Nat → Nat → Nat → Nat
  | 0, _, cs => cs
  | fuel + 1, i, cs => dirent_checksum_loop p fuel (i + 1) ((rorb1 cs + p.getD i 0) % 256)

/-- The function `do_dirent` as far as it reads or writes `*pv`: the unused
entry, the VFAT entry, and for an entry with a short name the tests of the
long name that precedes it; the other tests of such an entry, the `find`
action and the call of `do_file` are left out.  Every return from an entry with a short name leaves
`pv->flag` at `FALSE`. -/
def do_dirent (p : List Nat) (pv : vfat) : vfat × List fat_warning :=
  if p.getD 0 0 = 0xe5 then
    if pv.flag then
      ({ pv with flag := false }, [{ level := 1, msg := fat_msg.unused_entry_after_vfat_name }])
    else (pv, [])
  else if p.getD 11 0 = 0x0f then do_dirent_vfat p pv
  else
    let r : vfat × List fat_warning :=
      if pv.flag then
        let r1 : vfat × List fat_warning :=
          if pv.index ≠ 0 then
            ({ pv with flag := false }, [{ level := 1, msg := fat_msg.incomplete_vfat_name }])
          else (pv, [])
        let cs := dirent_checksum_loop p 11 0 0
        if cs ≠ pv.checksum then
          (r1.1, r1.2 ++ [{ level := 1, msg := fat_msg.checksum_mismatch pv.checksum cs }])
        else r1
      else (pv, [])
    if p.getD 0 0 = 0x2e ∧ r.1.flag then
      ({ r.1 with flag := false }, r.2 ++ [{ level := 1, msg := fat_msg.must_not_have_vfat_name }])
    else ({ r.1 with flag := false }, r.2)

/-- The loop of `do_dir` over the entries of a directory, which ends at the
first entry whose name starts with a zero byte: the calls of `do_dirent`. -/
def do_dir_scan : List (List Nat) → vfat → vfat × List fat_warning
  | [], pv => (pv, [])
  | p :: ps, pv =>
    if p.getD 0 0 = 0 then (pv, [])
    else
      let r := do_dirent p pv
      let r1 := do_dir_scan ps r.1
      (r1.1, r.2 ++ r1.2)

/-! ### Specification side of the long names -/

/-- The string that a C pointer to the bytes `l` denotes: the bytes in front
of the first zero byte. -/
def c_string (l : List Nat) : List Nat :=
  l.takeWhile (fun b => b != 0)

/-- The name slice of a VFAT entry: its 13 code units without the trailing
padding units `0xffff`. -/
def vfat_slice (p : List Nat) : List Nat :=
  (vfat_vname p).rdropWhile (fun u => u == 0xffff)

/-- The long name of a sequence of VFAT entries: the slices of 13 code units
in reversed order of the entries, up to the first zero. -/
def vfat_long_name (ps : List (List Nat)) : List Nat :=
  c_string (ps.reverse.flatMap vfat_vname)

/-- A VFAT directory entry with the given flag byte, checksum and 13 code
units below `2^16`. -/
def vfat_entry (flag checksum : Nat) (units : List Nat) : List Nat :=
  let u := fun i => units.getD i 0xffff
  [flag] ++ (List.range 5).flatMap (fun i => [u i % 256, u i / 256])
    ++ [0x0f, 0, checksum]
    ++ (List.range 6).flatMap (fun i => [u (5 + i) % 256, u (5 + i) / 256])
    ++ [0, 0]
    ++ (List.range 2).flatMap (fun i => [u (11 + i) % 256, u (11 + i) / 256])

/-- A state of `struct vfat` in which only `flag` is set, to `FALSE`, as in
`do_file` and `do_root_dir`.  The code leaves the other members
indeterminate; the zeros here are one content of them, used in the sample
evaluations.  What is shown for the samples holds for every content of these
members (`vfat_reassembly`, `vfat_orphan_unreported_any_state`). -/
def vfat_idle : vfat :=
  { flag := false, unprintable := false, total := 0, index := 0, checksum := 0, start := 0
    name := List.replicate 257 0 }

/-- The entry with the short name `LONGFI~1TXT`, an ordinary file. -/
def sample_short_entry : List Nat :=
  [0x4c, 0x4f, 0x4e, 0x47, 0x46, 0x49, 0x7e, 0x31, 0x54, 0x58, 0x54, 0x20]
    ++ List.replicate 20 0

/-- The first entry of a sample sequence of three VFAT entries: index 3 with
the bit `0x40`, the units `a`, `b`, the terminating zero and the padding. -/
def sample_fragment_head : List Nat :=
  vfat_entry 0x43 0xd4 [0x61, 0x62, 0]

/-- The entries with the indexes 2 and 1 of the sample sequence: the units
`N` to `Z` and `A` to `M`. -/
def sample_fragment_tail : List (List Nat) :=
  [vfat_entry 0x02 0xd4 (List.range' 0x4e 13), vfat_entry 0x01 0xd4 (List.range' 0x41 13)]


/-- The directory entry `.` of a subdirectory; its name has the checksum
`0x77`. -/
def sample_dot_entry : List Nat :=
  [0x2e] ++ List.replicate 10 0x20 ++ [0x10] ++ List.replicate 20 0

namespace Hpfs

/-! ## do_hpfs.c: messages -/

/-- More messages of the warnings of do_hpfs.c: those of `do_dirblk`,
`do_fnode`, `check_dirent`, `do_auxinfo`, `do_auxinfo_ea` and
`do_one_cpinfosec`, with the arguments that are printed. -/
inductive more_msg where
  | dirblk_not_a_multiple_of_4
  | dirblk_bad_signature
  | fnode_bad_signature
  | dirent_extends_beyond_end_of_dirblk
  | dirent_length_too_small_case_1
  | dirent_length_too_small_case_2
  | dirent_length_is_not_a_multiple_of_4
  | truncated_fea_structure
  | ea_name_not_terminated
  | incorrect_size_of_fea_structure
  | invalid_fea_flag (flag : Nat)
  | not_enough_sectors_allocated_for_ea
  | too_many_sectors_allocated_for_ea (excess : Nat)
  | incorrect_ea_size (size ea_size : Nat)
  | incorrect_number_of_need_eas (count ea_need : Nat)
  | cpinfosec_bad_signature
  | cpinfosec_wrong_code_page_index
  | cpinfosec_too_many_code_pages
  | cpinfosec_incorrect_index
  | wrong_number_of_code_pages
  | both_internal_and_external
  | not_enough_sectors_allocated_for_auxinfo
  | too_many_sectors_allocated_for_auxinfo (excess : Nat)
deriving DecidableEq

/-- The messages of the warnings of do_hpfs.c that the embedding covers, with
their arguments. -/
inductive hpfs_msg where
  | sector_already_used (secno : Nat)
  | sector_number_too_big (secno what : Nat)
  | usage_conflict (secno old what : Nat)
  | used_but_not_marked_allocated (secno what : Nat)
  | there_are_used_sectors_not_allocated
  | used_range_not_allocated (what start count : Nat)
  | unused_but_marked_allocated (start count : Nat)
  | lost_sectors (count : Nat)
  | incorrect_checksum_for_super_block
  | incorrect_checksum_for_spare_block
  | more_than_one_dotdot_entry
  | dotdot_entry_is_not_the_first_entry
  | missing_dotdot_entry
  | code_page_index_too_big
  | file_names_not_in_ascending_order (previous current : List Nat)
  | abf_fnp_bit_is_wrong (bit : Nat)
  | wrong_number_of_alnodes
  | wrong_number_of_alleafs
  | offset_to_free_entry_is_wrong
  | wrong_file_sector_in_alnode (found expected : Nat)
  | unbalanced_allocation_tree
  | wrong_file_sector (found expected : Nat)
  | contiguous_runs_of_disk_sectors
  | too_fragmented_for_multimedia
  | run_not_aligned_for_multimedia
  | alsec_bad_signature
  | alsec_incorrect_self_pointer
  | alsec_incorrect_parent_pointer
  | not_enough_sectors_allocated
  | too_many_sectors_allocated (excess : Nat)
  | more (m : more_msg)
deriving DecidableEq

/-- One call of `warning (level, ...)` or of one of its variants in
do_hpfs.c: severity and message. -/
structure hpfs_warning where
  level : Nat
  msg : hpfs_msg
deriving DecidableEq

/-! ## do_hpfs.c: sectors seen and sectors used -/

/-- The loop of `have_seen (secno, count, what, msg)`, by recursion on the
number `count - i` of rounds left. -/
def have_seen_loop (total_sectors what : Nat) :
    Nat → Nat → List Nat → Bool → List hpfs_warning → Bool × List Nat × List hpfs_warning
  | 0, _, seen_vector, seen, log => (seen, seen_vector, log)
  | n + 1, secno, seen_vector, seen, log =>
    if secno < total_sectors then
      if seen_vector.getD secno 0 &&& what ≠ 0 then
        have_seen_loop total_sectors what n ((secno + 1) % 2 ^ 32) seen_vector true
          (log ++ [{ level := 1, msg := hpfs_msg.sector_already_used secno }])
      else
        have_seen_loop total_sectors what n ((secno + 1) % 2 ^ 32)
          (seen_vector.set secno (seen_vector.getD secno 0 ||| what)) seen log
    else (seen, seen_vector, log)

/-- The function `have_seen (secno, count, what, msg)`: the return value, the
new `seen_vector` and the warnings. -/
def have_seen (total_sectors : Nat) (seen_vector : List Nat) (secno count what : Nat) :
    Bool × List Nat × List hpfs_warning :=
  have_seen_loop total_sectors what count secno seen_vector false []

/-- Sector type `USE_EMPTY` of do_hpfs.c. -/
def USE_EMPTY : Nat := 0

/-- Sector type `USE_SPAREDIRBLK` of do_hpfs.c. -/
def USE_SPAREDIRBLK : Nat := 6

/-- Sector type `USE_BANDDIRBLK` of do_hpfs.c. -/
def USE_BANDDIRBLK : Nat := 7

/-- Sector type `USE_DIRBLK` of do_hpfs.c. -/
def USE_DIRBLK : Nat := 8

/-- Sector type `USE_CPDATASEC` of do_hpfs.c. -/
def USE_CPDATASEC : Nat := 12

/-- Sector type `USE_FILE` of do_hpfs.c. -/
def USE_FILE : Nat := 17

/-- The macro `ALLOCATED (x)`, `!BITSETP (alloc_vector, (x))`: a set bit of
the bitmap marks a free sector. -/
def ALLOCATED (alloc_vector : List Nat) (x : Nat) : Bool :=
  decide (alloc_vector.getD (x >>> 3) 0 &&& (1 <<< (x &&& 7)) = 0)

/-- The vectors that `use_sectors` updates and the warnings so far;
`path_vector` is `none` for the `NULL` pointer, a path name chain is
represented by its address. -/
structure usage where
  usage_vector : List Nat
  path_vector : Option (List (Option Nat))
  log : List hpfs_warning
deriving DecidableEq

/-- The test of `use_sectors` for a usage conflict between the old type of a
sector and the new one. -/
def usage_conflict (old what : Nat) : Bool :=
  decide (old ≠ USE_EMPTY)
    && !(decide (what = USE_DIRBLK)
          && (decide (old = USE_SPAREDIRBLK) || decide (old = USE_BANDDIRBLK)))
    && !(decide (what = USE_CPDATASEC) && decide (old = USE_CPDATASEC))

/-- The body of the loop of `use_sectors` for the sector `secno`;
`warning_cont` adds no warning of its own. -/
def use_sectors_body (total_sectors : Nat) (alloc_ready : Bool) (alloc_vector : List Nat)
    (what : Nat) (path : Option Nat) (secno : Nat) (u : usage) : usage :=
  if secno ≥ total_sectors then
    { u with log := u.log ++ [{ level := 1, msg := hpfs_msg.sector_number_too_big secno what }] }
  else
    let old := u.usage_vector.getD secno 0
    let u1 : usage :=
      if usage_conflict old what then
        { u with log := u.log ++ [{ level := 1, msg := hpfs_msg.usage_conflict secno old what }] }
      else
        { u with usage_vector := u.usage_vector.set secno what
                 path_vector := u.path_vector.map (fun v => v.set secno path) }
    if alloc_ready ∧ ¬ ALLOCATED alloc_vector secno then
      { u1 with
        log := u1.log
          ++ [{ level := 1, msg := hpfs_msg.used_but_not_marked_allocated secno what }] }
    else u1

/-- The loop `while (count > 0)` of `use_sectors (secno, count, what, path)`,
by recursion on `count`. -/
def use_sectors_loop (total_sectors : Nat) (alloc_ready : Bool) (alloc_vector : List Nat)
    (what : Nat) (path : Option Nat) : Nat → Nat → usage → usage
  | 0, _, u => u
  | count + 1, secno, u =>
    use_sectors_loop total_sectors alloc_ready alloc_vector what path count
      ((secno + 1) % 2 ^ 32)
      (use_sectors_body total_sectors alloc_ready alloc_vector what path secno u)

/-- The function `use_sectors (secno, count, what, path)`. -/
def use_sectors (total_sectors : Nat) (alloc_ready : Bool) (alloc_vector : List Nat)
    (u : usage) (secno count what : Nat) (path : Option Nat) : usage :=
  use_sectors_loop total_sectors alloc_ready alloc_vector what path count secno u

/-- A sample `seen_vector` of eight sectors. -/
def sample_seen : List Nat :=
  [0, 1, 2, 0, 4, 0, 3, 0]

/-- A sample state of eight sectors: sector 2 is a spare DIRBLK, sector 3 is
in the DIRBLK band, sector 5 is an FNODE of the file 7. -/
def sample_usage : usage :=
  { usage_vector := [0, 0, 6, 7, 0, 9, 0, 0]
    path_vector := some [none, none, none, none, none, some 7, none, none]
    log := [] }

end Hpfs

namespace Hpfs

/-! ## do_hpfs.c: used sectors and the allocation bitmap -/

/-- The macro `IN_RANGE (x, s, c)` of fst.h, `(s) <= (x) && (x) < (s) + (c)`,
on `ULONG` operands. -/
def IN_RANGE (x s c : Nat) : Bool :=
  decide (s ≤ x) && decide (x < (s + c) % 2 ^ 32)

/-- The element of `path_vector` for a sector, `NULL` when there is no
vector: `path_vector != NULL ? path_vector[i] : NULL`. -/
def path_of (path_vector : Option (List (Option Nat))) (i : Nat) : Option Nat :=
  match path_vector with
  | none => none
  | some v => v.getD i none

/-- The `do ... while` loop in the first part of `check_alloc`: the value of
`i` behind the run of sectors with the same use and path that are not marked
as allocated; `none` is the end of the fuel. -/
def check_alloc_used_run (total_sectors : Nat) (usage_vector : List Nat)
    (path_vector : Option (List (Option Nat))) (alloc_vector : List Nat)
    (start_what : Nat) (start_path : Option Nat) : Nat → Nat → Option Nat
  | 0, _ => none
  | fuel + 1, i =>
    let i1 := (i + 1) % 2 ^ 32
    if i1 < total_sectors ∧ usage_vector.getD i1 0 ≠ USE_EMPTY ∧ ¬ ALLOCATED alloc_vector i1
        ∧ usage_vector.getD i1 0 = start_what ∧ path_of path_vector i1 = start_path then
      check_alloc_used_run total_sectors usage_vector path_vector alloc_vector start_what
        start_path fuel i1
    else some i1

/-- The first loop of `check_alloc`, over the used sectors that are not
marked as allocated: the warnings; `none` is the end of the fuel. -/
def check_alloc_used (total_sectors : Nat) (usage_vector : List Nat)
    (path_vector : Option (List (Option Nat))) (alloc_vector : List Nat) :
    Nat → Nat → Bool → List hpfs_warning → Option (List hpfs_warning)
  | 0, _, _, _ => none
  | fuel + 1, i, first, log =>
    if i < total_sectors then
      if usage_vector.getD i 0 ≠ USE_EMPTY ∧ ¬ ALLOCATED alloc_vector i then
        let start := i
        let start_what := usage_vector.getD i 0
        let start_path := path_of path_vector i
        match check_alloc_used_run total_sectors usage_vector path_vector alloc_vector
            start_what start_path (fuel + 1) i with
        | none => none
        | some i1 =>
          let log1 := if first then
            log ++ [{ level := 1, msg := hpfs_msg.there_are_used_sectors_not_allocated }]
            else log
          check_alloc_used total_sectors usage_vector path_vector alloc_vector fuel i1 false
            (log1 ++ [{ level := 1
                        msg := hpfs_msg.used_range_not_allocated start_what start
                          (i1 - start) }])
      else
        check_alloc_used total_sectors usage_vector path_vector alloc_vector fuel
          ((i + 1) % 2 ^ 32) first log
    else some log

/-- The `do ... while` loop in the second part of `check_alloc`; `none` is
the end of the fuel. -/
def check_alloc_unused_run (total_sectors : Nat) (usage_vector alloc_vector : List Nat) :
    Nat → Nat → Option Nat
  | 0, _ => none
  | fuel + 1, i =>
    let i1 := (i + 1) % 2 ^ 32
    if i1 < total_sectors ∧ usage_vector.getD i1 0 = USE_EMPTY ∧ ALLOCATED alloc_vector i1 then
      check_alloc_unused_run total_sectors usage_vector alloc_vector fuel i1
    else some i1

/-- The second loop of `check_alloc`, over the unused sectors that are marked
as allocated: `count` and the warnings; `none` is the end of the fuel. -/
def check_alloc_unused (total_sectors : Nat) (usage_vector alloc_vector : List Nat)
    (check_unused : Bool) :
    Nat → Nat → Nat → List hpfs_warning → Option (Nat × List hpfs_warning)
  | 0, _, _, _ => none
  | fuel + 1, i, count, log =>
    if i < total_sectors then
      if usage_vector.getD i 0 = USE_EMPTY ∧ ALLOCATED alloc_vector i then
        let start := i
        match check_alloc_unused_run total_sectors usage_vector alloc_vector (fuel + 1) i with
        | none => none
        | some i1 =>
          let log1 := if check_unused then
            log ++ [{ level := 0, msg := hpfs_msg.unused_but_marked_allocated start (i1 - start) }]
            else log
          let count1 := (count + (i1 - start)) % 2 ^ 32
          let count2 := if IN_RANGE 18 start (i1 - start) then (count1 + (2 ^ 32 - 1)) % 2 ^ 32
            else count1
          let count3 := if IN_RANGE 19 start (i1 - start) then (count2 + (2 ^ 32 - 1)) % 2 ^ 32
            else count2
          check_alloc_unused total_sectors usage_vector alloc_vector check_unused fuel i1
            count3 log1
      else
        check_alloc_unused total_sectors usage_vector alloc_vector check_unused fuel
          ((i + 1) % 2 ^ 32) count log
    else some (count, log)

/-- The function `check_alloc ()` of do_hpfs.c: all its warnings; `none` is
the end of the fuel. -/
def check_alloc (total_sectors : Nat) (usage_vector : List Nat)
    (path_vector : Option (List (Option Nat))) (alloc_vector : List Nat) (check_unused : Bool)
    (fuel : Nat) : Option (List hpfs_warning) :=
  match check_alloc_used total_sectors usage_vector path_vector alloc_vector fuel 0 true [] with
  | none => none
  | some log =>
    match check_alloc_unused total_sectors usage_vector alloc_vector check_unused fuel 0 0
        log with
    | none => none
    | some (count, log1) =>
      if count = 1 then some (log1 ++ [{ level := 0, msg := hpfs_msg.lost_sectors 1 }])
      else if count > 1 then
        some (log1 ++ [{ level := 0, msg := hpfs_msg.lost_sectors count }])
      else some log1

/-- A sample usage vector of 24 sectors: boot sector, loader, Superblock,
Spare block, two sectors of file data, the rest is empty. -/
def sample_usage_vector : List Nat :=
  [20, 21, 21, 21, 21, 21, 21, 21, 21, 21, 21, 21, 21, 21, 21, 21, 1, 2, 0, 0, 17, 17, 0, 0]

/-- A sample bitmap for 24 sectors in which the sectors 21, 22 and 23 are
free. -/
def sample_alloc_vector : List Nat :=
  [0, 0, 0xe0]

end Hpfs

namespace Hpfs

/-! ## do_hpfs.c: checksums of the Superblock and the Spare block -/

/-- Flag `SPF_FASTFMT` of hpfs.h. -/
def SPF_FASTFMT : Nat := 0x20

/-- Flag `SPF_VER` of hpfs.h. -/
def SPF_VER : Nat := 0x80

/-- The value of `spareb_tmp` when `do_hpfs` computes the checksum: in the
packed `SPAREB` of hpfs.h `bFlag` is byte 8 and `aulExtra[1]` are the bytes
44 to 47. -/
def spareb_tmp (spareb : List Nat) : List Nat :=
  ((((spareb.set 8 (spareb.getD 8 0 &&& (SPF_VER ||| SPF_FASTFMT))).set 44 0).set 45 0).set 46
    0).set 47 0

/-- The two checksums that `do_hpfs` computes from the sectors 16 and 17. -/
def do_hpfs_chksums (superb spareb : List Nat) : Nat × Nat :=
  (chksum superb 512, chksum (spareb_tmp spareb) 512)

/-- The two tests of the checksums in `do_hpfs`, under the action `check`:
`aulExtra[0]` are the bytes 40 to 43 of the Spare block. -/
def do_hpfs_check_chksums (superb spareb : List Nat) : List hpfs_warning :=
  let superb_chksum := (do_hpfs_chksums superb spareb).1
  let spareb_chksum := (do_hpfs_chksums superb spareb).2
  (if ulong_from_bytes (spareb.drop 40) ≠ superb_chksum then
      [{ level := 1, msg := hpfs_msg.incorrect_checksum_for_super_block : hpfs_warning }]
    else [])
    ++ (if ulong_from_bytes (spareb.drop 44) ≠ spareb_chksum then
      [{ level := 1, msg := hpfs_msg.incorrect_checksum_for_spare_block : hpfs_warning }]
    else [])

/-! ### Specification side of the Spare block checksum -/

/-- The copy of the Spare block in which the bytes from `lo` up to `hi` are
zero and `bFlag` is reduced to `SPF_VER | SPF_FASTFMT`. -/
def spareb_masked (spareb : List Nat) (lo hi : Nat) : List Nat :=
  (List.range 512).map (fun i =>
    if i = 8 then spareb.getD 8 0 &&& 0xa0
    else if lo ≤ i ∧ i < hi then 0
    else spareb.getD i 0)

/-- A sample Spare block: the signatures, the flag byte `0x21`, the checksum
`0x01020304` of the Superblock in `aulExtra[0]` and the value `0x0a0b0c0d` in
`aulExtra[1]`; all other bytes are zero. -/
def sample_spareb : List Nat :=
  [0x49, 0x18, 0x91, 0xf9, 0xc5, 0x29, 0x52, 0xfa, 0x21] ++ List.replicate 31 0
    ++ [0x04, 0x03, 0x02, 0x01, 0x0d, 0x0c, 0x0b, 0x0a] ++ List.replicate 464 0

end Hpfs

namespace Hpfs

/-! ## do_hpfs.c: directories -/

/-- Flag `DF_SPEC` of hpfs.h. -/
def DF_SPEC : Nat := 0x01

/-- Flag `DF_BTP` of hpfs.h. -/
def DF_BTP : Nat := 0x04

/-- Flag `DF_END` of hpfs.h. -/
def DF_END : Nat := 0x08

/-- The variables that `compare_fname` reads: `code_page_count`, the member
`case_map` of the elements of `code_pages`, and `cur_case_map` of fst.c. -/
structure code_page_data where
  code_page_count : Nat
  code_pages : List (List Nat)
  cur_case_map : List Nat

/-- The loop of `compare_fname`; a string is the list of its bytes, and the
end of the list is read as the terminating zero. -/
def compare_fname_loop (map1 map2 : List Nat) : List Nat → List Nat → Int
  | [], p2 => if p2.headD 0 = 0 then 0 else -1
  | a :: p1, p2 =>
    if a = 0 ∧ p2.headD 0 = 0 then 0
    else if p2.headD 0 = 0 then 1
    else if a = 0 then -1
    else if map1.getD a 0 > map2.getD (p2.headD 0) 0 then 1
    else if map1.getD a 0 < map2.getD (p2.headD 0) 0 then -1
    else compare_fname_loop map1 map2 p1 p2.tail

/-- The function `compare_fname (p1, p2, cpidx1, cpidx2)`. -/
def compare_fname (cp : code_page_data) (p1 p2 : List Nat) (cpidx1 cpidx2 : Nat) : Int :=
  let map1 := if cpidx1 ≥ cp.code_page_count then cp.cur_case_map
    else cp.code_pages.getD cpidx1 []
  let map2 := if cpidx2 ≥ cp.code_page_count then cp.cur_case_map
    else cp.code_pages.getD cpidx2 []
  compare_fname_loop map1 map2 p1 p2

/-- The structure `SORT`: the previous file name and its code page index. -/
structure SORT where
  name : List Nat
  cpindex : Nat
deriving DecidableEq

/-- What `do_dirblk_recurse` reads of a `DIRENT` that `check_dirent` accepts:
the flags, the code page byte, and the name that `check_dirent` stores. -/
structure DIRENT where
  bFlags : Nat
  bCodePage : Nat
  name : List Nat
deriving DecidableEq

/-- The entries of a DIRBLK as the loop of `do_dirblk_recurse` meets them:
`entry p down rest` is the entry `p` that `check_dirent` accepts, `down` is
the DIRBLK that `do_dirblk` reads through its down pointer (used when `DF_BTP`
is set), `rest` are the entries behind `p`.  `stop` ends the loop: `check_dirent`
returns `NULL`; as `down` it also stands for a DIRBLK at which `do_dirblk`
returns before it calls `do_dirblk_recurse`. -/
inductive dirblk where
  | stop : dirblk
  | entry (p : DIRENT) (down : dirblk) (rest : dirblk) : dirblk
deriving DecidableEq

/-- The objects that `do_dirblk_recurse` updates: `*psort`,
`*pglobal_dirent_index`, `*pdotdot`, the warnings, and the names for which
`do_fnode` is called. -/
structure dir_walk where
  sort : SORT
  global_dirent_index : Nat
  dotdot : Bool
  log : List hpfs_warning
  fnodes : List (List Nat)
deriving DecidableEq

/-- The statements of `do_dirblk_recurse` for an entry without `DF_END`, up
to the call of `do_fnode`; `check_pedantic` and `list` are off, the tests
under `a_check` of the times, the name and the attribute bits are left out,
and so are the warnings of `check_dirent_down`. -/
def do_dirent (cp : code_page_data) (p : DIRENT) (w : dir_walk) : dir_walk :=
  let spec := decide (p.bFlags &&& DF_SPEC ≠ 0)
  let pname := if spec then [] else p.name
  let dotdot_log : List hpfs_warning :=
    if spec then
      if w.dotdot then [{ level := 1, msg := hpfs_msg.more_than_one_dotdot_entry }]
      else if w.global_dirent_index ≠ 0 then
        [{ level := 1, msg := hpfs_msg.dotdot_entry_is_not_the_first_entry }]
      else []
    else []
  let cpindex := p.bCodePage &&& 0x7f
  let cp_log : List hpfs_warning :=
    if cpindex ≥ cp.code_page_count then
      [{ level := 1, msg := hpfs_msg.code_page_index_too_big }]
    else []
  let order_log : List hpfs_warning :=
    if compare_fname cp w.sort.name pname w.sort.cpindex cpindex > 0 then
      [{ level := 1, msg := hpfs_msg.file_names_not_in_ascending_order w.sort.name pname }]
    else []
  { sort := { name := c_string pname, cpindex := cpindex }
    global_dirent_index := w.global_dirent_index
    dotdot := if spec then true else w.dotdot
    log := w.log ++ dotdot_log ++ cp_log ++ order_log
    fnodes := if spec then w.fnodes else w.fnodes ++ [p.name] }

/-- The loop of `do_dirblk_recurse` together with the calls of `do_dirblk`
for the down pointers. -/
def do_dirblk_recurse (cp : code_page_data) : dirblk → dir_walk → dir_walk
  | dirblk.stop, w => w
  | dirblk.entry p down rest, w =>
    let w1 := if p.bFlags &&& DF_BTP ≠ 0 then do_dirblk_recurse cp down w else w
    let w2 := if p.bFlags &&& DF_END = 0 then do_dirent cp p w1 else w1
    if p.bFlags &&& DF_END ≠ 0 then w2
    else do_dirblk_recurse cp rest
      { w2 with global_dirent_index := w2.global_dirent_index + 1 }

/-- The part of `do_fnode` for a directory that is not the object of a `find`
action: the walk through the DIRBLKs and the test for the `..` entry. -/
def do_fnode_dir (cp : code_page_data) (root : dirblk) : dir_walk :=
  let w := do_dirblk_recurse cp root
    { sort := { name := [], cpindex := cp.code_page_count }, global_dirent_index := 0
      dotdot := false, log := [], fnodes := [] }
  if !w.dotdot then
    { w with log := w.log ++ [{ level := 1, msg := hpfs_msg.missing_dotdot_entry }] }
  else w

/-! ### Specification side of the directories -/

/-- The entry has the flag `DF_SPEC`. -/
def is_spec (p : DIRENT) : Bool :=
  decide (p.bFlags &&& DF_SPEC ≠ 0)

/-- The name under which an entry is compared with its neighbours, and its
code page index: the `..` entry counts as the empty name. -/
def sort_key (p : DIRENT) : SORT :=
  { name := if is_spec p then [] else p.name, cpindex := p.bCodePage &&& 0x7f }

/-- The number of adjacent pairs (previous, current) of a list of names for
which `compare_fname (previous, current)` is positive. -/
def out_of_order (cp : code_page_data) : List SORT → Nat
  | [] => 0
  | a :: l =>
    match l with
    | [] => 0
    | b :: _ =>
      (if compare_fname cp a.name b.name a.cpindex b.cpindex > 0 then 1 else 0)
        + out_of_order cp l

/-- A leaf DIRBLK: the entries `es`, none with a down pointer, and the end
entry `e`. -/
def leaf_dirblk (es : List DIRENT) (e : DIRENT) : dirblk :=
  match es with
  | [] => dirblk.entry e dirblk.stop dirblk.stop
  | p :: ps => dirblk.entry p dirblk.stop (leaf_dirblk ps e)

/-- The entries without `DF_END` of a DIRBLK tree in the order of the walk:
the entries below a down pointer come before the entry that holds it. -/
def inorder : dirblk → List DIRENT
  | dirblk.stop => []
  | dirblk.entry p down rest =>
    (if p.bFlags &&& DF_BTP ≠ 0 then inorder down else [])
      ++ (if p.bFlags &&& DF_END ≠ 0 then [] else p :: inorder rest)

/-- All entries of a DIRBLK tree that the walk meets, those with `DF_END`
included. -/
def all_entries : dirblk → List DIRENT
  | dirblk.stop => []
  | dirblk.entry p down rest =>
    (if p.bFlags &&& DF_BTP ≠ 0 then all_entries down else [])
      ++ (if p.bFlags &&& DF_END ≠ 0 then [p] else p :: all_entries rest)

/-- The warnings about the `..` entry in a list of warnings. -/
def dotdot_warnings (log : List hpfs_warning) : List hpfs_warning :=
  log.filter (fun w => decide (w.msg = hpfs_msg.missing_dotdot_entry
    ∨ w.msg = hpfs_msg.more_than_one_dotdot_entry
    ∨ w.msg = hpfs_msg.dotdot_entry_is_not_the_first_entry))

/-- The number of entries with `DF_SPEC` in a list of entries that are not the
first entry of the directory, when the list starts at the entry number
`index` and `dotdot` tells whether a `..` entry came before. -/
def dotdot_faults (l : List DIRENT) (index : Nat) (dotdot : Bool) : Nat :=
  if dotdot = true ∨ index ≠ 0 then (l.filter is_spec).length
  else (l.tail.filter is_spec).length

/-- The warnings about the order of the names in a list of warnings. -/
def order_warnings (log : List hpfs_warning) : List hpfs_warning :=
  log.filter (fun w =>
    match w.msg with
    | hpfs_msg.file_names_not_in_ascending_order _ _ => true
    | _ => false)

/-- Sample code page data: one code page; its case map and the current case
map turn the letters `a` to `z` into capitals. -/
def sample_cp : code_page_data :=
  { code_page_count := 1
    code_pages := [(List.range 256).map (fun c => if 0x61 ≤ c ∧ c ≤ 0x7a then c - 0x20 else c)]
    cur_case_map := (List.range 256).map (fun c => if 0x61 ≤ c ∧ c ≤ 0x7a then c - 0x20 else c) }

/-- The `..` entry of a directory. -/
def sample_dotdot : DIRENT :=
  { bFlags := 0x01, bCodePage := 0, name := [0x2e, 0x2e] }

/-- The end entry of a DIRBLK, as `check_dirent` names it. -/
def sample_end : DIRENT :=
  { bFlags := 0x08, bCodePage := 0, name := [0x5b, 0x45, 0x4e, 0x44, 0x5d] }

/-- An entry for a file with the given name in code page 0. -/
def sample_entry (name : List Nat) : DIRENT :=
  { bFlags := 0, bCodePage := 0, name := name }

end Hpfs


namespace Hpfs

/-! ## do_hpfs.c: allocation trees -/

/-- Flag `ABF_NODE` of hpfs.h: ALNODEs are following, not ALLEAFs. -/
def ABF_NODE : Nat := 0x80

/-- Flag `ABF_FNP` of hpfs.h. -/
def ABF_FNP : Nat := 0x20

/-- Signature `ALSEC_SIG1` of hpfs.h. -/
def ALSEC_SIG1 : Nat := 0x37e40aae

/-- The header `ALBLK` of an allocation block (hpfs.h); `cFree` and `cUsed`
are bytes and `oFree` is a 16-bit number, so that no operation of `do_storage`
on them wraps. -/
structure ALBLK where
  bFlag : Nat
  cFree : Nat
  cUsed : Nat
  oFree : Nat
deriving DecidableEq

/-- The structure `ALLEAF` of hpfs.h: a run of `csecRun` sectors at the disk
sector `lsnPhys` for the file sector `lsnLog`. -/
structure ALLEAF where
  lsnLog : Nat
  csecRun : Nat
  lsnPhys : Nat
deriving DecidableEq

/-- The structure `ALNODE` of hpfs.h: the ALSEC in sector `lsnPhys`. -/
structure ALNODE where
  lsnLog : Nat
  lsnPhys : Nat
deriving DecidableEq

mutual
/-- What `do_storage` walks through from an allocation block.  `alloc_tree`
is the block, the header `alb` with the two views `aall` and `aaln` of the
array behind it (`FILESTORAGE` in an FNODE, the tail of an ALSEC).
`alnode_array` is the array `aaln`, each ALNODE with the sector its `lsnPhys`
points to.  `alsec_sector` is that sector as `do_alsec` finds it: `seen` is
the value that `have_seen (secno, 1, SEEN_ALSEC, "ALSEC")` returns for it at
this call, the other fields are what `read_sec` delivers. -/
inductive alloc_tree where
  | mk (alb : ALBLK) (aall : List ALLEAF) (aaln : alnode_array) : alloc_tree
inductive alnode_array where
  | nil : alnode_array
  | cons (node : ALNODE) (sec : alsec_sector) (rest : alnode_array) : alnode_array
inductive alsec_sector where
  | mk (seen : Bool) (sig lsnSelf lsnRent : Nat) (alb : alloc_tree) : alsec_sector
end

/-- The arguments of `do_storage` that are the same in all calls for one
object, and the global variables that it reads. -/
structure storage_args where
  total_sectors : Nat
  what : Nat
  check_pedantic : Bool
  a_check : Bool
  sectors_per_block : Nat
deriving DecidableEq

/-- The objects that `do_storage` and `do_alsec` update: `*pexp_file_sec`,
`*pnext_disk_sec`, `*pextents` and the warnings. -/
structure storage_walk where
  exp_file_sec : Nat
  next_disk_sec : Nat
  extents : Nat
  log : List hpfs_warning
deriving DecidableEq

/-- The number `n` of entries that `do_storage` processes in a block with the
header `alb` and room for `count` entries: `cUsed`, cut down to `count` when
`cFree + cUsed` is not `count`. -/
def used_entries (alb : ALBLK) (count : Nat) : Nat :=
  if alb.cFree + alb.cUsed ≠ count then (if alb.cUsed > count then count else alb.cUsed)
  else alb.cUsed

/-- The warnings of `do_storage` about the header of a block: the test of
`ABF_FNP`, and the tests of the number of entries (`count` is `node_count` or
`leaf_count`) and of the offset to the free entry (`size` is the size of an
entry). -/
def header_warnings (alb : ALBLK) (alsec_level count size : Nat) (wrong_number : hpfs_msg) :
    List hpfs_warning :=
  (if decide (alb.bFlag &&& ABF_FNP = 0) ≠ decide (alsec_level ≠ 1) then
      [{ level := 1, msg := hpfs_msg.abf_fnp_bit_is_wrong
          (if alb.bFlag &&& ABF_FNP ≠ 0 then 1 else 0) }]
    else [])
  ++ (if alb.cFree + alb.cUsed ≠ count then [{ level := 1, msg := wrong_number }] else [])
  ++ (if used_entries alb count * size + 8 ≠ alb.oFree then
      [{ level := 1, msg := hpfs_msg.offset_to_free_entry_is_wrong }]
    else [])

/-- The walk after the warnings `l`. -/
def add_log (w : storage_walk) (l : List hpfs_warning) : storage_walk :=
  { w with log := w.log ++ l }

/-- The test of the file sector of the ALNODE number `i` of `n` in the loop of
`do_storage`, after the call of `do_alsec` for it. -/
def alnode_warnings (node : ALNODE) (i n exp_file_sec : Nat) : List hpfs_warning :=
  if node.lsnLog ≠ (if i + 1 = n then 0xffffffff else exp_file_sec) then
    [{ level := 1, msg := hpfs_msg.wrong_file_sector_in_alnode node.lsnLog
        (if i + 1 = n then 0xffffffff else exp_file_sec) }]
  else []

/-- The tests of `do_alsec` of the pointers of the ALSEC in sector `secno`. -/
def alsec_warnings (lsnSelf lsnRent secno parent_alblk : Nat) : List hpfs_warning :=
  (if lsnSelf ≠ secno then [{ level := 1, msg := hpfs_msg.alsec_incorrect_self_pointer }]
    else [])
  ++ (if lsnRent ≠ parent_alblk then
      [{ level := 1, msg := hpfs_msg.alsec_incorrect_parent_pointer }]
    else [])

/-- The tests of `do_fnode` of the number of sectors of a file of `fn_fsize`
bytes, `file_sec` being the number of sectors found. -/
def size_warnings (file_sec fn_fsize : Nat) : List hpfs_warning :=
  (if (file_sec * 512) % 2 ^ 32 < fn_fsize then
      [{ level := 1, msg := hpfs_msg.not_enough_sectors_allocated }]
    else [])
  ++ (if file_sec > DIVIDE_UP fn_fsize 512 then
      [{ level := 1, msg := hpfs_msg.too_many_sectors_allocated
          (file_sec - DIVIDE_UP fn_fsize 512) }]
    else [])

/-- One round of the loop of `do_storage` over the ALLEAFs; the sectors are
not copied (`copy_size` is 0) and not read (`buf` is `NULL`), and the call of
`use_sectors` is left out. -/
def do_leaf (a : storage_args) (w : storage_walk) (p : ALLEAF) : storage_walk :=
  { exp_file_sec := (w.exp_file_sec + p.csecRun) % 2 ^ 32
    next_disk_sec := (p.lsnPhys + p.csecRun) % 2 ^ 32
    extents := w.extents
    log := w.log
      ++ (if p.lsnLog ≠ w.exp_file_sec then
          [{ level := 1, msg := hpfs_msg.wrong_file_sector p.lsnLog w.exp_file_sec }]
        else [])
      ++ (if a.check_pedantic = true ∧ w.next_disk_sec ≠ 0 ∧ p.lsnPhys = w.next_disk_sec then
          [{ level := 0, msg := hpfs_msg.contiguous_runs_of_disk_sectors }]
        else [])
      ++ (if a.a_check = true ∧ a.sectors_per_block > 1 ∧ a.what = USE_FILE then
          (if p.csecRun < a.sectors_per_block
              ∧ (w.exp_file_sec + p.csecRun) % 2 ^ 32 < a.total_sectors then
            [{ level := 1, msg := hpfs_msg.too_fragmented_for_multimedia }]
          else [])
          ++ (if p.lsnPhys &&& 3 ≠ 0 then
            [{ level := 1, msg := hpfs_msg.run_not_aligned_for_multimedia }]
          else [])
        else []) }

/-- The comparison of the heights in the loop of `do_storage` over the
ALNODEs: the warning and the new `max_height`. -/
def height_step (i height max_height : Nat) : List hpfs_warning × Nat :=
  if i = 0 then ([], height)
  else
    (if height ≠ max_height then
        [{ level := 1, msg := hpfs_msg.unbalanced_allocation_tree }]
      else [],
     if height > max_height then height else max_height)

mutual
/-- The function `do_storage` for a block with room for `leaf_count` leaves in
the sector `secno`: the return value and the updated objects.  The messages
of `info` and the copy to the save file are left out. -/
def do_storage (a : storage_args) :
    alloc_tree → Nat → Nat → Nat → storage_walk → Nat × storage_walk
  | alloc_tree.mk alb aall aaln, secno, leaf_count, alsec_level, w =>
    if alb.bFlag &&& ABF_NODE ≠ 0 then
      do_storage_nodes a aaln secno alsec_level 0
        (used_entries alb (leaf_count + leaf_count / 2)) 0
        (add_log w (header_warnings alb alsec_level (leaf_count + leaf_count / 2) 8
          hpfs_msg.wrong_number_of_alnodes))
    else
      (0, (aall.take (used_entries alb leaf_count)).foldl (do_leaf a)
        { add_log w (header_warnings alb alsec_level leaf_count 12
            hpfs_msg.wrong_number_of_alleafs) with
          extents := (w.extents + used_entries alb leaf_count) % 2 ^ 32 })
/-- The loop of `do_storage` over the ALNODEs, from the round `i` on; `n` is
the number of entries to process. -/
def do_storage_nodes (a : storage_args) :
    alnode_array → Nat → Nat → Nat → Nat → Nat → storage_walk → Nat × storage_walk
  | alnode_array.nil, _, _, _, _, max_height, w => (max_height, w)
  | alnode_array.cons node sec rest, secno, alsec_level, i, n, max_height, w =>
    if i < n then
      let r := do_alsec a sec node.lsnPhys secno alsec_level w
      do_storage_nodes a rest secno alsec_level (i + 1) n (height_step i r.1 max_height).2
        (add_log r.2 (alnode_warnings node i n r.2.exp_file_sec
          ++ (height_step i r.1 max_height).1))
    else (max_height, w)
/-- The function `do_alsec` for the sector `secno`, pointed to from the block
in sector `parent_alblk`; the call of `use_sectors` is left out. -/
def do_alsec (a : storage_args) :
    alsec_sector → Nat → Nat → Nat → storage_walk → Nat × storage_walk
  | alsec_sector.mk seen sig lsnSelf lsnRent alb, secno, parent_alblk, alsec_level, w =>
    if seen then
      (1, add_log w [{ level := 1, msg := hpfs_msg.sector_already_used secno }])
    else if sig ≠ ALSEC_SIG1 then
      (1, add_log w [{ level := 1, msg := hpfs_msg.alsec_bad_signature }])
    else
      let r := do_storage a alb secno 40 (alsec_level + 1)
        (add_log w (alsec_warnings lsnSelf lsnRent secno parent_alblk))
      (r.1 + 1, r.2)
end

/-- The part of `do_fnode` for a file: the walk through the allocation tree
of the FNODE in sector `secno` whose file has `fn_fsize` bytes, and the tests
of the number of sectors. -/
def do_fnode_file (a : storage_args) (secno fn_fsize : Nat) (fst : alloc_tree) :
    Nat × storage_walk :=
  let r := do_storage { a with total_sectors := DIVIDE_UP fn_fsize 512, what := USE_FILE }
    fst secno 8 0 { exp_file_sec := 0, next_disk_sec := 0, extents := 0, log := [] }
  (r.1, add_log r.2 (size_warnings r.2.exp_file_sec fn_fsize))

end Hpfs

namespace Hpfs

/-! ### Specification side of the allocation trees -/

/-- The block is a node block: its entries are ALNODEs. -/
def is_node (alb : ALBLK) : Bool :=
  decide (alb.bFlag &&& ABF_NODE ≠ 0)

/-- The number of ALNODEs of a node block with room for `leaf_count` leaves
that are in use. -/
def used_nodes (alb : ALBLK) (leaf_count : Nat) : Nat :=
  used_entries alb (leaf_count + leaf_count / 2)

mutual
/-- The height of an allocation tree: 0 for a leaf block and for a node block
without entries, else one more than the greatest height of the blocks in the
sectors of its ALNODEs.  `height_nodes` is the greatest height of the first
`k` sectors of an array, `height_sec` the height of a sector. -/
def height : alloc_tree → Nat → Nat
  | alloc_tree.mk alb _ aaln, leaf_count =>
    if is_node alb then height_nodes aaln (used_nodes alb leaf_count) else 0
def height_nodes : alnode_array → Nat → Nat
  | alnode_array.nil, _ => 0
  | alnode_array.cons _ _ _, 0 => 0
  | alnode_array.cons _ sec rest, k + 1 => max (height_sec sec) (height_nodes rest k)
def height_sec : alsec_sector → Nat
  | alsec_sector.mk _ _ _ _ alb => height alb 40 + 1
end

/-- The height of the first sector of an array of ALNODEs. -/
def head_height : alnode_array → Nat
  | alnode_array.nil => 0
  | alnode_array.cons _ sec _ => height_sec sec

mutual
/-- Every ALSEC of the tree is met for the first time and has the signature
of an ALSEC. -/
def all_good : alloc_tree → Nat → Bool
  | alloc_tree.mk alb _ aaln, leaf_count =>
    if is_node alb then all_good_nodes aaln (used_nodes alb leaf_count) else true
def all_good_nodes : alnode_array → Nat → Bool
  | alnode_array.nil, _ => true
  | alnode_array.cons _ _ _, 0 => true
  | alnode_array.cons _ sec rest, k + 1 => all_good_sec sec && all_good_nodes rest k
def all_good_sec : alsec_sector → Bool
  | alsec_sector.mk seen sig _ _ alb => !seen && decide (sig = ALSEC_SIG1) && all_good alb 40
end

mutual
/-- The tree is balanced: in every node block all sub-trees have the same
height.  `uniform_nodes arr k h` says that the first `k` sectors of `arr` are
balanced and have the height `h`. -/
def balanced : alloc_tree → Nat → Bool
  | alloc_tree.mk alb _ aaln, leaf_count =>
    if is_node alb then uniform_nodes aaln (used_nodes alb leaf_count) (head_height aaln)
    else true
def uniform_nodes : alnode_array → Nat → Nat → Bool
  | alnode_array.nil, _, _ => true
  | alnode_array.cons _ _ _, 0, _ => true
  | alnode_array.cons _ sec rest, k + 1, h =>
    decide (height_sec sec = h) && balanced_sec sec && uniform_nodes rest k h
def balanced_sec : alsec_sector → Bool
  | alsec_sector.mk _ _ _ _ alb => balanced alb 40
end

mutual
/-- The depths of the leaf blocks of a tree, the root block being at depth 0. -/
def leaf_depths : alloc_tree → Nat → List Nat
  | alloc_tree.mk alb _ aaln, leaf_count =>
    if is_node alb then leaf_depths_nodes aaln (used_nodes alb leaf_count) else [0]
def leaf_depths_nodes : alnode_array → Nat → List Nat
  | alnode_array.nil, _ => []
  | alnode_array.cons _ _ _, 0 => []
  | alnode_array.cons _ sec rest, k + 1 => leaf_depths_sec sec ++ leaf_depths_nodes rest k
def leaf_depths_sec : alsec_sector → List Nat
  | alsec_sector.mk _ _ _ _ alb => (leaf_depths alb 40).map (fun d => d + 1)
end

/-- The number of entries among the first `k` of an array of ALNODEs. -/
def entries_walked : alnode_array → Nat → Nat
  | alnode_array.nil, _ => 0
  | alnode_array.cons _ _ _, 0 => 0
  | alnode_array.cons _ _ rest, k + 1 => entries_walked rest k + 1

mutual
/-- Every node block of the tree has an entry. -/
def nodes_nonempty : alloc_tree → Nat → Bool
  | alloc_tree.mk alb _ aaln, leaf_count =>
    if is_node alb then
      decide (0 < entries_walked aaln (used_nodes alb leaf_count))
        && nodes_nonempty_nodes aaln (used_nodes alb leaf_count)
    else true
def nodes_nonempty_nodes : alnode_array → Nat → Bool
  | alnode_array.nil, _ => true
  | alnode_array.cons _ _ _, 0 => true
  | alnode_array.cons _ sec rest, k + 1 => nodes_nonempty_sec sec && nodes_nonempty_nodes rest k
def nodes_nonempty_sec : alsec_sector → Bool
  | alsec_sector.mk _ _ _ _ alb => nodes_nonempty alb 40
end

mutual
/-- The headers of the blocks that `do_storage` examines, each with its depth
in the tree below the block at depth `depth`: a sector that was seen before or
has a bad signature is not examined. -/
def blocks : alloc_tree → Nat → Nat → List (Nat × ALBLK)
  | alloc_tree.mk alb _ aaln, leaf_count, depth =>
    (depth, alb) ::
      (if is_node alb then blocks_nodes aaln (used_nodes alb leaf_count) depth else [])
def blocks_nodes : alnode_array → Nat → Nat → List (Nat × ALBLK)
  | alnode_array.nil, _, _ => []
  | alnode_array.cons _ _ _, 0, _ => []
  | alnode_array.cons _ sec rest, k + 1, depth =>
    blocks_sec sec depth ++ blocks_nodes rest k depth
def blocks_sec : alsec_sector → Nat → List (Nat × ALBLK)
  | alsec_sector.mk seen sig _ _ alb, depth =>
    if seen = true ∨ sig ≠ ALSEC_SIG1 then [] else blocks alb 40 (depth + 1)
end

/-- The warnings "Unbalanced allocation tree" in a list of warnings. -/
def unbalanced_warnings (log : List hpfs_warning) : List hpfs_warning :=
  log.filter (fun w => decide (w.msg = hpfs_msg.unbalanced_allocation_tree))

/-- The warnings "ABF_FNP bit is wrong" in a list of warnings. -/
def fnp_warnings (log : List hpfs_warning) : List hpfs_warning :=
  log.filter (fun w =>
    match w.msg with
    | hpfs_msg.abf_fnp_bit_is_wrong _ => true
    | _ => false)

/-- The warnings "Wrong file sector", "Not enough sectors allocated" and
"Too many sectors allocated" in a list of warnings. -/
def extent_warnings (log : List hpfs_warning) : List hpfs_warning :=
  log.filter (fun w =>
    match w.msg with
    | hpfs_msg.wrong_file_sector _ _ => true
    | hpfs_msg.not_enough_sectors_allocated => true
    | hpfs_msg.too_many_sectors_allocated _ => true
    | _ => false)

/-- The arguments of a plain check: no `-p`, no multimedia format. -/
def sample_args : storage_args :=
  { total_sectors := 0, what := USE_FILE, check_pedantic := false, a_check := true
    sectors_per_block := 1 }

/-- A leaf block in an ALSEC with the given leaves. -/
def sample_leaf_sector (secno parent flag : Nat) (leaves : List ALLEAF) : alsec_sector :=
  alsec_sector.mk false ALSEC_SIG1 secno parent
    (alloc_tree.mk { bFlag := flag, cFree := 40 - leaves.length, cUsed := leaves.length
                     oFree := 8 + 12 * leaves.length } leaves alnode_array.nil)

/-- The allocation tree of a file of 5 sectors in the FNODE in sector 100: a
node block with two ALSECs, in the sectors 200 and 201, that hold leaf
blocks. -/
def sample_tree : alloc_tree :=
  alloc_tree.mk { bFlag := 0x80, cFree := 10, cUsed := 2, oFree := 24 } []
    (alnode_array.cons { lsnLog := 3, lsnPhys := 200 }
      (sample_leaf_sector 200 100 0x20 [{ lsnLog := 0, csecRun := 3, lsnPhys := 300 }])
      (alnode_array.cons { lsnLog := 0xffffffff, lsnPhys := 201 }
        (sample_leaf_sector 201 100 0x20 [{ lsnLog := 3, csecRun := 2, lsnPhys := 400 }])
        alnode_array.nil))

/-- The allocation tree of a file of one run of 0x800000 sectors, held in the
FNODE. -/
def sample_big_file : alloc_tree :=
  alloc_tree.mk { bFlag := 0, cFree := 7, cUsed := 1, oFree := 20 }
    [{ lsnLog := 0, csecRun := 0x800000, lsnPhys := 1000 }] alnode_array.nil

end Hpfs


namespace Hpfs

/-- A node block in an ALSEC with one ALNODE. -/
def sample_node_sector (secno parent flag : Nat) (node : ALNODE) (sec : alsec_sector) :
    alsec_sector :=
  alsec_sector.mk false ALSEC_SIG1 secno parent
    (alloc_tree.mk { bFlag := 0x80 ||| flag, cFree := 59, cUsed := 1, oFree := 16 } []
      (alnode_array.cons node sec alnode_array.nil))

/-- An allocation tree whose leaf blocks are at the depths 1 and 2: the second
ALNODE of the FNODE points to a node block in sector 201, which points to a
leaf block in sector 202. -/
def sample_lopsided_tree : alloc_tree :=
  alloc_tree.mk { bFlag := 0x80, cFree := 10, cUsed := 2, oFree := 24 } []
    (alnode_array.cons { lsnLog := 3, lsnPhys := 200 }
      (sample_leaf_sector 200 100 0x20 [{ lsnLog := 0, csecRun := 3, lsnPhys := 300 }])
      (alnode_array.cons { lsnLog := 0xffffffff, lsnPhys := 201 }
        (sample_node_sector 201 100 0x20 { lsnLog := 0xffffffff, lsnPhys := 202 }
          (sample_leaf_sector 202 201 0 [{ lsnLog := 3, csecRun := 2, lsnPhys := 400 }]))
        alnode_array.nil))

/-- The walk before the first call of `do_storage` for an object. -/
def storage_start : storage_walk :=
  { exp_file_sec := 0, next_disk_sec := 0, extents := 0, log := [] }

end Hpfs


namespace Hpfs

/-- The bit `ABF_FNP` of the header of a block does not fit the depth of the
block: it is set in a block that is not at depth 1, that is, not in an ALSEC
that an ALNODE of the FNODE points to, or it is clear in a block at depth 1.
The argument is a pair of `blocks`. -/
def fnp_wrong (x : Nat × ALBLK) : Bool :=
  decide (x.2.bFlag &&& ABF_FNP ≠ 0) != decide (x.1 = 1)

/-- A leaf block in an FNODE that has the bit `ABF_FNP`: one run of one
sector. -/
def sample_fnp_root : alloc_tree :=
  alloc_tree.mk { bFlag := 0x20, cFree := 7, cUsed := 1, oFree := 20 }
    [{ lsnLog := 0, csecRun := 1, lsnPhys := 1000 }] alnode_array.nil

end Hpfs


namespace Hpfs

mutual
/-- The ALLEAFs that `do_storage` goes through in a tree, from left to right:
the entries in use of the leaf blocks; a sector that was seen before or has a
bad signature adds none. -/
def leaves : alloc_tree → Nat → List ALLEAF
  | alloc_tree.mk alb aall aaln, leaf_count =>
    if is_node alb then leaves_nodes aaln (used_nodes alb leaf_count)
    else aall.take (used_entries alb leaf_count)
def leaves_nodes : alnode_array → Nat → List ALLEAF
  | alnode_array.nil, _ => []
  | alnode_array.cons _ _ _, 0 => []
  | alnode_array.cons _ sec rest, k + 1 => leaves_sec sec ++ leaves_nodes rest k
def leaves_sec : alsec_sector → List ALLEAF
  | alsec_sector.mk seen sig _ _ alb =>
    if seen = true ∨ sig ≠ ALSEC_SIG1 then [] else leaves alb 40
end

/-- Every leaf of the list starts at the file sector at which the one before
it ends, the first one at the file sector `start`. -/
def gap_free : Nat → List ALLEAF → Bool
  | _, [] => true
  | start, p :: l => decide (p.lsnLog = start) && gap_free (start + p.csecRun) l

/-- The leaves cover the sectors of a file of `fn_fsize` bytes, from 0 to
the size in sectors rounded up, without a gap and without an overlap. -/
def covers (l : List ALLEAF) (fn_fsize : Nat) : Bool :=
  gap_free 0 l && decide ((l.map (fun p => p.csecRun)).sum = (fn_fsize + 511) / 512)

end Hpfs


namespace Hpfs

/-- The value of `*pexp_file_sec` after the leaves `l`, when it is `start`
before them. -/
def advance (start : Nat) (l : List ALLEAF) : Nat :=
  l.foldl (fun s p => (s + p.csecRun) % 2 ^ 32) start

/-- The number of leaves of `l` whose `lsnLog` is not the value of
`*pexp_file_sec` at the leaf, when that value is `start` before `l`. -/
def mismatches : Nat → List ALLEAF → Nat
  | _, [] => 0
  | start, p :: l =>
    (if p.lsnLog ≠ start then 1 else 0) + mismatches ((start + p.csecRun) % 2 ^ 32) l

end Hpfs


namespace Hpfs

/-- The warnings "Wrong file sector in ALNODE" in a list of warnings. -/
def alnode_sector_warnings (log : List hpfs_warning) : List hpfs_warning :=
  log.filter (fun w =>
    match w.msg with
    | hpfs_msg.wrong_file_sector_in_alnode _ _ => true
    | _ => false)

mutual
/-- For every ALNODE that `do_storage` goes through in a tree, in the order in
which the loop tests them: its `lsnLog`, and the number that belongs at its
place.  For the last entry in use of a block that number is 0xffffffff.  For
another entry it is, with `at_end`, the file sector at which the leaves below
the entry end (as a 32-bit number), and without `at_end` the file sector at
which they start; `start` is the file sector at which the leaves of the tree
start. -/
def alnode_checks (at_end : Bool) : alloc_tree → Nat → Nat → List (Nat × Nat)
  | alloc_tree.mk alb _ aaln, leaf_count, start =>
    if is_node alb then alnode_checks_nodes at_end aaln 0 (used_nodes alb leaf_count) start
    else []
def alnode_checks_nodes (at_end : Bool) : alnode_array → Nat → Nat → Nat → List (Nat × Nat)
  | alnode_array.nil, _, _, _ => []
  | alnode_array.cons node sec rest, i, n, start =>
    if i < n then
      alnode_checks_sec at_end sec start
        ++ (node.lsnLog,
            if i + 1 = n then 0xffffffff
            else if at_end then advance start (leaves_sec sec) else start)
          :: alnode_checks_nodes at_end rest (i + 1) n (advance start (leaves_sec sec))
    else []
def alnode_checks_sec (at_end : Bool) : alsec_sector → Nat → List (Nat × Nat)
  | alsec_sector.mk seen sig _ _ alb, start =>
    if seen = true ∨ sig ≠ ALSEC_SIG1 then [] else alnode_checks at_end alb 40 start
end

/-- The two numbers of a pair of `alnode_checks` differ. -/
def check_fails (c : Nat × Nat) : Bool :=
  decide (c.1 ≠ c.2)

/-- The tree `sample_tree` with the file sector at which the leaves of the
ALSEC start in the first ALNODE: 0 in place of 3. -/
def sample_tree_starts : alloc_tree :=
  alloc_tree.mk { bFlag := 0x80, cFree := 10, cUsed := 2, oFree := 24 } []
    (alnode_array.cons { lsnLog := 0, lsnPhys := 200 }
      (sample_leaf_sector 200 100 0x20 [{ lsnLog := 0, csecRun := 3, lsnPhys := 300 }])
      (alnode_array.cons { lsnLog := 0xffffffff, lsnPhys := 201 }
        (sample_leaf_sector 201 100 0x20 [{ lsnLog := 3, csecRun := 2, lsnPhys := 400 }])
        alnode_array.nil))

end Hpfs


namespace Hpfs

/-- The number of entries for which the array of a block has room: ALNODEs in
a node block, ALLEAFs in a leaf block; `leaf_count` is 8 for the block of an
FNODE and 40 for the block of an ALSEC (`aall [8]`, `aaln [12]`, `aall [40]`,
`aaln [60]` in hpfs.h). -/
def capacity (alb : ALBLK) (leaf_count : Nat) : Nat :=
  if is_node alb then leaf_count + leaf_count / 2 else leaf_count

mutual
/-- The headers of the blocks that `do_storage` examines in a tree, each with
the `leaf_count` that `do_storage` is called with for it. -/
def headers : alloc_tree → Nat → List (Nat × ALBLK)
  | alloc_tree.mk alb _ aaln, leaf_count =>
    (leaf_count, alb) ::
      (if is_node alb then headers_nodes aaln (used_nodes alb leaf_count) else [])
def headers_nodes : alnode_array → Nat → List (Nat × ALBLK)
  | alnode_array.nil, _ => []
  | alnode_array.cons _ _ _, 0 => []
  | alnode_array.cons _ sec rest, k + 1 => headers_sec sec ++ headers_nodes rest k
def headers_sec : alsec_sector → List (Nat × ALBLK)
  | alsec_sector.mk seen sig _ _ alb =>
    if seen = true ∨ sig ≠ ALSEC_SIG1 then [] else headers alb 40
end

/-- In the header of a pair of `headers` the sum `cFree + cUsed` is not the
capacity of the block. -/
def capacity_wrong (x : Nat × ALBLK) : Bool :=
  decide (x.2.cFree + x.2.cUsed ≠ capacity x.2 x.1)

/-- The warnings "Wrong number of ALNODEs" and "Wrong number of ALLEAFs" in a
list of warnings. -/
def capacity_warnings (log : List hpfs_warning) : List hpfs_warning :=
  log.filter (fun w => decide (w.msg = hpfs_msg.wrong_number_of_alnodes
    ∨ w.msg = hpfs_msg.wrong_number_of_alleafs))

/-- A leaf block in an FNODE whose header announces 200 leaves in use. -/
def sample_overfull : alloc_tree :=
  alloc_tree.mk { bFlag := 0, cFree := 0, cUsed := 200, oFree := 104 }
    ((List.range 8).map (fun i => { lsnLog := i, csecRun := 1, lsnPhys := 1000 + i }))
    alnode_array.nil

end Hpfs


namespace Hpfs

/-! ## do_hpfs.c: allocation trees of extended attributes and ACLs -/

/-- Sector type `USE_EA` of do_hpfs.c. -/
def USE_EA : Nat := 19

/-- The macro `ROUND_UP (x, y)` of fst.h, `((x)+(y)-1) & ~((y)-1)`, on `ULONG`
operands, for `y` a power of 2. -/
def ROUND_UP (x y : Nat) : Nat :=
  ((x + y + (2 ^ 32 - 1)) % 2 ^ 32) &&& (2 ^ 32 - y)

/-- One round of the loop of `do_storage` over the ALLEAFs when the sectors
are read to `buf`: `buf_size` is `none` for `buf == NULL`; the result `none` is
`abort ()`. -/
def do_leaf_buf (a : storage_args) (buf_size : Option Nat) (w : storage_walk) (p : ALLEAF) :
    Option storage_walk :=
  match buf_size with
  | none => some (do_leaf a w p)
  | some size =>
    if (((w.exp_file_sec + p.csecRun) % 2 ^ 32) * 512) % 2 ^ 32 > size then none
    else some (do_leaf a w p)

/-- The loop of `do_storage` over the ALLEAFs with the test of `buf_size`. -/
def do_leaves_buf (a : storage_args) (buf_size : Option Nat) :
    List ALLEAF → storage_walk → Option storage_walk
  | [], w => some w
  | p :: l, w =>
    match do_leaf_buf a buf_size w p with
    | none => none
    | some w1 => do_leaves_buf a buf_size l w1

mutual
/-- The function `do_storage` with the arguments `buf` and `buf_size`: as
`do_storage`, but the leaves go through `do_leaf_buf`, and the result `none` is
`abort ()`. -/
def do_storage_buf (a : storage_args) (buf_size : Option Nat) :
    alloc_tree → Nat → Nat → Nat → storage_walk → Option (Nat × storage_walk)
  | alloc_tree.mk alb aall aaln, secno, leaf_count, alsec_level, w =>
    if alb.bFlag &&& ABF_NODE ≠ 0 then
      do_storage_nodes_buf a buf_size aaln secno alsec_level 0
        (used_entries alb (leaf_count + leaf_count / 2)) 0
        (add_log w (header_warnings alb alsec_level (leaf_count + leaf_count / 2) 8
          hpfs_msg.wrong_number_of_alnodes))
    else
      (do_leaves_buf a buf_size (aall.take (used_entries alb leaf_count))
        { add_log w (header_warnings alb alsec_level leaf_count 12
            hpfs_msg.wrong_number_of_alleafs) with
          extents := (w.extents + used_entries alb leaf_count) % 2 ^ 32 }).map
        (fun w1 => (0, w1))
/-- The loop of `do_storage` over the ALNODEs, with `buf` and `buf_size`. -/
def do_storage_nodes_buf (a : storage_args) (buf_size : Option Nat) :
    alnode_array → Nat → Nat → Nat → Nat → Nat → storage_walk → Option (Nat × storage_walk)
  | alnode_array.nil, _, _, _, _, max_height, w => some (max_height, w)
  | alnode_array.cons node sec rest, secno, alsec_level, i, n, max_height, w =>
    if i < n then
      match do_alsec_buf a buf_size sec node.lsnPhys secno alsec_level w with
      | none => none
      | some r =>
        do_storage_nodes_buf a buf_size rest secno alsec_level (i + 1) n
          (height_step i r.1 max_height).2
          (add_log r.2 (alnode_warnings node i n r.2.exp_file_sec
            ++ (height_step i r.1 max_height).1))
    else some (max_height, w)
/-- The function `do_alsec` with the arguments `buf` and `buf_size`. -/
def do_alsec_buf (a : storage_args) (buf_size : Option Nat) :
    alsec_sector → Nat → Nat → Nat → storage_walk → Option (Nat × storage_walk)
  | alsec_sector.mk seen sig lsnSelf lsnRent alb, secno, parent_alblk, alsec_level, w =>
    if seen then
      some (1, add_log w [{ level := 1, msg := hpfs_msg.sector_already_used secno }])
    else if sig ≠ ALSEC_SIG1 then
      some (1, add_log w [{ level := 1, msg := hpfs_msg.alsec_bad_signature }])
    else
      match do_storage_buf a buf_size alb secno 40 (alsec_level + 1)
        (add_log w (alsec_warnings lsnSelf lsnRent secno parent_alblk)) with
      | none => none
      | some r => some (r.1 + 1, r.2)
end

/-- The tests of `do_auxinfo` of the number of sectors that an ALSEC maps for
`run_length` bytes of extended attributes or of an ACL. -/
def auxinfo_size_warnings (file_sec run_length : Nat) : List hpfs_warning :=
  (if (file_sec * 512) % 2 ^ 32 < run_length then
      [{ level := 1,
         msg := hpfs_msg.more more_msg.not_enough_sectors_allocated_for_auxinfo }]
    else [])
  ++ (if file_sec > DIVIDE_UP run_length 512 then
      [{ level := 1, msg := hpfs_msg.more (more_msg.too_many_sectors_allocated_for_auxinfo
          (file_sec - DIVIDE_UP run_length 512)) }]
    else [])

/-- The branch of `do_auxinfo` for data that an ALSEC maps (`pai->sp.cbRun`
is `run_length`, not 0, `pai->sp.lsn` is `start` and `pai->bDat` is set), up to
the call of `do_auxinfo_buf`: `sec` is what `do_alsec` finds in the sector
`start`, `malloc_ok` tells whether `malloc` delivers a buffer, `usFNL` is the
length of the data in the FNODE in sector `secno`.  The result `none` is
`abort ()`. -/
def do_auxinfo_alsec (a : storage_args) (malloc_ok : Bool) (what secno run_length usFNL start : Nat)
    (sec : alsec_sector) : Option storage_walk :=
  let buf_size : Option Nat :=
    if run_length ≤ 0x100000 ∧ malloc_ok = true then some (ROUND_UP run_length 512) else none
  match do_alsec_buf { a with total_sectors := DIVIDE_UP run_length 512, what := what } buf_size
      sec start secno 0
      { exp_file_sec := 0, next_disk_sec := 0, extents := 0
        log := if usFNL ≠ 0 then
            [{ level := 1, msg := hpfs_msg.more more_msg.both_internal_and_external }]
          else [] } with
  | none => none
  | some r => some (add_log r.2 (auxinfo_size_warnings r.2.exp_file_sec run_length))

/-- An ALSEC in sector 500 that maps three sectors for the extended attributes
of the FNODE in sector 100. -/
def sample_ea_sector : alsec_sector :=
  sample_leaf_sector 500 100 0x20 [{ lsnLog := 0, csecRun := 3, lsnPhys := 600 }]

end Hpfs


namespace Hpfs

/-! ## do_hpfs.c: the head of `do_fnode`, `do_dirblk` and `do_alsec` -/

/-- The objects that the heads of `do_fnode`, `do_dirblk` and `do_alsec`
update: `seen_vector`, and the vectors and warnings of `use_sectors`. -/
structure walk_state where
  seen_vector : List Nat
  u : usage
deriving DecidableEq

/-- How the head of `do_fnode`, `do_dirblk` or `do_alsec` ends: with a
`return` because `have_seen` returned `TRUE`, with a `return` after the warning
"Bad signature", or with the sector read by `read_sec` in `data`, with which
the function goes on: it tests the fields of the sector and walks through the
entries or the allocation block in it. -/
inductive sector_head where
  | seen_before
  | bad_signature
  | interpret (data : List Nat)
deriving DecidableEq

/-- The statements that `do_fnode`, `do_dirblk` and `do_alsec` have in common
at their start, for an object of `count` sectors at `secno`:
`if (have_seen (secno, count, seen_bit, ...)) return;`,
`use_sectors (secno, count, what, path);`, for a DIRBLK the test of
`secno & 3`, `read_sec (d, ..., secno, count, TRUE);` and the test of the
signature.  `disk secno count` is what `read_sec` delivers, `none` when it
ends the program through `error ()`; the result `none` is that exit.  The
save file and the `found` case of `do_fnode` are left out. -/
def sector_enter (total_sectors : Nat) (alloc_ready : Bool) (alloc_vector : List Nat)
    (disk : Nat → Nat → Option (List Nat)) (count seen_bit what sig : Nat)
    (dirblk : Bool) (bad_signature : hpfs_msg) (st : walk_state) (secno : Nat)
    (path : Option Nat) : Option (sector_head × walk_state) :=
  let r := have_seen total_sectors st.seen_vector secno count seen_bit
  let u0 : usage := { st.u with log := st.u.log ++ r.2.2 }
  if r.1 then some (sector_head.seen_before, { seen_vector := r.2.1, u := u0 })
  else
    let u1 := use_sectors total_sectors alloc_ready alloc_vector u0 secno count what path
    let u2 : usage :=
      if dirblk = true ∧ secno &&& 3 ≠ 0 then
        { u1 with log := u1.log
            ++ [{ level := 1, msg := hpfs_msg.more more_msg.dirblk_not_a_multiple_of_4 }] }
      else u1
    match disk secno count with
    | none => none
    | some data =>
      if ulong_from_bytes data ≠ sig then
        some (sector_head.bad_signature,
          { seen_vector := r.2.1
            u := { u2 with log := u2.log ++ [{ level := 1, msg := bad_signature }] } })
      else some (sector_head.interpret data, { seen_vector := r.2.1, u := u2 })

/-- The state of the walk over a volume of eight sectors of which none was
seen or used. -/
def sample_walk_state : walk_state :=
  { seen_vector := List.replicate 8 0
    u := { usage_vector := List.replicate 8 0, path_vector := none, log := [] } }

end Hpfs


/-- The vectors after the walk of `do_file` for the file 1 that starts in
cluster 8 of `sample_fat`: the clusters 8 and 9, which form a cycle, belong to
the file 1. -/
def sample_linked_walk : file_walk :=
  { count := 0
    usage_vector := [0, 0, 0, 0, 0, 0, 0, 0, USE_FILE, USE_FILE]
    path_vector := [none, none, none, none, none, none, none, none, some 1, some 1]
    log := [] }

/-- The warnings "usage conflict" of the first `n` clusters of the chain from
`cluster`, none of which is free. -/
def conflict_log (fat usage_vector : List Nat) (cluster n : Nat) : List fat_warning :=
  (List.range n).map (fun i =>
    { level := 1
      msg := fat_msg.usage_conflict (chain_cluster fat cluster i)
        (usage_vector.getD (chain_cluster fat cluster i) 0) USE_FILE })


/-! ## fst.c: the sectors of two snapshot files -/

/-- What `diff_sectors` does: the sector numbers that it lists through
`list ("#%lu", ...)`, and the sector numbers for which it calls `read_sec` (for
both files), each in the order of the calls. -/
structure diff_result where
  listed : List Nat
  read : List Nat
deriving DecidableEq

/-- The variable `cmp` of `diff_sectors` in one round of the loop: `p1` and
`p2` are the rest of the two arrays, `n1` and `n2` their lengths. -/
def diff_cmp (p1 p2 : List Nat) : Int :=
  match p1, p2 with
  | [], _ => 1
  | _ :: _, [] => -1
  | a :: _, b :: _ => if a > b then 1 else if a < b then -1 else 0

/-- The `switch (which)` of `diff_sectors` in one round of the loop; `d1` and
`d2` give the 512 bytes that `read_sec` delivers for a sector of the first and
of the second file. -/
def diff_step (d1 d2 : Nat → List Nat) (which : Nat) (p1 p2 : List Nat) (r : diff_result) :
    diff_result :=
  if which = 0 then
    if diff_cmp p1 p2 = 0 then
      { listed := if d1 (p1.headD 0) ≠ d2 (p1.headD 0) then r.listed ++ [p1.headD 0]
          else r.listed
        read := r.read ++ [p1.headD 0] }
    else r
  else if which = 1 then
    if diff_cmp p1 p2 < 0 then { r with listed := r.listed ++ [p1.headD 0] } else r
  else if which = 2 then
    if diff_cmp p1 p2 > 0 then { r with listed := r.listed ++ [p2.headD 0] } else r
  else r

/-- The loop `while (n1 != 0 || n2 != 0)` of `diff_sectors`; `none` is the end
of the fuel. -/
def diff_sectors_loop (d1 d2 : Nat → List Nat) (which : Nat) :
    Nat → List Nat → List Nat → diff_result → Option diff_result
  | 0, p1, p2, r => if p1.length ≠ 0 ∨ p2.length ≠ 0 then none else some r
  | fuel + 1, p1, p2, r =>
    if p1.length ≠ 0 ∨ p2.length ≠ 0 then
      diff_sectors_loop d1 d2 which fuel
        (if diff_cmp p1 p2 ≤ 0 then p1.tail else p1)
        (if diff_cmp p1 p2 ≥ 0 then p2.tail else p2)
        (diff_step d1 d2 which p1 p2 r)
    else some r

/-- The function `diff_sectors (d1, d2, p1, p2, n1, n2, which)` with fuel for
`n1 + n2` rounds of its loop. -/
def diff_sectors (d1 d2 : Nat → List Nat) (p1 p2 : List Nat) (which : Nat) :
    Option diff_result :=
  diff_sectors_loop d1 d2 which (p1.length + p2.length) p1 p2 { listed := [], read := [] }

/-! ### Specification side of the comparison -/

/-- The numbers of `p` that are not in `q`. -/
def only_in (p q : List Nat) : List Nat :=
  p.filter (fun x => decide (x ∉ q))

/-- The numbers of `p` that are in `q` as well. -/
def in_both (p q : List Nat) : List Nat :=
  p.filter (fun x => decide (x ∈ q))

/-- The contents of the sectors of two sample snapshot files: they differ in
the sector 7. -/
def sample_contents (file : Nat) (secno : Nat) : List Nat :=
  List.replicate 4 (if secno = 7 then file else secno)

/-- What the loop of `diff_sectors` adds to `r` for the two arrays `p1` and
`p2`: for `which` = 0 the numbers in both arrays are read and those with
different contents are listed, for `which` = 1 the numbers only in `p1` are
listed, and for `which` = 2 the numbers only in `p2`. -/
def diff_out (d1 d2 : Nat → List Nat) (which : Nat) (p1 p2 : List Nat) (r : diff_result) :
    diff_result :=
  { listed := r.listed ++
      (if which = 0 then (in_both p1 p2).filter (fun x => decide (d1 x ≠ d2 x))
        else if which = 1 then only_in p1 p2
        else if which = 2 then only_in p2 p1
        else [])
    read := r.read ++ (if which = 0 then in_both p1 p2 else []) }


namespace Hpfs

/-! ## do_hpfs.c: the entries of a DIRBLK -/

/-- The `USHORT` read through `USHORT_FROM_FS` at the offset `pos` of a
buffer. -/
def ushort_at (b : List Nat) (pos : Nat) : Nat :=
  b.getD pos 0 % 256 + 256 * (b.getD (pos + 1) 0 % 256)

/-- The `BYTE` at the offset `pos` of a buffer. -/
def byte_at (b : List Nat) (pos : Nat) : Nat :=
  b.getD pos 0 % 256

/-- The DIRENT to which `check_dirent` returns a pointer: its offset in the
DIRBLK, the fields `cchThisEntry`, `bFlags` and `cchName`, and the name that
`check_dirent` stores to `name`. -/
structure dirent_view where
  pos : Nat
  length : Nat
  bFlags : Nat
  cchName : Nat
  name : List Nat
deriving DecidableEq

/-- The warning of `check_dirent` under `warn`. -/
def dirent_warning (warn : Bool) (m : more_msg) : List hpfs_warning :=
  if warn then [{ level := 1, msg := hpfs_msg.more m }] else []

/-- The function `check_dirent (pdir, pos, name, warn, ...)` for the 2048
bytes `pdir` of a DIRBLK: the DIRENT at the offset `pos`, `none` for `NULL`, and
the warnings.  `pos` is a `size_t` of 32 bits, `sizeof (DIRENT)` is 32 and
`sizeof (DIRENT) + p->cchName - 1` is at most 286,
`bFlags` is at the offset 2 of a DIRENT, `cchName` at the offset 30 and `bName`
at the offset 31.  The warnings of severity 0 about the names of the end
entry and of the `..` entry are left out. -/
def check_dirent (pdir : List Nat) (pos : Nat) (warn : Bool) :
    Option dirent_view × List hpfs_warning :=
  if (pos + 32) % 2 ^ 32 > 2048 then
    (none, dirent_warning warn more_msg.dirent_extends_beyond_end_of_dirblk)
  else
    let length := ushort_at pdir pos
    let bFlags := byte_at pdir (pos + 2)
    let cchName := byte_at pdir (pos + 30)
    if (pos + length) % 2 ^ 32 > 2048 then
      (none, dirent_warning warn more_msg.dirent_extends_beyond_end_of_dirblk)
    else if length < 32 then
      (none, dirent_warning warn more_msg.dirent_length_too_small_case_1)
    else if length < ROUND_UP (32 + cchName - 1) 4
        + (if bFlags &&& DF_BTP ≠ 0 then 4 else 0) then
      (none, dirent_warning warn more_msg.dirent_length_too_small_case_2)
    else if length &&& 3 ≠ 0 then
      (none, dirent_warning warn more_msg.dirent_length_is_not_a_multiple_of_4)
    else
      (some { pos := pos, length := length, bFlags := bFlags, cchName := cchName
              name :=
                if bFlags &&& DF_END ≠ 0 then [0x5b, 0x45, 0x4e, 0x44, 0x5d]
                else if bFlags &&& DF_SPEC ≠ 0 then [0x2e, 0x2e]
                else (pdir.drop (pos + 31)).take cchName }, [])

/-- The loop over the entries of a DIRBLK that `do_dirblk_recurse`,
`do_dirblk_what` and `do_dirblk_find` have in common: `check_dirent` at `pos`,
`break` when it returns `NULL`, `pos += length`, `break` behind an entry with
`DF_END`.  The result is the list of the entries met; `none` is the end of the
fuel. -/
def dirent_scan (pdir : List Nat) : Nat → Nat → Option (List dirent_view)
  | 0, _ => none
  | fuel + 1, pos =>
    match (check_dirent pdir pos true).1 with
    | none => some []
    | some e =>
      if e.bFlags &&& DF_END ≠ 0 then some [e]
      else (dirent_scan pdir fuel ((pos + e.length) % 2 ^ 32)).map (fun l => e :: l)

/-- The loop over the entries of a DIRBLK from the offset of
`dirblk.dirent [0]`, which is 20, with fuel for 64 rounds. -/
def dirblk_entries (pdir : List Nat) : Option (List dirent_view) :=
  dirent_scan pdir 64 20

/-- A DIRENT of 36 bytes with the flags `bFlags` and the name `name` of at
most four bytes. -/
def sample_dirent_bytes (bFlags : Nat) (name : List Nat) : List Nat :=
  [36, 0, bFlags] ++ List.replicate 27 0 ++ [name.length] ++ name
    ++ List.replicate (5 - name.length) 0

/-- The start of a DIRBLK: the header of 20 bytes, the entry `..`, an entry
`AB` and the end entry. -/
def sample_dirblk_bytes : List Nat :=
  List.replicate 20 0 ++ sample_dirent_bytes 0x01 [1, 1] ++ sample_dirent_bytes 0 [0x41, 0x42]
    ++ sample_dirent_bytes 0x08 [0xff]

end Hpfs


namespace Hpfs

/-! ## do_hpfs.c: the code page information sectors -/

/-- Flag `SEEN_CPINFOSEC` of do_hpfs.c. -/
def SEEN_CPINFOSEC : Nat := 0x10

/-- Sector type `USE_CPINFOSEC` of do_hpfs.c. -/
def USE_CPINFOSEC : Nat := 11

/-- Signature `CPINFO_SIG1` of hpfs.h. -/
def CPINFO_SIG1 : Nat := 0x494521f7

/-- The `ULONG` read through `ULONG_FROM_FS` at the offset `pos` of a
buffer. -/
def ulong_at (b : List Nat) (pos : Nat) : Nat :=
  ulong_from_bytes (b.drop pos)

/-- The objects that `do_one_cpinfosec` changes: the vectors of the walk, the
counter `*pcount`, and the indexes `*pcount` of the assignments
`code_pages[*pcount].info = *pi` in the order of execution. -/
structure cp_state where
  st : walk_state
  count : Nat
  writes : List Nat

/-- Appends warnings to the log of a walk. -/
def walk_log (st : walk_state) (l : List hpfs_warning) : walk_state :=
  { seen_vector := st.seen_vector, u := { st.u with log := st.u.log ++ l } }

/-- The loop `for (i = 0; i < n; ++i)` of `do_one_cpinfosec` over the
entries `CPInfoEnt[i]`, which are 16 bytes each and start at the offset 16 of
the sector; `iCPVol` is at the offset 12 of an entry.  The first argument is
the number `n - i` of rounds left. -/
def do_one_cpinfosec_loop (data : List Nat) : Nat → Nat → cp_state → cp_state
  | 0, _, s => s
  | k + 1, i, s =>
    do_one_cpinfosec_loop data k (i + 1)
      { st := walk_log s.st
          (if ushort_at data (16 + 16 * i + 12) ≠ s.count then
            [{ level := 1, msg := hpfs_msg.more more_msg.cpinfosec_incorrect_index }]
          else [])
        count := (s.count + 1) % 2 ^ 32
        writes := s.writes ++ [s.count] }

/-- The function `do_one_cpinfosec (d, psecno, pcount)`: the return value,
the new `*psecno` and the new state; `none` is the exit through `error ()` in
`read_sec`.  The array `code_pages` has been allocated by the caller; its
size, `code_page_count` entries, is not consulted. -/
def do_one_cpinfosec (total_sectors : Nat) (alloc_ready : Bool) (alloc_vector : List Nat)
    (disk : Nat → Nat → Option (List Nat)) (secno : Nat) (s : cp_state) :
    Option (Bool × Nat × cp_state) :=
  match sector_enter total_sectors alloc_ready alloc_vector disk 1 SEEN_CPINFOSEC
      USE_CPINFOSEC CPINFO_SIG1 false (hpfs_msg.more more_msg.cpinfosec_bad_signature)
      s.st secno none with
  | none => none
  | some (sector_head.seen_before, st) => some (false, secno, { s with st := st })
  | some (sector_head.bad_signature, st) => some (false, secno, { s with st := st })
  | some (sector_head.interpret data, st) =>
    let st1 := walk_log st
      (if ulong_at data 8 ≠ s.count then
        [{ level := 1, msg := hpfs_msg.more more_msg.cpinfosec_wrong_code_page_index }]
      else [])
    let n := ulong_at data 4
    let st2 := walk_log st1
      (if n > 31 then
        [{ level := 1, msg := hpfs_msg.more more_msg.cpinfosec_too_many_code_pages }]
      else [])
    let s1 := do_one_cpinfosec_loop data (if n > 31 then 31 else n) 0 { s with st := st2 }
    let next := ulong_at data 12
    if next = 0 then some (false, secno, s1) else some (true, next, s1)

/-- The loop `while (do_one_cpinfosec (d, &secno, &count));` of
`do_cpinfosec`; `none` is the exit through `error ()` or the end of the
fuel. -/
def do_cpinfosec_loop (total_sectors : Nat) (alloc_ready : Bool) (alloc_vector : List Nat)
    (disk : Nat → Nat → Option (List Nat)) : Nat → Nat → cp_state → Option cp_state
  | 0, _, _ => none
  | fuel + 1, secno, s =>
    match do_one_cpinfosec total_sectors alloc_ready alloc_vector disk secno s with
    | none => none
    | some (true, next, s1) =>
      do_cpinfosec_loop total_sectors alloc_ready alloc_vector disk fuel next s1
    | some (false, _, s1) => some s1

/-- What `do_cpinfosec` leaves behind before it turns to the code page data
sectors: the number of entries for which `code_pages` was allocated, the
state, and the new value of `code_page_count`. -/
structure cpinfosec_result where
  allocated : Nat
  s : cp_state
  code_page_count : Nat

/-- The function `do_cpinfosec (d, secno)` up to the adjustment of
`code_page_count`, which comes in with the value `culCP` of the Spareblock:
the allocation `code_pages = xmalloc (code_page_count * sizeof (MYCP))`, the
loop over the chain of code page information sectors, and the comparison of
`count` with `code_page_count`. -/
def do_cpinfosec (total_sectors : Nat) (alloc_ready : Bool) (alloc_vector : List Nat)
    (disk : Nat → Nat → Option (List Nat)) (code_page_count : Nat) (secno : Nat)
    (st : walk_state) (fuel : Nat) : Option cpinfosec_result :=
  match do_cpinfosec_loop total_sectors alloc_ready alloc_vector disk fuel secno
      { st := st, count := 0, writes := [] } with
  | none => none
  | some s =>
    let st1 := walk_log s.st
      (if s.count ≠ code_page_count then
        [{ level := 1, msg := hpfs_msg.more more_msg.wrong_number_of_code_pages }]
      else [])
    some
      { allocated := code_page_count
        s := { s with st := st1 }
        code_page_count :=
          if s.count ≠ code_page_count ∧ s.count < code_page_count then s.count
          else code_page_count }

/-- The entry `CPInfoEnt[i]` of the sample: `iCPVol` is `i`, the other fields
are zero. -/
def sample_cpinfoentry (i : Nat) : List Nat :=
  List.replicate 12 0 ++ [i, 0, 0, 0]

/-- A code page information sector with `cCodePage` = 2, `iFirstCP` = 0,
`lsnNext` = 0 and two entries. -/
def sample_cpinfosec : List Nat :=
  ulong_to_bytes CPINFO_SIG1 ++ ulong_to_bytes 2 ++ ulong_to_bytes 0 ++ ulong_to_bytes 0
    ++ sample_cpinfoentry 0 ++ sample_cpinfoentry 1 ++ List.replicate (512 - 48) 0

/-- A disk of eight sectors whose sector 5 is `sample_cpinfosec`, all other
bytes are zero. -/
def sample_cp_disk (sec count : Nat) : Option (List Nat) :=
  if sec + count ≤ 8 then
    some (if sec = 5 ∧ count = 1 then sample_cpinfosec else List.replicate (512 * count) 0)
  else none

end Hpfs


namespace Hpfs

/-! ## do_hpfs.c: the list of FEA structures -/

/-- Modelled from the spec: `sizeof (FEA)` for the structure `FEA` of the OS/2
headers, which are not among the sources.  The structure starts with the flag
byte `fEA` that the specification names; behind it come the byte `cbName` and
the `USHORT` `cbValue`, which `do_auxinfo_ea` reads. -/
def FEA_SIZE : Nat := 4

/-- Modelled from the spec: the bit `FEA_NEEDEA` of the flag byte, the `NEED`
bit 0x80, from the OS/2 headers, which are not among the sources. -/
def FEA_NEEDEA : Nat := 0x80

/-- The variables of the loop of `do_auxinfo_ea`, the offsets into `buf` of
the bytes it has read, and its warnings. -/
structure fea_state where
  pos : Nat
  size : Nat
  need_ea_count : Nat
  reads : List Nat
  log : List hpfs_warning
deriving DecidableEq

/-- The warning `fnode_warning (1, ...)` with the message `m`. -/
def fea_warning (m : more_msg) : hpfs_warning :=
  { level := 1, msg := hpfs_msg.more m }

/-- The offsets of the bytes that `format_ea_name (pfea)` reads: the `cbName`
bytes behind the FEA structure at `pos`. -/
def fea_name_reads (pos cbName : Nat) : List Nat :=
  (List.range cbName).map (fun k => (pos + FEA_SIZE + k) % 2 ^ 32)

/-- The offsets of the eight bytes of the SPTR structure at the offset `p`. -/
def sptr_reads (p : Nat) : List Nat :=
  (List.range 8).map (fun k => p + k)

/-- The tests of `do_auxinfo_ea` of the number of sectors that an ALSEC maps
for `bytes` bytes of the value of an extended attribute. -/
def ea_size_warnings (file_sec bytes : Nat) : List hpfs_warning :=
  (if (file_sec * 512) % 2 ^ 32 < bytes then
      [fea_warning more_msg.not_enough_sectors_allocated_for_ea]
    else [])
  ++ (if file_sec > DIVIDE_UP bytes 512 then
      [fea_warning (more_msg.too_many_sectors_allocated_for_ea (file_sec - DIVIDE_UP bytes 512))]
    else [])

/-- One round of the loop `while (pos < buf_size)` of `do_auxinfo_ea`, entered
with `pos < buf_size`: whether the loop goes on (`false` is `break`), and the
new state.  `alsec_at start` is what `do_alsec` finds in the sector `start`;
the calls of `use_sectors` and of `extents_stat` are left out.  All sums are
`ULONG` sums. -/
def do_auxinfo_ea_step (a : storage_args) (alsec_at : Nat → alsec_sector) (show_eas : Nat)
    (buf : List Nat) (buf_size secno : Nat) (s : fea_state) : Bool × fea_state :=
  if (s.pos + FEA_SIZE) % 2 ^ 32 > buf_size then
    (false, { s with log := s.log ++ [fea_warning more_msg.truncated_fea_structure] })
  else
    let value_size := ushort_at buf (s.pos + 2)
    let cbName := byte_at buf (s.pos + 1)
    let reads1 := s.reads ++ [s.pos + 2, s.pos + 3, s.pos + 1]
    let next := (s.pos + FEA_SIZE + cbName + 1 + value_size) % 2 ^ 32
    if next > buf_size then
      (false, { s with reads := reads1
                       log := s.log ++ [fea_warning more_msg.truncated_fea_structure] })
    else
      let term := (s.pos + FEA_SIZE + cbName) % 2 ^ 32
      let log1 := s.log
        ++ (if byte_at buf term ≠ 0 then [fea_warning more_msg.ea_name_not_terminated] else [])
      let fEA := byte_at buf s.pos
      let reads2 := reads1 ++ [term, s.pos]
      let need := if fEA &&& FEA_NEEDEA ≠ 0 then (s.need_ea_count + 1) % 2 ^ 32
        else s.need_ea_count
      let name_reads := if show_eas ≥ 1 then fea_name_reads s.pos cbName else []
      let psptr := (s.pos + FEA_SIZE + cbName + 1) % 2 ^ 32
      if fEA &&& 0x7f = 0x00 then
        (true, { pos := next
                 size := (s.size + FEA_SIZE + cbName + 1 + value_size) % 2 ^ 32
                 need_ea_count := need
                 reads := reads2 ++ name_reads
                 log := log1 })
      else if fEA &&& 0x7f = 0x01 then
        if value_size ≠ 8 then
          (true, { pos := next, size := s.size, need_ea_count := need, reads := reads2
                   log := log1 ++ [fea_warning more_msg.incorrect_size_of_fea_structure] })
        else
          (true, { pos := next
                   size := (s.size + FEA_SIZE + cbName + 1 + ulong_at buf psptr) % 2 ^ 32
                   need_ea_count := need
                   reads := reads2 ++ sptr_reads psptr ++ name_reads
                   log := log1 })
      else if fEA &&& 0x7f = 0x03 then
        if value_size ≠ 8 then
          (true, { pos := next, size := s.size, need_ea_count := need, reads := reads2
                   log := log1 ++ [fea_warning more_msg.incorrect_size_of_fea_structure] })
        else
          let start := ulong_at buf (psptr + 4)
          let bytes := ulong_at buf psptr
          let r := do_alsec { a with total_sectors := DIVIDE_UP bytes 512, what := USE_EA }
            (alsec_at start) start secno 0
            { exp_file_sec := 0, next_disk_sec := 0, extents := 0, log := [] }
          let size_log := ea_size_warnings r.2.exp_file_sec bytes
          (true, { pos := next
                   size := (s.size + FEA_SIZE + cbName + 1 + bytes) % 2 ^ 32
                   need_ea_count := need
                   reads := reads2 ++ sptr_reads psptr ++ name_reads
                     ++ (if size_log ≠ [] then fea_name_reads s.pos cbName else [])
                   log := log1 ++ r.2.log ++ size_log })
      else
        (false, { pos := s.pos, size := s.size, need_ea_count := need
                  reads := reads2 ++ fea_name_reads s.pos cbName
                  log := log1 ++ [fea_warning (more_msg.invalid_fea_flag fEA)] })

/-- The loop `while (pos < buf_size)` of `do_auxinfo_ea`; `none` is the end
of the fuel. -/
def do_auxinfo_ea_loop (a : storage_args) (alsec_at : Nat → alsec_sector) (show_eas : Nat)
    (buf : List Nat) (buf_size secno : Nat) : Nat → fea_state → Option fea_state
  | 0, _ => none
  | fuel + 1, s =>
    if s.pos < buf_size then
      let r := do_auxinfo_ea_step a alsec_at show_eas buf buf_size secno s
      if r.1 then do_auxinfo_ea_loop a alsec_at show_eas buf buf_size secno fuel r.2
      else some r.2
    else some s

/-- The two warnings of `do_auxinfo_ea` behind the loop. -/
def fea_final_warnings (size need_ea_count ea_size : Nat) (check_ea_size : Bool)
    (ea_need : Nat) : List hpfs_warning :=
  (if check_ea_size = true ∧ size ≠ ea_size then
      [fea_warning (more_msg.incorrect_ea_size size ea_size)]
    else [])
  ++ (if need_ea_count ≠ ea_need then
      [fea_warning (more_msg.incorrect_number_of_need_eas need_ea_count ea_need)]
    else [])

/-- The function `do_auxinfo_ea (d, buf, buf_size, secno, path, ea_size,
check_ea_size, ea_need, show)`, with fuel for `buf_size + 1` rounds of the
loop; `none` is the end of the fuel. -/
def do_auxinfo_ea (a : storage_args) (alsec_at : Nat → alsec_sector) (show_eas : Nat)
    (buf : List Nat) (buf_size secno ea_size : Nat) (check_ea_size : Bool) (ea_need : Nat) :
    Option fea_state :=
  (do_auxinfo_ea_loop a alsec_at show_eas buf buf_size secno (buf_size + 1)
      { pos := 0, size := 0, need_ea_count := 0, reads := [], log := [] }).map
    (fun s => { s with log := s.log
      ++ fea_final_warnings s.size s.need_ea_count ea_size check_ea_size ea_need })

/-! ### Specification side of the list of FEA structures -/

/-- An extended attribute whose value is stored inline. -/
structure inline_ea where
  need : Bool
  name : List Nat
  value : List Nat
deriving DecidableEq

/-- The bytes of a well-formed FEA structure with an inline value: the flag
byte (0x80 for a `need' EA), the length of the name, the length of the value,
the name, a null character and the value. -/
def inline_ea_bytes (e : inline_ea) : List Nat :=
  [if e.need then 0x80 else 0, e.name.length, e.value.length % 256, e.value.length / 256]
    ++ e.name ++ [0] ++ e.value

/-- The bytes of a list of well-formed FEA structures with inline values. -/
def inline_eas_bytes : List inline_ea → List Nat
  | [] => []
  | e :: rest => inline_ea_bytes e ++ inline_eas_bytes rest

/-- The lengths of name and value fit into the fields of the FEA
structure. -/
def inline_ea_fits (e : inline_ea) : Prop :=
  e.name.length < 256 ∧ e.value.length < 65536

instance (e : inline_ea) : Decidable (inline_ea_fits e) := by
  unfold inline_ea_fits
  infer_instance

/-- The number of `need' EAs of a list. -/
def need_eas : List inline_ea → Nat
  | [] => 0
  | e :: rest => (if e.need then 1 else 0) + need_eas rest

/-- Two extended attributes with inline values, the second a `need' EA. -/
def sample_eas : List inline_ea :=
  [{ need := false, name := [0x41], value := [1, 2, 3] },
   { need := true, name := [0x42, 0x43], value := [] }]

/-- No allocation sector is looked up for inline values. -/
def no_alsec (_ : Nat) : alsec_sector :=
  sample_ea_sector

end Hpfs


/-! ## do_fat.c: the file "EA DATA. SF" and the clusters of an EA -/

/-- The messages of `read_ea_data` and of the second part of `do_ea`. -/
inductive ea_msg where
  | start_cluster_invalid (start : Nat)
  | incorrect_signature
  | first_table_contains_zero
  | second_table_too_big (min_cluster : Nat)
  | beyond_end_of_file
  | invalid_fat_chain
  | incorrect_signature_for_ea (secno : Nat)
  | incorrect_ea_index (secno : Nat)
  | name_not_null_terminated (secno : Nat)
  | eas_too_big (secno size : Nat)
  | relative_cluster_multiply_used (rel_cluster : Nat)
deriving DecidableEq

/-- The array of `USHORT` whose memory image the bytes are. -/
def bytes_to_ushorts : List Nat → List Nat
  | a :: b :: rest => (a % 256 + 256 * (b % 256)) :: bytes_to_ushorts rest
  | _ => []

/-- The loop `for (pos = 0; pos < ea_data_size; pos += bytes_per_cluster)` of
`read_ea_data` over the clusters of "EA DATA. SF": the bytes copied to
`tab2`, `some none` when the chain leaves the volume ("Invalid FAT chain"),
`none` at the end of the fuel.  `disk secno count` is what `read_sec`
delivers. -/
def read_ea_data_loop (e : ea_data) (disk : Nat → Nat → List Nat) (size2 : Nat) :
    Nat → Nat → Nat → List Nat → Option (Option (List Nat))
  | 0, _, _, _ => none
  | fuel + 1, pos, cluster, tab2 =>
    if pos < e.ea_data_size then
      if cluster < 2 ∨ cluster ≥ e.total_clusters then some none
      else
        let cluster_buffer :=
          disk (CLUSTER_TO_SECTOR e.sectors_per_cluster e.data_sector cluster)
            e.sectors_per_cluster
        read_ea_data_loop e disk size2 fuel ((pos + e.bytes_per_cluster) % 2 ^ 32)
          (e.fat.getD cluster 0)
          (if pos < size2 then
            tab2 ++ cluster_buffer.take (if e.bytes_per_cluster < size2 - pos
              then e.bytes_per_cluster else size2 - pos)
          else tab2)
    else some (some tab2)

/-- The function `read_ea_data (d)`.  The record `e` holds the static
variables before the call, of which the two tables are not yet set;
`ea_data_clusters` is `DIVIDE_UP (ea_data_size, bytes_per_cluster)`, set by
`find_ea_data`.  The result holds the variables behind the call and the new
array `ea_usage` when `ea_ok` is set, and the warnings; the table of 240
`USHORT` starts at the offset 32 of the first sector, and `ea_table2` points
to the offset 512 of `tab2`.  The outer `none` is the
end of the fuel. -/
def read_ea_data (e : ea_data) (ea_data_clusters : Nat) (disk : Nat → Nat → List Nat) :
    Option (Option (ea_data × List Bool) × List ea_msg) :=
  if e.ea_data_start = 0xffff then some (none, [])
  else if e.ea_data_start < 2 ∨ e.ea_data_start ≥ e.total_clusters then
    some (none, [ea_msg.start_cluster_invalid e.ea_data_start])
  else
    let ea1 := disk (CLUSTER_TO_SECTOR e.sectors_per_cluster e.data_sector e.ea_data_start) 1
    if ea1.take 2 ≠ [0x45, 0x44] then some (none, [ea_msg.incorrect_signature])
    else
      let ea_table1 := bytes_to_ushorts ((ea1.drop 32).take 480)
      let min_cluster := (ea_table1.drop 1).foldl
        (fun m x => if x < m then x else m) (ea_table1.getD 0 0)
      if min_cluster < 1 then some (none, [ea_msg.first_table_contains_zero])
      else if min_cluster ≥ e.total_clusters then
        some (none, [ea_msg.second_table_too_big min_cluster])
      else
        let size2 := (min_cluster * e.bytes_per_cluster) % 2 ^ 32
        if size2 > e.ea_data_size then some (none, [ea_msg.beyond_end_of_file])
        else
          match read_ea_data_loop e disk size2 (e.ea_data_size + 1) 0 e.ea_data_start [] with
          | none => none
          | some none => some (none, [ea_msg.invalid_fat_chain])
          | some (some tab2) =>
            let entries := ((size2 + 2 ^ 32 - 512) % 2 ^ 32) / 2
            some (some ({ e with
                            ea_table1 := ea_table1
                            ea_table2 := (bytes_to_ushorts (tab2.drop 512)).take entries
                            ea_table2_entries := entries },
                        List.replicate ea_data_clusters false), [])

/-- How `do_ea` ends: in its first part with a warning, behind its loops over
the clusters of the EA with the new array `ea_usage` and the warnings, in
`abort ()`, or in an access to `ea_usage [index]` behind the
`ea_data_clusters` bytes allocated. -/
inductive ea_end where
  | warned (w : fat_warning)
  | returned (ea_usage : List Bool) (log : List ea_msg)
  | aborted
  | beyond_ea_usage (index : Nat)
deriving DecidableEq

/-- The loop `for (i = 0; i < n; ++i)` of `do_ea` over `ea_usage`, by
recursion on the number `n - i` of rounds left: the new array and the
warnings, or the first index that lies behind the array. -/
def do_ea_usage_loop (rel_cluster : Nat) :
    Nat → Nat → List Bool → List ea_msg → List Bool × List ea_msg ⊕ Nat
  | 0, _, ea_usage, log => Sum.inl (ea_usage, log)
  | k + 1, i, ea_usage, log =>
    let index := (rel_cluster + i) % 2 ^ 32
    if index ≥ ea_usage.length then Sum.inr index
    else if ea_usage.getD index false ≠ false then
      do_ea_usage_loop rel_cluster k (i + 1) ea_usage
        (log ++ [ea_msg.relative_cluster_multiply_used index])
    else do_ea_usage_loop rel_cluster k (i + 1) (ea_usage.set index true) log

/-- The loops `for (pos = 0; pos < size2; pos += bytes_per_cluster)` of
`do_ea` for `a_what` and for reading the EAs, which follow the chain from
`cluster`: `some true` at the end of the loop, `some false` is `abort ()`,
`none` the end of the fuel. -/
def do_ea_pos_loop (e : ea_data) (size2 : Nat) : Nat → Nat → Nat → Option Bool
  | 0, _, _ => none
  | fuel + 1, pos, cluster =>
    if pos < size2 then
      if cluster < 2 ∨ cluster ≥ e.total_clusters then some false
      else do_ea_pos_loop e size2 fuel ((pos + e.bytes_per_cluster) % 2 ^ 32)
        (e.fat.getD cluster 0)
    else some true

/-- The function `do_ea (d, path, ea_index, show)` up to the end of its loops
over the clusters of the EA; `disk secno count` is what `read_sec` delivers,
and `offsetof (FAT_SECTOR, ea3.fealist)` is 26.  The comparison of the name
under `check_pedantic` and the walk through the FEA structures, which comes
behind the loops, are left out.  `none` is the end of the fuel. -/
def do_ea_block (e : ea_data) (ea_usage : List Bool) (a_check a_where a_what : Bool)
    (disk : Nat → Nat → List Nat) (ea_index : Nat) : Option ea_end :=
  match do_ea e ea_index with
  | none => some ea_end.aborted
  | some (ea_lookup.warned w) => some (ea_end.warned w)
  | some (ea_lookup.read rel_cluster cluster secno) =>
    let ea3 := disk secno 1
    if ea3.take 2 ≠ [0x45, 0x41] then
      some (ea_end.returned ea_usage [ea_msg.incorrect_signature_for_ea secno])
    else
      let log1 : List ea_msg :=
        (if Hpfs.ushort_at ea3 2 ≠ ea_index then [ea_msg.incorrect_ea_index secno] else [])
        ++ (if 0 ∉ (ea3.drop 8).take 13 then [ea_msg.name_not_null_terminated secno] else [])
      let size := Hpfs.ulong_at ea3 26
      if size ≥ 0x40000000
          ∨ ((rel_cluster * e.bytes_per_cluster) % 2 ^ 32 + 26) % 2 ^ 32 > e.ea_data_size then
        some (ea_end.returned ea_usage (log1 ++ [ea_msg.eas_too_big secno size]))
      else
        let size2 := (size + 26) % 2 ^ 32
        let n := DIVIDE_UP size2 e.bytes_per_cluster
        match (if a_check then do_ea_usage_loop rel_cluster n 0 ea_usage log1
            else Sum.inl (ea_usage, log1)) with
        | Sum.inr index => some (ea_end.beyond_ea_usage index)
        | Sum.inl (ea_usage1, log2) =>
          if a_where = true ∧ do_ea_follow e.fat e.total_clusters n cluster = none then
            some ea_end.aborted
          else if a_what = true ∨ (size2 ≤ 0x100000 ∧ (a_check = true ∨ a_where = true)) then
            match do_ea_pos_loop e size2 (size2 + 1) 0 cluster with
            | none => none
            | some false => some ea_end.aborted
            | some true => some (ea_end.returned ea_usage1 log2)
          else some (ea_end.returned ea_usage1 log2)

/-- A volume of ten clusters of 512 bytes on which "EA DATA. SF" has 2048
bytes in the clusters 2, 3, 4, 5; the tables are not yet read. -/
def sample_ea_volume : ea_data :=
  { fat := [0xfff8, 0xffff, 3, 4, 5, 0xffff, 0, 0, 0, 0], total_clusters := 10
    sectors_per_cluster := 1, bytes_per_cluster := 512, data_sector := 33
    ea_data_start := 2, ea_data_size := 2048
    ea_table1 := [], ea_table2 := [], ea_table2_entries := 0 }

/-- The sectors of "EA DATA. SF" on the sample volume.  Sector 33 (cluster 2)
holds the signature "ED" and a first table of 240 entries 2; sector 34
(cluster 3) the second table, whose entry 1 is 1, so that the EA index 1 leads
to the relative cluster 3; sector 36 (cluster 5, the last of the file) an EA
block with the signature "EA", the index 1, an empty name and `cbList` =
1000. -/
def sample_ea_disk (secno count : Nat) : List Nat :=
  if secno = 33 then
    [0x45, 0x44] ++ List.replicate 30 0 ++ (List.range 240).flatMap (fun _ => [2, 0])
  else if secno = 34 then [0, 0, 1, 0] ++ List.replicate 508 0
  else if secno = 36 then
    [0x45, 0x41, 1, 0] ++ List.replicate 22 0 ++ [0xe8, 0x03, 0, 0] ++ List.replicate 482 0
  else List.replicate (512 * count) 0

deriving instance DecidableEq for ea_data

/-- The static variables on the sample volume behind `read_ea_data`: the
first table holds 240 entries 2, the second table the 256 entries of
cluster 3, of which the entry 1 is 1. -/
def sample_ea_accepted : ea_data :=
  { sample_ea_volume with
    ea_table1 := List.replicate 240 2
    ea_table2 := 0 :: 1 :: List.replicate 254 0
    ea_table2_entries := 256 }

/-- The statement `if (ea_index != 0) do_ea (d, path, ea_index, show);` of
`do_file`, the only call of `do_ea`: `ea_index` is the field `ea` of the
directory entry. -/
def do_file_ea (e : ea_data) (ea_usage : List Bool) (a_check a_where a_what : Bool)
    (disk : Nat → Nat → List Nat) (ea_index : Nat) : Option ea_end :=
  if ea_index ≠ 0 then do_ea_block e ea_usage a_check a_where a_what disk ea_index
  else some (ea_end.returned ea_usage [])


namespace Hpfs

/-- An allocation tree with one leaf block, at depth 2, and a node block
without entries in use beside it: the first ALNODE of the FNODE points to a
node block in sector 200 whose `cUsed` is 0, the second to a node block in
sector 201, which points to the leaf block in sector 202. -/
def sample_hollow_tree : alloc_tree :=
  alloc_tree.mk { bFlag := 0x80, cFree := 10, cUsed := 2, oFree := 24 } []
    (alnode_array.cons { lsnLog := 0, lsnPhys := 200 }
      (alsec_sector.mk false ALSEC_SIG1 200 100
        (alloc_tree.mk { bFlag := 0x80 ||| 0x20, cFree := 60, cUsed := 0, oFree := 8 } []
          alnode_array.nil))
      (alnode_array.cons { lsnLog := 0xffffffff, lsnPhys := 201 }
        (sample_node_sector 201 100 0x20 { lsnLog := 0xffffffff, lsnPhys := 202 }
          (sample_leaf_sector 202 201 0 [{ lsnLog := 0, csecRun := 2, lsnPhys := 400 }]))
        alnode_array.nil))

end Hpfs


namespace Hpfs

/-! ### Specification side of the capacity of the allocation blocks -/

/-- The first `k` entries of an array of ALNODEs. -/
def take_nodes : Nat → alnode_array → alnode_array
  | 0, _ => alnode_array.nil
  | _ + 1, alnode_array.nil => alnode_array.nil
  | k + 1, alnode_array.cons node sec rest => alnode_array.cons node sec (take_nodes k rest)

mutual
/-- The allocation tree with everything removed that lies behind the arrays
of its blocks: of a block with room for `leaf_count` leaves the first
`leaf_count` entries of the view `aall` and the first
`leaf_count + leaf_count / 2` entries of the view `aaln` stay, and the blocks
in the sectors of these ALNODEs, which have room for 40 leaves, are treated
in the same way. -/
def clip : alloc_tree → Nat → alloc_tree
  | alloc_tree.mk alb aall aaln, leaf_count =>
    alloc_tree.mk alb (aall.take leaf_count) (clip_nodes aaln (leaf_count + leaf_count / 2))
def clip_nodes : alnode_array → Nat → alnode_array
  | alnode_array.nil, _ => alnode_array.nil
  | alnode_array.cons _ _ _, 0 => alnode_array.nil
  | alnode_array.cons node sec rest, k + 1 =>
    alnode_array.cons node (clip_sec sec) (clip_nodes rest k)
def clip_sec : alsec_sector → alsec_sector
  | alsec_sector.mk seen sig lsnSelf lsnRent alb =>
    alsec_sector.mk seen sig lsnSelf lsnRent (clip alb 40)
end

/-- A leaf block in an FNODE whose header announces 200 leaves in use, with
ten ALLEAFs in the memory behind the header, two more than the array `aall`
of an FNODE holds. -/
def sample_overlong : alloc_tree :=
  alloc_tree.mk { bFlag := 0, cFree := 0, cUsed := 200, oFree := 104 }
    ((List.range 10).map (fun i => { lsnLog := i, csecRun := 1, lsnPhys := 1000 + i }))
    alnode_array.nil

end Hpfs

end Fst

namespace Fst

/-! ## Checksum kernel -/

theorem crc_step_eq (crc byte : Nat) :
    crc_step crc_build_table crc byte
      = ((crc * 2 ^ 8) % 2 ^ 32) ^^^ crc_build_table.getD ((crc / 2 ^ 24) ^^^ byte) 0 := by
  simp only [crc_step, CRC_T_MODULUS, Nat.shiftLeft_eq, Nat.shiftRight_eq_div_pow]

theorem crc_compute_loop_drop (src : List Nat) :
    ∀ (fuel i crc : Nat), i + fuel = src.length →
      crc_compute_loop crc_build_table src src.length fuel i crc
        = crc_incremental crc (src.drop i) := by
  intro fuel
  induction fuel with
  | zero =>
    intro i crc h
    have hi : src.length ≤ i := by omega
    simp [crc_compute_loop, crc_incremental, List.drop_eq_nil_of_le hi]
  | succ fuel ih =>
    intro i crc h
    have hi : i < src.length := by omega
    rw [crc_compute_loop, if_pos hi, ih (i + 1) _ (by omega)]
    rw [List.drop_eq_getElem_cons hi]
    simp only [crc_incremental, List.foldl_cons, crc_step_eq]
    rw [List.getD_eq_getElem _ _ hi]

theorem crc_state_eq_incremental (b : List Nat) :
    crc_state b b.length = crc_incremental 0xFFFFFFFF b := by
  exact crc_compute_loop_drop b b.length 0 0xFFFFFFFF (by omega)

theorem crc_build_table_eq_map :
    crc_build_table = (List.range 256).map crc_long_division := by
  decide!

theorem crc_table_getD (i : Nat) (h : i < 256) :
    crc_build_table.getD i 0 = crc_long_division i := by
  rw [crc_build_table_eq_map,
    List.getD_eq_getElem _ _ (by rw [List.length_map, List.length_range]; exact h),
    List.getElem_map, List.getElem_range]

theorem crc_division_step_lt (w : Nat) : crc_division_step w < 2 ^ 32 := by
  rw [crc_division_step]
  split
  · exact Nat.xor_lt_two_pow (Nat.mod_lt _ (by decide)) (by decide)
  · exact Nat.mod_lt _ (by decide)

theorem crc_long_division_lt (i : Nat) : crc_long_division i < 2 ^ 32 := by
  rw [crc_long_division, Function.iterate_succ_apply']
  exact crc_division_step_lt _

theorem crc_table_lt (i : Nat) : crc_build_table.getD i 0 < 2 ^ 32 := by
  by_cases h : i < 256
  · rw [crc_table_getD i h]
    exact crc_long_division_lt i
  · have hl : crc_build_table.length = 256 := by
      rw [crc_build_table_eq_map, List.length_map, List.length_range]
    rw [List.getD_eq_getElem?_getD, List.getElem?_eq_none (by omega)]
    decide

theorem crc_incremental_lt : ∀ (b : List Nat) (state : Nat), state < 2 ^ 32 →
    crc_incremental state b < 2 ^ 32 := by
  intro b
  induction b with
  | nil => intro state h; simpa [crc_incremental] using h
  | cons x b ih =>
    intro state h
    simp only [crc_incremental, List.foldl_cons] at ih ⊢
    apply ih
    exact Nat.xor_lt_two_pow (Nat.mod_lt _ (by decide)) (crc_table_lt _)

theorem xor_ones_eq_sub (x : Nat) (h : x < 2 ^ 32) : x ^^^ 0xFFFFFFFF = 0xFFFFFFFF - x := by
  have hx : x ^^^ 0xFFFFFFFF < 2 ^ 32 := Nat.xor_lt_two_pow h (by decide)
  apply Nat.eq_of_testBit_eq
  intro i
  by_cases hi : i < 32
  · have e : (0xFFFFFFFF : Nat) = 2 ^ 32 - 1 := by decide
    have e2 : 2 ^ 32 - 1 - x = 2 ^ 32 - (x + 1) := by omega
    rw [Nat.testBit_xor, e, Nat.testBit_two_pow_sub_one, e2, Nat.testBit_two_pow_sub_succ h]
    simp [hi]
  · have h1 : x ^^^ 0xFFFFFFFF < 2 ^ i :=
      lt_of_lt_of_le hx (Nat.pow_le_pow_right (by decide) (by omega))
    have h2 : 0xFFFFFFFF - x < 2 ^ i :=
      lt_of_lt_of_le (by omega) (Nat.pow_le_pow_right (by decide) (by omega : 32 ≤ i))
    rw [Nat.testBit_lt_two_pow h1, Nat.testBit_lt_two_pow h2]

/-- C1: after `crc_build_table`, every entry `crc_table[i]`, `i` in `0..255`,
is the MSB-first long division of `i` by the polynomial `0x04C11DB7`. -/
theorem crc_table_is_long_division :
    crc_build_table.length = 256 ∧
      ∀ i < 256, crc_build_table.getD i 0 = crc_long_division i := by
  refine ⟨?_, crc_table_getD⟩
  rw [crc_build_table_eq_map, List.length_map, List.length_range]

/-- C2: `crc_compute` is the bitwise complement of the state reached by feeding
the buffer byte by byte through the incremental update from `0xFFFFFFFF`, and
the state after `x ++ y` is the state after `x` continued over `y`. -/
theorem crc_compute_incremental (b : List Nat) :
    crc_compute b b.length = crc_incremental 0xFFFFFFFF b ^^^ 0xFFFFFFFF
      ∧ crc_compute b b.length = 0xFFFFFFFF - crc_incremental 0xFFFFFFFF b
      ∧ crc_incremental 0xFFFFFFFF b < 2 ^ 32
      ∧ ∀ x y : List Nat, b = x ++ y →
          crc_state b b.length = crc_incremental (crc_state x x.length) y := by
  have hlt := crc_incremental_lt b 0xFFFFFFFF (by decide)
  have hc : crc_compute b b.length = crc_incremental 0xFFFFFFFF b ^^^ 0xFFFFFFFF := by
    rw [crc_compute, crc_state_eq_incremental]
    rfl
  refine ⟨hc, ?_, hlt, ?_⟩
  · rw [hc, xor_ones_eq_sub _ hlt]
  · intro x y hb
    subst hb
    rw [crc_state_eq_incremental, crc_state_eq_incremental]
    simp [crc_incremental, List.foldl_append]

/-- C3: `crc_compute` over the nine ASCII bytes of "123456789" is `0xFC891918`,
the complement of the CRC-32/MPEG-2 check value `0x0376E6E7`. -/
theorem crc_compute_check_value :
    crc_compute [0x31, 0x32, 0x33, 0x34, 0x35, 0x36, 0x37, 0x38, 0x39] 9 = 0xFC891918 ∧
      0xFC891918 = 0x0376E6E7 ^^^ 0xFFFFFFFF := by
  refine ⟨?_, by decide⟩
  rw [crc_compute, crc_state, crc_build_table_eq_map]
  decide!

/-! ## Snapshot hash -/

theorem hash_insert_loop_spec (map : List Nat) :
    ∀ (fuel i : Nat) (st nx : List Nat), i + fuel = map.length →
      nx.length = map.length →
      (∀ h < HASH_SIZE, st[h]? = some (chain_head map h i)) →
      (∀ j < i, nx[j]? = some (chain_head map (map.getD j 0 % HASH_SIZE) j)) →
      (∀ h < HASH_SIZE,
          (hash_insert_loop map.length map fuel i st nx).1[h]? = some (chain_head map h map.length)) ∧
        (∀ j < map.length,
          (hash_insert_loop map.length map fuel i st nx).2[j]?
            = some (chain_head map (map.getD j 0 % HASH_SIZE) j)) := by
  intro fuel
  induction fuel with
  | zero =>
    intro i st nx hi _ hst hnx
    have : i = map.length := by omega
    subst this
    exact ⟨hst, hnx⟩
  | succ fuel ih =>
    intro i st nx hi hlen hst hnx
    have hlt : i < map.length := by omega
    rw [hash_insert_loop, if_pos hlt]
    have hpos : map.getD i 0 % HASH_SIZE < HASH_SIZE := Nat.mod_lt _ (by decide)
    apply ih (i + 1) _ _ (by omega) (by simpa using hlen)
    · intro h hh
      by_cases hc : map.getD i 0 % HASH_SIZE = h
      · subst hc
        have hl : map.getD i 0 % HASH_SIZE < st.length := by
          have := hst _ hpos
          exact (List.getElem?_eq_some.mp this).1
        rw [List.getElem?_set_self hl, chain_head, if_pos rfl]
      · rw [List.getElem?_set_ne hc, hst h hh, chain_head, if_neg hc]
    · intro j hj
      by_cases hc : i = j
      · subst hc
        rw [List.getElem?_set_self (by omega)]
        have := hst _ hpos
        rw [List.getD_eq_getElem?_getD, this]
        rfl
      · rw [List.getElem?_set_ne hc]
        exact hnx j (by omega)

theorem find_sec_loop_spec (d : diskio_snapshot) (n : Nat)
    (hcount : d.sector_map.length < 2 ^ 32)
    (hnext : ∀ j < d.sector_map.length,
      d.hash_next[j]? = some (chain_head d.sector_map (d.sector_map.getD j 0 % HASH_SIZE) j)) :
    ∀ (k fuel : Nat), k ≤ d.sector_map.length → k ≤ fuel →
      find_sec_loop d n fuel (chain_head d.sector_map (n % HASH_SIZE) k)
        = some (last_index d.sector_map n k) := by
  intro k
  induction k with
  | zero =>
    intro fuel _ _
    cases fuel <;> simp [find_sec_loop, chain_head, last_index]
  | succ k ih =>
    intro fuel hk hfuel
    have hklt : k < d.sector_map.length := by omega
    by_cases hc : d.sector_map.getD k 0 % HASH_SIZE = n % HASH_SIZE
    · obtain ⟨f, rfl⟩ : ∃ f, fuel = f + 1 := ⟨fuel - 1, by omega⟩
      have hne : k ≠ HASH_END := by simp only [HASH_END]; omega
      rw [chain_head, if_pos hc, find_sec_loop, if_pos hne,
        List.getElem?_eq_getElem hklt, hnext k hklt]
      simp only []
      rw [List.getD_eq_getElem _ _ hklt] at hc ⊢
      by_cases hm : d.sector_map[k] = n
      · rw [if_pos hm, last_index, List.getD_eq_getElem _ _ hklt, if_pos hm,
          Nat.mod_eq_of_lt (by omega)]
      · rw [if_neg hm, last_index, List.getD_eq_getElem _ _ hklt, if_neg hm, hc]
        exact ih f (by omega) (by omega)
    · have hm : d.sector_map.getD k 0 ≠ n := fun h => hc (by rw [h])
      rw [chain_head, if_neg hc, last_index, if_neg hm]
      exact ih fuel (by omega) (by omega)

theorem last_index_le (map : List Nat) (n : Nat) : ∀ k, last_index map n k ≤ k := by
  intro k
  induction k with
  | zero => simp [last_index]
  | succ k ih =>
    rw [last_index]
    split <;> omega

theorem last_index_get (map : List Nat) (n : Nat) :
    ∀ k, last_index map n k ≠ 0 → map.getD (last_index map n k - 1) 0 = n := by
  intro k
  induction k with
  | zero => simp [last_index]
  | succ k ih =>
    rw [last_index]
    split
    · intro _
      simpa using ‹map.getD k 0 = n›
    · exact ih

theorem last_index_ne_zero_iff (map : List Nat) (n : Nat) :
    ∀ k, last_index map n k ≠ 0 ↔ ∃ i, i < k ∧ map.getD i 0 = n := by
  intro k
  induction k with
  | zero => simp [last_index]
  | succ k ih =>
    rw [last_index]
    split
    · rename_i h
      exact ⟨fun _ => ⟨k, by omega, h⟩, fun _ => by omega⟩
    · rename_i h
      rw [ih]
      constructor
      · rintro ⟨i, hi, hn⟩
        exact ⟨i, by omega, hn⟩
      · rintro ⟨i, hi, hn⟩
        have : i ≠ k := fun e => h (e ▸ hn)
        exact ⟨i, by omega, hn⟩

theorem last_index_length_ne_zero_iff (map : List Nat) (n : Nat) :
    last_index map n map.length ≠ 0 ↔ n ∈ map := by
  rw [last_index_ne_zero_iff, List.mem_iff_getElem]
  constructor
  · rintro ⟨i, hi, hn⟩
    exact ⟨i, hi, by rw [← List.getD_eq_getElem _ 0 hi]; exact hn⟩
  · rintro ⟨i, hi, hn⟩
    exact ⟨i, hi, by rw [List.getD_eq_getElem _ 0 hi]; exact hn⟩

theorem snapshot_init_hash (hf : List Nat) (version : Nat) (map : List Nat) :
    (∀ h < HASH_SIZE,
        (snapshot_init hf map.length version map).hash_start[h]?
          = some (chain_head map h map.length)) ∧
      (∀ j < map.length,
        (snapshot_init hf map.length version map).hash_next[j]?
          = some (chain_head map (map.getD j 0 % HASH_SIZE) j)) := by
  have h := hash_insert_loop_spec map map.length 0
    (List.replicate HASH_SIZE HASH_END) (List.replicate map.length HASH_END)
    (by omega) (by simp)
    (by intro h hh; simp [List.getElem?_replicate, hh, chain_head])
    (by intro j hj; omega)
  exact h

theorem find_sec_fuel_init (hf : List Nat) (version : Nat) (map : List Nat) (n : Nat)
    (hcount : map.length < 2 ^ 32) (fuel : Nat) (hfuel : map.length ≤ fuel) :
    find_sec_fuel fuel (snapshot_init hf map.length version map) n
      = some (last_index map n map.length) := by
  have hh := snapshot_init_hash hf version map
  have hpos : n % HASH_SIZE < HASH_SIZE := Nat.mod_lt _ (by decide)
  rw [find_sec_fuel, hh.1 _ hpos]
  exact find_sec_loop_spec (snapshot_init hf map.length version map) n hcount hh.2
    map.length fuel (le_refl _) hfuel

/-- C4: on a sector map hashed by `diskio_open`, `find_sec_in_snapshot` returns
(with `sector_count` iterations or any larger bound) a value `r` that is
non-zero exactly when `n` occurs in the map, then with `sector_map[r-1] = n`,
and 0 exactly when `n` is absent. -/
theorem find_sec_in_snapshot_correct (hf : List Nat) (version : Nat) (sector_map : List Nat)
    (n : Nat) (hcount : sector_map.length < 2 ^ 32) :
    ∃ r, find_sec_in_snapshot (snapshot_init hf sector_map.length version sector_map) n = some r
      ∧ (∀ fuel, sector_map.length ≤ fuel →
          find_sec_fuel fuel (snapshot_init hf sector_map.length version sector_map) n = some r)
      ∧ (r ≠ 0 ↔ n ∈ sector_map)
      ∧ (r ≠ 0 → sector_map[r - 1]? = some n)
      ∧ (r = 0 ↔ n ∉ sector_map) := by
  refine ⟨last_index sector_map n sector_map.length, ?_, ?_, ?_, ?_, ?_⟩
  · exact find_sec_fuel_init hf version sector_map n hcount _ (le_refl _)
  · intro fuel hfuel
    exact find_sec_fuel_init hf version sector_map n hcount fuel hfuel
  · exact last_index_length_ne_zero_iff sector_map n
  · intro hr
    have hle := last_index_le sector_map n sector_map.length
    have hget := last_index_get sector_map n sector_map.length hr
    have hlt : last_index sector_map n sector_map.length - 1 < sector_map.length := by omega
    rw [List.getElem?_eq_getElem hlt, ← List.getD_eq_getElem _ 0 hlt, hget]
  · rw [← last_index_length_ne_zero_iff sector_map n]
    simp

theorem find_sec_in_snapshot_correct_witness :
    [4096, 1105, 108, 1105].length < 2 ^ 32 ∧
    ∃ r, find_sec_in_snapshot (snapshot_init [] [4096, 1105, 108, 1105].length 1 [4096, 1105, 108, 1105]) 1105 = some r
      ∧ (∀ fuel, [4096, 1105, 108, 1105].length ≤ fuel →
          find_sec_fuel fuel (snapshot_init [] [4096, 1105, 108, 1105].length 1 [4096, 1105, 108, 1105]) 1105 = some r)
      ∧ (r ≠ 0 ↔ 1105 ∈ [4096, 1105, 108, 1105])
      ∧ (r ≠ 0 → [4096, 1105, 108, 1105][r - 1]? = some 1105)
      ∧ (r = 0 ↔ 1105 ∉ [4096, 1105, 108, 1105]) :=
  ⟨by decide, find_sec_in_snapshot_correct [] 1 [4096, 1105, 108, 1105] 1105 (by decide)⟩

/-! ## Bytes and words -/

theorem ulong_to_bytes_length (x : Nat) : (ulong_to_bytes x).length = 4 := rfl

theorem ulong_from_to_bytes (x : Nat) (hx : x < 2 ^ 32) :
    ulong_from_bytes (ulong_to_bytes x) = x := by
  simp only [ulong_from_bytes, ulong_to_bytes, List.getD_cons_zero, List.getD_cons_succ]
  omega

theorem ulong_from_bytes_append (x : Nat) (l : List Nat) :
    ulong_from_bytes (ulong_to_bytes x ++ l) = ulong_from_bytes (ulong_to_bytes x) := by
  simp [ulong_from_bytes, ulong_to_bytes]

theorem ulong_from_bytes_lt (b : List Nat) (hb : ∀ x ∈ b, x < 256) :
    ulong_from_bytes b < 2 ^ 32 := by
  have h : ∀ i, b.getD i 0 < 256 := by
    intro i
    rw [List.getD_eq_getElem?_getD]
    cases hi : b[i]? with
    | none => simp
    | some v => simpa using hb v (List.getElem?_mem hi)
  have h0 := h 0
  have h1 := h 1
  have h2 := h 2
  have h3 := h 3
  simp only [ulong_from_bytes]
  omega

theorem ulong_to_from_bytes (b0 b1 b2 b3 : Nat) (h0 : b0 < 256) (h1 : b1 < 256)
    (h2 : b2 < 256) (h3 : b3 < 256) :
    ulong_to_bytes (ulong_from_bytes [b0, b1, b2, b3]) = [b0, b1, b2, b3] := by
  simp only [ulong_from_bytes, ulong_to_bytes, List.getD_cons_zero, List.getD_cons_succ]
  congr 1
  · omega
  · congr 1
    · omega
    · congr 1
      · omega
      · congr 1
        omega

theorem scramble_length (raw : List Nat) (h : 4 ≤ raw.length) :
    (scramble raw).length = raw.length := by
  simp [scramble, ulong_to_bytes]
  omega

theorem scramble_scramble (raw : List Nat) (hlen : 4 ≤ raw.length)
    (hb : ∀ x ∈ raw.take 4, x < 256) : scramble (scramble raw) = raw := by
  match raw, hlen with
  | b0 :: b1 :: b2 :: b3 :: rest, _ =>
    have h0 : b0 < 256 := hb b0 (by simp)
    have h1 : b1 < 256 := hb b1 (by simp)
    have h2 : b2 < 256 := hb b2 (by simp)
    have h3 : b3 < 256 := hb b3 (by simp)
    have hw : ulong_from_bytes [b0, b1, b2, b3] < 2 ^ 32 := by
      apply ulong_from_bytes_lt
      intro x hx
      simp at hx
      rcases hx with h | h | h | h <;> omega
    have hk : SNAPSHOT_SCRAMBLE < 2 ^ 32 := by decide
    have hx : ulong_from_bytes [b0, b1, b2, b3] ^^^ SNAPSHOT_SCRAMBLE < 2 ^ 32 :=
      Nat.xor_lt_two_pow hw hk
    have e1 : scramble (b0 :: b1 :: b2 :: b3 :: rest)
        = ulong_to_bytes (ulong_from_bytes [b0, b1, b2, b3] ^^^ SNAPSHOT_SCRAMBLE) ++ rest := by
      simp [scramble]
    rw [e1]
    have e2 : ∀ (w : Nat) (l : List Nat), scramble (ulong_to_bytes w ++ l)
        = ulong_to_bytes (ulong_from_bytes (ulong_to_bytes w) ^^^ SNAPSHOT_SCRAMBLE) ++ l := by
      intro w l
      simp [scramble, ulong_to_bytes]
    rw [e2, ulong_from_to_bytes _ hx, Nat.xor_assoc, Nat.xor_self, Nat.xor_zero,
      ulong_to_from_bytes b0 b1 b2 b3 h0 h1 h2 h3]
    rfl

/-! ## Files -/

theorem file_write_end (f b : List Nat) : file_write f f.length b = f ++ b := by
  simp [file_write, List.drop_eq_nil_of_le]

theorem file_write_length (f : List Nat) (p : Nat) (x : List Nat)
    (h : p + x.length ≤ f.length) : (file_write f p x).length = f.length := by
  simp [file_write]
  omega

theorem file_write_getElem? (f : List Nat) (p : Nat) (x : List Nat)
    (h : p + x.length ≤ f.length) (k : Nat) :
    (file_write f p x)[k]? = if p ≤ k ∧ k < p + x.length then x[k - p]? else f[k]? := by
  have hp : p - f.length = 0 := by omega
  have hmin : min p f.length = p := by omega
  simp only [file_write, hp, List.replicate_zero, List.append_nil]
  by_cases h1 : k < p
  · rw [List.append_assoc, List.getElem?_append_left (by simp; omega)]
    rw [List.getElem?_take, if_pos h1, if_neg (by omega)]
  · by_cases h2 : k < p + x.length
    · rw [List.getElem?_append_left (by simp; omega),
        List.getElem?_append_right (by simp; omega)]
      simp only [List.length_take, hmin]
      rw [if_pos ⟨by omega, h2⟩]
    · rw [List.getElem?_append_right (by simp; omega)]
      simp only [List.length_append, List.length_take, hmin]
      rw [List.getElem?_drop, if_neg (by omega)]
      congr 1
      omega

theorem file_read_getElem? (f : List Nat) (q len i : Nat) :
    (file_read f q len)[i]? = if i < len then f[q + i]? else none := by
  simp [file_read, List.getElem?_take, List.getElem?_drop]

theorem file_read_write_same (f : List Nat) (p : Nat) (x : List Nat)
    (h : p + x.length ≤ f.length) : file_read (file_write f p x) p x.length = x := by
  apply List.ext_getElem?
  intro i
  rw [file_read_getElem?, file_write_getElem? f p x h]
  by_cases hi : i < x.length
  · rw [if_pos hi, if_pos ⟨by omega, by omega⟩]
    congr 1
    omega
  · rw [if_neg hi]
    exact (List.getElem?_eq_none (by omega)).symm

theorem file_read_write_other (f : List Nat) (p : Nat) (x : List Nat)
    (h : p + x.length ≤ f.length) (q len : Nat) (hd : q + len ≤ p ∨ p + x.length ≤ q) :
    file_read (file_write f p x) q len = file_read f q len := by
  apply List.ext_getElem?
  intro i
  rw [file_read_getElem?, file_read_getElem?]
  by_cases hi : i < len
  · rw [if_pos hi, if_pos hi, file_write_getElem? f p x h, if_neg (by omega)]
  · rw [if_neg hi, if_neg hi]

theorem file_read_append_left (a b : List Nat) (len : Nat) (h : len = a.length) :
    file_read (a ++ b) 0 len = a := by
  subst h
  simp [file_read]

theorem file_read_append_right (a b : List Nat) (q len : Nat) :
    file_read (a ++ b) (a.length + q) len = file_read b q len := by
  simp [file_read, List.drop_append]

theorem seek_rel_loop_eq : ∀ (fuel rest act_pos : Nat), rest ≤ fuel →
    seek_rel_loop fuel rest act_pos = act_pos + rest * 512 := by
  intro fuel
  induction fuel with
  | zero =>
    intro rest act_pos h
    have : rest = 0 := by omega
    subst this
    simp [seek_rel_loop]
  | succ fuel ih =>
    intro rest act_pos h
    rw [seek_rel_loop]
    by_cases hr : rest ≠ 0
    · rw [if_pos hr]
      simp only []
      have hpos : 0 < min rest (LONG_MAX / 512) := by
        have : 0 < LONG_MAX / 512 := by decide
        omega
      rw [ih _ _ (by omega)]
      have hle : min rest (LONG_MAX / 512) ≤ rest := Nat.min_le_left _ _
      generalize min rest (LONG_MAX / 512) = n at hpos hle
      have : rest * 512 = n * 512 + (rest - n) * 512 := by
        rw [← Nat.add_mul]
        congr 1
        omega
      omega
    · rw [if_neg hr]
      have : rest = 0 := by omega
      subst this
      simp

theorem seek_sec_hfile_bytes (sec : Nat) (h : sec * 512 < 2 ^ 32) :
    seek_sec_hfile false sec = sec * 512 := by
  simp only [seek_sec_hfile, Bool.false_eq_true, if_false, Nat.mod_eq_of_lt h]
  split
  · rfl
  · rw [seek_rel_loop_eq _ _ _ (le_refl _)]
    omega

theorem read_sec_hfile_eq (hf : List Nat) (sec : Nat) (h : sec * 512 < 2 ^ 32) :
    read_sec_hfile hf false sec 1
      = if (file_read hf (sec * 512) 512).length ≠ 512 then none
        else some (file_read hf (sec * 512) 512) := by
  simp only [read_sec_hfile, Bool.false_eq_true, if_false, seek_sec_hfile_bytes sec h]
  rfl

/-! ## Capture writer -/

theorem save_seen_loop_iff (s : SaveState) (sec : Nat) :
    ∀ (fuel i : Nat), s.save_sector_count ≤ i + fuel →
      (save_seen_loop s sec fuel i = true
        ↔ ∃ j, i ≤ j ∧ j < s.save_sector_count ∧ s.save_sector_map.getD j 0 = sec) := by
  intro fuel
  induction fuel with
  | zero =>
    intro i h
    simp only [save_seen_loop, Bool.false_eq_true, false_iff]
    rintro ⟨j, h1, h2, _⟩
    omega
  | succ fuel ih =>
    intro i h
    rw [save_seen_loop]
    by_cases hi : i < s.save_sector_count
    · rw [if_pos hi]
      by_cases hm : s.save_sector_map.getD i 0 = sec
      · rw [if_pos hm]
        simp only [true_iff]
        exact ⟨i, le_refl _, hi, hm⟩
      · rw [if_neg hm, ih (i + 1) (by omega)]
        constructor
        · rintro ⟨j, h1, h2, h3⟩
          exact ⟨j, by omega, h2, h3⟩
        · rintro ⟨j, h1, h2, h3⟩
          have : j ≠ i := fun e => hm (e ▸ h3)
          exact ⟨j, by omega, h2, h3⟩
    · rw [if_neg hi]
      simp only [Bool.false_eq_true, false_iff]
      rintro ⟨j, h1, h2, _⟩
      omega

theorem save_seen_iff_mem (s : SaveState) (kept : List (Nat × List Nat)) (sec : Nat)
    (hinv : SaveInv s kept) :
    save_seen_loop s sec s.save_sector_count 0 = true ↔ sec ∈ kept.map Prod.fst := by
  obtain ⟨_, hcount, hmap, halloc, hle, _, _⟩ := hinv
  rw [save_seen_loop_iff s sec _ 0 (by omega), ← hmap, List.mem_iff_getElem?]
  have hg : ∀ j, j < kept.length →
      (List.take kept.length s.save_sector_map)[j]? = some (s.save_sector_map.getD j 0) := by
    intro j hj
    rw [List.getElem?_take, if_pos hj, List.getD_eq_getElem?_getD,
      List.getElem?_eq_getElem (by omega)]
    rfl
  constructor
  · rintro ⟨j, _, h2, h3⟩
    exact ⟨j, by rw [hg j (by omega), h3]⟩
  · rintro ⟨j, hj⟩
    have hlt : j < kept.length := by
      have := (List.getElem?_eq_some.mp hj).1
      simp at this
      omega
    rw [hg j hlt] at hj
    exact ⟨j, Nat.zero_le _, by omega, by simpa using hj⟩

theorem take_succ_set (l : List Nat) (n a : Nat) (h : n < l.length) :
    (l.set n a).take (n + 1) = l.take n ++ [a] := by
  apply List.ext_getElem?
  intro i
  rw [List.getElem?_take, List.getElem?_set]
  by_cases h1 : i < n
  · rw [if_pos (by omega), if_neg (by omega),
      List.getElem?_append_left (by simp; omega), List.getElem?_take, if_pos h1]
  · by_cases h2 : i = n
    · subst h2
      rw [if_pos (by omega), if_pos rfl, if_pos h,
        List.getElem?_append_right (by simp)]
      simp [Nat.min_eq_left (Nat.le_of_lt h)]
    · rw [if_neg (by omega)]
      symm
      apply List.getElem?_eq_none
      simp
      omega

theorem save_one_sec_seen (s : SaveState) (kept : List (Nat × List Nat)) (src : List Nat)
    (sec : Nat) (hinv : SaveInv s kept) (hmem : sec ∈ kept.map Prod.fst) :
    save_one_sec s src sec = s := by
  rw [save_one_sec, if_pos ((save_seen_iff_mem s kept sec hinv).mpr hmem)]

theorem save_grow_spec (s : SaveState) (kept : List (Nat × List Nat))
    (hinv : SaveInv s kept) (hbound : kept.length + 1024 < 2 ^ 32) :
    (save_grow s).type = s.type ∧ (save_grow s).save_file = s.save_file
      ∧ (save_grow s).save_sector_count = kept.length
      ∧ (save_grow s).save_sector_alloc = (save_grow s).save_sector_map.length
      ∧ kept.length < (save_grow s).save_sector_map.length
      ∧ (save_grow s).save_sector_map.take kept.length = kept.map Prod.fst := by
  obtain ⟨htype, hcount, hmap, halloc, hle, hfile, hpos⟩ := hinv
  by_cases hfull : s.save_sector_count ≥ s.save_sector_alloc
  · have ha : s.save_sector_alloc = kept.length := by omega
    have hmod : (s.save_sector_alloc + 1024) % 2 ^ 32 = kept.length + 1024 := by
      rw [ha]; exact Nat.mod_eq_of_lt hbound
    have hlen : (realloc_ulong s.save_sector_map (kept.length + 1024)).length
        = kept.length + 1024 := by
      simp [realloc_ulong]
    have htake : (realloc_ulong s.save_sector_map (kept.length + 1024)).take kept.length
        = s.save_sector_map.take kept.length := by
      rw [realloc_ulong, List.take_take, Nat.min_eq_left (by omega),
        List.take_append_of_le_length (by omega)]
    rw [save_grow, if_pos hfull]
    simp only [hmod]
    exact ⟨trivial, trivial, hcount, hlen.symm, by omega, by rw [htake, hmap]⟩
  · rw [save_grow, if_neg hfull]
    exact ⟨rfl, rfl, hcount, halloc, by omega, hmap⟩

theorem save_one_sec_inv (s : SaveState) (kept : List (Nat × List Nat)) (src : List Nat)
    (sec : Nat) (hinv : SaveInv s kept) (hbound : kept.length + 1024 < 2 ^ 32) :
    SaveInv (save_one_sec s src sec) (keep_step kept (sec, src.take 512)) := by
  by_cases hmem : sec ∈ kept.map Prod.fst
  · rw [save_one_sec_seen s kept src sec hinv hmem, keep_step, if_pos hmem]
    exact hinv
  · have hseen : ¬ save_seen_loop s sec s.save_sector_count 0 = true :=
      fun h => hmem ((save_seen_iff_mem s kept sec hinv).mp h)
    obtain ⟨gtype, gfile, gcount, galloc, glen, gmap⟩ := save_grow_spec s kept hinv hbound
    obtain ⟨htype, hcount, hmap, halloc, hle, hfile, hpos⟩ := hinv
    rw [save_one_sec, if_neg hseen, keep_step, if_neg hmem]
    refine ⟨by rw [← htype, ← gtype], ?_, ?_, ?_, ?_, ?_, ?_⟩
    · simp only [List.length_append, List.length_singleton, gcount]
      exact Nat.mod_eq_of_lt (by omega)
    · simp only [List.length_append, List.length_singleton, List.map_append, List.map_cons,
        List.map_nil, gcount]
      rw [take_succ_set _ _ _ glen, gmap]
    · simp only [List.length_set, galloc]
    · simp only [List.length_append, List.length_singleton, galloc]
      omega
    · simp only [Stream.fwrite, gfile, hpos, file_write_end, hfile, List.map_append,
        List.map_cons, List.map_nil, List.flatten_append, List.flatten_cons, List.flatten_nil,
        List.append_nil, List.append_assoc]
    · simp only [Stream.fwrite, gfile, hpos, file_write_end, List.length_append]

theorem save_one_sec_take (s : SaveState) (src : List Nat) (sec : Nat) :
    save_one_sec s (src.take 512) sec = save_one_sec s src sec := by
  simp only [save_one_sec, List.take_take, Nat.min_self]

theorem save_sec_eq_foldl : ∀ (count : Nat) (s : SaveState) (src : List Nat) (sec : Nat),
    save_sec s src sec count
      = (sectors_of_call src sec count).foldl (fun s c => save_one_sec s c.2 c.1) s := by
  intro count
  induction count with
  | zero => intro s src sec; rfl
  | succ count ih =>
    intro s src sec
    rw [save_sec, sectors_of_call, List.foldl_cons, ih, save_one_sec_take]

theorem save_run_eq_foldl : ∀ (calls : List SaveCall) (s : SaveState),
    save_run s calls
      = (sectors_of_calls calls).foldl (fun s c => save_one_sec s c.2 c.1) s := by
  intro calls
  induction calls with
  | nil => intro s; rfl
  | cons c calls ih =>
    intro s
    have h := ih (save_sec s c.src c.sec c.count)
    simp only [save_run, sectors_of_calls, List.foldl_cons, List.map_cons, List.flatten_cons,
      List.foldl_append] at h ⊢
    rw [h, save_sec_eq_foldl]

theorem sectors_of_call_length_le : ∀ (count : Nat) (src : List Nat) (sec : Nat),
    ∀ c ∈ sectors_of_call src sec count, c.2.length ≤ 512 := by
  intro count
  induction count with
  | zero => intro src sec c hc; simp [sectors_of_call] at hc
  | succ count ih =>
    intro src sec c hc
    rw [sectors_of_call, List.mem_cons] at hc
    rcases hc with rfl | hc
    · simp
    · exact ih _ _ c hc

theorem sectors_of_call_wf : ∀ (count : Nat) (src : List Nat) (sec : Nat),
    src.length = 512 * count → (∀ b ∈ src, b < 256) → sec < 2 ^ 32 →
    ∀ c ∈ sectors_of_call src sec count,
      c.1 < 2 ^ 32 ∧ c.2.length = 512 ∧ ∀ b ∈ c.2, b < 256 := by
  intro count
  induction count with
  | zero => intro src sec _ _ _ c hc; simp [sectors_of_call] at hc
  | succ count ih =>
    intro src sec hlen hb hsec c hc
    rw [sectors_of_call, List.mem_cons] at hc
    rcases hc with rfl | hc
    · refine ⟨hsec, ?_, ?_⟩
      · simp only [List.length_take]
        omega
      · intro b hb1
        exact hb b (List.mem_of_mem_take hb1)
    · apply ih (src.drop 512) ((sec + 1) % 2 ^ 32) _ _ _ c hc
      · simp only [List.length_drop]
        omega
      · intro b hb1
        exact hb b (List.mem_of_mem_drop hb1)
      · exact Nat.mod_lt _ (by decide)

theorem sectors_of_calls_wf (calls : List SaveCall) (hwf : ∀ c ∈ calls, c.wf) :
    ∀ c ∈ sectors_of_calls calls,
      c.1 < 2 ^ 32 ∧ c.2.length = 512 ∧ ∀ b ∈ c.2, b < 256 := by
  intro c hc
  simp only [sectors_of_calls, List.mem_flatten, List.mem_map] at hc
  obtain ⟨l, ⟨call, hcall, rfl⟩, hc⟩ := hc
  obtain ⟨h1, h2, h3, _⟩ := hwf call hcall
  exact sectors_of_call_wf _ _ _ h1 h2 h3 c hc

theorem sectors_of_calls_length_le (calls : List SaveCall) :
    ∀ c ∈ sectors_of_calls calls, c.2.length ≤ 512 := by
  intro c hc
  simp only [sectors_of_calls, List.mem_flatten, List.mem_map] at hc
  obtain ⟨l, ⟨call, _, rfl⟩, hc⟩ := hc
  exact sectors_of_call_length_le _ _ _ c hc

theorem keep_step_length_le (kept : List (Nat × List Nat)) (c : Nat × List Nat) :
    kept.length ≤ (keep_step kept c).length := by
  rw [keep_step]
  split
  · exact le_refl _
  · simp

theorem keep_foldl_length_le : ∀ (caps kept : List (Nat × List Nat)),
    kept.length ≤ (caps.foldl keep_step kept).length := by
  intro caps
  induction caps with
  | nil => intro kept; exact le_refl _
  | cons c caps ih =>
    intro kept
    rw [List.foldl_cons]
    exact le_trans (keep_step_length_le kept c) (ih _)

theorem save_foldl_inv : ∀ (caps : List (Nat × List Nat)) (s : SaveState)
    (kept : List (Nat × List Nat)), SaveInv s kept →
    (∀ c ∈ caps, c.2.length ≤ 512) →
    (caps.foldl keep_step kept).length + 1024 < 2 ^ 32 →
    SaveInv (caps.foldl (fun s c => save_one_sec s c.2 c.1) s) (caps.foldl keep_step kept) := by
  intro caps
  induction caps with
  | nil => intro s kept hinv _ _; exact hinv
  | cons c caps ih =>
    intro s kept hinv hlen hbound
    rw [List.foldl_cons, List.foldl_cons] at *
    have h1 := keep_foldl_length_le caps (keep_step kept c)
    have h2 := keep_step_length_le kept c
    have hstep := save_one_sec_inv s kept c.2 c.1 hinv (by omega)
    rw [List.take_of_length_le (hlen c (by simp))] at hstep
    exact ih _ _ hstep (fun x hx => hlen x (by simp [hx])) hbound

theorem keep_foldl_eq : ∀ (caps kept : List (Nat × List Nat)),
    caps.foldl keep_step kept
      = kept ++ (first_captures caps).filter (fun x => decide (x.1 ∉ kept.map Prod.fst)) := by
  intro caps
  induction caps with
  | nil => intro kept; simp [first_captures]
  | cons c caps ih =>
    intro kept
    rw [List.foldl_cons, ih, first_captures, keep_step]
    by_cases hmem : c.1 ∈ kept.map Prod.fst
    · rw [if_pos hmem, List.filter_cons_of_neg (by simpa using hmem), List.filter_filter]
      congr 1
      apply List.filter_congr
      intro x _
      by_cases hx : x.1 = c.1
      · simp [hx, hmem]
      · simp [hx]
    · rw [if_neg hmem, List.filter_cons_of_pos (by simpa using hmem), List.filter_filter,
        List.append_assoc]
      congr 1
      rw [List.singleton_append]
      congr 1
      apply List.filter_congr
      intro x _
      by_cases hx : x.1 = c.1
      · simp [hx]
      · simp [hx]

theorem keep_foldl_nil (caps : List (Nat × List Nat)) :
    caps.foldl keep_step [] = first_captures caps := by
  rw [keep_foldl_eq]
  simp

theorem save_create_inv : SaveInv (save_create save_type.SAVE_SNAPSHOT) [] := by
  have hw : ∀ b : List Nat, file_write [] 0 b = b := fun b =>
    (file_write_end [] b).trans (List.nil_append b)
  have hd : (save_create save_type.SAVE_SNAPSHOT).save_file.data = List.replicate 512 0 := by
    simp only [save_create, Stream.fwrite, hw]
  have hp : (save_create save_type.SAVE_SNAPSHOT).save_file.pos = 512 := by
    simp only [save_create, Stream.fwrite, List.length_replicate]
  refine ⟨?_, ?_, ?_, ?_, ?_, ?_, ?_⟩
  · simp only [save_create]
  · simp only [save_create, List.length_nil]
  · simp only [save_create, List.length_nil, List.take_nil, List.map_nil]
  · simp only [save_create, List.length_nil]
  · simp only [save_create, List.length_nil, le_refl]
  · rw [hd, List.map_nil, List.flatten_nil, List.append_nil]
  · rw [hd, hp, List.length_replicate]

theorem save_run_inv (calls : List SaveCall)
    (hbound : (distinct_sectors (sectors_of_calls calls)).length + 1024 < 2 ^ 32) :
    SaveInv (save_run (save_create save_type.SAVE_SNAPSHOT) calls)
      (first_captures (sectors_of_calls calls)) := by
  rw [save_run_eq_foldl, ← keep_foldl_nil]
  apply save_foldl_inv _ _ _ save_create_inv (sectors_of_calls_length_le calls)
  rw [keep_foldl_nil]
  simpa [distinct_sectors] using hbound

/-! ## First captures -/

theorem first_captures_mem_iff : ∀ (caps : List (Nat × List Nat)) (x : Nat × List Nat),
    x ∈ first_captures caps ↔ caps.find? (fun c => decide (c.1 = x.1)) = some x := by
  intro caps
  induction caps with
  | nil => intro x; simp [first_captures]
  | cons c caps ih =>
    intro x
    rw [first_captures, List.mem_cons, List.mem_filter, List.find?_cons]
    by_cases hc : c.1 = x.1
    · simp only [hc, decide_True, Option.some.injEq]
      constructor
      · rintro (h | ⟨_, h⟩)
        · exact h.symm
        · simp at h
      · intro h
        exact Or.inl h.symm
    · simp only [hc, decide_False, ih x]
      constructor
      · rintro (h | ⟨h, _⟩)
        · exact absurd (by rw [h]) hc
        · exact h
      · intro h
        exact Or.inr ⟨h, by simpa using fun e => hc e.symm⟩

theorem first_capture_eq_some_iff (caps : List (Nat × List Nat)) (n : Nat) (data : List Nat) :
    first_capture caps n = some data ↔ (n, data) ∈ first_captures caps := by
  rw [first_captures_mem_iff, first_capture]
  constructor
  · intro h
    rw [Option.map_eq_some'] at h
    obtain ⟨x, hx, hd⟩ := h
    have h1 := List.find?_some hx
    simp only [decide_eq_true_eq] at h1
    rw [hx]
    congr 1
    exact Prod.ext h1 hd
  · intro h
    simp only at h
    rw [h]
    rfl

theorem mem_distinct_sectors_iff : ∀ (caps : List (Nat × List Nat)) (n : Nat),
    n ∈ distinct_sectors caps ↔ n ∈ caps.map Prod.fst := by
  intro caps
  induction caps with
  | nil => intro n; simp [distinct_sectors, first_captures]
  | cons c caps ih =>
    intro n
    have ih' := ih n
    simp only [distinct_sectors, first_captures, List.map_cons, List.mem_cons, List.mem_map,
      List.mem_filter] at ih' ⊢
    constructor
    · rintro (h | ⟨x, ⟨hx, _⟩, rfl⟩)
      · exact Or.inl h
      · exact Or.inr (ih'.mp ⟨x, hx, rfl⟩)
    · rintro (h | h)
      · exact Or.inl h
      · by_cases hn : n = c.1
        · exact Or.inl hn
        · obtain ⟨x, hx, rfl⟩ := ih'.mpr h
          exact Or.inr ⟨x, ⟨hx, by simpa using hn⟩, rfl⟩

theorem distinct_sectors_nodup : ∀ (caps : List (Nat × List Nat)),
    (distinct_sectors caps).Nodup := by
  intro caps
  induction caps with
  | nil => simp [distinct_sectors, first_captures]
  | cons c caps ih =>
    simp only [distinct_sectors, first_captures, List.map_cons, List.nodup_cons, List.mem_map,
      List.mem_filter] at ih ⊢
    constructor
    · rintro ⟨x, ⟨_, hx⟩, h⟩
      simp at hx
      exact hx h
    · exact List.Nodup.sublist ((List.filter_sublist _).map Prod.fst) ih

theorem distinct_sectors_length (caps : List (Nat × List Nat)) :
    (distinct_sectors caps).length = (caps.map Prod.fst).toFinset.card := by
  rw [← List.toFinset_card_of_nodup (distinct_sectors_nodup caps)]
  congr 1
  ext n
  simp only [List.mem_toFinset]
  exact mem_distinct_sectors_iff caps n

theorem first_capture_eq_none_iff (caps : List (Nat × List Nat)) (n : Nat) :
    first_capture caps n = none ↔ n ∉ distinct_sectors caps := by
  rw [mem_distinct_sectors_iff, first_capture, Option.map_eq_none', List.find?_eq_none]
  simp only [decide_eq_true_eq, List.mem_map, not_exists, not_and]

/-! ## Sector records and the stored map -/

theorem flatten_length_const : ∀ (L : List (List Nat)) (w : Nat),
    (∀ l ∈ L, l.length = w) → L.flatten.length = w * L.length := by
  intro L
  induction L with
  | nil => intro w _; simp
  | cons l L ih =>
    intro w h
    rw [List.flatten_cons, List.length_append, ih w (fun x hx => h x (by simp [hx])),
      h l (by simp), List.length_cons]
    ring

theorem flatten_read_chunk : ∀ (L : List (List Nat)) (w : Nat),
    (∀ l ∈ L, l.length = w) → ∀ (i : Nat) (l : List Nat), L[i]? = some l →
      file_read L.flatten (w * i) w = l := by
  intro L
  induction L with
  | nil => intro w _ i l h; simp at h
  | cons l0 L ih =>
    intro w h i l hi
    have h0 : l0.length = w := h l0 (by simp)
    cases i with
    | zero =>
      simp only [List.getElem?_cons_zero, Option.some.injEq] at hi
      subst hi
      rw [List.flatten_cons, Nat.mul_zero]
      exact file_read_append_left _ _ _ h0.symm
    | succ i =>
      simp only [List.getElem?_cons_succ] at hi
      have e : w * (i + 1) = l0.length + w * i := by rw [h0]; ring
      rw [List.flatten_cons, e, file_read_append_right]
      exact ih w (fun x hx => h x (by simp [hx])) i l hi

theorem load_map_bytes : ∀ (ns : List Nat) (rest : List Nat), (∀ n ∈ ns, n < 2 ^ 32) →
    load_map ns.length ((ns.map ulong_to_bytes).flatten ++ rest) = ns := by
  intro ns
  induction ns with
  | nil => intro rest _; rfl
  | cons n ns ih =>
    intro rest h
    have e1 : List.take 4 ((List.map ulong_to_bytes (n :: ns)).flatten ++ rest)
        = ulong_to_bytes n := by
      simp [ulong_to_bytes]
    have e2 : List.drop 4 ((List.map ulong_to_bytes (n :: ns)).flatten ++ rest)
        = (List.map ulong_to_bytes ns).flatten ++ rest := by
      simp [ulong_to_bytes]
    rw [List.length_cons, load_map, e1, e2, ulong_from_to_bytes n (h n (by simp)),
      ih rest (fun x hx => h x (by simp [hx]))]

theorem snapshot_header_length (c p : Nat) : (snapshot_header c p).length = 512 := by
  simp only [snapshot_header, List.length_append, ulong_to_bytes_length, List.length_replicate]

theorem file_write_zero (h0 h1 rest : List Nat) (hlen : h0.length = h1.length) :
    file_write (h0 ++ rest) 0 h1 = h1 ++ rest := by
  rw [file_write, List.take_zero, Nat.zero_sub, List.replicate_zero, List.nil_append,
    List.nil_append, Nat.zero_add, ← hlen, List.drop_left]

theorem records_length (kept : List (Nat × List Nat)) (hlen : ∀ c ∈ kept, c.2.length = 512) :
    (kept.map (fun c => scramble c.2)).flatten.length = 512 * kept.length := by
  rw [flatten_length_const _ 512, List.length_map]
  intro l hl
  rw [List.mem_map] at hl
  obtain ⟨c, hc, rfl⟩ := hl
  rw [scramble_length _ (by rw [hlen c hc]; omega), hlen c hc]

theorem map_bytes_length (ns : List Nat) :
    (ns.map ulong_to_bytes).flatten.length = 4 * ns.length := by
  rw [flatten_length_const _ 4, List.length_map]
  intro l hl
  rw [List.mem_map] at hl
  obtain ⟨c, _, rfl⟩ := hl
  rfl

theorem save_close_eq (s : SaveState) (kept : List (Nat × List Nat)) (hinv : SaveInv s kept)
    (hlen : ∀ c ∈ kept, c.2.length = 512) :
    save_close s
      = snapshot_header kept.length (512 + 512 * kept.length)
          ++ ((kept.map (fun c => scramble c.2)).flatten
              ++ ((kept.map Prod.fst).map ulong_to_bytes).flatten) := by
  obtain ⟨htype, hcount, hmap, _, _, hfile, hpos⟩ := hinv
  have hdl : s.save_file.data.length = 512 + 512 * kept.length := by
    rw [hfile, List.length_append, List.length_replicate, records_length kept hlen]
  have hz : (List.replicate 512 0).length
      = (snapshot_header kept.length (512 + 512 * kept.length)).length := by
    rw [snapshot_header_length, List.length_replicate]
  have hw : ∀ x : List Nat, file_write s.save_file.data s.save_file.pos x
      = s.save_file.data ++ x := by
    intro x
    rw [hpos]
    exact file_write_end _ _
  have hp : s.save_file.pos = 512 + 512 * kept.length := by rw [hpos, hdl]
  rw [save_close, htype]
  simp only [Stream.fwrite, Stream.fseek, Stream.ftell, ulongs_to_bytes, hcount, hmap, hw]
  rw [hp, hfile, List.append_assoc, file_write_zero _ _ _ hz]

theorem save_close_run (calls : List SaveCall) (hwf : ∀ c ∈ calls, c.wf)
    (hbound : (distinct_sectors (sectors_of_calls calls)).length + 1024 < 2 ^ 32) :
    save_close (save_run (save_create save_type.SAVE_SNAPSHOT) calls)
      = snapshot_header (distinct_sectors (sectors_of_calls calls)).length
            (512 + 512 * (distinct_sectors (sectors_of_calls calls)).length)
          ++ (((first_captures (sectors_of_calls calls)).map (fun c => scramble c.2)).flatten
              ++ ((distinct_sectors (sectors_of_calls calls)).map ulong_to_bytes).flatten) := by
  have hinv := save_run_inv calls hbound
  have hlen : ∀ c ∈ first_captures (sectors_of_calls calls), c.2.length = 512 := by
    intro c hc
    have := List.find?_some ((first_captures_mem_iff _ c).mp hc)
    have hm := List.mem_of_find?_eq_some ((first_captures_mem_iff _ c).mp hc)
    exact (sectors_of_calls_wf calls hwf c hm).2.1
  rw [save_close_eq _ _ hinv hlen]
  simp only [distinct_sectors, List.length_map]

/-! ## Opening a snapshot file -/

theorem drop_ulong (a : Nat) (b : List Nat) : (ulong_to_bytes a ++ b).drop 4 = b := by
  simp [ulong_to_bytes]

theorem snapshot_header_magic (c p : Nat) (rest : List Nat) :
    ulong_from_bytes (snapshot_header c p ++ rest) = SNAPSHOT_MAGIC := by
  simp only [snapshot_header, List.append_assoc]
  rw [ulong_from_bytes_append]
  decide

theorem snapshot_header_count (c p : Nat) (hc : c < 2 ^ 32) :
    ulong_from_bytes ((snapshot_header c p).drop 4) = c := by
  simp only [snapshot_header, List.append_assoc]
  rw [drop_ulong, ulong_from_bytes_append, ulong_from_to_bytes c hc]

theorem snapshot_header_map_pos (c p : Nat) (hp : p < 2 ^ 32) :
    ulong_from_bytes ((snapshot_header c p).drop 8) = p := by
  have e : (snapshot_header c p).drop 8 = ((snapshot_header c p).drop 4).drop 4 := by
    rw [List.drop_drop]
  rw [e]
  simp only [snapshot_header, List.append_assoc]
  rw [drop_ulong, drop_ulong, ulong_from_bytes_append, ulong_from_to_bytes p hp]

theorem snapshot_header_version (c p : Nat) :
    ulong_from_bytes ((snapshot_header c p).drop 12) = 1 := by
  have e : (snapshot_header c p).drop 12 = (((snapshot_header c p).drop 4).drop 4).drop 4 := by
    rw [List.drop_drop, List.drop_drop]
  rw [e]
  simp only [snapshot_header, List.append_assoc]
  rw [drop_ulong, drop_ulong, drop_ulong, ulong_from_bytes_append]
  decide

theorem file_read_all (a : List Nat) (len : Nat) (h : a.length ≤ len) :
    file_read a 0 len = a := by
  simp [file_read, List.take_of_length_le h]

theorem file_read_append_inside (a b : List Nat) (q len : Nat) (h : q + len ≤ a.length) :
    file_read (a ++ b) q len = file_read a q len := by
  apply List.ext_getElem?
  intro i
  rw [file_read_getElem?, file_read_getElem?]
  by_cases hi : i < len
  · rw [if_pos hi, if_pos hi, List.getElem?_append_left (by omega)]
  · rw [if_neg hi, if_neg hi]

theorem file_read_third (a b c : List Nat) (p len : Nat) (hp : p = a.length + b.length)
    (hlen : c.length ≤ len) : file_read (a ++ (b ++ c)) p len = c := by
  have e : p = a.length + (b.length + 0) := by omega
  rw [e, file_read_append_right, file_read_append_right]
  exact file_read_all _ _ hlen

theorem diskio_open_layout (k : Nat) (recs ns : List Nat) (hk : ns.length = k)
    (hrecs : recs.length = 512 * k) (hns : ∀ n ∈ ns, n < 2 ^ 32)
    (hsize : 512 + 512 * k < 2 ^ 32) (hbytes : k * 4 < 2 ^ 32) :
    diskio_open false
        (snapshot_header k (512 + 512 * k) ++ (recs ++ (ns.map ulong_to_bytes).flatten))
        DIO_SNAPSHOT false
      = some (snapshot_init
          (snapshot_header k (512 + 512 * k) ++ (recs ++ (ns.map ulong_to_bytes).flatten))
          k 1 ns) := by
  have hhdr : file_read
      (snapshot_header k (512 + 512 * k) ++ (recs ++ (ns.map ulong_to_bytes).flatten)) 0 512
      = snapshot_header k (512 + 512 * k) :=
    file_read_append_left _ _ _ (snapshot_header_length _ _).symm
  have hmagic : ulong_from_bytes (snapshot_header k (512 + 512 * k)) = SNAPSHOT_MAGIC := by
    have := snapshot_header_magic k (512 + 512 * k) []
    rwa [List.append_nil] at this
  have hmap : file_read
      (snapshot_header k (512 + 512 * k) ++ (recs ++ (ns.map ulong_to_bytes).flatten))
      (512 + 512 * k) (k * 4) = (ns.map ulong_to_bytes).flatten :=
    file_read_third _ _ _ _ _ (by rw [snapshot_header_length, hrecs])
      (by rw [map_bytes_length, hk]; omega)
  have hflags1 : ¬ (DIO_SNAPSHOT &&& (DIO_SNAPSHOT ||| DIO_CRC) = 0) := by decide
  have hflags2 : DIO_SNAPSHOT &&& DIO_SNAPSHOT ≠ 0 := by decide
  have hlm : load_map k (ns.map ulong_to_bytes).flatten = ns := by
    have := load_map_bytes ns [] hns
    rwa [List.append_nil, hk] at this
  have hk32 : k < 2 ^ 32 := by omega
  simp only [diskio_open, Bool.not_false, Bool.and_false, Bool.false_and, Bool.false_eq_true,
    if_false, hflags1, hhdr, hmagic, snapshot_header_length, ne_eq, not_true_eq_false,
    hflags2, not_false_eq_true, and_self, true_or, false_or, if_true,
    snapshot_header_version, snapshot_header_count k _ hk32,
    snapshot_header_map_pos k _ hsize, Nat.mod_eq_of_lt hbytes, hmap, map_bytes_length, hk,
    Nat.mul_comm 4 k]
  have hb : k * 4 < 4294967296 := by omega
  simp [hlm, hb]

/-! ## Reading a snapshot -/

theorem snapshot_init_hf (hf : List Nat) (c v : Nat) (m : List Nat) :
    (snapshot_init hf c v m).hf = hf := rfl

theorem snapshot_init_version (hf : List Nat) (c v : Nat) (m : List Nat) :
    (snapshot_init hf c v m).version = v := rfl

theorem snapshot_init_sector_count (hf : List Nat) (c v : Nat) (m : List Nat) :
    (snapshot_init hf c v m).sector_count = c := rfl

theorem snapshot_init_sector_map (hf : List Nat) (c v : Nat) (m : List Nat) :
    (snapshot_init hf c v m).sector_map = m := rfl

theorem find_sec_in_snapshot_init (hf : List Nat) (version : Nat) (map : List Nat) (n : Nat)
    (hcount : map.length < 2 ^ 32) :
    find_sec_in_snapshot (snapshot_init hf map.length version map) n
      = some (last_index map n map.length) :=
  find_sec_fuel_init hf version map n hcount _ (le_refl _)

theorem read_sec_one (d : diskio_snapshot) (n j : Nat) (p : List Nat)
    (hfind : find_sec_in_snapshot d n = some j) (hj : j ≠ 0)
    (hread : read_sec_hfile d.hf false j 1 = some p) :
    read_sec d n 1 = some (if d.version ≥ 1 then scramble p else p) := by
  simp only [read_sec, read_sec_loop, hfind, if_neg hj, hread, List.append_nil]

theorem read_sec_one_absent (d : diskio_snapshot) (n : Nat)
    (hfind : find_sec_in_snapshot d n = some 0) : read_sec d n 1 = none := by
  simp only [read_sec, read_sec_loop, hfind, if_true]

theorem record_read (kept : List (Nat × List Nat)) (hdr tail : List Nat)
    (hhdr : hdr.length = 512) (hlen : ∀ c ∈ kept, c.2.length = 512)
    (j : Nat) (c : Nat × List Nat) (hc : kept[j]? = some c) :
    file_read (hdr ++ ((kept.map (fun c => scramble c.2)).flatten ++ tail)) ((j + 1) * 512) 512
      = scramble c.2 := by
  have hj : j < kept.length := (List.getElem?_eq_some.mp hc).1
  have e : (j + 1) * 512 = hdr.length + 512 * j := by rw [hhdr]; ring
  rw [e, file_read_append_right,
    file_read_append_inside _ _ _ _ (by rw [records_length kept hlen]; omega)]
  apply flatten_read_chunk _ 512
  · intro l hl
    rw [List.mem_map] at hl
    obtain ⟨x, hx, rfl⟩ := hl
    rw [scramble_length _ (by rw [hlen x hx]; omega), hlen x hx]
  · rw [List.getElem?_map, hc]
    rfl

theorem read_sec_layout (kept : List (Nat × List Nat)) (hdr tail : List Nat)
    (hhdr : hdr.length = 512)
    (hkept : ∀ c ∈ kept, c.1 < 2 ^ 32 ∧ c.2.length = 512 ∧ ∀ b ∈ c.2, b < 256)
    (hsize : 512 + 512 * kept.length < 2 ^ 32) (n : Nat) :
    read_sec (snapshot_init (hdr ++ ((kept.map (fun c => scramble c.2)).flatten ++ tail))
        (kept.map Prod.fst).length 1 (kept.map Prod.fst)) n 1
      = match last_index (kept.map Prod.fst) n (kept.map Prod.fst).length with
        | 0 => none
        | j + 1 => (kept[j]?).map Prod.snd := by
  have hfind := find_sec_in_snapshot_init
    (hdr ++ ((kept.map (fun c => scramble c.2)).flatten ++ tail)) 1 (kept.map Prod.fst) n
    (by rw [List.length_map]; omega)
  have hle := last_index_le (kept.map Prod.fst) n (kept.map Prod.fst).length
  cases hl : last_index (kept.map Prod.fst) n (kept.map Prod.fst).length with
  | zero =>
    rw [hl] at hfind
    exact read_sec_one_absent _ n hfind
  | succ j =>
    rw [hl] at hfind hle
    rw [List.length_map] at hle
    have hj : j < kept.length := by omega
    have hc : kept[j]? = some kept[j] := List.getElem?_eq_getElem hj
    have hw := hkept kept[j] (List.getElem_mem hj)
    have hrec := record_read kept hdr tail hhdr (fun c hc => (hkept c hc).2.1) j _ hc
    have hread : read_sec_hfile (snapshot_init
        (hdr ++ ((kept.map (fun c => scramble c.2)).flatten ++ tail))
        (kept.map Prod.fst).length 1 (kept.map Prod.fst)).hf false (j + 1) 1
        = some (scramble kept[j].2) := by
      rw [snapshot_init_hf, read_sec_hfile_eq _ _ (by omega), hrec,
        if_neg (by rw [scramble_length _ (by omega), hw.2.1]; simp)]
    rw [read_sec_one _ n (j + 1) _ hfind (by omega) hread, snapshot_init_version,
      if_pos (le_refl _), scramble_scramble _ (by omega)
        (fun x hx => hw.2.2 x (List.mem_of_mem_take hx))]
    simp only [hc, Option.map_some']

/-! ## Snapshot round trip, deduplication, file layout -/

theorem read_sec_first_capture (caps : List (Nat × List Nat)) (hdr tail : List Nat)
    (hhdr : hdr.length = 512)
    (hcaps : ∀ c ∈ caps, c.1 < 2 ^ 32 ∧ c.2.length = 512 ∧ ∀ b ∈ c.2, b < 256)
    (hsize : 512 + 512 * (distinct_sectors caps).length < 2 ^ 32) (n : Nat) :
    read_sec (snapshot_init
        (hdr ++ (((first_captures caps).map (fun c => scramble c.2)).flatten ++ tail))
        (distinct_sectors caps).length 1 (distinct_sectors caps)) n 1
      = first_capture caps n := by
  have hkept : ∀ c ∈ first_captures caps,
      c.1 < 2 ^ 32 ∧ c.2.length = 512 ∧ ∀ b ∈ c.2, b < 256 := by
    intro c hc
    exact hcaps c (List.mem_of_find?_eq_some ((first_captures_mem_iff _ c).mp hc))
  have h := read_sec_layout (first_captures caps) hdr tail hhdr hkept
    (by simpa [distinct_sectors] using hsize) n
  simp only [distinct_sectors] at h ⊢
  rw [h]
  cases hl : last_index ((first_captures caps).map Prod.fst) n
      ((first_captures caps).map Prod.fst).length with
  | zero =>
    have hn : n ∉ distinct_sectors caps := by
      intro hmem
      exact (last_index_length_ne_zero_iff _ n).mpr hmem hl
    exact ((first_capture_eq_none_iff caps n).mpr hn).symm
  | succ j =>
    have hle := last_index_le ((first_captures caps).map Prod.fst) n
      ((first_captures caps).map Prod.fst).length
    have hget := last_index_get ((first_captures caps).map Prod.fst) n
      ((first_captures caps).map Prod.fst).length (by rw [hl]; omega)
    rw [hl] at hle hget
    rw [List.length_map] at hle
    have hj : j < (first_captures caps).length := by omega
    simp only [Nat.add_sub_cancel] at hget
    rw [List.getD_eq_getElem _ _ (by rw [List.length_map]; exact hj), List.getElem_map] at hget
    have hmem : (n, (first_captures caps)[j].2) ∈ first_captures caps := by
      rw [← hget]
      exact List.getElem_mem hj
    simp only [List.getElem?_eq_getElem hj, Option.map_some']
    exact ((first_capture_eq_some_iff caps n _).mpr hmem).symm

/-- C5: after any sequence of `save_sec` captures and `save_close`, the written
file opens with `diskio_open`, and `read_sec` of one sector returns the 512
bytes of the (first) capture of that sector number and fails for every sector
number that was not captured. -/
theorem snapshot_round_trip (calls : List SaveCall) (hwf : ∀ c ∈ calls, c.wf)
    (hsize : 512 + 516 * (distinct_sectors (sectors_of_calls calls)).length < 2 ^ 31) :
    ∃ d, diskio_open false
          (save_close (save_run (save_create save_type.SAVE_SNAPSHOT) calls)) DIO_SNAPSHOT false
          = some d
      ∧ (∀ n, read_sec d n 1 = first_capture (sectors_of_calls calls) n)
      ∧ (∀ n, n ∈ (sectors_of_calls calls).map Prod.fst →
          ∃ data, read_sec d n 1 = some data ∧ data.length = 512
            ∧ first_capture (sectors_of_calls calls) n = some data)
      ∧ (∀ n, n ∉ (sectors_of_calls calls).map Prod.fst → read_sec d n 1 = none) := by
  have hcaps := sectors_of_calls_wf calls hwf
  have hlenk : ∀ c ∈ first_captures (sectors_of_calls calls), c.2.length = 512 := by
    intro c hc
    exact (hcaps c (List.mem_of_find?_eq_some ((first_captures_mem_iff _ c).mp hc))).2.1
  have hopen := diskio_open_layout (distinct_sectors (sectors_of_calls calls)).length
    (((first_captures (sectors_of_calls calls)).map (fun c => scramble c.2)).flatten)
    (distinct_sectors (sectors_of_calls calls)) rfl
    (by rw [records_length _ hlenk]; simp [distinct_sectors])
    (by
      intro n hn
      simp only [distinct_sectors, List.mem_map] at hn
      obtain ⟨c, hc, rfl⟩ := hn
      exact (hcaps c (List.mem_of_find?_eq_some ((first_captures_mem_iff _ c).mp hc))).1)
    (by omega) (by omega)
  have hread : ∀ n, read_sec (snapshot_init
      (snapshot_header (distinct_sectors (sectors_of_calls calls)).length
          (512 + 512 * (distinct_sectors (sectors_of_calls calls)).length)
        ++ (((first_captures (sectors_of_calls calls)).map (fun c => scramble c.2)).flatten
          ++ ((distinct_sectors (sectors_of_calls calls)).map ulong_to_bytes).flatten))
      (distinct_sectors (sectors_of_calls calls)).length 1
      (distinct_sectors (sectors_of_calls calls))) n 1
      = first_capture (sectors_of_calls calls) n :=
    fun n => read_sec_first_capture _ _ _ (snapshot_header_length _ _) hcaps (by omega) n
  rw [save_close_run calls hwf (by omega)]
  refine ⟨_, hopen, hread, ?_, ?_⟩
  · intro n hn
    have hmem := (mem_distinct_sectors_iff _ n).mpr hn
    simp only [distinct_sectors, List.mem_map] at hmem
    obtain ⟨c, hc, rfl⟩ := hmem
    refine ⟨c.2, ?_, hlenk c hc, ?_⟩
    · rw [hread]
      exact (first_capture_eq_some_iff _ _ _).mpr hc
    · exact (first_capture_eq_some_iff _ _ _).mpr hc
  · intro n hn
    rw [hread]
    exact (first_capture_eq_none_iff _ n).mpr
      (fun h => hn ((mem_distinct_sectors_iff _ n).mp h))

theorem sample_calls_wf : ∀ c ∈ sample_calls, c.wf := by
  decide!

theorem sample_calls_size :
    512 + 516 * (distinct_sectors (sectors_of_calls sample_calls)).length < 2 ^ 31 := by
  decide!

theorem snapshot_round_trip_witness :
    (∀ c ∈ sample_calls, c.wf)
      ∧ 512 + 516 * (distinct_sectors (sectors_of_calls sample_calls)).length < 2 ^ 31
      ∧ ∃ d, diskio_open false
          (save_close (save_run (save_create save_type.SAVE_SNAPSHOT) sample_calls))
          DIO_SNAPSHOT false = some d
        ∧ (∀ n, read_sec d n 1 = first_capture (sectors_of_calls sample_calls) n)
        ∧ (∀ n, n ∈ (sectors_of_calls sample_calls).map Prod.fst →
            ∃ data, read_sec d n 1 = some data ∧ data.length = 512
              ∧ first_capture (sectors_of_calls sample_calls) n = some data)
        ∧ (∀ n, n ∉ (sectors_of_calls sample_calls).map Prod.fst → read_sec d n 1 = none) :=
  ⟨sample_calls_wf, sample_calls_size,
    snapshot_round_trip sample_calls sample_calls_wf sample_calls_size⟩

theorem record_in_save_file (s : SaveState) (kept : List (Nat × List Nat))
    (hinv : SaveInv s kept) (hlen : ∀ c ∈ kept, c.2.length = 512)
    (i : Nat) (c : Nat × List Nat) (hc : kept[i]? = some c) :
    file_read s.save_file.data (512 + 512 * i) 512 = scramble c.2 := by
  obtain ⟨_, _, _, _, _, hfile, _⟩ := hinv
  have h := record_read kept (List.replicate 512 0) [] (List.length_replicate 512 0) hlen i c hc
  rw [List.append_nil] at h
  rw [hfile, ← h]
  congr 1
  ring

/-- C6: after any sequence of `save_sec` calls the used part of
`save_sector_map` has no sector number twice and holds exactly the captured
sector numbers, `save_sector_count` is the number of distinct sector numbers
captured, record `i` of the save file is the (scrambled) data of the first
capture of `save_sector_map[i]`, and capturing an already captured sector number
again changes nothing. -/
theorem capture_deduplication (calls : List SaveCall) (hwf : ∀ c ∈ calls, c.wf)
    (hbound : (distinct_sectors (sectors_of_calls calls)).length + 1024 < 2 ^ 32) :
    ((save_run (save_create save_type.SAVE_SNAPSHOT) calls).save_sector_map.take
        (save_run (save_create save_type.SAVE_SNAPSHOT) calls).save_sector_count).Nodup
      ∧ (∀ n, n ∈ (save_run (save_create save_type.SAVE_SNAPSHOT) calls).save_sector_map.take
            (save_run (save_create save_type.SAVE_SNAPSHOT) calls).save_sector_count
          ↔ n ∈ (sectors_of_calls calls).map Prod.fst)
      ∧ (save_run (save_create save_type.SAVE_SNAPSHOT) calls).save_sector_count
          = ((sectors_of_calls calls).map Prod.fst).toFinset.card
      ∧ (∀ i, i < (save_run (save_create save_type.SAVE_SNAPSHOT) calls).save_sector_count →
          ∃ data, first_capture (sectors_of_calls calls)
                ((save_run (save_create save_type.SAVE_SNAPSHOT) calls).save_sector_map.getD i 0)
              = some data
            ∧ file_read (save_run (save_create save_type.SAVE_SNAPSHOT) calls).save_file.data
                (512 + 512 * i) 512 = scramble data)
      ∧ (∀ src sec, sec ∈ (sectors_of_calls calls).map Prod.fst →
          save_one_sec (save_run (save_create save_type.SAVE_SNAPSHOT) calls) src sec
            = save_run (save_create save_type.SAVE_SNAPSHOT) calls) := by
  have hinv := save_run_inv calls hbound
  have hcaps := sectors_of_calls_wf calls hwf
  have hlenk : ∀ c ∈ first_captures (sectors_of_calls calls), c.2.length = 512 := by
    intro c hc
    exact (hcaps c (List.mem_of_find?_eq_some ((first_captures_mem_iff _ c).mp hc))).2.1
  obtain ⟨_, hcount, hmap, halloc, hle, _, _⟩ := id hinv
  have hused : (save_run (save_create save_type.SAVE_SNAPSHOT) calls).save_sector_map.take
      (save_run (save_create save_type.SAVE_SNAPSHOT) calls).save_sector_count
      = distinct_sectors (sectors_of_calls calls) := by
    rw [hcount, hmap]
    rfl
  refine ⟨?_, ?_, ?_, ?_, ?_⟩
  · rw [hused]
    exact distinct_sectors_nodup _
  · intro n
    rw [hused]
    exact mem_distinct_sectors_iff _ n
  · rw [hcount, ← distinct_sectors_length]
    simp [distinct_sectors]
  · intro i hi
    rw [hcount] at hi
    have hc : (first_captures (sectors_of_calls calls))[i]?
        = some (first_captures (sectors_of_calls calls))[i] := List.getElem?_eq_getElem hi
    have hg : (save_run (save_create save_type.SAVE_SNAPSHOT) calls).save_sector_map.getD i 0
        = (first_captures (sectors_of_calls calls))[i].1 := by
      have h1 : (List.take (first_captures (sectors_of_calls calls)).length
          (save_run (save_create save_type.SAVE_SNAPSHOT) calls).save_sector_map)[i]?
          = some (first_captures (sectors_of_calls calls))[i].1 := by
        rw [hmap, List.getElem?_map, hc]
        rfl
      rw [List.getElem?_take, if_pos hi] at h1
      rw [List.getD_eq_getElem?_getD, h1]
      rfl
    refine ⟨(first_captures (sectors_of_calls calls))[i].2, ?_, ?_⟩
    · rw [hg]
      exact (first_capture_eq_some_iff _ _ _).mpr (List.getElem_mem hi)
    · exact record_in_save_file _ _ hinv hlenk i _ hc
  · intro src sec hsec
    apply save_one_sec_seen _ _ src sec hinv
    exact (mem_distinct_sectors_iff _ sec).mpr hsec

theorem capture_deduplication_witness :
    (∀ c ∈ sample_calls, c.wf)
      ∧ (distinct_sectors (sectors_of_calls sample_calls)).length + 1024 < 2 ^ 32
      ∧ ((save_run (save_create save_type.SAVE_SNAPSHOT) sample_calls).save_sector_map.take
          (save_run (save_create save_type.SAVE_SNAPSHOT) sample_calls).save_sector_count).Nodup
      ∧ (save_run (save_create save_type.SAVE_SNAPSHOT) sample_calls).save_sector_count
          = ((sectors_of_calls sample_calls).map Prod.fst).toFinset.card := by
  have hbound : (distinct_sectors (sectors_of_calls sample_calls)).length + 1024 < 2 ^ 32 := by
    have := sample_calls_size
    omega
  exact ⟨sample_calls_wf, hbound,
    (capture_deduplication sample_calls sample_calls_wf hbound).1,
    (capture_deduplication sample_calls sample_calls_wf hbound).2.2.1⟩

theorem snapshot_header_fields (c p : Nat) (rest : List Nat) :
    file_read (snapshot_header c p ++ rest) 0 4 = [0x03, 0x48, 0x97, 0xaf]
      ∧ file_read (snapshot_header c p ++ rest) 4 4 = ulong_to_bytes c
      ∧ file_read (snapshot_header c p ++ rest) 8 4 = ulong_to_bytes p
      ∧ file_read (snapshot_header c p ++ rest) 12 4 = [1, 0, 0, 0]
      ∧ file_read (snapshot_header c p ++ rest) 16 496 = List.replicate 496 0 := by
  have e : snapshot_header c p ++ rest
      = ulong_to_bytes SNAPSHOT_MAGIC ++ (ulong_to_bytes c ++ (ulong_to_bytes p
          ++ (ulong_to_bytes 1 ++ (List.replicate 496 0 ++ rest)))) := by
    simp only [snapshot_header, List.append_assoc]
  have r : ∀ (a : Nat) (l : List Nat), file_read (ulong_to_bytes a ++ l) 0 4 = ulong_to_bytes a :=
    fun a l => file_read_append_left _ _ _ rfl
  have sh : ∀ (a : Nat) (l : List Nat) (q len : Nat),
      file_read (ulong_to_bytes a ++ l) (4 + q) len = file_read l q len :=
    fun a l q len => file_read_append_right (ulong_to_bytes a) l q len
  rw [e]
  refine ⟨?_, ?_, ?_, ?_, ?_⟩
  · rw [r]; decide
  · rw [sh _ _ 0, r]
  · rw [sh _ _ 4, sh _ _ 0, r]
  · rw [sh _ _ 8, sh _ _ 4, sh _ _ 0, r]; decide
  · rw [sh _ _ 12, sh _ _ 8, sh _ _ 4, sh _ _ 0]
    exact file_read_append_left _ _ _ (List.length_replicate 496 0).symm

theorem scramble_word (data : List Nat) (hlen : 4 ≤ data.length) (hb : ∀ b ∈ data, b < 256) :
    ulong_from_bytes (scramble data) = ulong_from_bytes data ^^^ SNAPSHOT_SCRAMBLE
      ∧ (scramble data).drop 4 = data.drop 4 := by
  match data, hlen with
  | b0 :: b1 :: b2 :: b3 :: rest, _ =>
    have hw : ulong_from_bytes [b0, b1, b2, b3] < 2 ^ 32 := by
      apply ulong_from_bytes_lt
      intro x hx
      exact hb x (by
        simp only [List.mem_cons, List.mem_singleton, List.not_mem_nil, or_false] at hx ⊢
        tauto)
    have hk : SNAPSHOT_SCRAMBLE < 2 ^ 32 := by decide
    have e1 : scramble (b0 :: b1 :: b2 :: b3 :: rest)
        = ulong_to_bytes (ulong_from_bytes [b0, b1, b2, b3] ^^^ SNAPSHOT_SCRAMBLE) ++ rest := by
      simp [scramble]
    have e2 : ulong_from_bytes (b0 :: b1 :: b2 :: b3 :: rest) = ulong_from_bytes [b0, b1, b2, b3] := by
      simp [ulong_from_bytes]
    rw [e1, e2, ulong_from_bytes_append, ulong_from_to_bytes _ (Nat.xor_lt_two_pow hw hk),
      drop_ulong]
    exact ⟨rfl, by simp⟩

theorem map_entry_read (ns : List Nat) (a b : List Nat) (p i n : Nat)
    (hp : p = a.length + b.length) (hi : ns[i]? = some n) :
    file_read (a ++ (b ++ (ns.map ulong_to_bytes).flatten)) (p + 4 * i) 4 = ulong_to_bytes n := by
  have e : p + 4 * i = a.length + (b.length + 4 * i) := by omega
  rw [e, file_read_append_right, file_read_append_right]
  apply flatten_read_chunk _ 4
  · intro l hl
    rw [List.mem_map] at hl
    obtain ⟨x, _, rfl⟩ := hl
    rfl
  · rw [List.getElem?_map, hi]
    rfl

/-- C7: after `save_close` a snapshot of `k` distinct sectors is `512 + 512*k +
4*k` bytes long; its header holds the magic `03 48 97 af`, `sector_count = k`,
`map_pos = 512 + 512*k`, `version = 1` and zero bytes otherwise; record `i` at
offset `512 + 512*i` is the `i`-th captured sector with its first 32-bit word
XORed with `0x551234af`; and entry `i` of the map at `map_pos` is the number of
that sector, in capture order. -/
theorem snapshot_file_layout (calls : List SaveCall) (hwf : ∀ c ∈ calls, c.wf)
    (hsize : 512 + 516 * (distinct_sectors (sectors_of_calls calls)).length < 2 ^ 31) :
    (save_close (save_run (save_create save_type.SAVE_SNAPSHOT) calls)).length
        = 512 + 512 * (distinct_sectors (sectors_of_calls calls)).length
          + 4 * (distinct_sectors (sectors_of_calls calls)).length
      ∧ file_read (save_close (save_run (save_create save_type.SAVE_SNAPSHOT) calls)) 0 4
          = [0x03, 0x48, 0x97, 0xaf]
      ∧ ulong_from_bytes
            (file_read (save_close (save_run (save_create save_type.SAVE_SNAPSHOT) calls)) 4 4)
          = (distinct_sectors (sectors_of_calls calls)).length
      ∧ ulong_from_bytes
            (file_read (save_close (save_run (save_create save_type.SAVE_SNAPSHOT) calls)) 8 4)
          = 512 + 512 * (distinct_sectors (sectors_of_calls calls)).length
      ∧ file_read (save_close (save_run (save_create save_type.SAVE_SNAPSHOT) calls)) 12 4
          = [1, 0, 0, 0]
      ∧ file_read (save_close (save_run (save_create save_type.SAVE_SNAPSHOT) calls)) 16 496
          = List.replicate 496 0
      ∧ ∀ i, i < (distinct_sectors (sectors_of_calls calls)).length →
          ∃ n data, (distinct_sectors (sectors_of_calls calls))[i]? = some n
            ∧ first_capture (sectors_of_calls calls) n = some data
            ∧ file_read (save_close (save_run (save_create save_type.SAVE_SNAPSHOT) calls))
                (512 + 512 * i) 512 = scramble data
            ∧ ulong_from_bytes (scramble data) = ulong_from_bytes data ^^^ 0x551234af
            ∧ (scramble data).drop 4 = data.drop 4
            ∧ ulong_from_bytes
                (file_read (save_close (save_run (save_create save_type.SAVE_SNAPSHOT) calls))
                  (512 + 512 * (distinct_sectors (sectors_of_calls calls)).length + 4 * i) 4)
              = n := by
  have hcaps := sectors_of_calls_wf calls hwf
  have hkept : ∀ c ∈ first_captures (sectors_of_calls calls),
      c.1 < 2 ^ 32 ∧ c.2.length = 512 ∧ ∀ b ∈ c.2, b < 256 := by
    intro c hc
    exact hcaps c (List.mem_of_find?_eq_some ((first_captures_mem_iff _ c).mp hc))
  have hlenk : ∀ c ∈ first_captures (sectors_of_calls calls), c.2.length = 512 :=
    fun c hc => (hkept c hc).2.1
  have hklen : (first_captures (sectors_of_calls calls)).length
      = (distinct_sectors (sectors_of_calls calls)).length := by
    simp [distinct_sectors]
  have hrl := records_length _ hlenk
  rw [hklen] at hrl
  rw [save_close_run calls hwf (by omega)]
  obtain ⟨f0, f4, f8, f12, f16⟩ := snapshot_header_fields
    (distinct_sectors (sectors_of_calls calls)).length
    (512 + 512 * (distinct_sectors (sectors_of_calls calls)).length)
    (((first_captures (sectors_of_calls calls)).map (fun c => scramble c.2)).flatten
      ++ ((distinct_sectors (sectors_of_calls calls)).map ulong_to_bytes).flatten)
  refine ⟨?_, f0, ?_, ?_, f12, f16, ?_⟩
  · rw [List.length_append, List.length_append, snapshot_header_length, hrl, map_bytes_length]
    omega
  · rw [f4, ulong_from_to_bytes _ (by omega)]
  · rw [f8, ulong_from_to_bytes _ (by omega)]
  · intro i hi
    have hik : i < (first_captures (sectors_of_calls calls)).length := by omega
    have hc : (first_captures (sectors_of_calls calls))[i]?
        = some (first_captures (sectors_of_calls calls))[i] := List.getElem?_eq_getElem hik
    have hw := hkept _ (List.getElem_mem hik)
    have hn : (distinct_sectors (sectors_of_calls calls))[i]?
        = some (first_captures (sectors_of_calls calls))[i].1 := by
      simp only [distinct_sectors, List.getElem?_map, hc, Option.map_some']
    have hsw := scramble_word (first_captures (sectors_of_calls calls))[i].2 (by omega) hw.2.2
    refine ⟨_, (first_captures (sectors_of_calls calls))[i].2, hn,
      (first_capture_eq_some_iff _ _ _).mpr (List.getElem_mem hik), ?_, hsw.1, hsw.2, ?_⟩
    · have h := record_read (first_captures (sectors_of_calls calls))
        (snapshot_header (distinct_sectors (sectors_of_calls calls)).length
          (512 + 512 * (distinct_sectors (sectors_of_calls calls)).length))
        ((distinct_sectors (sectors_of_calls calls)).map ulong_to_bytes).flatten
        (snapshot_header_length _ _) hlenk i _ hc
      rw [← h]
      congr 1
      ring
    · rw [map_entry_read _ _ _ _ i _ (by rw [snapshot_header_length, hrl]) hn,
        ulong_from_to_bytes _ hw.1]

theorem one_sector_call_wf : ∀ c ∈ one_sector_call, c.wf := by
  decide!

theorem one_sector_call_size :
    512 + 516 * (distinct_sectors (sectors_of_calls one_sector_call)).length < 2 ^ 31 := by
  decide!

theorem one_sector_file :
    save_close (save_run (save_create save_type.SAVE_SNAPSHOT) one_sector_call)
      = snapshot_header 1 1024 ++ (scramble (List.replicate 512 0) ++ ulong_to_bytes 4096) := by
  decide!

theorem one_sector_file_bytes :
    file_read (snapshot_header 1 1024
          ++ (scramble (List.replicate 512 0) ++ ulong_to_bytes 4096)) 0 16
        = [0x03, 0x48, 0x97, 0xaf, 0x01, 0x00, 0x00, 0x00, 0x00, 0x04, 0x00, 0x00,
           0x01, 0x00, 0x00, 0x00]
      ∧ file_read (snapshot_header 1 1024
          ++ (scramble (List.replicate 512 0) ++ ulong_to_bytes 4096)) 512 4
        = [0xaf, 0x34, 0x12, 0x55]
      ∧ file_read (snapshot_header 1 1024
          ++ (scramble (List.replicate 512 0) ++ ulong_to_bytes 4096)) 1024 4
        = [0x00, 0x10, 0x00, 0x00] := by
  decide!

theorem snapshot_file_layout_witness :
    (∀ c ∈ one_sector_call, c.wf)
      ∧ 512 + 516 * (distinct_sectors (sectors_of_calls one_sector_call)).length < 2 ^ 31
      ∧ (save_close (save_run (save_create save_type.SAVE_SNAPSHOT) one_sector_call)).length
          = 1028
      ∧ file_read (save_close (save_run (save_create save_type.SAVE_SNAPSHOT) one_sector_call))
          0 16
          = [0x03, 0x48, 0x97, 0xaf, 0x01, 0x00, 0x00, 0x00, 0x00, 0x04, 0x00, 0x00,
             0x01, 0x00, 0x00, 0x00]
      ∧ file_read (save_close (save_run (save_create save_type.SAVE_SNAPSHOT) one_sector_call))
          512 4 = [0xaf, 0x34, 0x12, 0x55]
      ∧ file_read (save_close (save_run (save_create save_type.SAVE_SNAPSHOT) one_sector_call))
          1024 4 = [0x00, 0x10, 0x00, 0x00]
      ∧ file_read (save_close (save_run (save_create save_type.SAVE_SNAPSHOT) one_sector_call))
          16 496 = List.replicate 496 0 := by
  have h := snapshot_file_layout one_sector_call one_sector_call_wf one_sector_call_size
  refine ⟨one_sector_call_wf, one_sector_call_size, ?_, ?_, ?_, ?_, h.2.2.2.2.2.1⟩
  · rw [h.1]
    have : (distinct_sectors (sectors_of_calls one_sector_call)).length = 1 := by decide!
    rw [this]
  · rw [one_sector_file]
    exact one_sector_file_bytes.1
  · rw [one_sector_file]
    exact one_sector_file_bytes.2.1
  · rw [one_sector_file]
    exact one_sector_file_bytes.2.2

/-! ## Writing to a snapshot -/

theorem load_map_length : ∀ (count : Nat) (bytes : List Nat), (load_map count bytes).length = count := by
  intro count
  induction count with
  | zero => intro bytes; rfl
  | succ count ih => intro bytes; rw [load_map, List.length_cons, ih]

theorem diskio_open_some (write_enable for_write : Bool) (file : List Nat) (flags : Nat)
    (d : diskio_snapshot) (h : diskio_open write_enable file flags for_write = some d) :
    d = snapshot_init file d.sector_map.length d.version d.sector_map
      ∧ d.sector_count = d.sector_map.length
      ∧ d.hf = file ∧ d.version ≤ 1 ∧ d.sector_map.length * 4 < 2 ^ 32 := by
  unfold diskio_open at h
  split at h
  · exact absurd h (by simp)
  · split at h
    · exact absurd h (by simp)
    · split at h
      · exact absurd h (by simp)
      · simp only [] at h
        split at h
        · exact absurd h (by simp)
        · split at h
          · split at h
            · exact absurd h (by simp)
            · split at h
              · exact absurd h (by simp)
              · split at h
                · exact absurd h (by simp)
                · rename_i hv _ hb
                  simp only [Option.some.injEq] at h
                  subst h
                  simp only [snapshot_init_sector_map, snapshot_init_version,
                    snapshot_init_sector_count, snapshot_init_hf, load_map_length]
                  exact ⟨trivial, trivial, trivial, by omega, by omega⟩
          · exact absurd h (by simp)

theorem find_sec_loop_hf (d : diskio_snapshot) (hf : List Nat) (n : Nat) :
    ∀ (fuel j : Nat), find_sec_loop { d with hf := hf } n fuel j = find_sec_loop d n fuel j := by
  intro fuel
  induction fuel with
  | zero => intro j; rfl
  | succ fuel ih =>
    intro j
    rw [find_sec_loop, find_sec_loop]
    split
    · simp only []
      split
      · rw [ih]
      · rfl
    · rfl

theorem find_sec_in_snapshot_hf (d : diskio_snapshot) (hf : List Nat) (n : Nat) :
    find_sec_in_snapshot { d with hf := hf } n = find_sec_in_snapshot d n := by
  simp only [find_sec_in_snapshot, find_sec_fuel]
  split
  · exact find_sec_loop_hf d hf n _ _
  · rfl

theorem read_sec_one_eq (d : diskio_snapshot) (n : Nat) :
    read_sec d n 1
      = match find_sec_in_snapshot d n with
        | none => none
        | some j =>
          if j = 0 then none
          else (read_sec_hfile d.hf false j 1).map
            (fun p => if d.version ≥ 1 then scramble p else p) := by
  simp only [read_sec, read_sec_loop]
  split
  · rfl
  · split
    · rfl
    · split <;> simp_all

theorem find_sec_opened (write_enable for_write : Bool) (file : List Nat) (flags : Nat)
    (d : diskio_snapshot) (hopen : diskio_open write_enable file flags for_write = some d)
    (n : Nat) :
    find_sec_in_snapshot d n = some (last_index d.sector_map n d.sector_map.length) := by
  obtain ⟨hd, _, _, _, hb⟩ := diskio_open_some _ _ _ _ _ hopen
  rw [hd]
  simp only [snapshot_init_sector_map]
  exact find_sec_in_snapshot_init _ _ _ n (by omega)

theorem unscramble_version (version : Nat) (data : List Nat) (hlen : 4 ≤ data.length)
    (hb : ∀ b ∈ data, b < 256) :
    (if version ≥ 1 then scramble (if version ≥ 1 then scramble data else data)
      else (if version ≥ 1 then scramble data else data)) = data := by
  by_cases hv : version ≥ 1
  · simp only [if_pos hv]
    exact scramble_scramble data hlen (fun x hx => hb x (List.mem_of_mem_take hx))
  · simp only [if_neg hv]

theorem scramble_version_length (version : Nat) (data : List Nat) (hlen : 4 ≤ data.length) :
    (if version ≥ 1 then scramble data else data).length = data.length := by
  split
  · exact scramble_length data hlen
  · rfl

/-- C8: on an opened snapshot (version 0 or 1) whose sector records lie inside
the file, writing 512 bytes to a present sector and reading that sector back
returns the bytes unchanged, and what `read_sec` gives for every other sector
is the same as before the write. -/
theorem write_then_read_snapshot (write_enable for_write : Bool) (file : List Nat)
    (flags : Nat) (d : diskio_snapshot) (warning_count : List Int) (data : List Nat) (n : Nat)
    (hopen : diskio_open write_enable file flags for_write = some d)
    (hrecords : 512 + 512 * d.sector_count ≤ file.length) (hsize : file.length < 2 ^ 32)
    (hn : n ∈ d.sector_map) (hlen : data.length = 512) (hbytes : ∀ b ∈ data, b < 256) :
    (d.version = 0 ∨ d.version = 1)
      ∧ ∃ r, write_sec d warning_count data n = some r
        ∧ r.ok = true ∧ r.warning_count = warning_count
        ∧ read_sec r.d n 1 = some data
        ∧ ∀ m, m ≠ n → read_sec r.d m 1 = read_sec d m 1 := by
  obtain ⟨hd, hcount, hhf, hver, hb⟩ := diskio_open_some _ _ _ _ _ hopen
  have hfind := find_sec_opened _ _ _ _ _ hopen
  have hj0 : last_index d.sector_map n d.sector_map.length ≠ 0 :=
    (last_index_length_ne_zero_iff _ n).mpr hn
  have hjle := last_index_le d.sector_map n d.sector_map.length
  have hjget := last_index_get d.sector_map n d.sector_map.length hj0
  generalize hj : last_index d.sector_map n d.sector_map.length = j at hj0 hjle hjget
  have htake : data.take 512 = data := List.take_of_length_le (by omega)
  obtain ⟨w, hw⟩ : ∃ w, w
      = (if d.version ≥ 1 then scramble (data.take 512) else data.take 512).take 512 := ⟨_, rfl⟩
  have hw1 : w = if d.version ≥ 1 then scramble data else data := by
    rw [hw, htake, List.take_of_length_le
      (by rw [scramble_version_length _ _ (by omega)]; omega)]
  have hwlen : w.length = 512 := by
    rw [hw1, scramble_version_length _ _ (by omega), hlen]
  have hwun : (if d.version ≥ 1 then scramble w else w) = data := by
    rw [hw1]
    exact unscramble_version _ _ (by omega) hbytes
  have hpos : seek_sec_hfile false j = j * 512 := seek_sec_hfile_bytes j (by omega)
  have hin : j * 512 + w.length ≤ d.hf.length := by rw [hhf, hwlen]; omega
  refine ⟨by omega, ?_⟩
  refine ⟨⟨true, { d with
                    hf := write_sec_hfile d.hf false
                            (if d.version ≥ 1 then scramble (data.take 512) else data.take 512)
                            j },
      warning_count⟩, ?_, rfl, rfl, ?_, ?_⟩
  · simp only [write_sec, write_sec_snapshot, hfind n, hj, if_neg hj0]
  · rw [read_sec_one_eq, find_sec_in_snapshot_hf, hfind n, hj]
    simp only [if_neg hj0]
    rw [read_sec_hfile_eq _ _ (by omega)]
    simp only [write_sec_hfile, Bool.false_eq_true, if_false, hpos]
    rw [← hw]
    have hrd := file_read_write_same d.hf (j * 512) w hin
    rw [hwlen] at hrd
    rw [hrd]
    simp only [hwlen, ne_eq, not_true_eq_false, if_false, Option.map_some', hwun]
  · intro m hm
    rw [read_sec_one_eq, read_sec_one_eq, find_sec_in_snapshot_hf, hfind m]
    simp only []
    by_cases hm0 : last_index d.sector_map m d.sector_map.length = 0
    · simp only [hm0, if_true]
    · have hmle := last_index_le d.sector_map m d.sector_map.length
      have hmget := last_index_get d.sector_map m d.sector_map.length hm0
      generalize last_index d.sector_map m d.sector_map.length = i at hm0 hmle hmget
      have hij : i ≠ j := by
        intro e
        subst e
        exact hm (hmget.symm.trans hjget)
      simp only [if_neg hm0]
      rw [read_sec_hfile_eq _ _ (by omega), read_sec_hfile_eq _ _ (by omega)]
      simp only [write_sec_hfile, Bool.false_eq_true, if_false, hpos]
      rw [← hw, file_read_write_other d.hf (j * 512) w hin (i * 512) 512 (by rw [hwlen]; omega)]

theorem sample_file_open :
    diskio_open true sample_file (DIO_DISK ||| DIO_SNAPSHOT) true = some sample_snapshot := by
  decide!

theorem sample_file_length : sample_file.length = 2060 := by
  decide!

theorem write_then_read_snapshot_witness :
    diskio_open true sample_file (DIO_DISK ||| DIO_SNAPSHOT) true = some sample_snapshot
      ∧ 512 + 512 * sample_snapshot.sector_count ≤ sample_file.length
      ∧ sample_file.length < 2 ^ 32
      ∧ 16 ∈ sample_snapshot.sector_map
      ∧ (List.replicate 512 170).length = 512
      ∧ (∀ b ∈ List.replicate 512 170, b < 256)
      ∧ (sample_snapshot.version = 0 ∨ sample_snapshot.version = 1)
      ∧ ∃ r, write_sec sample_snapshot [0, 0] (List.replicate 512 170) 16 = some r
        ∧ r.ok = true ∧ r.warning_count = [0, 0]
        ∧ read_sec r.d 16 1 = some (List.replicate 512 170)
        ∧ ∀ m, m ≠ 16 → read_sec r.d m 1 = read_sec sample_snapshot m 1 := by
  have hrecords : 512 + 512 * sample_snapshot.sector_count ≤ sample_file.length := by
    rw [sample_file_length]
    decide
  have hsize : sample_file.length < 2 ^ 32 := by
    rw [sample_file_length]
    decide
  have hn : 16 ∈ sample_snapshot.sector_map := by decide
  have hlen : (List.replicate 512 170).length = 512 := List.length_replicate 512 170
  have hbytes : ∀ b ∈ List.replicate 512 170, b < 256 := by
    intro b hb
    rw [List.eq_of_mem_replicate hb]
    decide
  exact ⟨sample_file_open, hrecords, hsize, hn, hlen, hbytes,
    write_then_read_snapshot true true sample_file (DIO_DISK ||| DIO_SNAPSHOT) sample_snapshot
      [0, 0] (List.replicate 512 170) 16 sample_file_open hrecords hsize hn hlen hbytes⟩

theorem set_getD_self (l : List Int) (i : Nat) (a : Int) (h : i < l.length) :
    (l.set i a).getD i 0 = a := by
  rw [List.getD_eq_getElem?_getD, List.getElem?_set_self h]
  rfl

theorem set_getD_ne (l : List Int) (i j : Nat) (a : Int) (h : i ≠ j) :
    (l.set i a).getD j 0 = l.getD j 0 := by
  rw [List.getD_eq_getElem?_getD, List.getElem?_set_ne h, List.getD_eq_getElem?_getD]

/-- C9: `write_sec` on an opened snapshot returns; when sector `n` is absent
from the sector map it returns `FALSE`, counts one severity-1 warning and leaves
the file as it is; in every case `sector_count`, the sector map (and the hash
and version) of the snapshot are unchanged, and a file that holds all
`sector_count` records keeps its length. -/
theorem write_sec_never_extends (write_enable for_write : Bool) (file : List Nat)
    (flags : Nat) (d : diskio_snapshot) (warning_count : List Int) (src : List Nat) (n : Nat)
    (hopen : diskio_open write_enable file flags for_write = some d)
    (hwc : warning_count.length = 2) :
    ∃ r, write_sec d warning_count src n = some r
      ∧ r.d.sector_count = d.sector_count ∧ r.d.sector_map = d.sector_map
      ∧ r.d.hash_start = d.hash_start ∧ r.d.hash_next = d.hash_next
      ∧ r.d.version = d.version
      ∧ (n ∉ d.sector_map →
          r.ok = false ∧ r.d = d
            ∧ r.warning_count.getD 1 0 = warning_count.getD 1 0 + 1
            ∧ r.warning_count.getD 0 0 = warning_count.getD 0 0)
      ∧ (512 + 512 * d.sector_count ≤ file.length → file.length < 2 ^ 32 →
          r.d.hf.length = file.length) := by
  obtain ⟨_, hcount, hhf, _, _⟩ := diskio_open_some _ _ _ _ _ hopen
  have hfind := find_sec_opened _ _ _ _ _ hopen n
  by_cases hn : n ∈ d.sector_map
  · have hj0 : last_index d.sector_map n d.sector_map.length ≠ 0 :=
      (last_index_length_ne_zero_iff _ n).mpr hn
    have hjle := last_index_le d.sector_map n d.sector_map.length
    have hw : write_sec d warning_count src n
        = some ⟨true, { d with
                         hf := write_sec_hfile d.hf false
                                 (if d.version ≥ 1 then scramble (src.take 512) else src.take 512)
                                 (last_index d.sector_map n d.sector_map.length) },
            warning_count⟩ := by
      simp only [write_sec, write_sec_snapshot, hfind, if_neg hj0]
    refine ⟨_, hw, rfl, rfl, rfl, rfl, rfl, fun h => absurd hn h, ?_⟩
    intro hrecords hsize
    simp only [write_sec_hfile, Bool.false_eq_true, if_false]
    rw [seek_sec_hfile_bytes _ (by omega), hhf]
    apply file_write_length
    have := List.length_take_le 512
      (if d.version ≥ 1 then scramble (src.take 512) else src.take 512)
    omega
  · have hj0 : last_index d.sector_map n d.sector_map.length = 0 := by
      by_contra h
      exact hn ((last_index_length_ne_zero_iff _ n).mp h)
    refine ⟨⟨false, d, warning_count.set 1 (warning_count.getD 1 0 + 1)⟩, ?_, rfl, rfl, rfl,
      rfl, rfl, ?_, fun _ _ => hhf ▸ rfl⟩
    · simp [write_sec, write_sec_snapshot, hfind, hj0, warning]
    · intro _
      exact ⟨rfl, rfl, set_getD_self _ _ _ (by omega), set_getD_ne _ _ _ _ (by omega)⟩

theorem write_sec_never_extends_witness :
    diskio_open true sample_file (DIO_DISK ||| DIO_SNAPSHOT) true = some sample_snapshot
      ∧ ([0, 0] : List Int).length = 2
      ∧ 18 ∉ sample_snapshot.sector_map
      ∧ ∃ r, write_sec sample_snapshot [0, 0] (List.replicate 512 170) 18 = some r
        ∧ r.d.sector_count = sample_snapshot.sector_count
        ∧ r.d.sector_map = sample_snapshot.sector_map
        ∧ r.d.hash_start = sample_snapshot.hash_start
        ∧ r.d.hash_next = sample_snapshot.hash_next
        ∧ r.d.version = sample_snapshot.version
        ∧ (18 ∉ sample_snapshot.sector_map →
            r.ok = false ∧ r.d = sample_snapshot
              ∧ r.warning_count.getD 1 0 = ([0, 0] : List Int).getD 1 0 + 1
              ∧ r.warning_count.getD 0 0 = ([0, 0] : List Int).getD 0 0)
        ∧ (512 + 512 * sample_snapshot.sector_count ≤ sample_file.length →
            sample_file.length < 2 ^ 32 → r.d.hf.length = sample_file.length) :=
  ⟨sample_file_open, by decide, by decide,
    write_sec_never_extends true true sample_file (DIO_DISK ||| DIO_SNAPSHOT) sample_snapshot
      [0, 0] (List.replicate 512 170) 18 sample_file_open (by decide)⟩

/-! ## Exit status -/

theorem quit_status (save_file_open : Bool) (warning_count : List Int) (rc : Int)
    (show_totals : Bool) :
    (quit save_file_open warning_count rc show_totals).status
      = if rc = 0 ∧ warning_count.getD 1 0 ≠ 0 then 1 else rc := rfl

/-- C10, as stated, fails: the usage messages leave through `quit (1, FALSE)`;
with no warning counted and no call of `error ()` the exit status is 1, not 0
(and `quit (2, FALSE)` of the restore action gives 2 in the same way). -/
theorem exit_status_claim_counterexample :
    ¬ ((quit false [0, 0] 1 false).status = 0 ↔ ([0, 0] : List Int).getD 1 0 = 0) := by
  decide

/-- C10, amended: the exit status of `quit (rc, show)` is 0 exactly when
`rc = 0` and `warning_count[1] = 0`; it is 1 when `rc = 0` and a severity-1
warning was counted, and `rc` otherwise; an exit through `error ()` has status
2. -/
theorem exit_status_zero_iff (save_file_open : Bool) (warning_count : List Int) (rc : Int)
    (show_totals : Bool) :
    ((quit save_file_open warning_count rc show_totals).status = 0
        ↔ rc = 0 ∧ warning_count.getD 1 0 = 0)
      ∧ (rc = 0 → warning_count.getD 1 0 ≠ 0 →
          (quit save_file_open warning_count rc show_totals).status = 1)
      ∧ (rc ≠ 0 → (quit save_file_open warning_count rc show_totals).status = rc)
      ∧ (error save_file_open warning_count).status = 2 := by
  refine ⟨?_, ?_, ?_, ?_⟩
  · rw [quit_status]
    by_cases h0 : rc = 0
    · by_cases h1 : warning_count.getD 1 0 = 0
      · simp [h0, h1]
      · simp [h0, h1]
    · simp [h0]
  · intro h0 h1
    rw [quit_status, if_pos ⟨h0, h1⟩]
  · intro h0
    rw [quit_status, if_neg (fun h => h0 h.1)]
  · rw [error, quit_status, if_neg (fun h => absurd h.1 (by decide))]

theorem exit_status_zero_iff_witness :
    ((quit false [0, 3] 0 false).status = 0 ↔ (0 : Int) = 0 ∧ ([0, 3] : List Int).getD 1 0 = 0)
      ∧ (quit false [0, 3] 0 false).status = 1 :=
  ⟨(exit_status_zero_iff false [0, 3] 0 false).1,
    (exit_status_zero_iff false [0, 3] 0 false).2.1 rfl (by decide)⟩

/-! ## HPFS rotating checksum -/

theorem rotate_or_eq (x : Nat) (hx : x < 2 ^ 32) :
    ((x <<< 7) % 2 ^ 32) ||| (x >>> 25) = rotate_left_32 x 7 := by
  have h1 : (x <<< 7) % 2 ^ 32 = 2 ^ 7 * (x % 2 ^ 25) := by
    rw [Nat.shiftLeft_eq]
    omega
  have h2 : x >>> 25 = x / 2 ^ 25 := Nat.shiftRight_eq_div_pow x 25
  have h3 : x / 2 ^ 25 < 2 ^ 7 := by omega
  rw [h1, h2, ← Nat.mul_add_lt_is_or h3, rotate_left_32]
  omega

theorem chksum_loop_eq (p : List Nat) :
    ∀ (size i sum : Nat), i + size = p.length →
      chksum_loop p size i sum = rotating_sum sum (p.drop i) := by
  intro size
  induction size with
  | zero =>
    intro i sum h
    have hi : p.length ≤ i := by omega
    simp [chksum_loop, rotating_sum, List.drop_eq_nil_of_le hi]
  | succ size ih =>
    intro i sum h
    have hi : i < p.length := by omega
    rw [chksum_loop, List.drop_eq_getElem_cons hi]
    simp only [rotating_sum, List.foldl_cons]
    rw [ih (i + 1) _ (by omega), rotate_or_eq _ (Nat.mod_lt _ (by decide)),
      List.getD_eq_getElem _ _ hi]
    rfl

theorem rotating_sum_zeros : ∀ (n : Nat), rotating_sum 0 (List.replicate n 0) = 0 := by
  intro n
  induction n with
  | zero => rfl
  | succ n ih =>
    rw [List.replicate_succ, rotating_sum, List.foldl_cons]
    exact ih

/-- C20: `chksum` over a buffer is the left fold
`acc -> rotate_left_32 ((acc + b) mod 2^32, 7)` over its bytes from 0; over the
bytes `00 01 .. 0f` it is `0x61F65364`, and over an all-zero buffer it is 0. -/
theorem chksum_is_rotating_sum :
    (∀ p : List Nat, chksum p p.length = rotating_sum 0 p)
      ∧ chksum [0, 1, 2, 3, 4, 5, 6, 7, 8, 9, 10, 11, 12, 13, 14, 15] 16 = 0x61F65364
      ∧ ∀ n : Nat, chksum (List.replicate n 0) n = 0 := by
  refine ⟨?_, by decide, ?_⟩
  · intro p
    exact chksum_loop_eq p p.length 0 0 (by omega)
  · intro n
    have h := chksum_loop_eq (List.replicate n 0) n 0 0 (by simp)
    rw [chksum, h]
    exact rotating_sum_zeros n

/-! ## FAT geometry -/

theorem DIVIDE_UP_eq (x y : Nat) (hy : 0 < y) (h : x + y - 1 < 2 ^ 32) :
    DIVIDE_UP x y = (x + y - 1) / y := by
  have e : (x + y + (2 ^ 32 - 1)) % 2 ^ 32 = x + y - 1 := by omega
  rw [DIVIDE_UP, e]

theorem sample_boot_wf : sample_boot.wf := by decide

theorem do_fat_geometry_cases (b : boot_sector) (hb : b.wf) :
    do_fat_geometry b =
      if b.bytes_per_sector ≠ 512 then .error fat_fatal.sector_size_not_supported
      else if b.sectors_per_cluster = 0 then .error fat_fatal.cluster_size_is_zero
      else if b.fats = 0 then .error fat_fatal.number_of_fats_is_zero
      else if spec_total_sectors b < b.reserved_sectors then
        .error fat_fatal.reserved_exceeds_total
      else if spec_total_sectors b - b.reserved_sectors
          < spec_fat_sectors b + spec_root_sectors b then
        .error fat_fatal.disk_too_small_for_fats_and_root
      else if 2 ^ 32 ≤ (spec_total_sectors b - b.reserved_sectors - spec_fat_sectors b
          - spec_root_sectors b) / b.sectors_per_cluster + 2 then
        .error fat_fatal.disk_too_small_no_data_clusters
      else .ok ({ first_sector := b.reserved_sectors
                  total_sectors := spec_total_sectors b - b.reserved_sectors
                  total_clusters := (spec_total_sectors b - b.reserved_sectors
                    - spec_fat_sectors b - spec_root_sectors b) / b.sectors_per_cluster + 2
                  sectors_per_cluster := b.sectors_per_cluster
                  bytes_per_cluster := 512 * b.sectors_per_cluster
                  sectors_per_fat := b.sectors_per_fat, number_of_fats := b.fats
                  root_entries := b.root_entries, root_sectors := spec_root_sectors b
                  data_sector := b.reserved_sectors + spec_fat_sectors b + spec_root_sectors b },
                if 0xffff < (spec_total_sectors b - b.reserved_sectors - spec_fat_sectors b
                    - spec_root_sectors b) / b.sectors_per_cluster + 2 then
                  [{ level := 0, msg := fat_msg.too_many_clusters_on_disk }] else []) := by
  obtain ⟨h1, h2, h3, h4, h5, h6, h7, h8⟩ := hb
  have hF : b.fats * b.sectors_per_fat < 2 ^ 24 := by
    have := Nat.mul_lt_mul'' h4 h7
    simpa using this
  have hFm : b.fats * b.sectors_per_fat % 2 ^ 32 = b.fats * b.sectors_per_fat :=
    Nat.mod_eq_of_lt (by omega)
  have hD : DIVIDE_UP b.root_entries (512 / 32) = (b.root_entries + 15) / 16 := by
    rw [DIVIDE_UP_eq _ _ (by decide) (by norm_num; omega)]
    omega
  have hD2 : (b.root_entries + 15) / 16 < 2 ^ 13 := by omega
  have hS : (if b.sectors ≠ 0 then b.sectors else b.large_sectors) = spec_total_sectors b := by
    unfold spec_total_sectors
    by_cases h : b.sectors = 0 <;> simp [h]
  have hS2 : spec_total_sectors b < 2 ^ 32 := by
    unfold spec_total_sectors
    split <;> omega
  unfold do_fat_geometry
  simp only [hFm, hD, hS]
  unfold spec_fat_sectors spec_root_sectors
  generalize spec_total_sectors b = S at hS2 ⊢
  generalize b.fats * b.sectors_per_fat = F at hF ⊢
  generalize (b.root_entries + 15) / 16 = D at hD2 ⊢
  by_cases c1 : b.bytes_per_sector ≠ 512
  · rw [if_pos c1, if_pos c1]
  rw [if_neg c1, if_neg c1]
  by_cases c2 : b.sectors_per_cluster = 0
  · rw [if_pos c2, if_pos c2]
  rw [if_neg c2, if_neg c2]
  by_cases c3 : b.fats = 0
  · rw [if_pos c3, if_pos c3]
  rw [if_neg c3, if_neg c3]
  by_cases c4 : S < b.reserved_sectors
  · rw [if_pos c4, if_pos c4]
  rw [if_neg c4, if_neg c4]
  have e5 : (F + D) % 2 ^ 32 = F + D := Nat.mod_eq_of_lt (by omega)
  rw [e5]
  by_cases c5 : S - b.reserved_sectors < F + D
  · rw [if_pos c5, if_pos c5]
  rw [if_neg c5, if_neg c5]
  have e6 : (S - b.reserved_sectors + 2 ^ 32 - F + 2 ^ 32 - D) % 2 ^ 32
      = S - b.reserved_sectors - F - D := by omega
  rw [e6]
  generalize hq : (S - b.reserved_sectors - F - D) / b.sectors_per_cluster = q
  have hq2 : q < 2 ^ 32 := by
    rw [← hq]
    exact lt_of_le_of_lt (Nat.div_le_self _ _) (by omega)
  have e7 : (b.reserved_sectors + F) % 2 ^ 32 = b.reserved_sectors + F :=
    Nat.mod_eq_of_lt (by omega)
  have e8 : (b.reserved_sectors + F + D) % 2 ^ 32 = b.reserved_sectors + F + D :=
    Nat.mod_eq_of_lt (by omega)
  have e9 : b.sectors_per_cluster * 512 % 2 ^ 32 = 512 * b.sectors_per_cluster := by omega
  rw [e7, e8, e9]
  by_cases c6 : 2 ^ 32 ≤ q + 2
  · rw [if_pos c6, if_pos (by omega)]
  have e10 : (q + 2) % 2 ^ 32 = q + 2 := Nat.mod_eq_of_lt (by omega)
  rw [if_neg c6, e10, if_neg (by omega)]

/-- C12: for a boot sector with the field widths of fat.h, `do_fat` accepts it
exactly when the sector size is 512, `sectors_per_cluster` and `fats` are not
0, `R ≤ S`, `F + D ≤ S - R` and the cluster count fits 32 bits; it then sets
`data_sector = R + F + D`, `bytes_per_cluster = 512 * sectors_per_cluster`
and `total_clusters = (S - R - F - D) / sectors_per_cluster + 2` without
wrap-around; when `S < R` or `S - R < F + D` it stops with a fatal error. -/
theorem do_fat_geometry_correct (b : boot_sector) (hb : b.wf) :
    (∀ g log, do_fat_geometry b = .ok (g, log) →
        b.bytes_per_sector = 512 ∧ b.sectors_per_cluster ≠ 0 ∧ b.fats ≠ 0
          ∧ b.reserved_sectors ≤ spec_total_sectors b
          ∧ spec_fat_sectors b + spec_root_sectors b
              ≤ spec_total_sectors b - b.reserved_sectors
          ∧ g.data_sector = b.reserved_sectors + spec_fat_sectors b + spec_root_sectors b
          ∧ g.bytes_per_cluster = 512 * b.sectors_per_cluster
          ∧ g.total_clusters = (spec_total_sectors b - b.reserved_sectors - spec_fat_sectors b
              - spec_root_sectors b) / b.sectors_per_cluster + 2
          ∧ g.total_clusters < 2 ^ 32)
      ∧ (b.bytes_per_sector = 512 → b.sectors_per_cluster ≠ 0 → b.fats ≠ 0 →
          b.reserved_sectors ≤ spec_total_sectors b →
          spec_fat_sectors b + spec_root_sectors b
              ≤ spec_total_sectors b - b.reserved_sectors →
          (spec_total_sectors b - b.reserved_sectors - spec_fat_sectors b
              - spec_root_sectors b) / b.sectors_per_cluster + 2 < 2 ^ 32 →
          ∃ g log, do_fat_geometry b = .ok (g, log))
      ∧ (spec_total_sectors b < b.reserved_sectors
            ∨ spec_total_sectors b - b.reserved_sectors
                < spec_fat_sectors b + spec_root_sectors b →
          ∃ e, do_fat_geometry b = .error e) := by
  rw [do_fat_geometry_cases b hb]
  refine ⟨?_, ?_, ?_⟩
  · intro g log h
    split_ifs at h with c1 c2 c3 c4 c5 c6
    all_goals
      injection h with h
      injection h with hg hl
      subst hg
      exact ⟨not_not.mp c1, c2, c3, by omega, by omega, rfl, rfl, rfl, by dsimp only; omega⟩
  · intro c1 c2 c3 c4 c5 c6
    rw [if_neg (not_not.mpr c1), if_neg c2, if_neg c3, if_neg (by omega), if_neg (by omega),
      if_neg (by omega)]
    exact ⟨_, _, rfl⟩
  · intro h
    split_ifs with c1 c2 c3 c4 c5 c6
    · exact ⟨_, rfl⟩
    · exact ⟨_, rfl⟩
    · exact ⟨_, rfl⟩
    · exact ⟨_, rfl⟩
    · exact ⟨_, rfl⟩
    · omega
    · omega

theorem do_fat_geometry_correct_witness :
    sample_boot.wf
      ∧ (∃ g log, do_fat_geometry sample_boot = .ok (g, log))
      ∧ ∀ g log, do_fat_geometry sample_boot = .ok (g, log) →
          g.data_sector = 33 ∧ g.bytes_per_cluster = 512 ∧ g.total_clusters = 2849 := by
  have h := do_fat_geometry_correct sample_boot sample_boot_wf
  refine ⟨sample_boot_wf, ⟨_, _, rfl⟩, ?_⟩
  intro g log e
  obtain ⟨_, _, _, _, _, h6, h7, h8, _⟩ := h.1 g log e
  exact ⟨h6, h7, h8⟩

/-! ## FAT width selection -/

theorem fat12_unpack (b0 b1 b2 : Nat) (h0 : b0 < 256) (h1 : b1 < 256) (h2 : b2 < 256) :
    (b0 ||| (b1 <<< 8) ||| (b2 <<< 16)) &&& 0xfff = (b0 + 256 * b1) % 4096
      ∧ ((b0 ||| (b1 <<< 8) ||| (b2 <<< 16)) >>> 12) &&& 0xfff = (b1 + 256 * b2) / 16 := by
  have e1 : b0 ||| (b1 <<< 8) = 2 ^ 8 * b1 + b0 := by
    rw [Nat.shiftLeft_eq, Nat.lor_comm, Nat.mul_comm,
      ← Nat.mul_add_lt_is_or (show b0 < 2 ^ 8 by omega) b1]
  have e2 : (2 ^ 8 * b1 + b0) ||| (b2 <<< 16) = 2 ^ 16 * b2 + (2 ^ 8 * b1 + b0) := by
    rw [Nat.shiftLeft_eq, Nat.lor_comm, Nat.mul_comm,
      ← Nat.mul_add_lt_is_or (show 2 ^ 8 * b1 + b0 < 2 ^ 16 by omega) b2]
  have m : ∀ x : Nat, x &&& 0xfff = x % 2 ^ 12 := fun x =>
    Nat.and_pow_two_sub_one_eq_mod x 12
  rw [e1, e2, m, m, Nat.shiftRight_eq_div_pow]
  constructor <;> omega

theorem or_f000 (c : Nat) (h : c < 4096) : c ||| 0xf000 = c + 0xf000 := by
  have e := Nat.mul_add_lt_is_or (show c < 2 ^ 12 by omega) 15
  have e2 : (2 ^ 12 * 15 : Nat) = 0xf000 := by norm_num
  rw [e2] at e
  rw [Nat.lor_comm, ← e, Nat.add_comm]

theorem sample_fat_disk_bytes :
    ∀ secno count : Nat, ∀ b ∈ sample_fat_disk secno count, b < 256 := by
  intro secno count b hb
  rw [sample_fat_disk, List.mem_map] at hb
  obtain ⟨k, _, rfl⟩ := hb
  exact Nat.mod_lt _ (by decide)

/-- In a block of `2 * clusters + 1` bytes the loop of `read_fat12` stores
every entry below `clusters` as the packed 12-bit value, widened from `0xff7`
up; when `clusters` is odd it ends in the store to `fat[clusters]`, of which
only the first byte lies inside the block. -/
theorem read_fat12_loop_spec (raw : List Nat) (hraw : ∀ b ∈ raw, b < 256) (clusters : Nat)
    (hc : clusters < 2 ^ 31) :
    ∀ (fuel p : Nat) (fat : List Nat), clusters ≤ 2 * p + 2 * fuel → 2 * p ≤ clusters →
      clusters ≤ fat.length →
      ∃ fat', (∀ j < clusters, fat'.getD j 0
            = if j < 2 * p then fat.getD j 0 else fat12_entry raw j)
        ∧ read_fat12_loop raw clusters (2 * clusters + 1) fuel (2 * p) (3 * p) fat
          = if clusters % 2 = 1 then fat_read.stored_beyond_block clusters fat'
            else fat_read.decoded fat' := by
  have hb : ∀ o, raw.getD o 0 < 256 := by
    intro o
    rw [List.getD_eq_getElem?_getD]
    cases h : raw[o]? with
    | none => simp
    | some v => exact hraw v (List.getElem?_mem h)
  intro fuel
  induction fuel with
  | zero =>
    intro p fat h1 h2 _
    refine ⟨fat, ?_, ?_⟩
    · intro j hj
      rw [if_pos (by omega)]
    · rw [read_fat12_loop, if_neg (by omega)]
  | succ fuel ih =>
    intro p fat h1 h2 h3
    rw [read_fat12_loop]
    by_cases hi : 2 * p < clusters
    · rw [if_pos hi]
      have ei : (2 * p + 2) % 2 ^ 32 = 2 * (p + 1) := by omega
      have es : (3 * p + 3) % 2 ^ 32 = 3 * (p + 1) := by omega
      obtain ⟨u1, u2⟩ := fat12_unpack _ _ _ (hb (3 * p)) (hb (3 * p + 1)) (hb (3 * p + 2))
      have e1 : (if (raw.getD (3 * p) 0 + 256 * raw.getD (3 * p + 1) 0) % 4096 ≥ 0xff7
            then (raw.getD (3 * p) 0 + 256 * raw.getD (3 * p + 1) 0) % 4096 ||| 0xf000
            else (raw.getD (3 * p) 0 + 256 * raw.getD (3 * p + 1) 0) % 4096)
          = fat12_entry raw (2 * p) := by
        have e3 : fat12_packed raw (2 * p)
            = (raw.getD (3 * p) 0 + 256 * raw.getD (3 * p + 1) 0) % 4096 := by
          rw [fat12_packed, if_pos (by omega), word_at]
          have : 3 * (2 * p) / 2 = 3 * p := by omega
          rw [this]
        rw [fat12_entry, e3]
        split
        · exact or_f000 _ (Nat.mod_lt _ (by decide))
        · rfl
      have e2 : (if (raw.getD (3 * p + 1) 0 + 256 * raw.getD (3 * p + 2) 0) / 16 ≥ 0xff7
            then (raw.getD (3 * p + 1) 0 + 256 * raw.getD (3 * p + 2) 0) / 16 ||| 0xf000
            else (raw.getD (3 * p + 1) 0 + 256 * raw.getD (3 * p + 2) 0) / 16)
          = fat12_entry raw (2 * p + 1) := by
        have e3 : fat12_packed raw (2 * p + 1)
            = (raw.getD (3 * p + 1) 0 + 256 * raw.getD (3 * p + 2) 0) / 16 := by
          rw [fat12_packed, if_neg (by omega), word_at]
          have : 3 * (2 * p + 1) / 2 = 3 * p + 1 := by omega
          rw [this]
        rw [fat12_entry, e3]
        have := hb (3 * p + 1)
        have := hb (3 * p + 2)
        split
        · exact or_f000 _ (by omega)
        · rfl
      simp only [ei, es, u1, u2, e1, e2]
      rw [if_neg (by omega)]
      by_cases hlast : 2 * p + 1 = clusters
      · rw [if_pos (by omega)]
        refine ⟨fat.set (2 * p) (fat12_entry raw (2 * p)), ?_, by rw [if_pos (by omega), hlast]⟩
        intro j hj
        by_cases c1 : j < 2 * p
        · rw [if_pos c1, List.getD_eq_getElem?_getD, List.getElem?_set_ne (by omega),
            ← List.getD_eq_getElem?_getD]
        · have ej : j = 2 * p := by omega
          subst ej
          rw [if_neg c1, List.getD_eq_getElem?_getD, List.getElem?_set_self (by omega)]
          rfl
      · rw [if_neg (by omega)]
        obtain ⟨fat', hf, hr⟩ := ih (p + 1)
          ((fat.set (2 * p) (fat12_entry raw (2 * p))).set (2 * p + 1)
            (fat12_entry raw (2 * p + 1)))
          (by omega) (by omega) (by simp; omega)
        refine ⟨fat', ?_, hr⟩
        intro j hj
        rw [hf j hj]
        by_cases c1 : j < 2 * p
        · rw [if_pos c1, if_pos (by omega), List.getD_eq_getElem?_getD,
            List.getElem?_set_ne (by omega), List.getElem?_set_ne (by omega),
            ← List.getD_eq_getElem?_getD]
        rw [if_neg c1]
        by_cases c2 : j = 2 * p
        · subst c2
          rw [if_pos (by omega), List.getD_eq_getElem?_getD, List.getElem?_set_ne (by omega),
            List.getElem?_set_self (by omega)]
          rfl
        by_cases c3 : j = 2 * p + 1
        · subst c3
          rw [if_pos (by omega), List.getD_eq_getElem?_getD,
            List.getElem?_set_self (by simp; omega)]
          rfl
        rw [if_neg (by omega)]
    · rw [if_neg hi]
      refine ⟨fat, ?_, ?_⟩
      · intro j hj
        rw [if_pos (by omega)]
      · rw [if_neg (by omega)]

/-- For an odd number of clusters the loop of `read_fat12` ends in the store
to `fat[clusters]`, whatever the sectors hold. -/
theorem read_fat12_loop_odd (raw : List Nat) (clusters : Nat) (hodd : clusters % 2 = 1)
    (hc : clusters < 2 ^ 31) :
    ∀ (fuel p : Nat) (fat : List Nat), clusters ≤ 2 * p + 2 * fuel → 2 * p ≤ clusters →
      ∃ fat', read_fat12_loop raw clusters (2 * clusters + 1) fuel (2 * p) (3 * p) fat
        = fat_read.stored_beyond_block clusters fat' := by
  intro fuel
  induction fuel with
  | zero =>
    intro p fat h1 h2
    omega
  | succ fuel ih =>
    intro p fat h1 h2
    rw [read_fat12_loop, if_pos (by omega)]
    simp only []
    rw [if_neg (by omega)]
    by_cases hlast : 2 * p + 1 = clusters
    · rw [if_pos (by omega), hlast]
      exact ⟨_, rfl⟩
    · rw [if_neg (by omega)]
      have ei : (2 * p + 2) % 2 ^ 32 = 2 * (p + 1) := by omega
      have es : (3 * p + 3) % 2 ^ 32 = 3 * (p + 1) := by omega
      rw [ei, es]
      exact ih (p + 1) _ (by omega) (by omega)

/-- For an odd number of clusters up to 4087, `read_fat` calls `read_fat12`,
which ends in the store to `fat[total_clusters]`. -/
theorem read_fat12_odd (d : Nat → Nat → List Nat) (total_clusters sectors_per_fat secno : Nat)
    (h1 : 2 ≤ total_clusters) (h2 : total_clusters - 2 ≤ 4085) (hodd : total_clusters % 2 = 1) :
    read_fat total_clusters sectors_per_fat d secno
        = read_fat12 total_clusters sectors_per_fat d secno
      ∧ ∃ fat, (read_fat total_clusters sectors_per_fat d secno).1
          = fat_read.stored_beyond_block total_clusters fat := by
  have e : (total_clusters + 2 ^ 32 - 2) % 2 ^ 32 = total_clusters - 2 := by
    have e0 : total_clusters + 2 ^ 32 - 2 = (total_clusters - 2) + 2 ^ 32 := by omega
    rw [e0, Nat.add_mod_right, Nat.mod_eq_of_lt (by omega)]
  have e1 : read_fat total_clusters sectors_per_fat d secno
      = read_fat12 total_clusters sectors_per_fat d secno := by
    rw [read_fat, e, if_neg (by omega)]
  refine ⟨e1, ?_⟩
  rw [e1, read_fat12]
  have e5 : ((total_clusters * 2) % 2 ^ 32 + 1) % 2 ^ 32 = 2 * total_clusters + 1 := by omega
  simp only [e5]
  exact read_fat12_loop_odd _ total_clusters hodd (by omega) total_clusters 0 _ (by omega)
    (by omega)

/-- C11: `read_fat` takes the 16-bit branch exactly when
`total_clusters - 2 > 4085`; `total_clusters - 2 = 4085` selects `read_fat12`
and `4086` selects `read_fat16`.  For a cluster count from 4088 up (whose
sector count `(2 * total_clusters + 511) / 512` fits 32 bits) every entry is
the little-endian word at byte `2 * i` of the sectors read.  For a cluster
count from 2 to 4087 every entry below `total_clusters` is stored as the
packed 12-bit value at bit `12 * i`, widened from `0xff7` up; but for an odd
count, 4087 among them, `read_fat12` then stores `fat[total_clusters]`, whose
second byte lies behind the block of `total_clusters * 2 + 1` bytes, as for
the sample of five clusters. -/
theorem read_fat12_odd_cluster_count :
    (∀ (d : Nat → Nat → List Nat) (sectors_per_fat secno : Nat),
        read_fat 4087 sectors_per_fat d secno
            = read_fat12 4087 sectors_per_fat d secno
          ∧ ∃ fat, (read_fat 4087 sectors_per_fat d secno).1
              = fat_read.stored_beyond_block 4087 fat)
      ∧ (∀ (d : Nat → Nat → List Nat) (sectors_per_fat secno : Nat),
          read_fat 4088 sectors_per_fat d secno
            = (fat_read.decoded (read_fat16 4088 sectors_per_fat d secno).1,
                (read_fat16 4088 sectors_per_fat d secno).2))
      ∧ (read_fat 5 1 sample_fat_disk 1).1
          = fat_read.stored_beyond_block 5 [0xa03, 0x110, 0xf18, 0x261, 0x42d]
      ∧ (∀ (d : Nat → Nat → List Nat), (∀ secno count : Nat, ∀ b ∈ d secno count, b < 256) →
          ∀ total_clusters sectors_per_fat secno : Nat,
            2 ≤ total_clusters → total_clusters - 2 ≤ 4085 →
            ∃ fat, (∀ i < total_clusters,
                  fat.getD i 0 = fat12_entry (d secno ((total_clusters * 3 + 1023) / 1024)) i)
              ∧ (read_fat total_clusters sectors_per_fat d secno).1
                = if total_clusters % 2 = 1
                  then fat_read.stored_beyond_block total_clusters fat
                  else fat_read.decoded fat)
      ∧ (∀ (d : Nat → Nat → List Nat) (total_clusters sectors_per_fat secno : Nat),
          4085 < total_clusters - 2 → total_clusters * 2 + 511 < 2 ^ 32 →
          ∃ fat, (∀ i < total_clusters,
                fat.getD i 0 = fat16_entry (d secno ((total_clusters * 2 + 511) / 512)) i)
            ∧ (read_fat total_clusters sectors_per_fat d secno).1 = fat_read.decoded fat) := by
  refine ⟨?_, ?_, ?_, ?_, ?_⟩
  · intro d spf secno
    exact read_fat12_odd d 4087 spf secno (by decide) (by decide) (by decide)
  · intro d spf secno
    rw [read_fat, if_pos (by decide)]
  · decide!
  · intro d hd tc spf secno h1 h2
    have e : (tc + 2 ^ 32 - 2) % 2 ^ 32 = tc - 2 := by
      have e0 : tc + 2 ^ 32 - 2 = (tc - 2) + 2 ^ 32 := by omega
      rw [e0, Nat.add_mod_right, Nat.mod_eq_of_lt (by omega)]
    rw [read_fat, e, if_neg (by omega), read_fat12]
    have e2 : DIVIDE_UP ((tc * 3) % 2 ^ 32) (512 * 2) = (tc * 3 + 1023) / 1024 := by
      have e3 : tc * 3 % 2 ^ 32 = tc * 3 := Nat.mod_eq_of_lt (by omega)
      have e4 : tc * 3 + 512 * 2 - 1 < 2 ^ 32 := by omega
      rw [e3, DIVIDE_UP_eq (tc * 3) (512 * 2) (by decide) e4]
      rfl
    have e5 : ((tc * 2) % 2 ^ 32 + 1) % 2 ^ 32 = 2 * tc + 1 := by omega
    have e6 : (2 * tc + 1) / 2 = tc := by omega
    simp only [e2, e5, e6]
    obtain ⟨fat, hf, hr⟩ := read_fat12_loop_spec (d secno ((tc * 3 + 1023) / 1024)) (hd _ _) tc
      (by omega) tc 0 (List.replicate tc 0) (by omega) (by omega) (by simp)
    refine ⟨fat, ?_, hr⟩
    intro i hi
    rw [hf i hi, if_neg (by omega)]
  · intro d tc spf secno h1 h2
    have e : (tc + 2 ^ 32 - 2) % 2 ^ 32 = tc - 2 := by
      have e0 : tc + 2 ^ 32 - 2 = (tc - 2) + 2 ^ 32 := by omega
      rw [e0, Nat.add_mod_right, Nat.mod_eq_of_lt (by omega)]
    rw [read_fat, e, if_pos h1]
    refine ⟨_, ?_, rfl⟩
    intro i hi
    rw [read_fat16]
    have e2 : DIVIDE_UP ((tc * 2) % 2 ^ 32) 512 = (tc * 2 + 511) / 512 := by
      have e3 : tc * 2 % 2 ^ 32 = tc * 2 := Nat.mod_eq_of_lt (by omega)
      have e4 : tc * 2 + 512 - 1 < 2 ^ 32 := by omega
      rw [e3, DIVIDE_UP_eq (tc * 2) 512 (by decide) e4]
      rfl
    simp only [e2]
    rw [List.getD_eq_getElem?_getD, List.getElem?_map,
      List.getElem?_range (by omega)]
    rfl

/-! ## FAT cross-comparison -/

theorem ushorts_to_bytes_cons (x : Nat) (xs : List Nat) :
    ushorts_to_bytes (x :: xs) = x % 256 :: x / 256 % 256 :: ushorts_to_bytes xs := by
  simp [ushorts_to_bytes]

theorem ushorts_to_bytes_take (a : List Nat) :
    ∀ n : Nat, (ushorts_to_bytes a).take (2 * n) = ushorts_to_bytes (a.take n) := by
  induction a with
  | nil => intro n; simp [ushorts_to_bytes]
  | cons x xs ih =>
    intro n
    cases n with
    | zero => simp [ushorts_to_bytes]
    | succ n =>
      have e : 2 * (n + 1) = 2 * n + 1 + 1 := by omega
      rw [e, ushorts_to_bytes_cons, List.take_succ_cons, List.take_succ_cons, ih n,
        List.take_succ_cons, ushorts_to_bytes_cons]

theorem ushorts_to_bytes_inj :
    ∀ a b : List Nat, (∀ x ∈ a, x < 2 ^ 16) → (∀ x ∈ b, x < 2 ^ 16) →
      ushorts_to_bytes a = ushorts_to_bytes b → a = b := by
  intro a
  induction a with
  | nil =>
    intro b _ _ h
    cases b with
    | nil => rfl
    | cons y ys => rw [ushorts_to_bytes_cons] at h; exact absurd h (by simp [ushorts_to_bytes])
  | cons x xs ih =>
    intro b ha hb h
    cases b with
    | nil => rw [ushorts_to_bytes_cons] at h; exact absurd h (by simp [ushorts_to_bytes])
    | cons y ys =>
      rw [ushorts_to_bytes_cons, ushorts_to_bytes_cons] at h
      injection h with h1 h
      injection h with h2 h
      have hx := ha x (List.mem_cons_self _ _)
      have hy := hb y (List.mem_cons_self _ _)
      have e : x = y := by omega
      rw [e, ih ys (fun z hz => ha z (List.mem_cons_of_mem _ hz))
        (fun z hz => hb z (List.mem_cons_of_mem _ hz)) h]

theorem take_eq_iff_getD (a b : List Nat) (n : Nat) (ha : n ≤ a.length) (hb : n ≤ b.length) :
    a.take n = b.take n ↔ ∀ k < n, a.getD k 0 = b.getD k 0 := by
  constructor
  · intro h k hk
    have := congrArg (fun l => l.getD k 0) h
    simpa [List.getD_eq_getElem?_getD, List.getElem?_take, hk] using this
  · intro h
    apply List.ext_getElem?
    intro k
    rw [List.getElem?_take, List.getElem?_take]
    by_cases hk : k < n
    · have hka : k < a.length := by omega
      have hkb : k < b.length := by omega
      have := h k hk
      rw [List.getD_eq_getElem _ _ hka, List.getD_eq_getElem _ _ hkb] at this
      rw [if_pos hk, if_pos hk, List.getElem?_eq_getElem hka, List.getElem?_eq_getElem hkb,
        this]
    · rw [if_neg hk, if_neg hk]

theorem memcmp_ne_iff (a b : List Nat) (tc : Nat) (ha : tc ≤ a.length) (hb : tc ≤ b.length)
    (ha16 : ∀ x ∈ a, x < 2 ^ 16) (hb16 : ∀ x ∈ b, x < 2 ^ 16) (htc : tc * 2 < 2 ^ 32) :
    memcmp_ne a b ((tc * 2) % 2 ^ 32) = true ↔ ∃ k < tc, a.getD k 0 ≠ b.getD k 0 := by
  rw [memcmp_ne, Nat.mod_eq_of_lt htc, Nat.mul_comm, ushorts_to_bytes_take,
    ushorts_to_bytes_take, decide_eq_true_iff]
  constructor
  · intro h
    by_contra hc
    push_neg at hc
    exact h (congrArg ushorts_to_bytes ((take_eq_iff_getD a b tc ha hb).mpr hc))
  · rintro ⟨k, hk, hne⟩ h
    have := ushorts_to_bytes_inj _ _ (fun x hx => ha16 x (List.mem_of_mem_take hx))
      (fun x hx => hb16 x (List.mem_of_mem_take hx)) h
    exact hne ((take_eq_iff_getD a b tc ha hb).mp this k hk)

theorem do_fats_k_loop_eq (a b : List Nat) (tc : Nat) :
    ∀ fuel k : Nat, tc - k ≤ fuel →
      do_fats_k_loop a b tc fuel k
        = (List.range' k (tc - k)).filter (fun k => decide (a.getD k 0 ≠ b.getD k 0)) := by
  intro fuel
  induction fuel with
  | zero =>
    intro k h
    have e : tc - k = 0 := by omega
    rw [e]
    rfl
  | succ fuel ih =>
    intro k h
    rw [do_fats_k_loop]
    by_cases hk : k < tc
    · have e : tc - k = (tc - (k + 1)) + 1 := by omega
      rw [if_pos hk, e, List.range'_succ, List.filter_cons, ih (k + 1) (by omega)]
      by_cases hne : a.getD k 0 ≠ b.getD k 0
      · rw [if_pos hne, if_pos (by simpa using hne)]
      · rw [if_neg hne, if_neg (by simpa using hne)]
    · have e : tc - k = 0 := by omega
      rw [if_neg hk, e]
      rfl

theorem do_fats_j_loop_eq (fats : List (List Nat)) (n tc i : Nat) :
    ∀ fuel j : Nat, n - j ≤ fuel →
      do_fats_j_loop fats n tc i fuel j
        = (List.range' j (n - j)).filterMap (fun j =>
            if memcmp_ne (fats.getD i []) (fats.getD j []) ((tc * 2) % 2 ^ 32) then
              some { i := i, j := j
                     clusters := do_fats_k_loop (fats.getD i []) (fats.getD j []) tc tc 0 }
            else none) := by
  intro fuel
  induction fuel with
  | zero =>
    intro j h
    have e : n - j = 0 := by omega
    rw [e]
    rfl
  | succ fuel ih =>
    intro j h
    rw [do_fats_j_loop]
    by_cases hj : j < n
    · have e : n - j = (n - (j + 1)) + 1 := by omega
      rw [if_pos hj, e, List.range'_succ, List.filterMap_cons, ih (j + 1) (by omega)]
      by_cases hne : memcmp_ne (fats.getD i []) (fats.getD j []) ((tc * 2) % 2 ^ 32) = true
      · rw [if_pos hne, if_pos hne]
      · rw [if_neg hne, if_neg hne]
    · have e : n - j = 0 := by omega
      rw [if_neg hj, e]
      rfl

theorem do_fats_i_loop_eq (fats : List (List Nat)) (n tc : Nat) :
    ∀ fuel i : Nat, n - i ≤ fuel →
      do_fats_i_loop fats n tc fuel i
        = (List.range' i (n - i)).flatMap (fun i => do_fats_j_loop fats n tc i n (i + 1)) := by
  intro fuel
  induction fuel with
  | zero =>
    intro i h
    have e : n - i = 0 := by omega
    rw [e]
    rfl
  | succ fuel ih =>
    intro i h
    rw [do_fats_i_loop]
    by_cases hi : i < n
    · have e : n - i = (n - (i + 1)) + 1 := by omega
      rw [if_pos hi, e, List.range'_succ, List.flatMap_cons, ih (i + 1) (by omega)]
    · have e : n - i = 0 := by omega
      rw [if_neg hi, e]
      rfl

theorem mem_do_fats_differences (fats : List (List Nat)) (tc : Nat) (x : fat_difference) :
    x ∈ (do_fats_compare fats tc).differences ↔
      x.i < x.j ∧ x.j < fats.length
        ∧ memcmp_ne (fats.getD x.i []) (fats.getD x.j []) ((tc * 2) % 2 ^ 32) = true
        ∧ x.clusters = (List.range tc).filter
            (fun k => decide ((fats.getD x.i []).getD k 0 ≠ (fats.getD x.j []).getD k 0)) := by
  have hk : ∀ a b : List Nat, do_fats_k_loop a b tc tc 0
      = (List.range tc).filter (fun k => decide (a.getD k 0 ≠ b.getD k 0)) := by
    intro a b
    rw [do_fats_k_loop_eq a b tc tc 0 (by omega), List.range_eq_range', Nat.sub_zero]
  rw [do_fats_compare]
  dsimp only
  rw [do_fats_i_loop_eq fats _ tc _ 0 (by omega), List.mem_flatMap]
  constructor
  · rintro ⟨i, hi, hx⟩
    rw [do_fats_j_loop_eq fats _ tc i _ (i + 1) (by omega), List.mem_filterMap] at hx
    obtain ⟨j, hj, hx⟩ := hx
    rw [List.mem_range'_1] at hi hj
    split at hx
    · rename_i hm
      injection hx with hx
      subst hx
      exact ⟨by dsimp only; omega, by dsimp only; omega, hm, hk _ _⟩
    · exact absurd hx (by simp)
  · rintro ⟨h1, h2, h3, h4⟩
    refine ⟨x.i, ?_, ?_⟩
    · rw [List.mem_range'_1]
      omega
    · rw [do_fats_j_loop_eq fats _ tc x.i _ (x.i + 1) (by omega), List.mem_filterMap]
      refine ⟨x.j, ?_, ?_⟩
      · rw [List.mem_range'_1]
        omega
      · rw [if_pos h3, hk, ← h4]

theorem sample_fats_wf :
    (∀ c ∈ sample_fats, 6 ≤ c.length) ∧ (∀ c ∈ sample_fats, ∀ x ∈ c, x < 2 ^ 16) := by
  decide

/-- C13: for decoded FAT copies of at least `total_clusters` entries of 16
bits each, `do_fats` emits the warning `FATs i and j differ` for the pair
`(i, j)` exactly when `i < j` are two copies that differ at some cluster index
below `total_clusters`; the clusters listed with the warning are exactly those
indexes in ascending order; and the table used afterwards is the first copy. -/
theorem do_fats_cross_comparison (fats : List (List Nat)) (total_clusters : Nat)
    (hlen : ∀ c ∈ fats, total_clusters ≤ c.length)
    (h16 : ∀ c ∈ fats, ∀ x ∈ c, x < 2 ^ 16)
    (htc : total_clusters * 2 < 2 ^ 32) :
    (∀ i j : Nat, (∃ x ∈ (do_fats_compare fats total_clusters).differences, x.i = i ∧ x.j = j)
        ↔ i < j ∧ j < fats.length
            ∧ ∃ k < total_clusters, (fats.getD i []).getD k 0 ≠ (fats.getD j []).getD k 0)
      ∧ (∀ x ∈ (do_fats_compare fats total_clusters).differences,
          x.clusters = (List.range total_clusters).filter
            (fun k => decide ((fats.getD x.i []).getD k 0 ≠ (fats.getD x.j []).getD k 0)))
      ∧ (do_fats_compare fats total_clusters).fat = fats.getD 0 [] := by
  have hget : ∀ i, i < fats.length → fats.getD i [] ∈ fats := by
    intro i hi
    rw [List.getD_eq_getElem _ _ hi]
    exact List.getElem_mem _
  have hm : ∀ i j, i < j → j < fats.length →
      (memcmp_ne (fats.getD i []) (fats.getD j []) ((total_clusters * 2) % 2 ^ 32) = true
        ↔ ∃ k < total_clusters, (fats.getD i []).getD k 0 ≠ (fats.getD j []).getD k 0) := by
    intro i j hij hj
    exact memcmp_ne_iff _ _ _ (hlen _ (hget i (by omega))) (hlen _ (hget j hj))
      (h16 _ (hget i (by omega))) (h16 _ (hget j hj)) htc
  refine ⟨?_, ?_, rfl⟩
  · intro i j
    constructor
    · rintro ⟨x, hx, rfl, rfl⟩
      obtain ⟨h1, h2, h3, _⟩ := (mem_do_fats_differences fats total_clusters x).mp hx
      exact ⟨h1, h2, (hm _ _ h1 h2).mp h3⟩
    · rintro ⟨h1, h2, h3⟩
      exact ⟨⟨i, j, (List.range total_clusters).filter
          (fun k => decide ((fats.getD i []).getD k 0 ≠ (fats.getD j []).getD k 0))⟩,
        (mem_do_fats_differences fats total_clusters _).mpr
          ⟨h1, h2, (hm _ _ h1 h2).mpr h3, rfl⟩, rfl, rfl⟩
  · intro x hx
    exact ((mem_do_fats_differences fats total_clusters x).mp hx).2.2.2

theorem do_fats_cross_comparison_witness :
    (∀ c ∈ sample_fats, 6 ≤ c.length) ∧ (∀ c ∈ sample_fats, ∀ x ∈ c, x < 2 ^ 16)
      ∧ 6 * 2 < 2 ^ 32
      ∧ (do_fats_compare sample_fats 6).differences = [⟨0, 1, [3, 5]⟩, ⟨1, 2, [3, 5]⟩]
      ∧ ((∃ x ∈ (do_fats_compare sample_fats 6).differences, x.i = 0 ∧ x.j = 2)
          ↔ 0 < 2 ∧ 2 < sample_fats.length
            ∧ ∃ k < 6, (sample_fats.getD 0 []).getD k 0 ≠ (sample_fats.getD 2 []).getD k 0) :=
  ⟨sample_fats_wf.1, sample_fats_wf.2, by decide, by decide,
    (do_fats_cross_comparison sample_fats 6 sample_fats_wf.1 sample_fats_wf.2 (by decide)).1 0 2⟩

/-! ## Lost clusters -/

theorem count_range_succ (P : Nat → Bool) (i n : Nat) :
    ((List.range' i (n + 1)).filter P).length
      = (if P i then 1 else 0) + ((List.range' (i + 1) n).filter P).length := by
  rw [List.range'_succ, List.filter_cons]
  split
  · rw [List.length_cons, Nat.add_comm]
  · rw [Nat.zero_add]

theorem count_range_run (P : Nat → Bool) :
    ∀ (a i n : Nat), (∀ j, i ≤ j → j < i + a → P j = true) → a ≤ n →
      ((List.range' i n).filter P).length
        = a + ((List.range' (i + a) (n - a)).filter P).length := by
  intro a
  induction a with
  | zero =>
    intro i n _ _
    simp
  | succ a ih =>
    intro i n h hn
    obtain ⟨n, rfl⟩ : ∃ n1, n = n1 + 1 := ⟨n - 1, by omega⟩
    rw [count_range_succ, if_pos (h i (by omega) (by omega)),
      ih (i + 1) n (fun j h1 h2 => h j (by omega) (by omega)) (by omega)]
    have e1 : i + 1 + a = i + (a + 1) := by omega
    have e2 : n + 1 - (a + 1) = n - a := by omega
    rw [e1, e2]
    omega

theorem check_alloc_run_spec (fat usage_vector : List Nat) (tc : Nat) (htc : tc < 2 ^ 32) :
    ∀ fuel i : Nat, i < tc → tc - i ≤ fuel →
      ∃ i1, check_alloc_run fat usage_vector tc fuel i = some i1 ∧ i < i1 ∧ i1 ≤ tc
        ∧ ∀ j, i < j → j < i1 → unused_allocated fat usage_vector j = true := by
  intro fuel
  induction fuel with
  | zero => intro i h1 h2; omega
  | succ fuel ih =>
    intro i h1 h2
    rw [check_alloc_run]
    have e : (i + 1) % 2 ^ 32 = i + 1 := Nat.mod_eq_of_lt (by omega)
    simp only [e]
    by_cases c : i + 1 < tc ∧ unused_allocated fat usage_vector (i + 1) = true
    · rw [if_pos c]
      obtain ⟨i1, h3, h4, h5, h6⟩ := ih (i + 1) c.1 (by omega)
      refine ⟨i1, h3, by omega, h5, ?_⟩
      intro j hj1 hj2
      by_cases hj : j = i + 1
      · rw [hj]; exact c.2
      · exact h6 j (by omega) hj2
    · rw [if_neg c]
      refine ⟨i + 1, rfl, by omega, by omega, ?_⟩
      intro j hj1 hj2
      omega

theorem check_alloc_loop_spec (fat usage_vector : List Nat) (tc : Nat) (check_unused : Bool)
    (htc : tc < 2 ^ 32) :
    ∀ fuel i count : Nat, ∀ log : List fat_warning, tc - i < fuel →
      count + (tc - i) < 2 ^ 32 →
      (∀ w ∈ log, ∃ s n, w = { level := 0, msg := fat_msg.unused_but_allocated s n }) →
      ∃ runs, (∀ w ∈ runs, ∃ s n, w = { level := 0, msg := fat_msg.unused_but_allocated s n })
        ∧ check_alloc_loop fat usage_vector tc check_unused fuel i count log
          = some (count + ((List.range' i (tc - i)).filter
              (unused_allocated fat usage_vector)).length, runs) := by
  intro fuel
  induction fuel with
  | zero => intro i count log h; omega
  | succ fuel ih =>
    intro i count log h1 h2 h3
    rw [check_alloc_loop]
    by_cases c : i < tc
    · rw [if_pos c]
      by_cases p : unused_allocated fat usage_vector i = true
      · rw [if_pos p]
        obtain ⟨i1, r1, r2, r3, r4⟩ :=
          check_alloc_run_spec fat usage_vector tc htc (fuel + 1) i c (by omega)
        rw [r1]
        dsimp only
        have hrun : ∀ j, i ≤ j → j < i + (i1 - i) → unused_allocated fat usage_vector j = true := by
          intro j hj1 hj2
          by_cases hj : j = i
          · rw [hj]; exact p
          · exact r4 j (by omega) (by omega)
        have hcount := count_range_run (unused_allocated fat usage_vector) (i1 - i) i (tc - i)
          hrun (by omega)
        have e1 : i + (i1 - i) = i1 := by omega
        have e2 : tc - i - (i1 - i) = tc - i1 := by omega
        rw [e1, e2] at hcount
        have hle := List.length_filter_le (unused_allocated fat usage_vector)
          (List.range' i1 (tc - i1))
        rw [List.length_range'] at hle
        have e3 : (count + (i1 - i)) % 2 ^ 32 = count + (i1 - i) :=
          Nat.mod_eq_of_lt (by omega)
        rw [e3]
        obtain ⟨runs, q1, q2⟩ := ih i1 (count + (i1 - i))
          (if check_unused = true then
            log ++ [{ level := 0, msg := fat_msg.unused_but_allocated i (i1 - i) }] else log)
          (by omega) (by omega) (by
            intro w hw
            split at hw
            · rw [List.mem_append] at hw
              rcases hw with hw | hw
              · exact h3 w hw
              · exact ⟨i, i1 - i, by simpa using hw⟩
            · exact h3 w hw)
        refine ⟨runs, q1, ?_⟩
        rw [q2, hcount, Nat.add_assoc]
      · rw [if_neg p]
        have e : (i + 1) % 2 ^ 32 = i + 1 := Nat.mod_eq_of_lt (by omega)
        rw [e]
        obtain ⟨runs, q1, q2⟩ := ih (i + 1) count log (by omega) (by omega) h3
        refine ⟨runs, q1, ?_⟩
        have e4 : tc - i = (tc - (i + 1)) + 1 := by omega
        rw [q2, e4, count_range_succ, if_neg p, Nat.zero_add]
    · rw [if_neg c]
      have e : tc - i = 0 := by omega
      exact ⟨log, h3, by rw [e]; rfl⟩

theorem lost_cluster_count_eq (fat usage_vector : List Nat) (tc : Nat) :
    lost_cluster_count fat usage_vector tc
      = ((List.range' 2 (tc - 2)).filter (unused_allocated fat usage_vector)).length := by
  rw [lost_cluster_count]
  congr 2
  funext i
  simp [unused_allocated, Bool.decide_and]

/-- C16: for every FAT, usage vector and cluster count below `2^32`,
`check_alloc` returns (with more fuel than clusters) and its `count` is the
number of cluster indexes `i` with `2 ≤ i < total_clusters` whose usage class
is empty and whose FAT entry is neither 0 nor `0xfff7`; the warning about lost
clusters, of level 0, is emitted exactly when that number is at least 1, after
the warnings about the single runs. -/
theorem check_alloc_counts_lost_clusters (fat usage_vector : List Nat)
    (total_clusters : Nat) (check_unused : Bool) (fuel : Nat)
    (htc : total_clusters < 2 ^ 32) (hfuel : total_clusters < fuel) :
    ∃ runs : List fat_warning,
      (∀ w ∈ runs, ∃ s n, w = { level := 0, msg := fat_msg.unused_but_allocated s n })
        ∧ check_alloc fat usage_vector total_clusters check_unused fuel
          = some (lost_cluster_count fat usage_vector total_clusters,
              runs ++ if 1 ≤ lost_cluster_count fat usage_vector total_clusters then
                [{ level := 0
                   msg := fat_msg.lost_clusters
                    (lost_cluster_count fat usage_vector total_clusters) }]
                else []) := by
  obtain ⟨runs, q1, q2⟩ := check_alloc_loop_spec fat usage_vector total_clusters check_unused
    htc fuel 2 0 [] (by omega) (by omega) (by simp)
  refine ⟨runs, q1, ?_⟩
  rw [check_alloc, q2, Nat.zero_add, ← lost_cluster_count_eq]
  dsimp only
  generalize lost_cluster_count fat usage_vector total_clusters = n
  by_cases c1 : n = 1
  · rw [if_pos c1, if_pos (by omega), c1]
  · rw [if_neg c1]
    by_cases c2 : n > 1
    · rw [if_pos c2, if_pos (by omega)]
    · rw [if_neg c2, if_neg (by omega), List.append_nil]

theorem check_alloc_counts_lost_clusters_witness :
    10 < 2 ^ 32 ∧ 10 < 20 ∧ lost_cluster_count sample_fat sample_usage 10 = 3
      ∧ ∃ runs : List fat_warning,
        (∀ w ∈ runs, ∃ s n, w = { level := 0, msg := fat_msg.unused_but_allocated s n })
          ∧ check_alloc sample_fat sample_usage 10 true 20
            = some (lost_cluster_count sample_fat sample_usage 10,
                runs ++ if 1 ≤ lost_cluster_count sample_fat sample_usage 10 then
                  [{ level := 0
                     msg := fat_msg.lost_clusters
                      (lost_cluster_count sample_fat sample_usage 10) }]
                  else []) :=
  ⟨by decide, by decide, by decide,
    check_alloc_counts_lost_clusters sample_fat sample_usage 10 true 20 (by decide) (by decide)⟩

/-! ## Chain length check -/

theorem do_file_check_size_exact (count bytes_per_cluster file_size : Nat)
    (hb : 0 < bytes_per_cluster) (hc : count * bytes_per_cluster < 2 ^ 32)
    (hs : file_size + bytes_per_cluster - 1 < 2 ^ 32) :
    do_file_check_size count bytes_per_cluster file_size
      = if count < (file_size + bytes_per_cluster - 1) / bytes_per_cluster then
          [{ level := 1, msg := fat_msg.not_enough_clusters }]
        else if count > (file_size + bytes_per_cluster - 1) / bytes_per_cluster then
          [{ level := 1, msg := fat_msg.too_many_clusters }]
        else [] := by
  rw [do_file_check_size, Nat.mod_eq_of_lt hc, DIVIDE_UP_eq _ _ hb hs]
  have key : count * bytes_per_cluster < file_size
      ↔ count < (file_size + bytes_per_cluster - 1) / bytes_per_cluster := by
    rw [Nat.lt_iff_add_one_le, Nat.lt_iff_add_one_le, Nat.le_div_iff_mul_le hb, Nat.add_mul]
    omega
  by_cases c : count < (file_size + bytes_per_cluster - 1) / bytes_per_cluster
  · rw [if_pos (key.mpr c), if_pos c, if_neg (by omega)]
    rfl
  · rw [if_neg (fun h => c (key.mp h)), if_neg c]
    rfl

/-- C15: the file of three clusters with the size `0xFFFFFFFF` on a volume
with clusters of 512 bytes gets both warnings, `Not enough clusters
allocated` and `Too many clusters allocated`: the sum in `DIVIDE_UP` wraps
around, so the quotient is 0 instead of 8388608. -/
theorem do_file_check_size_overflow :
    do_file sample_fat 10 512 (List.replicate 10 0) (List.replicate 10 none) 20 2 (some 1)
        0xFFFFFFFF
      = some { count := 3, usage_vector := [0, 0, 1, 1, 1, 0, 0, 0, 0, 0]
               path_vector := [none, none, some 1, some 1, some 1, none, none, none, none, none]
               log := [{ level := 1, msg := fat_msg.not_enough_clusters },
                       { level := 1, msg := fat_msg.too_many_clusters }] }
      ∧ DIVIDE_UP 0xFFFFFFFF 512 = 0
      ∧ (0xFFFFFFFF + 512 - 1) / 512 = 8388608 := by
  decide

/-! ## Cluster-chain terminals -/

theorem do_file_loop_steps (fat : List Nat) (tc : Nat) (path : Option Nat) :
    ∀ (n fuel cluster : Nat) (w : file_walk),
      fresh_chain fat tc w.usage_vector cluster n = true → w.count + n < 2 ^ 32 →
      do_file_loop fat tc path (fuel + n) cluster w
        = do_file_loop fat tc path fuel (chain_cluster fat cluster n)
            { count := w.count + n
              usage_vector := mark_usage fat w.usage_vector cluster n
              path_vector := mark_path fat path w.path_vector cluster n
              log := w.log } := by
  intro n
  induction n with
  | zero =>
    intro fuel cluster w _ _
    rfl
  | succ n ih =>
    intro fuel cluster w hf hc
    rw [fresh_chain] at hf
    simp only [Bool.and_eq_true, decide_eq_true_eq] at hf
    obtain ⟨⟨⟨⟨h1, h2⟩, h3⟩, h4⟩, h5⟩ := hf
    have e : fuel + (n + 1) = (fuel + n) + 1 := by omega
    rw [e, do_file_loop, if_pos (by omega), if_neg (by omega), if_neg (by omega),
      if_neg (by omega), use_cluster, if_neg (by omega)]
    simp only [h4, ne_eq, not_true_eq_false, if_false, Bool.not_true, Bool.false_eq_true,
      List.append_nil]
    have e2 : (w.count + 1) % 2 ^ 32 = w.count + 1 := Nat.mod_eq_of_lt (by omega)
    rw [e2, ih fuel _ _ h5 (by dsimp only; omega)]
    dsimp only [chain_cluster, mark_usage, mark_path]
    rw [Nat.add_assoc, Nat.add_comm 1 n]

theorem mark_usage_keeps (fat : List Nat) (x : Nat) :
    ∀ (n : Nat) (uv : List Nat) (c : Nat), uv.getD x 0 = USE_FILE →
      (mark_usage fat uv c n).getD x 0 = USE_FILE := by
  intro n
  induction n with
  | zero => intro uv c h; exact h
  | succ n ih =>
    intro uv c h
    rw [mark_usage]
    apply ih
    rw [List.getD_eq_getElem?_getD] at h ⊢
    by_cases hc : c = x
    · subst hc
      by_cases hl : c < uv.length
      · rw [List.getElem?_set_self hl]
        rfl
      · rw [List.set_eq_of_length_le (by omega)]
        exact h
    · rw [List.getElem?_set_ne hc]
      exact h

theorem mark_path_keeps (fat : List Nat) (path : Option Nat) (x : Nat) :
    ∀ (n : Nat) (pv : List (Option Nat)) (c : Nat), pv.getD x none = path →
      (mark_path fat path pv c n).getD x none = path := by
  intro n
  induction n with
  | zero => intro pv c h; exact h
  | succ n ih =>
    intro pv c h
    rw [mark_path]
    apply ih
    rw [List.getD_eq_getElem?_getD] at h ⊢
    by_cases hc : c = x
    · subst hc
      by_cases hl : c < pv.length
      · rw [List.getElem?_set_self hl]
        rfl
      · rw [List.set_eq_of_length_le (by omega)]
        exact h
    · rw [List.getElem?_set_ne hc]
      exact h

theorem mark_usage_chain (fat : List Nat) (tc : Nat) :
    ∀ (n : Nat) (uv : List Nat) (c j : Nat), fresh_chain fat tc uv c n = true → j < n →
      tc ≤ uv.length →
      (mark_usage fat uv c n).getD (chain_cluster fat c j) 0 = USE_FILE := by
  intro n
  induction n with
  | zero => intro uv c j _ h; omega
  | succ n ih =>
    intro uv c j hf hj hl
    rw [fresh_chain] at hf
    simp only [Bool.and_eq_true, decide_eq_true_eq] at hf
    obtain ⟨⟨⟨⟨h1, h2⟩, h3⟩, h4⟩, h5⟩ := hf
    rw [mark_usage]
    cases j with
    | zero =>
      rw [chain_cluster]
      apply mark_usage_keeps
      rw [List.getD_eq_getElem?_getD, List.getElem?_set_self (by omega)]
      rfl
    | succ j =>
      rw [chain_cluster]
      exact ih _ _ j h5 (by omega) (by simpa using hl)

theorem mark_path_chain (fat : List Nat) (tc : Nat) (path : Option Nat) :
    ∀ (n : Nat) (uv : List Nat) (pv : List (Option Nat)) (c j : Nat),
      fresh_chain fat tc uv c n = true → j < n → tc ≤ pv.length →
      (mark_path fat path pv c n).getD (chain_cluster fat c j) none = path := by
  intro n
  induction n with
  | zero => intro uv pv c j _ h; omega
  | succ n ih =>
    intro uv pv c j hf hj hl
    rw [fresh_chain] at hf
    simp only [Bool.and_eq_true, decide_eq_true_eq] at hf
    obtain ⟨⟨⟨⟨h1, h2⟩, h3⟩, h4⟩, h5⟩ := hf
    rw [mark_path]
    cases j with
    | zero =>
      rw [chain_cluster]
      apply mark_path_keeps
      rw [List.getD_eq_getElem?_getD, List.getElem?_set_self (by omega)]
      rfl
    | succ j =>
      rw [chain_cluster]
      exact ih _ _ _ j h5 (by omega) (by simpa using hl)

theorem fresh_chain_in_volume (fat : List Nat) (tc : Nat) :
    ∀ (n : Nat) (uv : List Nat) (c j : Nat), fresh_chain fat tc uv c n = true → j < n →
      2 ≤ chain_cluster fat c j ∧ chain_cluster fat c j < tc
        ∧ chain_cluster fat c j < 0xfff7 := by
  intro n
  induction n with
  | zero => intro uv c j _ h; omega
  | succ n ih =>
    intro uv c j hf hj
    rw [fresh_chain] at hf
    simp only [Bool.and_eq_true, decide_eq_true_eq] at hf
    obtain ⟨⟨⟨⟨h1, h2⟩, h3⟩, h4⟩, h5⟩ := hf
    cases j with
    | zero => exact ⟨h1, h2, h3⟩
    | succ j =>
      rw [chain_cluster]
      exact ih _ _ j h5 (by omega)

theorem do_file_after_steps (fat : List Nat) (tc bpc : Nat) (uv : List Nat)
    (pv : List (Option Nat)) (k start : Nat) (path : Option Nat) (file_size m : Nat)
    (hstart : start ≠ 0) (hfresh : fresh_chain fat tc uv start m = true) (hm : m < 2 ^ 32) :
    do_file fat tc bpc uv pv ((k + 1) + m) start path file_size
      = match do_file_loop fat tc path (k + 1) (chain_cluster fat start m)
            { count := m, usage_vector := mark_usage fat uv start m
              path_vector := mark_path fat path pv start m, log := [] } with
        | none => none
        | some w =>
          some { w with log := w.log ++ do_file_check_size w.count bpc file_size } := by
  have h := do_file_loop_steps fat tc path m (k + 1) start
    { count := 0, usage_vector := uv, path_vector := pv, log := [] } hfresh
    (by dsimp only; omega)
  rw [Nat.zero_add] at h
  rw [do_file, if_pos hstart, h]

/-- C14 (amended): a walk of `do_file` over `m` clusters that are free when
reached returns, with more fuel than clusters, the count `m`; it emits no
warning of its own when the chain then reaches an end-of-chain value
(`≥ 0xfff8`), and exactly one warning of severity 1 when it reaches a free
entry 0, the bad-cluster marker `0xfff7`, a cluster number outside the volume,
or a cluster already walked for this file (a cycle; the usage conflict is
reported before it). -/
theorem do_file_chain_terminals (fat : List Nat) (total_clusters bytes_per_cluster : Nat)
    (usage_vector : List Nat) (path_vector : List (Option Nat)) (fuel start : Nat)
    (path : Option Nat) (file_size m : Nat)
    (hstart : start ≠ 0)
    (hfresh : fresh_chain fat total_clusters usage_vector start m = true)
    (hm : m < 2 ^ 32) (hfuel : m < fuel) :
    (0xfff8 ≤ chain_cluster fat start m →
        do_file fat total_clusters bytes_per_cluster usage_vector path_vector fuel start path
            file_size
          = some (walk_outcome fat bytes_per_cluster usage_vector path_vector start path
              file_size m []))
      ∧ (chain_cluster fat start m = 0 →
        do_file fat total_clusters bytes_per_cluster usage_vector path_vector fuel start path
            file_size
          = some (walk_outcome fat bytes_per_cluster usage_vector path_vector start path
              file_size m [{ level := 1, msg := fat_msg.references_unused_cluster }]))
      ∧ (chain_cluster fat start m = 0xfff7 →
        do_file fat total_clusters bytes_per_cluster usage_vector path_vector fuel start path
            file_size
          = some (walk_outcome fat bytes_per_cluster usage_vector path_vector start path
              file_size m [{ level := 1, msg := fat_msg.references_bad_cluster }]))
      ∧ (chain_cluster fat start m ≠ 0 → chain_cluster fat start m < 0xfff7 →
          (chain_cluster fat start m < 2 ∨ total_clusters ≤ chain_cluster fat start m) →
        do_file fat total_clusters bytes_per_cluster usage_vector path_vector fuel start path
            file_size
          = some (walk_outcome fat bytes_per_cluster usage_vector path_vector start path
              file_size m
              [{ level := 1
                 msg := fat_msg.invalid_cluster_number (chain_cluster fat start m) }]))
      ∧ (∀ j < m, chain_cluster fat start m = chain_cluster fat start j →
          total_clusters ≤ usage_vector.length → total_clusters ≤ path_vector.length →
          path ≠ none →
        do_file fat total_clusters bytes_per_cluster usage_vector path_vector fuel start path
            file_size
          = some (walk_outcome fat bytes_per_cluster usage_vector path_vector start path
              file_size m
              [{ level := 1
                 msg := fat_msg.usage_conflict (chain_cluster fat start m) USE_FILE USE_FILE },
               { level := 1, msg := fat_msg.cycle_after m }])) := by
  obtain ⟨k, rfl⟩ : ∃ k, fuel = (k + 1) + m := ⟨fuel - m - 1, by omega⟩
  rw [do_file_after_steps fat total_clusters bytes_per_cluster usage_vector path_vector k start
    path file_size m hstart hfresh hm]
  refine ⟨?_, ?_, ?_, ?_, ?_⟩
  · intro h
    rw [do_file_loop, if_neg (by omega)]
    rfl
  · intro h
    rw [do_file_loop, if_pos (by omega), if_pos h]
    rfl
  · intro h
    rw [do_file_loop, if_pos (by omega), if_neg (by omega), if_pos h]
    rfl
  · intro h1 h2 h3
    rw [do_file_loop, if_pos (by omega), if_neg h1, if_neg (by omega),
      if_pos ⟨by omega, by omega⟩]
    rfl
  · intro j hj hc hlu hlp hp
    obtain ⟨r1, r2, r3⟩ := fresh_chain_in_volume fat total_clusters m usage_vector start j
      hfresh hj
    have hu := mark_usage_chain fat total_clusters m usage_vector start j hfresh hj hlu
    have hpv := mark_path_chain fat total_clusters path m usage_vector path_vector start j
      hfresh hj hlp
    rw [← hc] at r1 r2 r3 hu hpv
    rw [do_file_loop, if_pos (by omega), if_neg (by omega), if_neg (by omega),
      if_neg (by omega), use_cluster, if_neg (by omega)]
    dsimp only
    rw [hu, hpv, if_pos (by decide)]
    simp [hp, walk_outcome]

theorem sample_fresh_chain :
    fresh_chain sample_fat 10 (List.replicate 10 0) 2 3 = true
      ∧ fresh_chain sample_fat 10 (List.replicate 10 0) 8 2 = true := by
  decide

theorem do_file_chain_terminals_witness :
    (2 : Nat) ≠ 0 ∧ fresh_chain sample_fat 10 (List.replicate 10 0) 2 3 = true
      ∧ 3 < 2 ^ 32 ∧ 3 < 20 ∧ 0xfff8 ≤ chain_cluster sample_fat 2 3
      ∧ do_file sample_fat 10 512 (List.replicate 10 0) (List.replicate 10 none) 20 2 (some 1)
            1400
          = some (walk_outcome sample_fat 512 (List.replicate 10 0) (List.replicate 10 none) 2
              (some 1) 1400 3 []) :=
  ⟨by decide, sample_fresh_chain.1, by decide, by decide, by decide,
    (do_file_chain_terminals sample_fat 10 512 (List.replicate 10 0) (List.replicate 10 none)
      20 2 (some 1) 1400 3 (by decide) sample_fresh_chain.1 (by decide) (by decide)).1
      (by decide)⟩

/-- C14 (counterexample): the chain of the file that starts in cluster 5
reaches a free entry after one cluster, the chain from cluster 6 reaches the
bad-cluster marker; in both cases the walk emits a warning of severity 1,
although the cluster numbers are in range and there is no cycle. -/
theorem do_file_chain_terminals_counterexample :
    chain_cluster sample_fat 5 1 = 0
      ∧ (do_file sample_fat 10 512 (List.replicate 10 0) (List.replicate 10 none) 20 5
            (some 1) 512).map (fun w => w.log)
          = some [{ level := 1, msg := fat_msg.references_unused_cluster }]
      ∧ chain_cluster sample_fat 6 1 = 0xfff7
      ∧ (do_file sample_fat 10 512 (List.replicate 10 0) (List.replicate 10 none) 20 6
            (some 1) 512).map (fun w => w.log)
          = some [{ level := 1, msg := fat_msg.references_bad_cluster }] := by
  decide

/-! ## Pointers to extended attributes -/

theorem vfat_vname_length (p : List Nat) : (vfat_vname p).length = 13 := by
  simp [vfat_vname]

theorem vfat_length_le (v : List Nat) : ∀ n : Nat, vfat_length v n ≤ n := by
  intro n
  induction n with
  | zero => exact Nat.le_refl _
  | succ n ih =>
    rw [vfat_length]
    split
    · omega
    · exact Nat.le_refl _

theorem take_vfat_length (v : List Nat) :
    ∀ n : Nat, n ≤ v.length →
      v.take (vfat_length v n) = (v.take n).rdropWhile (fun u => u == 0xffff) := by
  intro n
  induction n with
  | zero => intro _; simp [vfat_length]
  | succ n ih =>
    intro hn
    have hlt : n < v.length := by omega
    have e : v.take (n + 1) = v.take n ++ [v.getD n 0] := by
      rw [List.take_succ, List.getD_eq_getElem _ _ hlt, List.getElem?_eq_getElem hlt]
      rfl
    rw [vfat_length, e, List.rdropWhile_concat]
    by_cases c : v.getD n 0 = 0xffff
    · rw [if_pos c, if_pos (beq_iff_eq.mpr c), ih (by omega)]
    · rw [if_neg c, if_neg (fun h => c (beq_iff_eq.mp h)), e]

theorem vfat_slice_eq_take (p : List Nat) :
    vfat_slice p = (vfat_vname p).take (vfat_length (vfat_vname p) 13) := by
  have h := take_vfat_length (vfat_vname p) 13 (by rw [vfat_vname_length])
  rw [h, vfat_slice, List.take_of_length_le (by rw [vfat_vname_length])]

theorem vfat_slice_length (p : List Nat) :
    (vfat_slice p).length = vfat_length (vfat_vname p) 13 := by
  rw [vfat_slice_eq_take, List.length_take, vfat_vname_length]
  have := vfat_length_le (vfat_vname p) 13
  omega

theorem drop_set_self (l : List Nat) :
    ∀ (k x : Nat), k < l.length → (l.set k x).drop k = x :: l.drop (k + 1) := by
  induction l with
  | nil => intro k x h; simp at h
  | cons a l ih =>
    intro k x h
    cases k with
    | zero => rfl
    | succ k =>
      rw [List.set_cons_succ, List.drop_succ_cons, List.drop_succ_cons]
      exact ih k x (by simpa using h)

theorem vfat_copy_spec (vname : List Nat) :
    ∀ (n : Nat) (pv : vfat), n ≤ vname.length → n ≤ pv.start → pv.start ≤ pv.name.length →
      (vfat_copy vname n pv).flag = pv.flag ∧ (vfat_copy vname n pv).index = pv.index
        ∧ (vfat_copy vname n pv).checksum = pv.checksum
        ∧ (vfat_copy vname n pv).start = pv.start - n
        ∧ (vfat_copy vname n pv).name.length = pv.name.length
        ∧ (vfat_copy vname n pv).name.drop (pv.start - n)
            = (vname.take n).map (fun u => u % 256) ++ pv.name.drop pv.start := by
  intro n
  induction n with
  | zero =>
    intro pv _ _ _
    simp [vfat_copy]
  | succ i ih =>
    intro pv h1 h2 h3
    rw [vfat_copy]
    have hlt : i < vname.length := by omega
    obtain ⟨r1, r2, r3, r4, r5, r6⟩ := ih
      { pv with
        unprintable :=
          if vname.getD i 0 < 0x20 ∨ vname.getD i 0 > 0xff then true else pv.unprintable
        start := pv.start - 1
        name := pv.name.set (pv.start - 1) (vname.getD i 0 % 256) }
      (by omega) (by dsimp only; omega) (by dsimp only; rw [List.length_set]; omega)
    dsimp only at r1 r2 r3 r4 r5 r6
    refine ⟨r1, r2, r3, by rw [r4]; omega, by rw [r5, List.length_set], ?_⟩
    have e1 : pv.start - (i + 1) = pv.start - 1 - i := by omega
    have e2 : vname.take (i + 1) = vname.take i ++ [vname.getD i 0] := by
      rw [List.take_succ, List.getD_eq_getElem _ _ hlt, List.getElem?_eq_getElem hlt]
      rfl
    have e3 : pv.start - 1 + 1 = pv.start := by omega
    rw [e1, r6, drop_set_self _ _ _ (by omega), e2, List.map_append, e3, List.append_assoc]
    rfl

theorem vfat_flag_bits :
    ∀ n < 64, ¬ (0x40 + n > 0x7f) ∧ (0x40 + n) &&& 0x40 ≠ 0 ∧ (0x40 + n) &&& 0x3f = n
      ∧ ¬ (n > 0x7f) ∧ n &&& 0x40 = 0 ∧ n &&& 0x3f = n := by
  decide

theorem do_dirent_vfat_store_ok (p : List Nat) (pv : vfat) (n : Nat)
    (hflag : p.getD 0 0 &&& 0x3f = pv.index) (hidx : pv.index ≠ 0)
    (hcs : p.getD 13 0 = pv.checksum) (hn : n ≤ 13) (hlen : n ≤ pv.start)
    (hstart : pv.start ≤ pv.name.length) :
    (do_dirent_vfat_store p pv n []).2 = []
      ∧ (do_dirent_vfat_store p pv n []).1.flag = pv.flag
      ∧ (do_dirent_vfat_store p pv n []).1.index = pv.index - 1
      ∧ (do_dirent_vfat_store p pv n []).1.checksum = pv.checksum
      ∧ (do_dirent_vfat_store p pv n []).1.start = pv.start - n
      ∧ (do_dirent_vfat_store p pv n []).1.name.length = pv.name.length
      ∧ (do_dirent_vfat_store p pv n []).1.name.drop (pv.start - n)
          = ((vfat_vname p).take n).map (fun u => u % 256) ++ pv.name.drop pv.start := by
  have e : do_dirent_vfat_store p pv n []
      = (vfat_copy (vfat_vname p) n { pv with index := pv.index - 1 }, []) := by
    rw [do_dirent_vfat_store, if_neg (by rw [hflag]; tauto)]
    dsimp only
    rw [if_neg (by omega), if_neg (not_not.mpr hcs)]
  rw [e]
  obtain ⟨r1, r2, r3, r4, r5, r6⟩ := vfat_copy_spec (vfat_vname p) n
    { pv with index := pv.index - 1 } (by rw [vfat_vname_length]; exact hn) hlen hstart
  exact ⟨rfl, r1, r2, r3, r4, r5, r6⟩

theorem do_dirent_next (p : List Nat) (pv : vfat)
    (hattr : p.getD 11 0 = 0x0f) (hflag : p.getD 0 0 = pv.index) (hidx1 : pv.index ≠ 0)
    (hidx2 : pv.index < 64) (hcs : p.getD 13 0 = pv.checksum)
    (hlen : (vfat_slice p).length ≤ pv.start) (hstart : pv.start ≤ pv.name.length) :
    (do_dirent p pv).2 = []
      ∧ (do_dirent p pv).1.flag = pv.flag
      ∧ (do_dirent p pv).1.index = pv.index - 1
      ∧ (do_dirent p pv).1.checksum = pv.checksum
      ∧ (do_dirent p pv).1.start = pv.start - (vfat_slice p).length
      ∧ (do_dirent p pv).1.name.length = pv.name.length
      ∧ (do_dirent p pv).1.name.drop (pv.start - (vfat_slice p).length)
          = (vfat_slice p).map (fun u => u % 256) ++ pv.name.drop pv.start := by
  obtain ⟨b1, b2, b3, b4, b5, b6⟩ := vfat_flag_bits pv.index hidx2
  have e : do_dirent p pv
      = do_dirent_vfat_store p pv (vfat_length (vfat_vname p) 13) [] := by
    rw [do_dirent, if_neg (by omega), if_pos hattr, do_dirent_vfat, hflag, if_neg b4,
      if_neg (not_not.mpr b5)]
  rw [e, vfat_slice_length, vfat_slice_eq_take]
  rw [vfat_slice_length] at hlen
  exact do_dirent_vfat_store_ok p pv _ (by rw [hflag]; exact b6) hidx1 hcs
    (vfat_length_le _ 13) hlen hstart

theorem rdropWhile_padding (l : List Nat) :
    ∀ r : Nat, ((l ++ [0]) ++ List.replicate r 0xffff).rdropWhile (fun u => u == 0xffff)
      = l ++ [0] := by
  intro r
  induction r with
  | zero => simp [List.rdropWhile_concat]
  | succ r ih =>
    rw [List.replicate_succ', ← List.append_assoc, List.rdropWhile_concat, if_pos (by rfl)]
    exact ih

theorem vfat_slice_of_terminated (p : List Nat) (init : List Nat) (r : Nat)
    (h : vfat_vname p = init ++ 0 :: List.replicate r 0xffff) :
    vfat_slice p = init ++ [0] := by
  have e : init ++ 0 :: List.replicate r 0xffff = (init ++ [0]) ++ List.replicate r 0xffff := by
    simp
  rw [vfat_slice, h, e, rdropWhile_padding]

theorem do_dirent_first (p0 : List Nat) (pv : vfat) (n : Nat) (init : List Nat) (r : Nat)
    (hn1 : n ≠ 0) (hn2 : n < 64) (hflag : p0.getD 0 0 = 0x40 + n)
    (hattr : p0.getD 11 0 = 0x0f) (hpv : pv.flag = false) (hname : pv.name.length = 257)
    (h0 : vfat_vname p0 = init ++ 0 :: List.replicate r 0xffff) :
    (do_dirent p0 pv).2 = []
      ∧ (do_dirent p0 pv).1.flag = true
      ∧ (do_dirent p0 pv).1.index = n - 1
      ∧ (do_dirent p0 pv).1.checksum = p0.getD 13 0
      ∧ (do_dirent p0 pv).1.start = 256 - init.length
      ∧ (do_dirent p0 pv).1.name.length = 257
      ∧ (do_dirent p0 pv).1.name.drop (256 - init.length)
          = init.map (fun u => u % 256) ++ [0] := by
  obtain ⟨b1, b2, b3, b4, b5, b6⟩ := vfat_flag_bits n hn2
  have hs := vfat_slice_of_terminated p0 init r h0
  have hl : vfat_length (vfat_vname p0) 13 = init.length + 1 := by
    rw [← vfat_slice_length, hs, List.length_append]
    rfl
  have hi : init.length ≤ 12 := by
    have := vfat_length_le (vfat_vname p0) 13
    omega
  have hz : (vfat_vname p0).getD (init.length + 1 - 1) 0 = 0 := by
    rw [h0, Nat.add_sub_cancel, List.getD_eq_getElem?_getD,
      List.getElem?_append_right (Nat.le_refl _), Nat.sub_self, List.getElem?_cons_zero]
    rfl
  have e : do_dirent p0 pv
      = do_dirent_vfat_store p0
          { flag := true, unprintable := false, total := p0.getD 0 0 &&& 0x3f
            index := p0.getD 0 0 &&& 0x3f, checksum := p0.getD 13 0, start := 256
            name := pv.name.set 256 0 } (init.length + 1 - 1) [] := by
    rw [do_dirent, if_neg (by omega), if_pos hattr, do_dirent_vfat]
    rw [hl, if_neg (by rw [hflag]; exact b1), if_pos (by rw [hflag]; exact b2), hpv,
      if_neg (by decide), if_neg (by rw [hz]; omega)]
  obtain ⟨r1, r2, r3, r4, r5, r6, r7⟩ := do_dirent_vfat_store_ok p0
    { flag := true, unprintable := false, total := p0.getD 0 0 &&& 0x3f
      index := p0.getD 0 0 &&& 0x3f, checksum := p0.getD 13 0, start := 256
      name := pv.name.set 256 0 } (init.length + 1 - 1) rfl
    (by dsimp only; rw [hflag, b3]; exact hn1) rfl (by omega) (by dsimp only; omega)
    (by dsimp only; rw [List.length_set]; omega)
  rw [e]
  dsimp only at r2 r3 r4 r5 r6 r7
  rw [Nat.add_sub_cancel] at r1 r2 r3 r4 r5 r6 r7 ⊢
  refine ⟨r1, r2, by rw [r3, hflag, b3], r4, r5, by rw [r6, List.length_set, hname], ?_⟩
  rw [r7, h0, List.take_left', drop_set_self _ _ _ (by omega),
    List.drop_eq_nil_of_le (by omega)]
  rfl

theorem do_dir_scan_rest :
    ∀ (rest : List (List Nat)) (pv : vfat), pv.flag = true → pv.index = rest.length →
      rest.length < 64 → pv.name.length = 257 → pv.start ≤ 257 →
      13 * rest.length ≤ pv.start →
      (∀ k < rest.length, (rest.getD k []).getD 0 0 = rest.length - k
        ∧ (rest.getD k []).getD 11 0 = 0x0f ∧ (rest.getD k []).getD 13 0 = pv.checksum) →
      (do_dir_scan rest pv).2 = []
        ∧ (do_dir_scan rest pv).1.flag = true
        ∧ (do_dir_scan rest pv).1.index = 0
        ∧ (do_dir_scan rest pv).1.checksum = pv.checksum
        ∧ (do_dir_scan rest pv).1.name.drop (do_dir_scan rest pv).1.start
            = (rest.reverse.flatMap vfat_slice).map (fun u => u % 256)
                ++ pv.name.drop pv.start := by
  intro rest
  induction rest with
  | nil =>
    intro pv h1 h2 _ _ _ _ _
    exact ⟨rfl, h1, h2, rfl, rfl⟩
  | cons p rest ih =>
    intro pv h1 h2 h3 h4 h5 h6 h7
    rw [List.length_cons] at h2 h3 h6
    obtain ⟨f1, f2, f3⟩ := h7 0 (by simp)
    rw [List.getD_cons_zero, List.length_cons, Nat.sub_zero] at f1
    rw [List.getD_cons_zero] at f2 f3
    have hsl : (vfat_slice p).length ≤ 13 := by
      rw [vfat_slice_length]
      exact vfat_length_le _ 13
    obtain ⟨s1, s2, s3, s4, s5, s6, s7⟩ := do_dirent_next p pv f2 (by rw [f1, h2])
      (by omega) (by omega) f3 (by omega) (by omega)
    obtain ⟨t1, t2, t3, t4, t5⟩ := ih (do_dirent p pv).1 (by rw [s2, h1]) (by rw [s3, h2]; rfl)
      (by omega) (by rw [s6, h4]) (by rw [s5]; omega) (by rw [s5]; omega) (by
        intro k hk
        have := h7 (k + 1) (by rw [List.length_cons]; omega)
        rw [List.getD_cons_succ, List.length_cons] at this
        rw [s4]
        exact ⟨by omega, this.2.1, this.2.2⟩)
    have e : do_dir_scan (p :: rest) pv
        = ((do_dir_scan rest (do_dirent p pv).1).1,
            (do_dirent p pv).2 ++ (do_dir_scan rest (do_dirent p pv).1).2) := by
      rw [do_dir_scan, if_neg (by omega)]
    rw [e]
    dsimp only
    refine ⟨by rw [s1, t1]; rfl, t2, t3, by rw [t4, s4], ?_⟩
    rw [t5, s5, s7, List.reverse_cons, List.flatMap_append, List.map_append,
      List.append_assoc]
    simp

theorem c_string_append_zero (x y : List Nat) : c_string (x ++ 0 :: y) = c_string x := by
  induction x with
  | nil => rfl
  | cons a x ih =>
    rw [List.cons_append, c_string, c_string, List.takeWhile_cons, List.takeWhile_cons]
    split
    · rw [← c_string, ← c_string, ih]
    · rfl

theorem map_mod_of_small (l : List Nat) (h : ∀ u ∈ l, u < 0x100) :
    l.map (fun u => u % 256) = l := by
  induction l with
  | nil => rfl
  | cons a l ih =>
    rw [List.map_cons, ih (fun u hu => h u (List.mem_cons_of_mem _ hu)),
      Nat.mod_eq_of_lt (h a (List.mem_cons_self _ _))]

theorem vfat_slice_of_small (p : List Nat) (h : ∀ u ∈ vfat_vname p, u < 0x100) :
    vfat_slice p = vfat_vname p := by
  rw [vfat_slice, List.rdropWhile_eq_self_iff]
  intro hl
  have := h _ (List.getLast_mem hl)
  intro hc
  rw [beq_iff_eq] at hc
  omega

theorem flatMap_slice_of_small (l : List (List Nat))
    (h : ∀ p ∈ l, ∀ u ∈ vfat_vname p, u < 0x100) :
    l.flatMap vfat_slice = l.flatMap vfat_vname
      ∧ ∀ u ∈ l.flatMap vfat_vname, u < 0x100 := by
  induction l with
  | nil => exact ⟨rfl, by simp⟩
  | cons a l ih =>
    obtain ⟨i1, i2⟩ := ih (fun p hp => h p (List.mem_cons_of_mem _ hp))
    have ha := h a (List.mem_cons_self _ _)
    refine ⟨by rw [List.flatMap_cons, List.flatMap_cons, i1, vfat_slice_of_small a ha], ?_⟩
    intro u hu
    rw [List.flatMap_cons, List.mem_append] at hu
    rcases hu with hu | hu
    · exact ha u hu
    · exact i2 u hu

theorem vfat_idle_name : vfat_idle.name.length = 257 :=
  List.length_replicate _ _

theorem sample_fragments_ok :
    vfat_vname sample_fragment_head = [0x61, 0x62] ++ 0 :: List.replicate 10 0xffff
      ∧ (∀ u ∈ [0x61, 0x62], u < 0x100)
      ∧ (∀ k < sample_fragment_tail.length,
          (sample_fragment_tail.getD k []).getD 0 0 = sample_fragment_tail.length - k
            ∧ (sample_fragment_tail.getD k []).getD 11 0 = 0x0f
            ∧ (sample_fragment_tail.getD k []).getD 13 0 = sample_fragment_head.getD 13 0)
      ∧ (∀ p ∈ sample_fragment_tail, ∀ u ∈ vfat_vname p, u < 0x100) := by
  decide

/-- C17 (amended): a sequence of VFAT entries `p0 :: rest` with the indexes
`n, n - 1, ..., 1`, the first with the bit `0x40`, that arrives while no long
name is pending, whose first entry holds name units, a NUL unit and `0xffff`
padding, whose other code units are below `0x100`, with equal checksum bytes
matching the short-name entry `q` that follows and is not a `.` entry, and
with at most 255 name units in total: `do_dirent` emits no warning for the
entries and for `q`, and the string at `pv->name + pv->start` is the
concatenation of the slices of 13 units in reversed order of the entries, cut
at the first NUL. -/
theorem vfat_reassembly (p0 : List Nat) (rest : List (List Nat)) (q : List Nat) (pv : vfat)
    (init : List Nat) (r : Nat)
    (hpv : pv.flag = false) (hname : pv.name.length = 257)
    (h0flag : p0.getD 0 0 = 0x40 + (rest.length + 1)) (h0attr : p0.getD 11 0 = 0x0f)
    (h0 : vfat_vname p0 = init ++ 0 :: List.replicate r 0xffff)
    (hinit : ∀ u ∈ init, u < 0x100)
    (hrest : ∀ k < rest.length, (rest.getD k []).getD 0 0 = rest.length - k
      ∧ (rest.getD k []).getD 11 0 = 0x0f ∧ (rest.getD k []).getD 13 0 = p0.getD 13 0)
    (hunits : ∀ p ∈ rest, ∀ u ∈ vfat_vname p, u < 0x100)
    (htotal : init.length + 13 * rest.length ≤ 255)
    (hq0 : q.getD 0 0 ≠ 0xe5) (hq1 : q.getD 0 0 ≠ 0x2e) (hqattr : q.getD 11 0 ≠ 0x0f)
    (hqcs : dirent_checksum_loop q 11 0 0 = p0.getD 13 0) :
    (do_dir_scan (p0 :: rest) pv).2 = []
      ∧ (do_dirent q (do_dir_scan (p0 :: rest) pv).1).2 = []
      ∧ c_string ((do_dir_scan (p0 :: rest) pv).1.name.drop
            (do_dir_scan (p0 :: rest) pv).1.start)
          = vfat_long_name (p0 :: rest) := by
  obtain ⟨s1, s2, s3, s4, s5, s6, s7⟩ := do_dirent_first p0 pv (rest.length + 1) init r
    (by omega) (by omega) h0flag h0attr hpv hname h0
  obtain ⟨t1, t2, t3, t4, t5⟩ := do_dir_scan_rest rest (do_dirent p0 pv).1 s2
    (by rw [s3]; rfl) (by omega) s6 (by omega) (by rw [s5]; omega) (by
      intro k hk
      rw [s4]
      exact hrest k hk)
  have e : do_dir_scan (p0 :: rest) pv
      = ((do_dir_scan rest (do_dirent p0 pv).1).1,
          (do_dirent p0 pv).2 ++ (do_dir_scan rest (do_dirent p0 pv).1).2) := by
    rw [do_dir_scan, if_neg (by omega)]
  rw [e]
  dsimp only
  refine ⟨by rw [s1, t1]; rfl, ?_, ?_⟩
  · rw [do_dirent, if_neg hq0, if_neg hqattr]
    dsimp only
    rw [t2, t3, t4, s4, hqcs]
    simp only [ne_eq, not_true_eq_false, if_false, if_true]
    rw [if_neg (fun h => hq1 h.1)]
  · obtain ⟨u1, u2⟩ := flatMap_slice_of_small rest.reverse (fun p hp =>
      hunits p (List.mem_reverse.mp hp))
    rw [t5, s5, s7, u1, map_mod_of_small _ u2, map_mod_of_small _ hinit, vfat_long_name,
      List.reverse_cons, List.flatMap_append, List.flatMap_singleton, h0]
    have e1 : rest.reverse.flatMap vfat_vname ++ (init ++ [0])
        = (rest.reverse.flatMap vfat_vname ++ init) ++ 0 :: [] := by simp
    have e2 : rest.reverse.flatMap vfat_vname ++ (init ++ 0 :: List.replicate r 0xffff)
        = (rest.reverse.flatMap vfat_vname ++ init) ++ 0 :: List.replicate r 0xffff := by
      simp
    rw [e1, e2, c_string_append_zero, c_string_append_zero]

theorem vfat_reassembly_witness :
    vfat_idle.flag = false
      ∧ sample_fragment_tail.length = 2
      ∧ (do_dir_scan (sample_fragment_head :: sample_fragment_tail) vfat_idle).2 = []
      ∧ (do_dirent sample_short_entry
          (do_dir_scan (sample_fragment_head :: sample_fragment_tail) vfat_idle).1).2 = []
      ∧ c_string ((do_dir_scan (sample_fragment_head :: sample_fragment_tail) vfat_idle).1.name.drop
            (do_dir_scan (sample_fragment_head :: sample_fragment_tail) vfat_idle).1.start)
          = vfat_long_name (sample_fragment_head :: sample_fragment_tail)
      ∧ vfat_long_name (sample_fragment_head :: sample_fragment_tail)
          = List.range' 0x41 26 ++ [0x61, 0x62] :=
  have h := vfat_reassembly sample_fragment_head sample_fragment_tail sample_short_entry
    vfat_idle [0x61, 0x62] 10 rfl vfat_idle_name (by decide) (by decide)
    sample_fragments_ok.1 sample_fragments_ok.2.1 sample_fragments_ok.2.2.1
    sample_fragments_ok.2.2.2 (by decide) (by decide) (by decide) (by decide) (by decide)
  ⟨rfl, rfl, h.1, h.2.1, h.2.2, by decide⟩

/-- C17 (counterexample): four sequences that meet the claim.  A single entry
with 13 name units and no NUL gets the warning `VFAT name not
null-terminated`; the unit `0x141` is stored as the byte `0x41`; the long name
in front of the entry `.` gets the warning `Must not have a VFAT name`; and
the sample sequence that follows a pending long name gets warnings at its
first entry. -/
theorem vfat_reassembly_counterexample :
    (do_dir_scan [vfat_entry 0x41 0xd4 (List.range' 0x41 13), sample_short_entry] vfat_idle).2
        = [{ level := 1, msg := fat_msg.vfat_name_not_null_terminated }]
      ∧ (c_string ((do_dir_scan [vfat_entry 0x41 0xd4 [0x141, 0]] vfat_idle).1.name.drop
            (do_dir_scan [vfat_entry 0x41 0xd4 [0x141, 0]] vfat_idle).1.start) = [0x41]
          ∧ vfat_long_name [vfat_entry 0x41 0xd4 [0x141, 0]] = [0x141])
      ∧ (do_dir_scan [vfat_entry 0x41 0x77 [0x61, 0], sample_dot_entry] vfat_idle).2
        = [{ level := 1, msg := fat_msg.must_not_have_vfat_name }]
      ∧ (do_dirent sample_fragment_head
          (do_dir_scan (sample_fragment_head :: sample_fragment_tail) vfat_idle).1).2
        = [{ level := 1, msg := fat_msg.no_real_entry_after_vfat_name },
           { level := 1, msg := fat_msg.incorrect_vfat_name_index }] := by
  decide

/-! ## Orphan VFAT entries -/

theorem do_dirent_wrong_index (p : List Nat) (pv : vfat) (hattr : p.getD 11 0 = 0x0f)
    (hflag : p.getD 0 0 < 0x40) (hne : p.getD 0 0 ≠ pv.index ∨ pv.index = 0) :
    do_dirent p pv
      = ({ pv with flag := false }, [{ level := 1, msg := fat_msg.incorrect_vfat_name_index }]) := by
  obtain ⟨b1, b2, b3, b4, b5, b6⟩ := vfat_flag_bits (p.getD 0 0) hflag
  rw [do_dirent, if_neg (by omega), if_pos hattr, do_dirent_vfat, if_neg b4,
    if_neg (not_not.mpr b5), do_dirent_vfat_store, b6, if_pos hne]
  rfl

/-- C18: after the long name started by the entry with index 3 has been
given up at the short-name entry (warning `Incomplete VFAT name`, `pv->flag`
is `FALSE`), the VFAT entry with index 2 arrives as an orphan; `do_dirent`
emits no warning for it and stores its 13 units in `pv->name`, because
`pv->index` still holds 2. -/
theorem vfat_orphan_unreported :
    (do_dir_scan [sample_fragment_head, sample_short_entry] vfat_idle).2
        = [{ level := 1, msg := fat_msg.incomplete_vfat_name }]
      ∧ (do_dir_scan [sample_fragment_head, sample_short_entry] vfat_idle).1.flag = false
      ∧ (do_dir_scan [sample_fragment_head, sample_short_entry] vfat_idle).1.index = 2
      ∧ (do_dir_scan [sample_fragment_head, sample_short_entry] vfat_idle).1.start = 254
      ∧ (do_dirent (vfat_entry 0x02 0xd4 (List.range' 0x4e 13))
          (do_dir_scan [sample_fragment_head, sample_short_entry] vfat_idle).1).2 = []
      ∧ (do_dirent (vfat_entry 0x02 0xd4 (List.range' 0x4e 13))
          (do_dir_scan [sample_fragment_head, sample_short_entry] vfat_idle).1).1.start = 241
      ∧ (do_dirent (vfat_entry 0x02 0xd4 (List.range' 0x4e 13))
          (do_dir_scan [sample_fragment_head, sample_short_entry] vfat_idle).1).1.name.drop 241
        = List.range' 0x4e 13 ++ [0x61, 0x62, 0]
      ∧ (do_dir_scan [sample_fragment_head, sample_short_entry,
          vfat_entry 0x02 0xd4 (List.range' 0x4e 13)] vfat_idle).2
        = [{ level := 1, msg := fat_msg.incomplete_vfat_name }] := by
  decide

/-- An entry with a short name that follows an unfinished long name: the
warning "Incomplete VFAT name", and `pv->flag` becomes `FALSE`; the other
members stay as they are. -/
theorem do_dirent_short_incomplete (p : List Nat) (pv : vfat) (h0 : p.getD 0 0 ≠ 0xe5)
    (hattr : p.getD 11 0 ≠ 0x0f) (hdot : p.getD 0 0 ≠ 0x2e) (hflag : pv.flag = true)
    (hidx : pv.index ≠ 0) (hcs : dirent_checksum_loop p 11 0 0 = pv.checksum) :
    do_dirent p pv
      = ({ pv with flag := false }, [{ level := 1, msg := fat_msg.incomplete_vfat_name }]) := by
  rw [do_dirent, if_neg h0, if_neg hattr]
  simp only [hflag, if_true, if_pos hidx, hcs, ne_eq, not_true_eq_false, if_false]
  rw [if_neg (fun c => hdot c.1)]

/-- The scan of C18 does not depend on what `struct vfat` holds at the start,
where the code has set only `flag`: for every state with `flag` = `FALSE` the
head entry with index 3 and the entry with the short name leave `pv->index`
at 2 with the warning "Incomplete VFAT name", and the orphan entry with index
2 is stored without a warning. -/
theorem vfat_orphan_unreported_any_state (pv : vfat) (hpv : pv.flag = false)
    (hname : pv.name.length = 257) :
    (do_dir_scan [sample_fragment_head, sample_short_entry] pv).2
        = [{ level := 1, msg := fat_msg.incomplete_vfat_name }]
      ∧ (do_dir_scan [sample_fragment_head, sample_short_entry] pv).1.flag = false
      ∧ (do_dir_scan [sample_fragment_head, sample_short_entry] pv).1.index = 2
      ∧ (do_dir_scan [sample_fragment_head, sample_short_entry] pv).1.start = 254
      ∧ (do_dirent (vfat_entry 0x02 0xd4 (List.range' 0x4e 13))
          (do_dir_scan [sample_fragment_head, sample_short_entry] pv).1).2 = []
      ∧ (do_dirent (vfat_entry 0x02 0xd4 (List.range' 0x4e 13))
          (do_dir_scan [sample_fragment_head, sample_short_entry] pv).1).1.start = 241
      ∧ (do_dirent (vfat_entry 0x02 0xd4 (List.range' 0x4e 13))
          (do_dir_scan [sample_fragment_head, sample_short_entry] pv).1).1.name.drop 241
        = List.range' 0x4e 13 ++ [0x61, 0x62, 0] := by
  obtain ⟨f1, f2, f3, f4, f5, f6, f7⟩ := do_dirent_first sample_fragment_head pv 3 [0x61, 0x62] 10
    (by decide) (by decide) (by decide) (by decide) hpv hname (by decide)
  have hshort := do_dirent_short_incomplete sample_short_entry
    (do_dirent sample_fragment_head pv).1 (by decide) (by decide) (by decide) f2
    (by rw [f3]; decide) (by rw [f4]; decide)
  have hscan : do_dir_scan [sample_fragment_head, sample_short_entry] pv
      = ({ (do_dirent sample_fragment_head pv).1 with flag := false },
          [{ level := 1, msg := fat_msg.incomplete_vfat_name }]) := by
    rw [do_dir_scan, if_neg (by decide)]
    simp only []
    rw [do_dir_scan, if_neg (by decide)]
    simp only []
    rw [do_dir_scan, hshort, f1]
    rfl
  rw [hscan]
  obtain ⟨g1, -, -, -, g5, -, g7⟩ := do_dirent_next (vfat_entry 0x02 0xd4 (List.range' 0x4e 13))
    { (do_dirent sample_fragment_head pv).1 with flag := false } (by decide)
    (by show _ = (do_dirent sample_fragment_head pv).1.index; rw [f3]; decide)
    (by show (do_dirent sample_fragment_head pv).1.index ≠ 0; rw [f3]; decide)
    (by show (do_dirent sample_fragment_head pv).1.index < 64; rw [f3]; decide)
    (by show _ = (do_dirent sample_fragment_head pv).1.checksum; rw [f4]; decide)
    (by show _ ≤ (do_dirent sample_fragment_head pv).1.start; rw [f5]; decide)
    (by show (do_dirent sample_fragment_head pv).1.start
          ≤ (do_dirent sample_fragment_head pv).1.name.length
        rw [f5, f6]; decide)
  have hsl : (vfat_slice (vfat_entry 0x02 0xd4 (List.range' 0x4e 13))).length = 13 := by decide
  have hsm : (vfat_slice (vfat_entry 0x02 0xd4 (List.range' 0x4e 13))).map (fun u => u % 256)
      = List.range' 0x4e 13 := by decide
  refine ⟨rfl, rfl, f3, f5, g1, ?_, ?_⟩
  · rw [g5, hsl]
    show (do_dirent sample_fragment_head pv).1.start - 13 = 241
    rw [f5]
    rfl
  · have e : (241 : Nat)
        = ({ (do_dirent sample_fragment_head pv).1 with flag := false } : vfat).start
          - (vfat_slice (vfat_entry 0x02 0xd4 (List.range' 0x4e 13))).length := by
      rw [hsl]
      show 241 = (do_dirent sample_fragment_head pv).1.start - 13
      rw [f5]
      rfl
    rw [e, g7, hsm]
    show _ ++ (do_dirent sample_fragment_head pv).1.name.drop
      (do_dirent sample_fragment_head pv).1.start = _
    rw [f5]
    exact congrArg _ f7

/-! ## Sectors seen -/

theorem lor_land_self (a b : Nat) : (a ||| b) &&& b = b := by
  apply Nat.eq_of_testBit_eq
  intro i
  rw [Nat.testBit_and, Nat.testBit_or]
  cases a.testBit i <;> cases b.testBit i <;> rfl

theorem have_seen_loop_spec (total what : Nat) (htotal : total < 2 ^ 32) :
    ∀ (n secno : Nat) (sv : List Nat) (seen : Bool) (log : List Hpfs.hpfs_warning),
      total ≤ sv.length →
      ((Hpfs.have_seen_loop total what n secno sv seen log).1 = true
          ↔ seen = true ∨ ∃ k, secno ≤ k ∧ k < secno + n ∧ k < total ∧ sv.getD k 0 &&& what ≠ 0)
        ∧ (Hpfs.have_seen_loop total what n secno sv seen log).2.1.length = sv.length
        ∧ ∀ k, (Hpfs.have_seen_loop total what n secno sv seen log).2.1.getD k 0
            = if secno ≤ k ∧ k < secno + n ∧ k < total ∧ sv.getD k 0 &&& what = 0 then
                sv.getD k 0 ||| what
              else sv.getD k 0 := by
  intro n
  induction n with
  | zero =>
    intro secno sv seen log _
    rw [Hpfs.have_seen_loop]
    refine ⟨?_, rfl, ?_⟩
    · constructor
      · intro h; exact Or.inl h
      · rintro (h | ⟨k, h1, h2, _⟩)
        · exact h
        · omega
    · intro k
      rw [if_neg (by omega)]
  | succ n ih =>
    intro secno sv seen log hlen
    rw [Hpfs.have_seen_loop]
    by_cases c : secno < total
    · have e : (secno + 1) % 2 ^ 32 = secno + 1 := Nat.mod_eq_of_lt (by omega)
      rw [if_pos c, e]
      by_cases s : sv.getD secno 0 &&& what ≠ 0
      · rw [if_pos s]
        obtain ⟨i1, i2, i3⟩ := ih (secno + 1) sv true
          (log ++ [{ level := 1, msg := Hpfs.hpfs_msg.sector_already_used secno }]) hlen
        refine ⟨?_, i2, ?_⟩
        · rw [i1]
          constructor
          · intro _
            exact Or.inr ⟨secno, Nat.le_refl _, by omega, c, s⟩
          · intro _
            exact Or.inl rfl
        · intro k
          rw [i3 k]
          by_cases hk : k = secno
          · subst hk
            rw [if_neg (by omega), if_neg (fun h => s h.2.2.2)]
          · by_cases hc : secno + 1 ≤ k ∧ k < secno + 1 + n ∧ k < total ∧ sv.getD k 0 &&& what = 0
            · rw [if_pos hc, if_pos ⟨by omega, by omega, hc.2.2.1, hc.2.2.2⟩]
            · rw [if_neg hc, if_neg (fun h => hc ⟨by omega, by omega, h.2.2.1, h.2.2.2⟩)]
      · rw [if_neg s]
        have s0 : sv.getD secno 0 &&& what = 0 := not_not.mp s
        have hget : ∀ k, k ≠ secno →
            (sv.set secno (sv.getD secno 0 ||| what)).getD k 0 = sv.getD k 0 := by
          intro k hk
          rw [List.getD_eq_getElem?_getD, List.getElem?_set_ne (Ne.symm hk),
            ← List.getD_eq_getElem?_getD]
        obtain ⟨i1, i2, i3⟩ := ih (secno + 1) (sv.set secno (sv.getD secno 0 ||| what)) seen log
          (by rw [List.length_set]; exact hlen)
        refine ⟨?_, by rw [i2, List.length_set], ?_⟩
        · rw [i1]
          constructor
          · rintro (h | ⟨k, h1, h2, h3, h4⟩)
            · exact Or.inl h
            · rw [hget k (by omega)] at h4
              exact Or.inr ⟨k, by omega, by omega, h3, h4⟩
          · rintro (h | ⟨k, h1, h2, h3, h4⟩)
            · exact Or.inl h
            · have hk : k ≠ secno := fun hk => h4 (hk ▸ s0)
              exact Or.inr ⟨k, by omega, by omega, h3, by rw [hget k hk]; exact h4⟩
        · intro k
          rw [i3 k]
          by_cases hk : k = secno
          · subst hk
            rw [if_neg (by omega), if_pos ⟨Nat.le_refl _, by omega, c, s0⟩,
              List.getD_eq_getElem?_getD, List.getElem?_set_self (by omega)]
            rfl
          · rw [hget k hk]
            by_cases hc : secno + 1 ≤ k ∧ k < secno + 1 + n ∧ k < total ∧ sv.getD k 0 &&& what = 0
            · rw [if_pos hc, if_pos ⟨by omega, by omega, hc.2.2.1, hc.2.2.2⟩]
            · rw [if_neg hc, if_neg (fun h => hc ⟨by omega, by omega, h.2.2.1, h.2.2.2⟩)]
    · rw [if_neg c]
      refine ⟨?_, rfl, ?_⟩
      · constructor
        · intro h; exact Or.inl h
        · rintro (h | ⟨k, h1, h2, h3, _⟩)
          · exact h
          · omega
      · intro k
        rw [if_neg (by omega)]

/-- C22: `have_seen (secno, count, what)` returns `TRUE` exactly when a sector
of `[secno, secno + count)` below `total_sectors` already had the tag `what`
in `seen_vector`; afterwards every such sector has the tag, no bit outside
`what` and no sector outside the range is changed, and a second call with
the same arguments returns `TRUE` when the range holds a sector below
`total_sectors`. -/
theorem have_seen_spec (total_sectors : Nat) (seen_vector : List Nat) (secno count what : Nat)
    (htotal : total_sectors < 2 ^ 32) (hlen : total_sectors ≤ seen_vector.length)
    (hwhat : what ≠ 0) :
    ((Hpfs.have_seen total_sectors seen_vector secno count what).1 = true
        ↔ ∃ n, secno ≤ n ∧ n < secno + count ∧ n < total_sectors
            ∧ seen_vector.getD n 0 &&& what ≠ 0)
      ∧ (∀ n, secno ≤ n → n < secno + count → n < total_sectors →
          (Hpfs.have_seen total_sectors seen_vector secno count what).2.1.getD n 0 &&& what ≠ 0)
      ∧ (∀ n c, what.testBit c = false →
          ((Hpfs.have_seen total_sectors seen_vector secno count what).2.1.getD n 0).testBit c
            = (seen_vector.getD n 0).testBit c)
      ∧ (∀ n, ¬ (secno ≤ n ∧ n < secno + count ∧ n < total_sectors) →
          (Hpfs.have_seen total_sectors seen_vector secno count what).2.1.getD n 0
            = seen_vector.getD n 0)
      ∧ ((∃ n, secno ≤ n ∧ n < secno + count ∧ n < total_sectors) →
          (Hpfs.have_seen total_sectors
            (Hpfs.have_seen total_sectors seen_vector secno count what).2.1
            secno count what).1 = true) := by
  obtain ⟨r1, r2, r3⟩ := have_seen_loop_spec total_sectors what htotal count secno seen_vector
    false [] hlen
  have tagged : ∀ n, secno ≤ n → n < secno + count → n < total_sectors →
      (Hpfs.have_seen total_sectors seen_vector secno count what).2.1.getD n 0 &&& what ≠ 0 := by
    intro n h1 h2 h3
    rw [Hpfs.have_seen, r3 n]
    by_cases c : seen_vector.getD n 0 &&& what = 0
    · rw [if_pos ⟨h1, h2, h3, c⟩, lor_land_self]
      exact hwhat
    · rw [if_neg (fun h => c h.2.2.2)]
      exact c
  refine ⟨?_, tagged, ?_, ?_, ?_⟩
  · rw [Hpfs.have_seen, r1]
    constructor
    · rintro (h | h)
      · exact absurd h (by decide)
      · exact h
    · intro h
      exact Or.inr h
  · intro n c hc
    rw [Hpfs.have_seen, r3 n]
    split
    · rw [Nat.testBit_or, hc, Bool.or_false]
    · rfl
  · intro n hn
    rw [Hpfs.have_seen, r3 n, if_neg (fun h => hn ⟨h.1, h.2.1, h.2.2.1⟩)]
  · rintro ⟨n, h1, h2, h3⟩
    obtain ⟨q1, _, _⟩ := have_seen_loop_spec total_sectors what htotal count secno
      (Hpfs.have_seen total_sectors seen_vector secno count what).2.1 false []
      (by rw [Hpfs.have_seen, r2]; exact hlen)
    rw [Hpfs.have_seen, q1]
    exact Or.inr ⟨n, h1, h2, h3, tagged n h1 h2 h3⟩

theorem have_seen_spec_witness :
    (8 : Nat) < 2 ^ 32 ∧ 8 ≤ Hpfs.sample_seen.length ∧ (2 : Nat) ≠ 0
      ∧ (Hpfs.have_seen 8 Hpfs.sample_seen 5 4 2).1 = true
      ∧ (Hpfs.have_seen 8 Hpfs.sample_seen 5 4 2).2.1 = [0, 1, 2, 0, 4, 2, 3, 2]
      ∧ ((Hpfs.have_seen 8 Hpfs.sample_seen 5 4 2).1 = true
          ↔ ∃ n, 5 ≤ n ∧ n < 5 + 4 ∧ n < 8 ∧ Hpfs.sample_seen.getD n 0 &&& 2 ≠ 0) :=
  ⟨by decide, by decide, by decide, by decide, by decide,
    (have_seen_spec 8 Hpfs.sample_seen 5 4 2 (by decide) (by decide) (by decide)).1⟩

/-! ## Sectors used -/

theorem use_sectors_body_spec (total : Nat) (ready : Bool) (av : List Nat) (what : Nat)
    (path : Option Nat) (secno : Nat) (u : Hpfs.usage)
    (hlen : total ≤ u.usage_vector.length)
    (hplen : ∀ v, u.path_vector = some v → total ≤ v.length) :
    (∀ n, (Hpfs.use_sectors_body total ready av what path secno u).usage_vector.getD n 0
        = if n = secno ∧ n < total ∧ Hpfs.usage_conflict (u.usage_vector.getD n 0) what = false
          then what else u.usage_vector.getD n 0)
      ∧ (∀ n, (Hpfs.use_sectors_body total ready av what path secno u).path_vector.map
            (fun v => v.getD n none)
          = u.path_vector.map (fun v =>
              if n = secno ∧ n < total
                  ∧ Hpfs.usage_conflict (u.usage_vector.getD n 0) what = false
              then path else v.getD n none))
      ∧ (Hpfs.use_sectors_body total ready av what path secno u).usage_vector.length
          = u.usage_vector.length
      ∧ (∀ v, (Hpfs.use_sectors_body total ready av what path secno u).path_vector = some v →
          total ≤ v.length)
      ∧ (∀ n o w, ({ level := 1, msg := Hpfs.hpfs_msg.usage_conflict n o w } : Hpfs.hpfs_warning)
            ∈ (Hpfs.use_sectors_body total ready av what path secno u).log
          ↔ ({ level := 1, msg := Hpfs.hpfs_msg.usage_conflict n o w } : Hpfs.hpfs_warning) ∈ u.log
            ∨ (n = secno ∧ n < total ∧ o = u.usage_vector.getD n 0 ∧ w = what
                ∧ Hpfs.usage_conflict o what = true)) := by
  rw [Hpfs.use_sectors_body]
  by_cases c : secno ≥ total
  · rw [if_pos c]
    refine ⟨?_, ?_, rfl, hplen, ?_⟩
    · intro n
      rw [if_neg (by omega)]
    · intro n
      congr 1
      funext v
      rw [if_neg (by omega)]
    · intro n o w
      simp only [List.mem_append, List.mem_singleton, Hpfs.hpfs_warning.mk.injEq, true_and]
      constructor
      · rintro (h | h)
        · exact Or.inl h
        · exact absurd h (by simp)
      · rintro (h | h)
        · exact Or.inl h
        · omega
  rw [if_neg c]
  by_cases k : Hpfs.usage_conflict (u.usage_vector.getD secno 0) what = true
  · simp only [k, if_true]
    refine ⟨?_, ?_, ?_, ?_, ?_⟩
    · intro n
      split <;> rw [if_neg (by rintro ⟨rfl, _, h⟩; rw [k] at h; exact absurd h (by decide))]
    · intro n
      split <;>
      · congr 1
        funext v
        rw [if_neg (by rintro ⟨rfl, _, h⟩; rw [k] at h; exact absurd h (by decide))]
    · split <;> rfl
    · split <;> exact hplen
    · intro n o w
      split <;>
      · simp only [List.mem_append, List.mem_singleton, Hpfs.hpfs_warning.mk.injEq, true_and,
          Hpfs.hpfs_msg.usage_conflict.injEq, reduceCtorEq, or_false]
        constructor
        · rintro (h | ⟨rfl, rfl, rfl⟩)
          · exact Or.inl h
          · exact Or.inr ⟨rfl, by omega, rfl, rfl, k⟩
        · rintro (h | ⟨rfl, _, rfl, rfl, _⟩)
          · exact Or.inl h
          · exact Or.inr ⟨rfl, rfl, rfl⟩
  · have k0 : Hpfs.usage_conflict (u.usage_vector.getD secno 0) what = false := by
      simpa using k
    simp only [k0, Bool.false_eq_true, if_false]
    have hget : ∀ n, (u.usage_vector.set secno what).getD n 0
        = if n = secno ∧ n < total
            ∧ Hpfs.usage_conflict (u.usage_vector.getD n 0) what = false
          then what else u.usage_vector.getD n 0 := by
      intro n
      by_cases hn : n = secno
      · subst hn
        rw [if_pos ⟨rfl, by omega, k0⟩, List.getD_eq_getElem?_getD,
          List.getElem?_set_self (by omega)]
        rfl
      · rw [if_neg (fun h => hn h.1), List.getD_eq_getElem?_getD,
          List.getElem?_set_ne (Ne.symm hn), ← List.getD_eq_getElem?_getD]
    have hpget : ∀ n, (u.path_vector.map (fun v => v.set secno path)).map
          (fun v => v.getD n none)
        = u.path_vector.map (fun v =>
            if n = secno ∧ n < total
                ∧ Hpfs.usage_conflict (u.usage_vector.getD n 0) what = false
            then path else v.getD n none) := by
      intro n
      cases hv : u.path_vector with
      | none => rfl
      | some v =>
        have hl := hplen v hv
        simp only [Option.map_some']
        congr 1
        by_cases hn : n = secno
        · subst hn
          rw [if_pos ⟨rfl, by omega, k0⟩, List.getD_eq_getElem?_getD,
            List.getElem?_set_self (by omega)]
          rfl
        · rw [if_neg (fun h => hn h.1), List.getD_eq_getElem?_getD,
            List.getElem?_set_ne (Ne.symm hn), ← List.getD_eq_getElem?_getD]
    have hpl : ∀ v, u.path_vector.map (fun v => v.set secno path) = some v →
        total ≤ v.length := by
      intro v hv
      cases hu : u.path_vector with
      | none => rw [hu] at hv; exact absurd hv (by simp)
      | some v0 =>
        rw [hu] at hv
        simp only [Option.map_some', Option.some.injEq] at hv
        rw [← hv, List.length_set]
        exact hplen v0 hu
    refine ⟨?_, ?_, ?_, ?_, ?_⟩
    · intro n
      split <;> exact hget n
    · intro n
      split <;> exact hpget n
    · split <;> exact List.length_set _ _ _
    · split <;> exact hpl
    · intro n o w
      split <;>
      · simp only [List.mem_append, List.mem_singleton, Hpfs.hpfs_warning.mk.injEq, true_and,
          reduceCtorEq, or_false]
        constructor
        · intro h
          exact Or.inl h
        · rintro (h | ⟨rfl, _, rfl, _, h⟩)
          · exact h
          · rw [k0] at h
            exact absurd h (by decide)

theorem visited_succ (secno count n : Nat) :
    (∃ i < count + 1, n = (secno + i) % 2 ^ 32)
      ↔ n = secno % 2 ^ 32 ∨ ∃ i < count, n = ((secno + 1) % 2 ^ 32 + i) % 2 ^ 32 := by
  constructor
  · rintro ⟨i, hi, rfl⟩
    cases i with
    | zero => exact Or.inl rfl
    | succ i =>
      refine Or.inr ⟨i, by omega, ?_⟩
      rw [Nat.mod_add_mod]
      congr 1
      omega
  · rintro (rfl | ⟨i, hi, rfl⟩)
    · exact ⟨0, by omega, rfl⟩
    · refine ⟨i + 1, by omega, ?_⟩
      rw [Nat.mod_add_mod]
      congr 1
      omega

theorem not_visited_again (secno count : Nat) (hc : count < 2 ^ 32) :
    ¬ ∃ i < count, secno = ((secno + 1) % 2 ^ 32 + i) % 2 ^ 32 := by
  rintro ⟨i, hi, h⟩
  rw [Nat.mod_add_mod] at h
  omega

theorem option_map_congr {α β : Type} (o : Option α) (f g : α → β) (h : ∀ a, f a = g a) :
    o.map f = o.map g := by
  cases o with
  | none => rfl
  | some a => simp [h]

theorem use_sectors_loop_spec (total : Nat) (ready : Bool) (av : List Nat) (what : Nat)
    (path : Option Nat) :
    ∀ (count secno : Nat) (u : Hpfs.usage), secno < 2 ^ 32 → count < 2 ^ 32 →
      total ≤ u.usage_vector.length →
      (∀ v, u.path_vector = some v → total ≤ v.length) →
      (∀ n, (Hpfs.use_sectors_loop total ready av what path count secno u).usage_vector.getD n 0
          = if (∃ i < count, n = (secno + i) % 2 ^ 32) ∧ n < total
              ∧ Hpfs.usage_conflict (u.usage_vector.getD n 0) what = false
            then what else u.usage_vector.getD n 0)
        ∧ (∀ n, (Hpfs.use_sectors_loop total ready av what path count secno u).path_vector.map
              (fun v => v.getD n none)
            = u.path_vector.map (fun v =>
                if (∃ i < count, n = (secno + i) % 2 ^ 32) ∧ n < total
                    ∧ Hpfs.usage_conflict (u.usage_vector.getD n 0) what = false
                then path else v.getD n none))
        ∧ (∀ n o w,
            ({ level := 1, msg := Hpfs.hpfs_msg.usage_conflict n o w } : Hpfs.hpfs_warning)
              ∈ (Hpfs.use_sectors_loop total ready av what path count secno u).log
            ↔ ({ level := 1, msg := Hpfs.hpfs_msg.usage_conflict n o w } : Hpfs.hpfs_warning)
                ∈ u.log
              ∨ ((∃ i < count, n = (secno + i) % 2 ^ 32) ∧ n < total
                  ∧ o = u.usage_vector.getD n 0 ∧ w = what
                  ∧ Hpfs.usage_conflict o what = true)) := by
  intro count
  induction count with
  | zero =>
    intro secno u _ _ _ _
    rw [Hpfs.use_sectors_loop]
    refine ⟨?_, ?_, ?_⟩
    · intro n
      rw [if_neg (by rintro ⟨⟨i, hi, _⟩, _⟩; omega)]
    · intro n
      exact (option_map_congr _ _ _ (fun v => by
        rw [if_neg (by rintro ⟨⟨i, hi, _⟩, _⟩; omega)])).symm
    · intro n o w
      constructor
      · intro h; exact Or.inl h
      · rintro (h | ⟨⟨i, hi, _⟩, _⟩)
        · exact h
        · omega
  | succ count ih =>
    intro secno u hs hc hlen hplen
    rw [Hpfs.use_sectors_loop]
    obtain ⟨b1, b2, b3, b4, b5⟩ := use_sectors_body_spec total ready av what path secno u
      hlen hplen
    obtain ⟨i1, i2, i3⟩ := ih ((secno + 1) % 2 ^ 32)
      (Hpfs.use_sectors_body total ready av what path secno u)
      (Nat.mod_lt _ (by decide)) (by omega) (by rw [b3]; exact hlen) b4
    have hsm : secno % 2 ^ 32 = secno := Nat.mod_eq_of_lt hs
    have hnv := not_visited_again secno count (by omega)
    have hvis : ∀ n, (∃ i < count + 1, n = (secno + i) % 2 ^ 32)
        ↔ n = secno ∨ ∃ i < count, n = ((secno + 1) % 2 ^ 32 + i) % 2 ^ 32 := by
      intro n
      rw [visited_succ, hsm]
    refine ⟨?_, ?_, ?_⟩
    · intro n
      rw [i1 n]
      by_cases hn : n = secno
      · have hC : ¬ ((∃ i < count, n = ((secno + 1) % 2 ^ 32 + i) % 2 ^ 32) ∧ n < total
            ∧ Hpfs.usage_conflict
              ((Hpfs.use_sectors_body total ready av what path secno u).usage_vector.getD
                n 0) what = false) := fun h => hnv (hn ▸ h.1)
        rw [if_neg hC, b1 n]
        by_cases c : n < total ∧ Hpfs.usage_conflict (u.usage_vector.getD n 0) what = false
        · rw [if_pos ⟨hn, c.1, c.2⟩, if_pos ⟨(hvis n).mpr (Or.inl hn), c.1, c.2⟩]
        · rw [if_neg (fun h => c ⟨h.2.1, h.2.2⟩), if_neg (fun h => c ⟨h.2.1, h.2.2⟩)]
      · have e1 : (Hpfs.use_sectors_body total ready av what path secno u).usage_vector.getD
            n 0 = u.usage_vector.getD n 0 := by
          rw [b1 n, if_neg (fun h => hn h.1)]
        rw [e1]
        by_cases c : (∃ i < count, n = ((secno + 1) % 2 ^ 32 + i) % 2 ^ 32) ∧ n < total
            ∧ Hpfs.usage_conflict (u.usage_vector.getD n 0) what = false
        · rw [if_pos c, if_pos ⟨(hvis n).mpr (Or.inr c.1), c.2.1, c.2.2⟩]
        · rw [if_neg c, if_neg (fun h => c ⟨((hvis n).mp h.1).resolve_left hn, h.2.1, h.2.2⟩)]
    · intro n
      rw [i2 n]
      have hb := b2 n
      cases hv : u.path_vector with
      | none =>
        rw [hv] at hb
        cases hr : (Hpfs.use_sectors_body total ready av what path secno u).path_vector with
        | none => rfl
        | some v => rw [hr] at hb; exact absurd hb (by simp)
      | some v =>
        rw [hv] at hb
        cases hr : (Hpfs.use_sectors_body total ready av what path secno u).path_vector with
        | none => rw [hr] at hb; exact absurd hb (by simp)
        | some v1 =>
          rw [hr] at hb
          simp only [Option.map_some', Option.some.injEq] at hb ⊢
          rw [hb]
          by_cases hn : n = secno
          · have hC : ¬ ((∃ i < count, n = ((secno + 1) % 2 ^ 32 + i) % 2 ^ 32) ∧ n < total
                ∧ Hpfs.usage_conflict
                  ((Hpfs.use_sectors_body total ready av what path secno u).usage_vector.getD
                    n 0) what = false) := fun h => hnv (hn ▸ h.1)
            rw [if_neg hC]
            by_cases c : n < total ∧ Hpfs.usage_conflict (u.usage_vector.getD n 0) what = false
            · rw [if_pos ⟨hn, c.1, c.2⟩, if_pos ⟨(hvis n).mpr (Or.inl hn), c.1, c.2⟩]
            · rw [if_neg (fun h => c ⟨h.2.1, h.2.2⟩), if_neg (fun h => c ⟨h.2.1, h.2.2⟩)]
          · have e1 : (Hpfs.use_sectors_body total ready av what path secno u).usage_vector.getD
                n 0 = u.usage_vector.getD n 0 := by
              rw [b1 n, if_neg (fun h => hn h.1)]
            have hD : ¬ (n = secno ∧ n < total
                ∧ Hpfs.usage_conflict (u.usage_vector.getD n 0) what = false) :=
              fun h => hn h.1
            rw [e1, if_neg hD]
            by_cases c : (∃ i < count, n = ((secno + 1) % 2 ^ 32 + i) % 2 ^ 32) ∧ n < total
                ∧ Hpfs.usage_conflict (u.usage_vector.getD n 0) what = false
            · rw [if_pos c, if_pos ⟨(hvis n).mpr (Or.inr c.1), c.2.1, c.2.2⟩]
            · rw [if_neg c,
                if_neg (fun h => c ⟨((hvis n).mp h.1).resolve_left hn, h.2.1, h.2.2⟩)]
    · intro n o w
      rw [i3 n o w, b5 n o w, b1 n]
      constructor
      · rintro ((h | ⟨rfl, h1, h2, h3, h4⟩) | ⟨hv, h1, h2, h3, h4⟩)
        · exact Or.inl h
        · exact Or.inr ⟨(hvis n).mpr (Or.inl rfl), h1, h2, h3, h4⟩
        · have hn : n ≠ secno := fun e => hnv (e ▸ hv)
          rw [if_neg (fun h => hn h.1)] at h2
          exact Or.inr ⟨(hvis n).mpr (Or.inr hv), h1, h2, h3, h4⟩
      · rintro (h | ⟨hv, h1, h2, h3, h4⟩)
        · exact Or.inl (Or.inl h)
        · by_cases hn : n = secno
          · exact Or.inl (Or.inr ⟨hn, h1, h2, h3, h4⟩)
          · refine Or.inr ⟨((hvis n).mp hv).resolve_left hn, h1, ?_, h3, h4⟩
            rw [if_neg (fun h => hn h.1)]
            exact h2

theorem sample_usage_wf :
    8 ≤ Hpfs.sample_usage.usage_vector.length
      ∧ ∀ v, Hpfs.sample_usage.path_vector = some v → 8 ≤ v.length := by
  refine ⟨by decide, ?_⟩
  intro v hv
  injection hv with hv
  rw [← hv]
  decide

/-- C23: `use_sectors (secno, count, what, path)` handles the `count` sectors
from `secno` on (sector numbers are 32-bit values), and for each of them below
`total_sectors`, with the previous class `old`: a usage-conflict warning is
emitted exactly when `old` is not empty and `(old, what)` is none of
(spare DIRBLK, DIRBLK), (DIRBLK band, DIRBLK), (code page data, code page
data); on a conflict its entries of `usage_vector` and `path_vector` stay as
they are, otherwise they become `what` and `path`; the entries of all other
sectors stay as they are. -/
theorem use_sectors_class_upgrades (total_sectors : Nat) (alloc_ready : Bool)
    (alloc_vector : List Nat) (u : Hpfs.usage) (secno count what : Nat) (path : Option Nat)
    (hsecno : secno < 2 ^ 32) (hcount : count < 2 ^ 32)
    (hlen : total_sectors ≤ u.usage_vector.length)
    (hplen : ∀ v, u.path_vector = some v → total_sectors ≤ v.length)
    (hlog : u.log = []) :
    (∀ old w : Nat, Hpfs.usage_conflict old w = true
        ↔ old ≠ Hpfs.USE_EMPTY
          ∧ (old, w) ≠ (Hpfs.USE_SPAREDIRBLK, Hpfs.USE_DIRBLK)
          ∧ (old, w) ≠ (Hpfs.USE_BANDDIRBLK, Hpfs.USE_DIRBLK)
          ∧ (old, w) ≠ (Hpfs.USE_CPDATASEC, Hpfs.USE_CPDATASEC))
      ∧ (∀ n, n < total_sectors → (∃ i < count, n = (secno + i) % 2 ^ 32) →
          ((∃ o w, ({ level := 1, msg := Hpfs.hpfs_msg.usage_conflict n o w } : Hpfs.hpfs_warning)
              ∈ (Hpfs.use_sectors total_sectors alloc_ready alloc_vector u secno count what
                  path).log)
            ↔ Hpfs.usage_conflict (u.usage_vector.getD n 0) what = true)
          ∧ (Hpfs.usage_conflict (u.usage_vector.getD n 0) what = true →
              (Hpfs.use_sectors total_sectors alloc_ready alloc_vector u secno count what
                  path).usage_vector.getD n 0 = u.usage_vector.getD n 0
                ∧ (Hpfs.use_sectors total_sectors alloc_ready alloc_vector u secno count what
                    path).path_vector.map (fun v => v.getD n none)
                  = u.path_vector.map (fun v => v.getD n none))
          ∧ (Hpfs.usage_conflict (u.usage_vector.getD n 0) what = false →
              (Hpfs.use_sectors total_sectors alloc_ready alloc_vector u secno count what
                  path).usage_vector.getD n 0 = what
                ∧ (Hpfs.use_sectors total_sectors alloc_ready alloc_vector u secno count what
                    path).path_vector.map (fun v => v.getD n none)
                  = u.path_vector.map (fun _ => path)))
      ∧ (∀ n, ¬ (n < total_sectors ∧ ∃ i < count, n = (secno + i) % 2 ^ 32) →
          (Hpfs.use_sectors total_sectors alloc_ready alloc_vector u secno count what
              path).usage_vector.getD n 0 = u.usage_vector.getD n 0
            ∧ (Hpfs.use_sectors total_sectors alloc_ready alloc_vector u secno count what
                path).path_vector.map (fun v => v.getD n none)
              = u.path_vector.map (fun v => v.getD n none)) := by
  obtain ⟨r1, r2, r3⟩ := use_sectors_loop_spec total_sectors alloc_ready alloc_vector what path
    count secno u hsecno hcount hlen hplen
  refine ⟨?_, ?_, ?_⟩
  · intro old w
    simp only [Hpfs.usage_conflict, Hpfs.USE_EMPTY, Hpfs.USE_SPAREDIRBLK, Hpfs.USE_BANDDIRBLK,
      Hpfs.USE_DIRBLK, Hpfs.USE_CPDATASEC, Bool.and_eq_true, Bool.not_eq_true',
      Bool.and_eq_false_iff, Bool.or_eq_false_iff, decide_eq_true_eq, decide_eq_false_iff_not,
      ne_eq, Prod.mk.injEq]
    constructor
    · rintro ⟨⟨h1, h2⟩, h3⟩
      refine ⟨h1, ?_, ?_, ?_⟩ <;> omega
    · rintro ⟨h1, h2, h3, h4⟩
      refine ⟨⟨h1, ?_⟩, ?_⟩
      · by_cases c : w = 8
        · exact Or.inr ⟨by omega, by omega⟩
        · exact Or.inl c
      · by_cases c : w = 12
        · exact Or.inr (by omega)
        · exact Or.inl c
  · intro n hn hv
    refine ⟨?_, ?_, ?_⟩
    · rw [Hpfs.use_sectors]
      constructor
      · rintro ⟨o, w, h⟩
        rw [r3 n o w, hlog] at h
        rcases h with h | ⟨_, _, rfl, rfl, h⟩
        · exact absurd h (List.not_mem_nil _)
        · exact h
      · intro h
        exact ⟨_, _, (r3 n _ _).mpr (Or.inr ⟨hv, hn, rfl, rfl, h⟩)⟩
    · intro h
      rw [Hpfs.use_sectors, r1 n, r2 n,
        if_neg (by rintro ⟨_, _, h2⟩; rw [h] at h2; exact absurd h2 (by decide))]
      refine ⟨rfl, option_map_congr _ _ _ (fun v => ?_)⟩
      rw [if_neg (by rintro ⟨_, _, h2⟩; rw [h] at h2; exact absurd h2 (by decide))]
    · intro h
      rw [Hpfs.use_sectors, r1 n, r2 n, if_pos ⟨hv, hn, h⟩]
      refine ⟨rfl, option_map_congr _ _ _ (fun v => ?_)⟩
      rw [if_pos ⟨hv, hn, h⟩]
  · intro n hn
    rw [Hpfs.use_sectors, r1 n, r2 n, if_neg (fun h => hn ⟨h.2.1, h.1⟩)]
    refine ⟨rfl, option_map_congr _ _ _ (fun v => ?_)⟩
    rw [if_neg (fun h => hn ⟨h.2.1, h.1⟩)]

theorem use_sectors_class_upgrades_witness :
    (2 : Nat) < 2 ^ 32 ∧ (4 : Nat) < 2 ^ 32 ∧ Hpfs.sample_usage.log = []
      ∧ (Hpfs.use_sectors 8 false [] Hpfs.sample_usage 2 4 Hpfs.USE_DIRBLK
            (some 3)).usage_vector = [0, 0, 8, 8, 8, 9, 0, 0]
      ∧ (Hpfs.use_sectors 8 false [] Hpfs.sample_usage 2 4 Hpfs.USE_DIRBLK (some 3)).log
          = [{ level := 1, msg := Hpfs.hpfs_msg.usage_conflict 5 9 8 }]
      ∧ ∀ n, ¬ (n < 8 ∧ ∃ i < 4, n = (2 + i) % 2 ^ 32) →
          (Hpfs.use_sectors 8 false [] Hpfs.sample_usage 2 4 Hpfs.USE_DIRBLK
              (some 3)).usage_vector.getD n 0 = Hpfs.sample_usage.usage_vector.getD n 0
            ∧ (Hpfs.use_sectors 8 false [] Hpfs.sample_usage 2 4 Hpfs.USE_DIRBLK
                (some 3)).path_vector.map (fun v => v.getD n none)
              = Hpfs.sample_usage.path_vector.map (fun v => v.getD n none) :=
  ⟨by decide, by decide, rfl, by decide, by decide,
    (use_sectors_class_upgrades 8 false [] Hpfs.sample_usage 2 4 Hpfs.USE_DIRBLK (some 3)
      (by decide) (by decide) sample_usage_wf.1 sample_usage_wf.2 rfl).2.2⟩

/-! ## Used sectors and the allocation bitmap -/

theorem check_alloc_used_run_spec (total : Nat) (uv : List Nat)
    (pv : Option (List (Option Nat))) (av : List Nat) (sw : Nat) (sp : Option Nat)
    (htotal : total < 2 ^ 32) :
    ∀ fuel i : Nat, i < total → total - i ≤ fuel →
      ∃ i1, Hpfs.check_alloc_used_run total uv pv av sw sp fuel i = some i1 ∧ i < i1
        ∧ i1 ≤ total := by
  intro fuel
  induction fuel with
  | zero => intro i h1 h2; omega
  | succ fuel ih =>
    intro i h1 h2
    rw [Hpfs.check_alloc_used_run]
    have e : (i + 1) % 2 ^ 32 = i + 1 := Nat.mod_eq_of_lt (by omega)
    simp only [e]
    split
    · rename_i c
      obtain ⟨i1, r1, r2, r3⟩ := ih (i + 1) c.1 (by omega)
      exact ⟨i1, r1, by omega, r3⟩
    · exact ⟨i + 1, rfl, by omega, by omega⟩

theorem check_alloc_used_spec (total : Nat) (uv : List Nat)
    (pv : Option (List (Option Nat))) (av : List Nat) (htotal : total < 2 ^ 32) :
    ∀ (fuel i : Nat) (first : Bool) (log : List Hpfs.hpfs_warning), total - i < fuel →
      ∃ extra, Hpfs.check_alloc_used total uv pv av fuel i first log = some (log ++ extra)
        ∧ (∀ w ∈ extra, w.level = 1)
        ∧ (extra ≠ [] ↔ ∃ n, i ≤ n ∧ n < total ∧ uv.getD n 0 ≠ Hpfs.USE_EMPTY
            ∧ Hpfs.ALLOCATED av n = false) := by
  intro fuel
  induction fuel with
  | zero => intro i first log h; omega
  | succ fuel ih =>
    intro i first log h
    rw [Hpfs.check_alloc_used]
    by_cases c : i < total
    · rw [if_pos c]
      by_cases b : uv.getD i 0 ≠ Hpfs.USE_EMPTY ∧ ¬ Hpfs.ALLOCATED av i = true
      · rw [if_pos b]
        obtain ⟨i1, r1, r2, r3⟩ := check_alloc_used_run_spec total uv pv av (uv.getD i 0)
          (Hpfs.path_of pv i) htotal (fuel + 1) i c (by omega)
        simp only [r1]
        obtain ⟨extra, q1, q2, q3⟩ := ih i1 false
          ((if first = true then
              log ++ [{ level := 1, msg := Hpfs.hpfs_msg.there_are_used_sectors_not_allocated }]
            else log)
            ++ [{ level := 1
                  msg := Hpfs.hpfs_msg.used_range_not_allocated (uv.getD i 0) i (i1 - i) }])
          (by omega)
        refine ⟨(if first = true then
              [{ level := 1, msg := Hpfs.hpfs_msg.there_are_used_sectors_not_allocated }]
            else [])
            ++ [{ level := 1
                  msg := Hpfs.hpfs_msg.used_range_not_allocated (uv.getD i 0) i (i1 - i) }]
            ++ extra, ?_, ?_, ?_⟩
        · rw [q1]
          cases first <;> simp
        · intro w hw
          rw [List.mem_append, List.mem_append] at hw
          rcases hw with (hw | hw) | hw
          · split at hw
            · rw [List.mem_singleton] at hw
              rw [hw]
            · exact absurd hw (List.not_mem_nil _)
          · rw [List.mem_singleton] at hw
            rw [hw]
          · exact q2 w hw
        · constructor
          · intro _
            exact ⟨i, Nat.le_refl _, c, b.1, by simpa using b.2⟩
          · intro _
            simp
      · rw [if_neg b]
        have e : (i + 1) % 2 ^ 32 = i + 1 := Nat.mod_eq_of_lt (by omega)
        rw [e]
        obtain ⟨extra, q1, q2, q3⟩ := ih (i + 1) first log (by omega)
        refine ⟨extra, q1, q2, ?_⟩
        rw [q3]
        constructor
        · rintro ⟨n, h1, h2, h3, h4⟩
          exact ⟨n, by omega, h2, h3, h4⟩
        · rintro ⟨n, h1, h2, h3, h4⟩
          have hn : n ≠ i := by
            rintro rfl
            exact b ⟨h3, by rw [h4]; decide⟩
          exact ⟨n, by omega, h2, h3, h4⟩
    · rw [if_neg c]
      refine ⟨[], by rw [List.append_nil], by simp, ?_⟩
      constructor
      · intro h; exact absurd rfl h
      · rintro ⟨n, h1, h2, _⟩
        omega

theorem check_alloc_unused_run_spec (total : Nat) (uv av : List Nat) (htotal : total < 2 ^ 32) :
    ∀ fuel i : Nat, i < total → total - i ≤ fuel →
      ∃ i1, Hpfs.check_alloc_unused_run total uv av fuel i = some i1 ∧ i < i1 ∧ i1 ≤ total := by
  intro fuel
  induction fuel with
  | zero => intro i h1 h2; omega
  | succ fuel ih =>
    intro i h1 h2
    rw [Hpfs.check_alloc_unused_run]
    have e : (i + 1) % 2 ^ 32 = i + 1 := Nat.mod_eq_of_lt (by omega)
    simp only [e]
    split
    · rename_i c
      obtain ⟨i1, r1, r2, r3⟩ := ih (i + 1) c.1 (by omega)
      exact ⟨i1, r1, by omega, r3⟩
    · exact ⟨i + 1, rfl, by omega, by omega⟩

theorem check_alloc_unused_spec (total : Nat) (uv av : List Nat) (check_unused : Bool)
    (htotal : total < 2 ^ 32) :
    ∀ (fuel i count : Nat) (log : List Hpfs.hpfs_warning), total - i < fuel →
      ∃ count1 extra, Hpfs.check_alloc_unused total uv av check_unused fuel i count log
          = some (count1, log ++ extra)
        ∧ ∀ w ∈ extra, w.level = 0 := by
  intro fuel
  induction fuel with
  | zero => intro i count log h; omega
  | succ fuel ih =>
    intro i count log h
    rw [Hpfs.check_alloc_unused]
    by_cases c : i < total
    · rw [if_pos c]
      by_cases b : uv.getD i 0 = Hpfs.USE_EMPTY ∧ Hpfs.ALLOCATED av i = true
      · rw [if_pos b]
        obtain ⟨i1, r1, r2, r3⟩ := check_alloc_unused_run_spec total uv av htotal (fuel + 1) i c
          (by omega)
        simp only [r1]
        generalize (if Hpfs.IN_RANGE 19 i (i1 - i) = true then _ else _ : Nat) = count3
        obtain ⟨count1, extra, q1, q2⟩ := ih i1 count3
          (if check_unused = true then
            log ++ [{ level := 0, msg := Hpfs.hpfs_msg.unused_but_marked_allocated i (i1 - i) }]
          else log) (by omega)
        refine ⟨count1, (if check_unused = true then
            [{ level := 0, msg := Hpfs.hpfs_msg.unused_but_marked_allocated i (i1 - i) }]
          else []) ++ extra, ?_, ?_⟩
        · rw [q1]
          cases check_unused <;> simp
        · intro w hw
          rw [List.mem_append] at hw
          rcases hw with hw | hw
          · split at hw
            · rw [List.mem_singleton] at hw
              rw [hw]
            · exact absurd hw (List.not_mem_nil _)
          · exact q2 w hw
      · rw [if_neg b]
        have e : (i + 1) % 2 ^ 32 = i + 1 := Nat.mod_eq_of_lt (by omega)
        rw [e]
        exact ih (i + 1) count log (by omega)
    · rw [if_neg c]
      exact ⟨count, [], by rw [List.append_nil], by simp⟩

/-- C24: `check_alloc` of do_hpfs.c returns (with more fuel than sectors) and
emits a warning of severity 1 exactly when some sector below `total_sectors`
has a use other than empty while the allocation bitmap does not mark it as
allocated; so after a run without such a warning every used sector is
marked as allocated. -/
theorem check_alloc_shadow_bitmap (total_sectors : Nat) (usage_vector : List Nat)
    (path_vector : Option (List (Option Nat))) (alloc_vector : List Nat) (check_unused : Bool)
    (fuel : Nat) (htotal : total_sectors < 2 ^ 32) (hfuel : total_sectors < fuel) :
    ∃ log, Hpfs.check_alloc total_sectors usage_vector path_vector alloc_vector check_unused fuel
        = some log
      ∧ ((∃ w ∈ log, w.level = 1)
          ↔ ∃ n, n < total_sectors ∧ usage_vector.getD n 0 ≠ Hpfs.USE_EMPTY
              ∧ Hpfs.ALLOCATED alloc_vector n = false)
      ∧ ((∀ w ∈ log, w.level ≠ 1) →
          ∀ n, n < total_sectors → usage_vector.getD n 0 ≠ Hpfs.USE_EMPTY →
            Hpfs.ALLOCATED alloc_vector n = true) := by
  obtain ⟨extra, q1, q2, q3⟩ := check_alloc_used_spec total_sectors usage_vector path_vector
    alloc_vector htotal fuel 0 true [] (by omega)
  obtain ⟨count1, extra0, p1, p2⟩ := check_alloc_unused_spec total_sectors usage_vector
    alloc_vector check_unused htotal fuel 0 0 ([] ++ extra) (by omega)
  have key : ∀ tail : List Hpfs.hpfs_warning, (∀ w ∈ tail, w.level = 0) →
      ((∃ w ∈ ([] ++ extra ++ extra0) ++ tail, w.level = 1)
        ↔ ∃ n, n < total_sectors ∧ usage_vector.getD n 0 ≠ Hpfs.USE_EMPTY
            ∧ Hpfs.ALLOCATED alloc_vector n = false) := by
    intro tail ht
    constructor
    · rintro ⟨w, hw, hl⟩
      rw [List.mem_append, List.mem_append, List.nil_append] at hw
      rcases hw with (hw | hw) | hw
      · obtain ⟨n, _, h⟩ := q3.mp (List.ne_nil_of_mem hw)
        exact ⟨n, h⟩
      · rw [p2 w hw] at hl
        exact absurd hl (by decide)
      · rw [ht w hw] at hl
        exact absurd hl (by decide)
    · rintro ⟨n, h⟩
      obtain ⟨w, hw⟩ := List.exists_mem_of_ne_nil _ (q3.mpr ⟨n, Nat.zero_le _, h⟩)
      exact ⟨w, by simp [hw], q2 w hw⟩
  have main : ∃ log, Hpfs.check_alloc total_sectors usage_vector path_vector alloc_vector
        check_unused fuel = some log
      ∧ ((∃ w ∈ log, w.level = 1)
          ↔ ∃ n, n < total_sectors ∧ usage_vector.getD n 0 ≠ Hpfs.USE_EMPTY
              ∧ Hpfs.ALLOCATED alloc_vector n = false) := by
    rw [Hpfs.check_alloc, q1]
    dsimp only
    rw [p1]
    dsimp only
    by_cases c1 : count1 = 1
    · rw [if_pos c1]
      exact ⟨_, rfl, key _ (by simp)⟩
    · rw [if_neg c1]
      by_cases c2 : count1 > 1
      · rw [if_pos c2]
        exact ⟨_, rfl, key _ (by simp)⟩
      · rw [if_neg c2]
        refine ⟨_, rfl, ?_⟩
        have := key [] (by simp)
        rw [List.append_nil] at this
        exact this
  obtain ⟨log, h1, h2⟩ := main
  refine ⟨log, h1, h2, ?_⟩
  intro hno n hn hu
  by_contra ha
  obtain ⟨w, hw, hl⟩ := h2.mpr ⟨n, hn, hu, by simpa using ha⟩
  exact hno w hw hl

theorem check_alloc_shadow_bitmap_witness :
    (24 : Nat) < 2 ^ 32 ∧ 24 < 30
      ∧ (Hpfs.check_alloc 24 Hpfs.sample_usage_vector none Hpfs.sample_alloc_vector true 30).map
          (fun log => log.map (fun w => w.level)) = some [1, 1, 0]
      ∧ Hpfs.sample_usage_vector.getD 21 0 ≠ Hpfs.USE_EMPTY
      ∧ Hpfs.ALLOCATED Hpfs.sample_alloc_vector 21 = false
      ∧ ∃ log, Hpfs.check_alloc 24 Hpfs.sample_usage_vector none Hpfs.sample_alloc_vector true 30
          = some log
        ∧ ((∃ w ∈ log, w.level = 1)
            ↔ ∃ n, n < 24 ∧ Hpfs.sample_usage_vector.getD n 0 ≠ Hpfs.USE_EMPTY
                ∧ Hpfs.ALLOCATED Hpfs.sample_alloc_vector n = false)
        ∧ ((∀ w ∈ log, w.level ≠ 1) →
            ∀ n, n < 24 → Hpfs.sample_usage_vector.getD n 0 ≠ Hpfs.USE_EMPTY →
              Hpfs.ALLOCATED Hpfs.sample_alloc_vector n = true) :=
  ⟨by decide, by decide, by decide, by decide, by decide,
    check_alloc_shadow_bitmap 24 Hpfs.sample_usage_vector none Hpfs.sample_alloc_vector true 30
      (by decide) (by decide)⟩

/-! ## Checksums of the Superblock and the Spare block -/

theorem spareb_masked_length (spareb : List Nat) (lo hi : Nat) :
    (Hpfs.spareb_masked spareb lo hi).length = 512 := by
  rw [Hpfs.spareb_masked, List.length_map, List.length_range]

theorem spareb_masked_getElem? (spareb : List Nat) (lo hi j : Nat) (hj : j < 512) :
    (Hpfs.spareb_masked spareb lo hi)[j]?
      = some (if j = 8 then spareb.getD 8 0 &&& 0xa0
          else if lo ≤ j ∧ j < hi then 0 else spareb.getD j 0) := by
  rw [Hpfs.spareb_masked, List.getElem?_map, List.getElem?_range hj]
  rfl

theorem spareb_tmp_length (spareb : List Nat) :
    (Hpfs.spareb_tmp spareb).length = spareb.length := by
  simp only [Hpfs.spareb_tmp, List.length_set]

theorem spareb_tmp_eq_masked (spareb : List Nat) (hlen : spareb.length = 512) :
    Hpfs.spareb_tmp spareb = Hpfs.spareb_masked spareb 44 48 := by
  apply List.ext_getElem?
  intro j
  by_cases hj : j < 512
  · rw [spareb_masked_getElem? spareb 44 48 j hj, Hpfs.spareb_tmp]
    by_cases h47 : j = 47
    · rw [h47, List.getElem?_set_self (by simp; omega), if_neg (by omega), if_pos (by omega)]
    rw [List.getElem?_set_ne (Ne.symm h47)]
    by_cases h46 : j = 46
    · rw [h46, List.getElem?_set_self (by simp; omega), if_neg (by omega), if_pos (by omega)]
    rw [List.getElem?_set_ne (Ne.symm h46)]
    by_cases h45 : j = 45
    · rw [h45, List.getElem?_set_self (by simp; omega), if_neg (by omega), if_pos (by omega)]
    rw [List.getElem?_set_ne (Ne.symm h45)]
    by_cases h44 : j = 44
    · rw [h44, List.getElem?_set_self (by simp; omega), if_neg (by omega), if_pos (by omega)]
    rw [List.getElem?_set_ne (Ne.symm h44)]
    by_cases h8 : j = 8
    · rw [h8, List.getElem?_set_self (by omega), if_pos rfl]
      rfl
    rw [List.getElem?_set_ne (Ne.symm h8), if_neg h8, if_neg (by omega),
      List.getD_eq_getElem _ _ (by omega), List.getElem?_eq_getElem (by omega)]
  · rw [List.getElem?_eq_none (by rw [spareb_tmp_length]; omega),
      List.getElem?_eq_none (by rw [spareb_masked_length]; omega)]

theorem rotating_sum_append (acc : Nat) (a b : List Nat) :
    rotating_sum acc (a ++ b) = rotating_sum (rotating_sum acc a) b := by
  rw [rotating_sum, rotating_sum, rotating_sum, List.foldl_append]

theorem rotate_left_7_inj (x y : Nat) (hx : x < 2 ^ 32) (hy : y < 2 ^ 32)
    (h : rotate_left_32 x 7 = rotate_left_32 y 7) : x = y := by
  have e : ∀ z : Nat, z < 2 ^ 32 →
      rotate_left_32 z 7 = (z % 33554432) * 128 + z / 33554432 := by
    intro z hz
    rw [rotate_left_32]
    norm_num
    omega
  rw [e x hx, e y hy] at h
  omega

theorem rotate_left_7_lt (x : Nat) (hx : x < 2 ^ 32) : rotate_left_32 x 7 < 2 ^ 32 := by
  rw [rotate_left_32]
  norm_num
  omega

theorem rotating_sum_inj (l : List Nat) :
    ∀ x y : Nat, x < 2 ^ 32 → y < 2 ^ 32 → rotating_sum x l = rotating_sum y l → x = y := by
  induction l with
  | nil => intro x y _ _ h; exact h
  | cons b l ih =>
    intro x y hx hy h
    rw [rotating_sum, List.foldl_cons, rotating_sum, List.foldl_cons] at h
    have h1 := ih _ _ (rotate_left_7_lt _ (Nat.mod_lt _ (by decide)))
      (rotate_left_7_lt _ (Nat.mod_lt _ (by decide))) h
    have h2 := rotate_left_7_inj _ _ (Nat.mod_lt _ (by decide)) (Nat.mod_lt _ (by decide)) h1
    omega

theorem sample_spareb_length : Hpfs.sample_spareb.length = 512 := by
  rw [Hpfs.sample_spareb, List.length_append, List.length_append, List.length_append,
    List.length_replicate, List.length_replicate]
  rfl

/-- C21 (amended): for a Spare block of 512 bytes, the checksum that `do_hpfs`
compares with `aulExtra[1]` is `chksum` over the copy in which `aulExtra[1]`
is zero and `bFlag` is reduced to `SPF_VER | SPF_FASTFMT`, `aulExtra[0]`
being kept; the checksum compared with `aulExtra[0]` is `chksum` over the 512
bytes of the Superblock as they are; each of the two warnings is emitted
exactly when the recorded value differs. -/
theorem spareblock_checksum (superb spareb : List Nat) (hlen : spareb.length = 512) :
    (Hpfs.do_hpfs_chksums superb spareb).2 = chksum (Hpfs.spareb_masked spareb 44 48) 512
      ∧ (Hpfs.do_hpfs_chksums superb spareb).1 = chksum superb 512
      ∧ Hpfs.do_hpfs_check_chksums superb spareb
          = (if ulong_from_bytes (spareb.drop 40) ≠ chksum superb 512 then
              [{ level := 1, msg := Hpfs.hpfs_msg.incorrect_checksum_for_super_block }]
            else [])
            ++ (if ulong_from_bytes (spareb.drop 44)
                  ≠ chksum (Hpfs.spareb_masked spareb 44 48) 512 then
              [{ level := 1, msg := Hpfs.hpfs_msg.incorrect_checksum_for_spare_block }]
            else []) := by
  have e : (Hpfs.do_hpfs_chksums superb spareb).2
      = chksum (Hpfs.spareb_masked spareb 44 48) 512 := by
    rw [Hpfs.do_hpfs_chksums, spareb_tmp_eq_masked spareb hlen]
  have e1 : (Hpfs.do_hpfs_chksums superb spareb).1 = chksum superb 512 := by
    rw [Hpfs.do_hpfs_chksums]
  refine ⟨e, e1, ?_⟩
  rw [Hpfs.do_hpfs_check_chksums]
  simp only [e, e1]

theorem spareblock_checksum_witness :
    Hpfs.sample_spareb.length = 512
      ∧ (Hpfs.do_hpfs_chksums [] Hpfs.sample_spareb).2
          = chksum (Hpfs.spareb_masked Hpfs.sample_spareb 44 48) 512 :=
  ⟨sample_spareb_length, (spareblock_checksum [] Hpfs.sample_spareb sample_spareb_length).1⟩

theorem sample_spareb_prefix :
    rotating_sum 0 ((Hpfs.spareb_masked Hpfs.sample_spareb 44 48).take 44) = 2319906063
      ∧ rotating_sum 0 ((Hpfs.spareb_masked Hpfs.sample_spareb 40 48).take 44) = 1239839887 := by
  rw [Hpfs.spareb_masked, Hpfs.spareb_masked, ← List.map_take, ← List.map_take, List.take_range]
  decide!

/-- C21 (counterexample): for the sample Spare block, whose `aulExtra[0]` is
not zero, the checksum that `do_hpfs` compares with `aulExtra[1]` differs from
`chksum` over the copy with both recorded checksums zeroed. -/
theorem spareblock_checksum_counterexample :
    (Hpfs.do_hpfs_chksums [] Hpfs.sample_spareb).2
      ≠ chksum (Hpfs.spareb_masked Hpfs.sample_spareb 40 48) 512 := by
  have hdrop : (Hpfs.spareb_masked Hpfs.sample_spareb 44 48).drop 44
      = (Hpfs.spareb_masked Hpfs.sample_spareb 40 48).drop 44 := by
    apply List.ext_getElem?
    intro j
    rw [List.getElem?_drop, List.getElem?_drop]
    by_cases hj : 44 + j < 512
    · rw [spareb_masked_getElem? _ _ _ _ hj, spareb_masked_getElem? _ _ _ _ hj]
      have h8 : ¬ 44 + j = 8 := by omega
      by_cases c : 44 + j < 48
      · have c1 : 44 ≤ 44 + j ∧ 44 + j < 48 := ⟨by omega, c⟩
        have c2 : 40 ≤ 44 + j ∧ 44 + j < 48 := ⟨by omega, c⟩
        simp only [if_neg h8, if_pos c1, if_pos c2]
      · have c1 : ¬ (44 ≤ 44 + j ∧ 44 + j < 48) := fun h => c h.2
        have c2 : ¬ (40 ≤ 44 + j ∧ 44 + j < 48) := fun h => c h.2
        simp only [if_neg h8, if_neg c1, if_neg c2]
    · rw [List.getElem?_eq_none (by rw [spareb_masked_length]; omega),
        List.getElem?_eq_none (by rw [spareb_masked_length]; omega)]
  have hsum : ∀ l : List Nat, l.length = 512 →
      chksum l 512 = rotating_sum (rotating_sum 0 (l.take 44)) (l.drop 44) := by
    intro l hl
    rw [← rotating_sum_append, List.take_append_drop, chksum,
      chksum_loop_eq l 512 0 0 (by omega), List.drop_zero]
  rw [Hpfs.do_hpfs_chksums, spareb_tmp_eq_masked _ sample_spareb_length,
    hsum _ (spareb_masked_length _ _ _), hsum _ (spareb_masked_length _ _ _),
    sample_spareb_prefix.1, sample_spareb_prefix.2, hdrop]
  intro h
  simp only [] at h
  have hx : (2319906063 : Nat) < 2 ^ 32 := by norm_num
  have hy : (1239839887 : Nat) < 2 ^ 32 := by norm_num
  have hne : (2319906063 : Nat) ≠ 1239839887 := by norm_num
  exact hne (rotating_sum_inj ((Hpfs.spareb_masked Hpfs.sample_spareb 40 48).drop 44)
    2319906063 1239839887 hx hy h)

/-! ## Directories -/

theorem compare_fname_loop_c_string (m1 m2 : List Nat) :
    ∀ x y : List Nat,
      Hpfs.compare_fname_loop m1 m2 (c_string x) y = Hpfs.compare_fname_loop m1 m2 x y := by
  intro x
  induction x with
  | nil => intro y; rfl
  | cons a x ih =>
    intro y
    by_cases ha : a = 0
    · subst ha
      have e : c_string (0 :: x) = [] := by
        rw [c_string, List.takeWhile_cons]
        rfl
      rw [e, Hpfs.compare_fname_loop, Hpfs.compare_fname_loop]
      by_cases hy : y.headD 0 = 0
      · rw [if_pos hy, if_pos ⟨rfl, hy⟩]
      · rw [if_neg hy, if_neg (fun h => hy h.2), if_neg hy, if_pos rfl]
    · have e : c_string (a :: x) = a :: c_string x := by
        rw [c_string, List.takeWhile_cons, if_pos (by simpa using ha)]
        rfl
      rw [e, Hpfs.compare_fname_loop, Hpfs.compare_fname_loop, ih]

theorem compare_fname_c_string (cp : Hpfs.code_page_data) (x y : List Nat) (c1 c2 : Nat) :
    Hpfs.compare_fname cp (c_string x) y c1 c2 = Hpfs.compare_fname cp x y c1 c2 := by
  rw [Hpfs.compare_fname, Hpfs.compare_fname]
  exact compare_fname_loop_c_string _ _ x y

theorem compare_fname_nil (cp : Hpfs.code_page_data) (y : List Nat) (c1 c2 : Nat) :
    ¬ Hpfs.compare_fname cp [] y c1 c2 > 0 := by
  rw [Hpfs.compare_fname, Hpfs.compare_fname_loop]
  split <;> decide

theorem order_warnings_append (a b : List Hpfs.hpfs_warning) :
    Hpfs.order_warnings (a ++ b) = Hpfs.order_warnings a ++ Hpfs.order_warnings b := by
  rw [Hpfs.order_warnings, Hpfs.order_warnings, Hpfs.order_warnings, List.filter_append]

theorem dotdot_warnings_append (a b : List Hpfs.hpfs_warning) :
    Hpfs.dotdot_warnings (a ++ b) = Hpfs.dotdot_warnings a ++ Hpfs.dotdot_warnings b := by
  rw [Hpfs.dotdot_warnings, Hpfs.dotdot_warnings, Hpfs.dotdot_warnings, List.filter_append]

theorem do_dirent_spec (cp : Hpfs.code_page_data) (p : Hpfs.DIRENT) (w : Hpfs.dir_walk) :
    (Hpfs.do_dirent cp p w).sort
        = { name := c_string (Hpfs.sort_key p).name, cpindex := (Hpfs.sort_key p).cpindex }
      ∧ (Hpfs.do_dirent cp p w).global_dirent_index = w.global_dirent_index
      ∧ (Hpfs.do_dirent cp p w).dotdot = (w.dotdot || Hpfs.is_spec p)
      ∧ (Hpfs.do_dirent cp p w).fnodes
          = w.fnodes ++ (if Hpfs.is_spec p then [] else [p.name])
      ∧ (Hpfs.order_warnings (Hpfs.do_dirent cp p w).log).length
          = (Hpfs.order_warnings w.log).length
            + (if Hpfs.compare_fname cp w.sort.name (Hpfs.sort_key p).name w.sort.cpindex
                (Hpfs.sort_key p).cpindex > 0 then 1 else 0)
      ∧ (Hpfs.dotdot_warnings (Hpfs.do_dirent cp p w).log).length
          = (Hpfs.dotdot_warnings w.log).length
            + (if Hpfs.is_spec p = true ∧ (w.dotdot = true ∨ w.global_dirent_index ≠ 0)
                then 1 else 0) := by
  have hs : decide (p.bFlags &&& Hpfs.DF_SPEC ≠ 0) = Hpfs.is_spec p := rfl
  simp only [Hpfs.do_dirent, hs, Hpfs.sort_key]
  refine ⟨trivial, trivial, ?_, ?_, ?_, ?_⟩
  · cases Hpfs.is_spec p <;> simp
  · cases Hpfs.is_spec p <;> simp
  · rw [order_warnings_append, order_warnings_append, order_warnings_append,
      List.length_append, List.length_append, List.length_append]
    have e1 : (Hpfs.order_warnings (if Hpfs.is_spec p = true then
          if w.dotdot = true then [{ level := 1, msg := Hpfs.hpfs_msg.more_than_one_dotdot_entry }]
          else if w.global_dirent_index ≠ 0 then
            [{ level := 1, msg := Hpfs.hpfs_msg.dotdot_entry_is_not_the_first_entry }]
          else []
        else [])).length = 0 := by
      split
      · split
        · rfl
        · split <;> rfl
      · rfl
    have e2 : (Hpfs.order_warnings (if p.bCodePage &&& 0x7f ≥ cp.code_page_count then
          [{ level := 1, msg := Hpfs.hpfs_msg.code_page_index_too_big }] else [])).length = 0 := by
      split <;> rfl
    rw [e1, e2]
    split_ifs <;> rfl
  · rw [dotdot_warnings_append, dotdot_warnings_append, dotdot_warnings_append,
      List.length_append, List.length_append, List.length_append]
    have e2 : (Hpfs.dotdot_warnings (if p.bCodePage &&& 0x7f ≥ cp.code_page_count then
          [{ level := 1, msg := Hpfs.hpfs_msg.code_page_index_too_big }] else [])).length = 0 := by
      split <;> rfl
    have e3 : ∀ a b : List Nat, (Hpfs.dotdot_warnings (if Hpfs.compare_fname cp w.sort.name
          (if Hpfs.is_spec p = true then [] else p.name) w.sort.cpindex (p.bCodePage &&& 0x7f) > 0
        then [{ level := 1, msg := Hpfs.hpfs_msg.file_names_not_in_ascending_order a b }]
        else [])).length = 0 := by
      intro a b
      split_ifs <;> rfl
    rw [e2, e3]
    cases Hpfs.is_spec p
    · simp
      rfl
    · cases hd : w.dotdot
      · by_cases hi : w.global_dirent_index = 0
        · simp [hi]
          rfl
        · simp [hi]
          rfl
      · simp
        rfl

theorem out_of_order_c_string (cp : Hpfs.code_page_data) (n : List Nat) (c : Nat)
    (l : List Hpfs.SORT) :
    Hpfs.out_of_order cp ({ name := c_string n, cpindex := c } :: l)
      = Hpfs.out_of_order cp ({ name := n, cpindex := c } :: l) := by
  cases l with
  | nil => rfl
  | cons b l =>
    rw [Hpfs.out_of_order, Hpfs.out_of_order]
    simp only [compare_fname_c_string]

theorem out_of_order_nil_name (cp : Hpfs.code_page_data) (c : Nat) (l : List Hpfs.SORT) :
    Hpfs.out_of_order cp ({ name := [], cpindex := c } :: l) = Hpfs.out_of_order cp l := by
  cases l with
  | nil => rfl
  | cons b l =>
    rw [Hpfs.out_of_order]
    simp only [if_neg (compare_fname_nil cp b.name c b.cpindex), Nat.zero_add]

theorem leaf_dirblk_walk (cp : Hpfs.code_page_data) (e : Hpfs.DIRENT)
    (he : e.bFlags &&& Hpfs.DF_END ≠ 0) :
    ∀ (es : List Hpfs.DIRENT) (w : Hpfs.dir_walk),
      (∀ p ∈ es, p.bFlags &&& Hpfs.DF_END = 0) →
      (Hpfs.order_warnings (Hpfs.do_dirblk_recurse cp (Hpfs.leaf_dirblk es e) w).log).length
          = (Hpfs.order_warnings w.log).length
            + Hpfs.out_of_order cp (w.sort :: es.map Hpfs.sort_key)
        ∧ (Hpfs.do_dirblk_recurse cp (Hpfs.leaf_dirblk es e) w).fnodes
            = w.fnodes ++ (es.filter (fun p => !Hpfs.is_spec p)).map (fun p => p.name)
        ∧ (Hpfs.do_dirblk_recurse cp (Hpfs.leaf_dirblk es e) w).global_dirent_index
            = w.global_dirent_index + es.length := by
  intro es
  induction es with
  | nil =>
    intro w _
    have r : Hpfs.do_dirblk_recurse cp (Hpfs.leaf_dirblk [] e) w = w := by
      rw [Hpfs.leaf_dirblk, Hpfs.do_dirblk_recurse]
      simp only [Hpfs.do_dirblk_recurse, if_neg he, if_pos he, ite_self]
    rw [r]
    simp [Hpfs.out_of_order]
  | cons p ps ih =>
    intro w h
    have hp : p.bFlags &&& Hpfs.DF_END = 0 := h p (List.mem_cons_self _ _)
    have hp2 : ¬ (p.bFlags &&& Hpfs.DF_END ≠ 0) := fun c => c hp
    have r : Hpfs.do_dirblk_recurse cp (Hpfs.leaf_dirblk (p :: ps) e) w
        = Hpfs.do_dirblk_recurse cp (Hpfs.leaf_dirblk ps e)
            { Hpfs.do_dirent cp p w with
              global_dirent_index := (Hpfs.do_dirent cp p w).global_dirent_index + 1 } := by
      rw [Hpfs.leaf_dirblk, Hpfs.do_dirblk_recurse]
      simp only [Hpfs.do_dirblk_recurse, if_pos hp, if_neg hp2, ite_self]
    obtain ⟨d1, d2, _, d4, d5, _⟩ := do_dirent_spec cp p w
    obtain ⟨i1, i2, i3⟩ := ih { Hpfs.do_dirent cp p w with
      global_dirent_index := (Hpfs.do_dirent cp p w).global_dirent_index + 1 }
      (fun q hq => h q (List.mem_cons_of_mem _ hq))
    have eta : ({ name := (Hpfs.sort_key p).name, cpindex := (Hpfs.sort_key p).cpindex }
        : Hpfs.SORT) = Hpfs.sort_key p := rfl
    simp only [] at i1 i2 i3
    rw [r]
    refine ⟨?_, ?_, ?_⟩
    · rw [i1]
      simp only [d1, d5, out_of_order_c_string, List.map_cons, eta]
      rw [Hpfs.out_of_order.eq_def (cp) (w.sort :: Hpfs.sort_key p :: List.map Hpfs.sort_key ps)]
      simp only []
      omega
    · rw [i2]
      simp only [d4, List.filter_cons]
      cases Hpfs.is_spec p <;> simp
    · rw [i3]
      simp only [d2, List.length_cons]
      omega

/-- C26: for a leaf DIRBLK whose entries `es` have no `DF_END` and whose last
entry `e` has it, the walk of `do_fnode` over the directory returns with as
many warnings "File names are not in ascending order" as there are adjacent
pairs of entries of `es` with `compare_fname (previous, current) > 0`; every
entry is processed, whatever came before it: `do_fnode` is called for every
entry without `DF_SPEC`, and the entry index ends at the number of entries. -/
theorem leaf_dirblk_order_warnings (cp : Hpfs.code_page_data) (es : List Hpfs.DIRENT)
    (e : Hpfs.DIRENT) (hes : ∀ p ∈ es, p.bFlags &&& Hpfs.DF_END = 0)
    (he : e.bFlags &&& Hpfs.DF_END ≠ 0) :
    (Hpfs.order_warnings (Hpfs.do_fnode_dir cp (Hpfs.leaf_dirblk es e)).log).length
        = Hpfs.out_of_order cp (es.map Hpfs.sort_key)
      ∧ (Hpfs.do_fnode_dir cp (Hpfs.leaf_dirblk es e)).fnodes
          = (es.filter (fun p => !Hpfs.is_spec p)).map (fun p => p.name)
      ∧ (Hpfs.do_fnode_dir cp (Hpfs.leaf_dirblk es e)).global_dirent_index = es.length := by
  obtain ⟨i1, i2, i3⟩ := leaf_dirblk_walk cp e he es
    { sort := { name := [], cpindex := cp.code_page_count }, global_dirent_index := 0
      dotdot := false, log := [], fnodes := [] } hes
  rw [out_of_order_nil_name] at i1
  have z : (Hpfs.order_warnings []).length = 0 := rfl
  have z1 : (Hpfs.order_warnings
      [{ level := 1, msg := Hpfs.hpfs_msg.missing_dotdot_entry }]).length = 0 := rfl
  simp only [List.nil_append, Nat.zero_add, z] at i1 i2 i3
  rw [Hpfs.do_fnode_dir]
  split
  · refine ⟨?_, i2, i3⟩
    simp only []
    rw [order_warnings_append, List.length_append, i1, z1]
    rfl
  · exact ⟨i1, i2, i3⟩

theorem sample_out_of_order :
    Hpfs.out_of_order Hpfs.sample_cp
      ([Hpfs.sample_entry [0x41, 0x42, 0x43], Hpfs.sample_entry [0x41, 0x42, 0x44],
        Hpfs.sample_entry [0x41, 0x42, 0x42]].map Hpfs.sort_key) = 1 := by
  decide!

theorem leaf_dirblk_order_warnings_witness :
    (Hpfs.order_warnings (Hpfs.do_fnode_dir Hpfs.sample_cp (Hpfs.leaf_dirblk
        [Hpfs.sample_entry [0x41, 0x42, 0x43], Hpfs.sample_entry [0x41, 0x42, 0x44],
          Hpfs.sample_entry [0x41, 0x42, 0x42]] Hpfs.sample_end)).log).length = 1
      ∧ (Hpfs.do_fnode_dir Hpfs.sample_cp (Hpfs.leaf_dirblk
        [Hpfs.sample_entry [0x41, 0x42, 0x43], Hpfs.sample_entry [0x41, 0x42, 0x44],
          Hpfs.sample_entry [0x41, 0x42, 0x42]] Hpfs.sample_end)).fnodes
          = [[0x41, 0x42, 0x43], [0x41, 0x42, 0x44], [0x41, 0x42, 0x42]] := by
  have h := leaf_dirblk_order_warnings Hpfs.sample_cp
    [Hpfs.sample_entry [0x41, 0x42, 0x43], Hpfs.sample_entry [0x41, 0x42, 0x44],
      Hpfs.sample_entry [0x41, 0x42, 0x42]] Hpfs.sample_end (by decide) (by decide)
  exact ⟨h.1.trans sample_out_of_order, h.2.1⟩

/-- C25: a directory with the entries `..`, `ABC`, `ABC` and a directory with
the entries `..`, `abc`, `ABC` are walked without any warning: `do_dirblk_recurse`
reports a name only if `compare_fname (previous, current) > 0`, and two names
that are equal under the case map compare as 0. -/
theorem equal_names_not_reported :
    (Hpfs.do_fnode_dir Hpfs.sample_cp (Hpfs.leaf_dirblk
        [Hpfs.sample_dotdot, Hpfs.sample_entry [0x41, 0x42, 0x43],
          Hpfs.sample_entry [0x41, 0x42, 0x43]] Hpfs.sample_end)).log = []
      ∧ (Hpfs.do_fnode_dir Hpfs.sample_cp (Hpfs.leaf_dirblk
        [Hpfs.sample_dotdot, Hpfs.sample_entry [0x61, 0x62, 0x63],
          Hpfs.sample_entry [0x41, 0x42, 0x43]] Hpfs.sample_end)).log = []
      ∧ Hpfs.compare_fname Hpfs.sample_cp [0x61, 0x62, 0x63] [0x41, 0x42, 0x43] 0 0 = 0 := by
  decide!


theorem dotdot_faults_append (l1 l2 : List Hpfs.DIRENT) (i : Nat) (d : Bool) :
    Hpfs.dotdot_faults (l1 ++ l2) i d
      = Hpfs.dotdot_faults l1 i d
        + Hpfs.dotdot_faults l2 (i + l1.length) (d || l1.any Hpfs.is_spec) := by
  cases l1 with
  | nil => simp [Hpfs.dotdot_faults]
  | cons a l1 =>
    have hi : i + (a :: l1).length ≠ 0 := by
      rw [List.length_cons]
      omega
    have e2 : Hpfs.dotdot_faults l2 (i + (a :: l1).length) (d || (a :: l1).any Hpfs.is_spec)
        = (l2.filter Hpfs.is_spec).length := by
      rw [Hpfs.dotdot_faults, if_pos (Or.inr hi)]
    rw [e2, Hpfs.dotdot_faults, Hpfs.dotdot_faults]
    split
    · rw [List.filter_append, List.length_append]
    · rw [List.cons_append, List.tail_cons, List.tail_cons, List.filter_append,
        List.length_append]

theorem dotdot_faults_single (p : Hpfs.DIRENT) (i : Nat) (d : Bool) :
    Hpfs.dotdot_faults [p] i d
      = if Hpfs.is_spec p = true ∧ (d = true ∨ i ≠ 0) then 1 else 0 := by
  rw [Hpfs.dotdot_faults]
  by_cases h : d = true ∨ i ≠ 0
  · rw [if_pos h]
    cases hs : Hpfs.is_spec p
    · simp [hs]
    · simp [hs, h]
  · rw [if_neg h, if_neg (fun c => h c.2)]
    rfl

theorem do_dirblk_recurse_dotdot (cp : Hpfs.code_page_data) :
    ∀ (t : Hpfs.dirblk) (w : Hpfs.dir_walk),
      (Hpfs.do_dirblk_recurse cp t w).global_dirent_index
          = w.global_dirent_index + (Hpfs.inorder t).length
        ∧ (Hpfs.do_dirblk_recurse cp t w).dotdot
            = (w.dotdot || (Hpfs.inorder t).any Hpfs.is_spec)
        ∧ (Hpfs.dotdot_warnings (Hpfs.do_dirblk_recurse cp t w).log).length
            = (Hpfs.dotdot_warnings w.log).length
              + Hpfs.dotdot_faults (Hpfs.inorder t) w.global_dirent_index w.dotdot := by
  intro t
  induction t with
  | stop =>
    intro w
    simp [Hpfs.do_dirblk_recurse, Hpfs.inorder, Hpfs.dotdot_faults]
  | entry p down rest ihd ihr =>
    intro w
    -- the walk below the down pointer
    have hdown : ∃ w1, w1 = (if p.bFlags &&& Hpfs.DF_BTP ≠ 0
          then Hpfs.do_dirblk_recurse cp down w else w)
        ∧ w1.global_dirent_index = w.global_dirent_index
            + (if p.bFlags &&& Hpfs.DF_BTP ≠ 0 then Hpfs.inorder down else []).length
        ∧ w1.dotdot = (w.dotdot
            || (if p.bFlags &&& Hpfs.DF_BTP ≠ 0 then Hpfs.inorder down else []).any Hpfs.is_spec)
        ∧ (Hpfs.dotdot_warnings w1.log).length = (Hpfs.dotdot_warnings w.log).length
            + Hpfs.dotdot_faults (if p.bFlags &&& Hpfs.DF_BTP ≠ 0 then Hpfs.inorder down else [])
                w.global_dirent_index w.dotdot := by
      refine ⟨_, rfl, ?_⟩
      by_cases hb : p.bFlags &&& Hpfs.DF_BTP ≠ 0
      · simp only [if_pos hb]
        exact ihd w
      · simp only [if_neg hb]
        simp [Hpfs.dotdot_faults]
    obtain ⟨w1, hw1, a1, a2, a3⟩ := hdown
    rw [Hpfs.do_dirblk_recurse, Hpfs.inorder]
    simp only [← hw1]
    rw [dotdot_faults_append, List.length_append, List.any_append, ← Bool.or_assoc,
      ← Nat.add_assoc, ← Nat.add_assoc, ← a1, ← a2, ← a3]
    by_cases he : p.bFlags &&& Hpfs.DF_END ≠ 0
    · have he2 : ¬ (p.bFlags &&& Hpfs.DF_END = 0) := he
      simp only [if_pos he, if_neg he2]
      simp [Hpfs.dotdot_faults]
    · have he2 : p.bFlags &&& Hpfs.DF_END = 0 := by
        by_contra c
        exact he c
      simp only [if_neg he, if_pos he2]
      obtain ⟨_, d2, d3, _, _, d6⟩ := do_dirent_spec cp p w1
      obtain ⟨i1, i2, i3⟩ := ihr { Hpfs.do_dirent cp p w1 with
        global_dirent_index := (Hpfs.do_dirent cp p w1).global_dirent_index + 1 }
      simp only [] at i1 i2 i3
      have c : Hpfs.dotdot_faults (p :: Hpfs.inorder rest) w1.global_dirent_index w1.dotdot
          = Hpfs.dotdot_faults [p] w1.global_dirent_index w1.dotdot
            + Hpfs.dotdot_faults (Hpfs.inorder rest) (w1.global_dirent_index + 1)
                (w1.dotdot || Hpfs.is_spec p) := by
        have := dotdot_faults_append [p] (Hpfs.inorder rest) w1.global_dirent_index w1.dotdot
        simpa using this
      refine ⟨?_, ?_, ?_⟩
      · rw [i1, d2, List.length_cons]
        omega
      · rw [i2, d3, List.any_cons, Bool.or_assoc]
      · rw [i3, d6, d2, d3, c, dotdot_faults_single]
        omega

/-- C27: the walk of `do_fnode` over a directory emits none of the warnings
"Missing .. entry", "More than one .. entry" and ".. entry is not the first
entry" if and only if exactly one of the entries without `DF_END` that the
walk meets has `DF_SPEC`, and that entry is the first one of the walk. -/
theorem dotdot_entry_check (cp : Hpfs.code_page_data) (root : Hpfs.dirblk) :
    Hpfs.dotdot_warnings (Hpfs.do_fnode_dir cp root).log = []
      ↔ ((Hpfs.inorder root).filter Hpfs.is_spec).length = 1
        ∧ (Hpfs.inorder root).head?.map Hpfs.is_spec = some true := by
  obtain ⟨_, i2, i3⟩ := do_dirblk_recurse_dotdot cp root
    { sort := { name := [], cpindex := cp.code_page_count }, global_dirent_index := 0
      dotdot := false, log := [], fnodes := [] }
  have z : (Hpfs.dotdot_warnings []).length = 0 := rfl
  have z1 : (Hpfs.dotdot_warnings
      [{ level := 1, msg := Hpfs.hpfs_msg.missing_dotdot_entry }]).length = 1 := rfl
  have f : Hpfs.dotdot_faults (Hpfs.inorder root) 0 false
      = ((Hpfs.inorder root).tail.filter Hpfs.is_spec).length := by
    rw [Hpfs.dotdot_faults, if_neg (by simp)]
  simp only [z, Nat.zero_add, Bool.false_or, f] at i2 i3
  rw [← List.length_eq_zero, Hpfs.do_fnode_dir]
  simp only [i2]
  cases hl : Hpfs.inorder root with
  | nil =>
    simp only [List.any_nil, Bool.not_false, if_true, dotdot_warnings_append,
      List.length_append, z1]
    simp
  | cons a l =>
    rw [hl] at i3
    simp only [List.tail_cons] at i3
    cases ha : Hpfs.is_spec a
    · by_cases hany : l.any Hpfs.is_spec = true
      · simp only [List.any_cons, ha, Bool.false_or, hany, Bool.not_true, Bool.false_eq_true,
          if_false, i3, List.filter_cons, List.head?_cons, Option.map_some']
        simp
        exact List.any_eq_true.mp hany
      · simp only [List.any_cons, ha, Bool.false_or, hany, Bool.not_false, if_true,
          dotdot_warnings_append, List.length_append, z1, Bool.not_eq_true]
        simp [ha]
    · simp only [List.any_cons, ha, Bool.true_or, Bool.not_true, Bool.false_eq_true, if_false,
        i3, List.filter_cons, List.head?_cons, Option.map_some', if_true, List.length_cons]
      simp

/-- C27, the literal reading fails: in a directory whose end entry carries
`DF_SPEC` next to `DF_END` two entries of the tree have `DF_SPEC`, and the walk
emits no warning about the `..` entry. -/
theorem dotdot_entry_check_counterexample :
    Hpfs.dotdot_warnings (Hpfs.do_fnode_dir Hpfs.sample_cp
        (Hpfs.leaf_dirblk [Hpfs.sample_dotdot] { Hpfs.sample_end with bFlags := 0x09 })).log = []
      ∧ ((Hpfs.all_entries (Hpfs.leaf_dirblk [Hpfs.sample_dotdot]
          { Hpfs.sample_end with bFlags := 0x09 })).filter Hpfs.is_spec).length = 2 := by
  decide!


/-! ## Allocation trees -/

theorem unbalanced_warnings_append (a b : List Hpfs.hpfs_warning) :
    Hpfs.unbalanced_warnings (a ++ b)
      = Hpfs.unbalanced_warnings a ++ Hpfs.unbalanced_warnings b := by
  rw [Hpfs.unbalanced_warnings, Hpfs.unbalanced_warnings, Hpfs.unbalanced_warnings,
    List.filter_append]

theorem unbalanced_header_warnings (alb : Hpfs.ALBLK) (l c s : Nat) (m : Hpfs.hpfs_msg)
    (hm : m ≠ Hpfs.hpfs_msg.unbalanced_allocation_tree) :
    Hpfs.unbalanced_warnings (Hpfs.header_warnings alb l c s m) = [] := by
  rw [Hpfs.header_warnings, unbalanced_warnings_append, unbalanced_warnings_append]
  have e1 : ∀ (c : Prop) [Decidable c] (x : Hpfs.hpfs_warning),
      x.msg ≠ Hpfs.hpfs_msg.unbalanced_allocation_tree →
      Hpfs.unbalanced_warnings (if c then [x] else []) = [] := by
    intro c _ x hx
    split
    · simp [Hpfs.unbalanced_warnings, hx]
    · rfl
  rw [e1 _ _ (by simp), e1 _ _ hm, e1 _ _ (by simp)]
  rfl

theorem unbalanced_do_leaf (a : Hpfs.storage_args) (w : Hpfs.storage_walk) (p : Hpfs.ALLEAF) :
    Hpfs.unbalanced_warnings (Hpfs.do_leaf a w p).log = Hpfs.unbalanced_warnings w.log := by
  have e1 : ∀ (c : Prop) [Decidable c] (x : Hpfs.hpfs_warning),
      x.msg ≠ Hpfs.hpfs_msg.unbalanced_allocation_tree →
      Hpfs.unbalanced_warnings (if c then [x] else []) = [] := by
    intro c _ x hx
    split
    · simp [Hpfs.unbalanced_warnings, hx]
    · rfl
  simp only [Hpfs.do_leaf, unbalanced_warnings_append]
  rw [e1 _ _ (by simp), e1 _ _ (by simp)]
  split
  · rw [unbalanced_warnings_append, e1 _ _ (by simp), e1 _ _ (by simp)]
    simp
  · simp [Hpfs.unbalanced_warnings]

theorem unbalanced_foldl_do_leaf (a : Hpfs.storage_args) :
    ∀ (l : List Hpfs.ALLEAF) (w : Hpfs.storage_walk),
      Hpfs.unbalanced_warnings (l.foldl (Hpfs.do_leaf a) w).log
        = Hpfs.unbalanced_warnings w.log := by
  intro l
  induction l with
  | nil => intro w; rfl
  | cons p l ih =>
    intro w
    rw [List.foldl_cons, ih, unbalanced_do_leaf]

theorem unbalanced_single (c : Prop) [Decidable c] (x : Hpfs.hpfs_warning)
    (hx : x.msg ≠ Hpfs.hpfs_msg.unbalanced_allocation_tree) :
    Hpfs.unbalanced_warnings (if c then [x] else []) = [] := by
  split
  · simp [Hpfs.unbalanced_warnings, hx]
  · rfl

theorem unbalanced_add_log (w : Hpfs.storage_walk) (l : List Hpfs.hpfs_warning)
    (hl : Hpfs.unbalanced_warnings l = []) :
    Hpfs.unbalanced_warnings (Hpfs.add_log w l).log = Hpfs.unbalanced_warnings w.log := by
  rw [Hpfs.add_log]
  simp only [unbalanced_warnings_append, hl, List.append_nil]

theorem unbalanced_alnode_warnings (node : Hpfs.ALNODE) (i n e : Nat) :
    Hpfs.unbalanced_warnings (Hpfs.alnode_warnings node i n e) = [] := by
  rw [Hpfs.alnode_warnings]
  exact unbalanced_single _ _ (by simp)

theorem unbalanced_alsec_warnings (s r secno p : Nat) :
    Hpfs.unbalanced_warnings (Hpfs.alsec_warnings s r secno p) = [] := by
  rw [Hpfs.alsec_warnings, unbalanced_warnings_append, unbalanced_single _ _ (by simp),
    unbalanced_single _ _ (by simp)]
  rfl

theorem height_step_first (h m : Nat) : Hpfs.height_step 0 h m = ([], h) := by
  rw [Hpfs.height_step, if_pos rfl]

theorem height_step_next (i h m : Nat) (hi : i ≠ 0) :
    Hpfs.height_step i h m
      = (if h ≠ m then [{ level := 1, msg := Hpfs.hpfs_msg.unbalanced_allocation_tree }] else [],
         max m h) := by
  rw [Hpfs.height_step, if_neg hi]
  have e : (if h > m then h else m) = max m h := by
    rw [Nat.max_def]
    split_ifs <;> omega
  rw [e]

theorem do_storage_leaf_block (a : Hpfs.storage_args) (alb : Hpfs.ALBLK)
    (aall : List Hpfs.ALLEAF) (aaln : Hpfs.alnode_array) (secno leaf_count alsec_level : Nat)
    (w : Hpfs.storage_walk) (hn : ¬ alb.bFlag &&& Hpfs.ABF_NODE ≠ 0) :
    (Hpfs.do_storage a (Hpfs.alloc_tree.mk alb aall aaln) secno leaf_count alsec_level w).1 = 0
      ∧ (Hpfs.unbalanced_warnings (Hpfs.do_storage a (Hpfs.alloc_tree.mk alb aall aaln) secno
          leaf_count alsec_level w).2.log).length = (Hpfs.unbalanced_warnings w.log).length := by
  rw [Hpfs.do_storage, if_neg hn]
  refine ⟨rfl, ?_⟩
  simp only []
  rw [unbalanced_foldl_do_leaf]
  exact congrArg List.length (unbalanced_add_log w _
    (unbalanced_header_warnings alb _ _ _ _ (by simp)))

mutual
theorem do_storage_balance (a : Hpfs.storage_args) :
    ∀ (t : Hpfs.alloc_tree) (secno leaf_count alsec_level : Nat) (w : Hpfs.storage_walk),
      Hpfs.all_good t leaf_count = true →
      (Hpfs.do_storage a t secno leaf_count alsec_level w).1 = Hpfs.height t leaf_count
        ∧ (Hpfs.unbalanced_warnings w.log).length
            ≤ (Hpfs.unbalanced_warnings
                (Hpfs.do_storage a t secno leaf_count alsec_level w).2.log).length
        ∧ ((Hpfs.unbalanced_warnings
                (Hpfs.do_storage a t secno leaf_count alsec_level w).2.log).length
              = (Hpfs.unbalanced_warnings w.log).length
            ↔ Hpfs.balanced t leaf_count = true)
  | Hpfs.alloc_tree.mk alb aall Hpfs.alnode_array.nil, secno, leaf_count, alsec_level, w => by
    intro _
    by_cases hn : alb.bFlag &&& Hpfs.ABF_NODE ≠ 0
    · have hn2 : Hpfs.is_node alb = true := by simp [Hpfs.is_node, hn]
      rw [Hpfs.do_storage, Hpfs.height, Hpfs.balanced]
      simp only [if_pos hn, hn2, if_true, Hpfs.do_storage_nodes, Hpfs.height_nodes,
        Hpfs.uniform_nodes]
      rw [unbalanced_add_log w _ (unbalanced_header_warnings alb _ _ _ _ (by simp))]
      simp
    · have hn2 : Hpfs.is_node alb = false := by simp [Hpfs.is_node, hn]
      obtain ⟨l1, l2⟩ := do_storage_leaf_block a alb aall Hpfs.alnode_array.nil secno leaf_count
        alsec_level w hn
      rw [l1, l2, Hpfs.height, Hpfs.balanced]
      simp [hn2]
  | Hpfs.alloc_tree.mk alb aall (Hpfs.alnode_array.cons node sec rest), secno, leaf_count,
      alsec_level, w => by
    intro hg
    by_cases hn : alb.bFlag &&& Hpfs.ABF_NODE ≠ 0
    · have hn2 : Hpfs.is_node alb = true := by simp [Hpfs.is_node, hn]
      rw [Hpfs.do_storage, Hpfs.height, Hpfs.balanced]
      rw [Hpfs.all_good] at hg
      simp only [hn2, if_true] at hg
      simp only [if_pos hn, hn2, if_true, Hpfs.head_height]
      rw [Hpfs.do_storage_nodes]
      have hu : Hpfs.used_entries alb (leaf_count + leaf_count / 2)
          = Hpfs.used_nodes alb leaf_count := rfl
      rw [hu]
      have hw0 := congrArg List.length (unbalanced_add_log w
        (Hpfs.header_warnings alb alsec_level (leaf_count + leaf_count / 2) 8
          Hpfs.hpfs_msg.wrong_number_of_alnodes)
        (unbalanced_header_warnings alb _ _ _ _ (by simp)))
      generalize Hpfs.add_log w (Hpfs.header_warnings alb alsec_level
        (leaf_count + leaf_count / 2) 8 Hpfs.hpfs_msg.wrong_number_of_alnodes) = w0 at hw0 ⊢
      cases hk : Hpfs.used_nodes alb leaf_count with
      | zero =>
        simp only [Nat.lt_irrefl, if_false, Hpfs.height_nodes, Hpfs.uniform_nodes, hw0]
        simp
      | succ k =>
        rw [hk, Hpfs.all_good_nodes, Bool.and_eq_true] at hg
        simp only [Nat.zero_lt_succ, if_true, height_step_first, List.append_nil, Nat.zero_add]
        obtain ⟨a1, a2, a3⟩ := do_alsec_balance a sec node.lsnPhys secno alsec_level w0 hg.1
        rw [hw0] at a2 a3
        generalize Hpfs.do_alsec a sec node.lsnPhys secno alsec_level w0 = r at a1 a2 a3 ⊢
        have hw1u := congrArg List.length (unbalanced_add_log r.2
          (Hpfs.alnode_warnings node 0 (k + 1) r.2.exp_file_sec)
          (unbalanced_alnode_warnings _ _ _ _))
        generalize Hpfs.add_log r.2 (Hpfs.alnode_warnings node 0 (k + 1) r.2.exp_file_sec)
          = w1 at hw1u ⊢
        have hgr : Hpfs.all_good_nodes rest (k + 1 - 1) = true := hg.2
        obtain ⟨n1, n2, n3⟩ := do_storage_nodes_balance a rest secno alsec_level 1 (k + 1) r.1 w1
          (by decide) hgr
        rw [hw1u] at n2 n3
        have hk1 : k + 1 - 1 = k := rfl
        rw [hk1] at n1 n3
        refine ⟨?_, ?_, ?_⟩
        · rw [n1, Hpfs.height_nodes, a1]
        · omega
        · rw [Hpfs.uniform_nodes]
          simp only [decide_True, Bool.true_and, Bool.and_eq_true]
          rw [← a3, ← a1, ← n3]
          omega
    · have hn2 : Hpfs.is_node alb = false := by simp [Hpfs.is_node, hn]
      obtain ⟨l1, l2⟩ := do_storage_leaf_block a alb aall
        (Hpfs.alnode_array.cons node sec rest) secno leaf_count alsec_level w hn
      rw [l1, l2, Hpfs.height, Hpfs.balanced]
      simp [hn2]
theorem do_storage_nodes_balance (a : Hpfs.storage_args) :
    ∀ (arr : Hpfs.alnode_array) (secno alsec_level i n m : Nat) (w : Hpfs.storage_walk),
      i ≠ 0 → Hpfs.all_good_nodes arr (n - i) = true →
      (Hpfs.do_storage_nodes a arr secno alsec_level i n m w).1
          = max m (Hpfs.height_nodes arr (n - i))
        ∧ (Hpfs.unbalanced_warnings w.log).length
            ≤ (Hpfs.unbalanced_warnings
                (Hpfs.do_storage_nodes a arr secno alsec_level i n m w).2.log).length
        ∧ ((Hpfs.unbalanced_warnings
                (Hpfs.do_storage_nodes a arr secno alsec_level i n m w).2.log).length
              = (Hpfs.unbalanced_warnings w.log).length
            ↔ Hpfs.uniform_nodes arr (n - i) m = true)
  | Hpfs.alnode_array.nil, secno, alsec_level, i, n, m, w => by
    intro _ _
    simp [Hpfs.do_storage_nodes, Hpfs.height_nodes, Hpfs.uniform_nodes]
  | Hpfs.alnode_array.cons node sec rest, secno, alsec_level, i, n, m, w => by
    intro hi hg
    rw [Hpfs.do_storage_nodes]
    by_cases hin : i < n
    · obtain ⟨k, hk⟩ : ∃ k, n - i = k + 1 := ⟨n - i - 1, by omega⟩
      have hk2 : n - (i + 1) = k := by omega
      rw [hk, Hpfs.all_good_nodes, Bool.and_eq_true] at hg
      simp only [if_pos hin, height_step_next i _ m hi]
      obtain ⟨a1, a2, a3⟩ := do_alsec_balance a sec node.lsnPhys secno alsec_level w hg.1
      generalize Hpfs.do_alsec a sec node.lsnPhys secno alsec_level w = r at a1 a2 a3 ⊢
      have hw1u : (Hpfs.unbalanced_warnings (Hpfs.add_log r.2
            (Hpfs.alnode_warnings node i n r.2.exp_file_sec ++
              (if r.1 ≠ m then
                [{ level := 1, msg := Hpfs.hpfs_msg.unbalanced_allocation_tree }] else []))).log).length
          = (Hpfs.unbalanced_warnings r.2.log).length + (if r.1 ≠ m then 1 else 0) := by
        rw [Hpfs.add_log]
        simp only [unbalanced_warnings_append, List.length_append, unbalanced_alnode_warnings,
          List.length_nil, Nat.add_zero]
        split <;> rfl
      generalize Hpfs.add_log r.2
            (Hpfs.alnode_warnings node i n r.2.exp_file_sec ++
              (if r.1 ≠ m then
                [{ level := 1, msg := Hpfs.hpfs_msg.unbalanced_allocation_tree }] else []))
          = w1 at hw1u ⊢
      have hgr : Hpfs.all_good_nodes rest (n - (i + 1)) = true := by
        rw [hk2]
        exact hg.2
      obtain ⟨n1, n2, n3⟩ := do_storage_nodes_balance a rest secno alsec_level (i + 1) n
        (max m r.1) w1 (by omega) hgr
      rw [hw1u] at n2 n3
      rw [hk2] at n1 n3
      rw [hk]
      refine ⟨?_, ?_, ?_⟩
      · rw [n1, Hpfs.height_nodes, a1, Nat.max_assoc]
      · omega
      · rw [Hpfs.uniform_nodes]
        simp only [Bool.and_eq_true, decide_eq_true_eq]
        rw [← a3]
        by_cases hm : r.1 = m
        · have hm2 : max m r.1 = m := by
            rw [hm]
            exact Nat.max_self m
          rw [hm2] at n2 n3 ⊢
          rw [← n3, ← a1]
          simp only [hm, ne_eq, not_true_eq_false, if_false, Nat.add_zero, true_and] at n2 n3 ⊢
          constructor
          · intro c
            constructor <;> omega
          · intro c
            omega
        · rw [← a1]
          simp only [hm, ne_eq, not_false_eq_true, if_true] at n2 n3 ⊢
          constructor
          · intro c
            omega
          · intro c
            exact absurd c.1.1 (fun x => x)
    · have hz : n - i = 0 := by omega
      simp [if_neg hin, hz, Hpfs.height_nodes, Hpfs.uniform_nodes]
theorem do_alsec_balance (a : Hpfs.storage_args) :
    ∀ (sec : Hpfs.alsec_sector) (secno parent_alblk alsec_level : Nat) (w : Hpfs.storage_walk),
      Hpfs.all_good_sec sec = true →
      (Hpfs.do_alsec a sec secno parent_alblk alsec_level w).1 = Hpfs.height_sec sec
        ∧ (Hpfs.unbalanced_warnings w.log).length
            ≤ (Hpfs.unbalanced_warnings
                (Hpfs.do_alsec a sec secno parent_alblk alsec_level w).2.log).length
        ∧ ((Hpfs.unbalanced_warnings
                (Hpfs.do_alsec a sec secno parent_alblk alsec_level w).2.log).length
              = (Hpfs.unbalanced_warnings w.log).length
            ↔ Hpfs.balanced_sec sec = true)
  | Hpfs.alsec_sector.mk seen sig lsnSelf lsnRent alb, secno, parent_alblk, alsec_level, w => by
    intro hg
    rw [Hpfs.all_good_sec, Bool.and_eq_true, Bool.and_eq_true] at hg
    obtain ⟨⟨h1, h2⟩, h3⟩ := hg
    have hs : seen = false := by simpa using h1
    have hsig : ¬ (sig ≠ Hpfs.ALSEC_SIG1) := by simpa using h2
    rw [Hpfs.do_alsec, Hpfs.height_sec, Hpfs.balanced_sec]
    simp only [hs, Bool.false_eq_true, if_false, if_neg hsig]
    obtain ⟨s1, s2, s3⟩ := do_storage_balance a alb secno 40 (alsec_level + 1)
      (Hpfs.add_log w (Hpfs.alsec_warnings lsnSelf lsnRent secno parent_alblk)) h3
    rw [unbalanced_add_log w _ (unbalanced_alsec_warnings _ _ _ _)] at s2 s3
    exact ⟨by rw [s1], s2, s3⟩
end

theorem entries_walked_zero :
    ∀ (arr : Hpfs.alnode_array) (k : Nat), Hpfs.entries_walked arr k = 0 →
      Hpfs.height_nodes arr k = 0 ∧ Hpfs.leaf_depths_nodes arr k = []
  | Hpfs.alnode_array.nil, k => by
    intro _
    simp [Hpfs.height_nodes, Hpfs.leaf_depths_nodes]
  | Hpfs.alnode_array.cons node sec rest, 0 => by
    intro _
    simp [Hpfs.height_nodes, Hpfs.leaf_depths_nodes]
  | Hpfs.alnode_array.cons node sec rest, k + 1 => by
    intro h
    rw [Hpfs.entries_walked] at h
    omega

theorem uniform_nodes_height :
    ∀ (arr : Hpfs.alnode_array) (k h : Nat), Hpfs.uniform_nodes arr k h = true →
      0 < Hpfs.entries_walked arr k → Hpfs.height_nodes arr k = h
  | Hpfs.alnode_array.nil, k, h => by
    intro _ c
    rw [Hpfs.entries_walked] at c
    omega
  | Hpfs.alnode_array.cons node sec rest, 0, h => by
    intro _ c
    rw [Hpfs.entries_walked] at c
    omega
  | Hpfs.alnode_array.cons node sec rest, k + 1, h => by
    intro hu _
    rw [Hpfs.uniform_nodes, Bool.and_eq_true, Bool.and_eq_true, decide_eq_true_eq] at hu
    rw [Hpfs.height_nodes, hu.1.1]
    by_cases hz : Hpfs.entries_walked rest k = 0
    · rw [(entries_walked_zero rest k hz).1]
      exact Nat.max_zero h
    · rw [uniform_nodes_height rest k h hu.2 (by omega)]
      exact Nat.max_self h

mutual
theorem balanced_leaf_depths :
    ∀ (t : Hpfs.alloc_tree) (leaf_count : Nat), Hpfs.nodes_nonempty t leaf_count = true →
      (∃ d ∈ Hpfs.leaf_depths t leaf_count, d = Hpfs.height t leaf_count)
        ∧ (Hpfs.balanced t leaf_count = true
            ↔ ∀ d ∈ Hpfs.leaf_depths t leaf_count, d = Hpfs.height t leaf_count)
  | Hpfs.alloc_tree.mk alb aall aaln, leaf_count => by
    intro hne
    rw [Hpfs.nodes_nonempty] at hne
    rw [Hpfs.leaf_depths, Hpfs.height, Hpfs.balanced]
    cases hn : Hpfs.is_node alb
    · simp
    · simp only [hn, if_true, Bool.and_eq_true, decide_eq_true_eq] at hne ⊢
      obtain ⟨hpos, hne2⟩ := hne
      have n1 := balanced_leaf_depths_nodes aaln (Hpfs.used_nodes alb leaf_count) hne2
      have n2 := attained_leaf_depths_nodes aaln (Hpfs.used_nodes alb leaf_count) hne2 hpos
      refine ⟨n2, ?_⟩
      constructor
      · intro hb
        rw [uniform_nodes_height aaln _ _ hb hpos]
        exact (n1 _).1 hb
      · intro hall
        have hu := (n1 _).2 hall
        have hh : Hpfs.head_height aaln
            = Hpfs.height_nodes aaln (Hpfs.used_nodes alb leaf_count) := by
          cases aaln with
          | nil =>
            rw [Hpfs.entries_walked] at hpos
            omega
          | cons node sec rest =>
            cases hk : Hpfs.used_nodes alb leaf_count with
            | zero =>
              rw [hk, Hpfs.entries_walked] at hpos
              omega
            | succ k =>
              rw [hk, Hpfs.uniform_nodes, Bool.and_eq_true, Bool.and_eq_true,
                decide_eq_true_eq] at hu
              rw [Hpfs.head_height, hu.1.1]
        rw [hh]
        exact hu
theorem balanced_leaf_depths_nodes :
    ∀ (arr : Hpfs.alnode_array) (k : Nat), Hpfs.nodes_nonempty_nodes arr k = true →
      ∀ h, (Hpfs.uniform_nodes arr k h = true ↔ ∀ d ∈ Hpfs.leaf_depths_nodes arr k, d = h)
  | Hpfs.alnode_array.nil, k => by
    intro _ h
    simp [Hpfs.uniform_nodes, Hpfs.leaf_depths_nodes]
  | Hpfs.alnode_array.cons node sec rest, 0 => by
    intro _ h
    simp [Hpfs.uniform_nodes, Hpfs.leaf_depths_nodes]
  | Hpfs.alnode_array.cons node sec rest, k + 1 => by
    intro hne h
    rw [Hpfs.nodes_nonempty_nodes, Bool.and_eq_true] at hne
    obtain ⟨⟨d0, hd0, hd0e⟩, s2⟩ := balanced_leaf_depths_sec sec hne.1
    have r := balanced_leaf_depths_nodes rest k hne.2 h
    rw [Hpfs.uniform_nodes, Hpfs.leaf_depths_nodes, Bool.and_eq_true, Bool.and_eq_true,
      decide_eq_true_eq, r, s2]
    constructor
    · rintro ⟨⟨e, hs⟩, hr⟩ d hd
      rcases List.mem_append.mp hd with c | c
      · rw [hs d c, e]
      · exact hr d c
    · intro hall
      have e : Hpfs.height_sec sec = h := by
        rw [← hd0e]
        exact hall d0 (List.mem_append_left _ hd0)
      refine ⟨⟨e, ?_⟩, ?_⟩
      · intro d hd
        rw [e]
        exact hall d (List.mem_append_left _ hd)
      · intro d hd
        exact hall d (List.mem_append_right _ hd)
theorem attained_leaf_depths_nodes :
    ∀ (arr : Hpfs.alnode_array) (k : Nat), Hpfs.nodes_nonempty_nodes arr k = true →
      0 < Hpfs.entries_walked arr k →
      ∃ d ∈ Hpfs.leaf_depths_nodes arr k, d = Hpfs.height_nodes arr k
  | Hpfs.alnode_array.nil, k => by
    intro _ c
    rw [Hpfs.entries_walked] at c
    omega
  | Hpfs.alnode_array.cons node sec rest, 0 => by
    intro _ c
    rw [Hpfs.entries_walked] at c
    omega
  | Hpfs.alnode_array.cons node sec rest, k + 1 => by
    intro hne _
    rw [Hpfs.nodes_nonempty_nodes, Bool.and_eq_true] at hne
    obtain ⟨⟨d0, hd0, hd0e⟩, _⟩ := balanced_leaf_depths_sec sec hne.1
    rw [Hpfs.leaf_depths_nodes, Hpfs.height_nodes]
    by_cases hz : Hpfs.entries_walked rest k = 0
    · rw [(entries_walked_zero rest k hz).1]
      exact ⟨d0, List.mem_append_left _ hd0, by rw [hd0e]; exact (Nat.max_zero _).symm⟩
    · obtain ⟨d1, hd1, hd1e⟩ := attained_leaf_depths_nodes rest k hne.2 (by omega)
      by_cases hc : Hpfs.height_nodes rest k ≤ Hpfs.height_sec sec
      · exact ⟨d0, List.mem_append_left _ hd0, by rw [hd0e, Nat.max_eq_left hc]⟩
      · exact ⟨d1, List.mem_append_right _ hd1, by rw [hd1e, Nat.max_eq_right (by omega)]⟩
theorem balanced_leaf_depths_sec :
    ∀ (sec : Hpfs.alsec_sector), Hpfs.nodes_nonempty_sec sec = true →
      (∃ d ∈ Hpfs.leaf_depths_sec sec, d = Hpfs.height_sec sec)
        ∧ (Hpfs.balanced_sec sec = true
            ↔ ∀ d ∈ Hpfs.leaf_depths_sec sec, d = Hpfs.height_sec sec)
  | Hpfs.alsec_sector.mk seen sig lsnSelf lsnRent alb => by
    intro hne
    rw [Hpfs.nodes_nonempty_sec] at hne
    obtain ⟨⟨d0, hd0, hd0e⟩, t2⟩ := balanced_leaf_depths alb 40 hne
    rw [Hpfs.leaf_depths_sec, Hpfs.height_sec, Hpfs.balanced_sec, t2]
    refine ⟨⟨d0 + 1, List.mem_map.mpr ⟨d0, hd0, rfl⟩, by rw [hd0e]⟩, ?_⟩
    constructor
    · intro hall d hd
      obtain ⟨x, hx, hxe⟩ := List.mem_map.mp hd
      rw [← hxe, hall x hx]
    · intro hall d hd
      have := hall (d + 1) (List.mem_map.mpr ⟨d, hd, rfl⟩)
      omega
end

/-- C29: in an allocation tree all of whose ALSECs are met for the first time
and have a good signature, `do_storage` adds no warning "Unbalanced allocation
tree" if and only if in every node block all sub-trees have the same height,
and it returns the height of the tree; when every node block has an entry,
this is the case if and only if all leaf blocks are at the same depth, which
then is the height returned. -/
theorem allocation_tree_balance (a : Hpfs.storage_args) (t : Hpfs.alloc_tree)
    (secno leaf_count alsec_level : Nat) (w : Hpfs.storage_walk)
    (hgood : Hpfs.all_good t leaf_count = true) :
    ((Hpfs.unbalanced_warnings (Hpfs.do_storage a t secno leaf_count alsec_level w).2.log).length
          = (Hpfs.unbalanced_warnings w.log).length
        ↔ Hpfs.balanced t leaf_count = true)
      ∧ (Hpfs.do_storage a t secno leaf_count alsec_level w).1 = Hpfs.height t leaf_count
      ∧ (Hpfs.nodes_nonempty t leaf_count = true →
          (Hpfs.balanced t leaf_count = true
            ↔ ∀ d ∈ Hpfs.leaf_depths t leaf_count,
                d = (Hpfs.do_storage a t secno leaf_count alsec_level w).1)) := by
  obtain ⟨h1, _, h3⟩ := do_storage_balance a t secno leaf_count alsec_level w hgood
  refine ⟨h3, h1, ?_⟩
  intro hne
  rw [h1]
  exact (balanced_leaf_depths t leaf_count hne).2

theorem allocation_tree_balance_witness :
    (Hpfs.all_good Hpfs.sample_tree 8 = true
      ∧ (Hpfs.unbalanced_warnings
          (Hpfs.do_storage Hpfs.sample_args Hpfs.sample_tree 100 8 0 Hpfs.storage_start).2.log).length
          = 0
      ∧ (Hpfs.do_storage Hpfs.sample_args Hpfs.sample_tree 100 8 0 Hpfs.storage_start).1 = 1
      ∧ Hpfs.leaf_depths Hpfs.sample_tree 8 = [1, 1])
    ∧ (Hpfs.all_good Hpfs.sample_lopsided_tree 8 = true
      ∧ (Hpfs.unbalanced_warnings (Hpfs.do_storage Hpfs.sample_args Hpfs.sample_lopsided_tree
          100 8 0 Hpfs.storage_start).2.log).length ≠ 0
      ∧ (Hpfs.do_storage Hpfs.sample_args Hpfs.sample_lopsided_tree 100 8 0
          Hpfs.storage_start).1 = 2
      ∧ Hpfs.leaf_depths Hpfs.sample_lopsided_tree 8 = [1, 2]) := by
  have h1 := allocation_tree_balance Hpfs.sample_args Hpfs.sample_tree 100 8 0
    Hpfs.storage_start (by decide)
  have h2 := allocation_tree_balance Hpfs.sample_args Hpfs.sample_lopsided_tree 100 8 0
    Hpfs.storage_start (by decide)
  refine ⟨⟨by decide, h1.1.mpr (by decide), h1.2.1.trans (by decide), by decide⟩,
    ⟨by decide, ?_, h2.2.1.trans (by decide), by decide⟩⟩
  intro c
  exact absurd (h2.1.mp c) (by decide)

/-- C29, the claim as it stands fails: in `sample_hollow_tree` every ALSEC is
met for the first time and has a good signature, and the only leaf block lies
at depth 2, so that all leaf blocks lie at the same depth; but the node block
without entries in use in sector 200 has the height 1 and its sibling the
height 2, and `do_storage` emits the warning "Unbalanced allocation tree" and
no other warning. -/
theorem allocation_tree_balance_counterexample :
    Hpfs.all_good Hpfs.sample_hollow_tree 8 = true
      ∧ Hpfs.leaf_depths Hpfs.sample_hollow_tree 8 = [2]
      ∧ (∀ d ∈ Hpfs.leaf_depths Hpfs.sample_hollow_tree 8,
          d = (Hpfs.do_storage Hpfs.sample_args Hpfs.sample_hollow_tree 100 8 0
            Hpfs.storage_start).1)
      ∧ (Hpfs.do_storage Hpfs.sample_args Hpfs.sample_hollow_tree 100 8 0
          Hpfs.storage_start).2.log
        = [{ level := 1, msg := Hpfs.hpfs_msg.unbalanced_allocation_tree }]
      ∧ Hpfs.unbalanced_warnings (Hpfs.do_storage Hpfs.sample_args Hpfs.sample_hollow_tree
          100 8 0 Hpfs.storage_start).2.log
        = [{ level := 1, msg := Hpfs.hpfs_msg.unbalanced_allocation_tree }]
      ∧ Hpfs.nodes_nonempty Hpfs.sample_hollow_tree 8 = false := by
  decide


theorem fnp_warnings_append (a b : List Hpfs.hpfs_warning) :
    Hpfs.fnp_warnings (a ++ b) = Hpfs.fnp_warnings a ++ Hpfs.fnp_warnings b := by
  rw [Hpfs.fnp_warnings, Hpfs.fnp_warnings, Hpfs.fnp_warnings, List.filter_append]

theorem fnp_single (c : Prop) [Decidable c] (x : Hpfs.hpfs_warning)
    (hx : ∀ b, x.msg ≠ Hpfs.hpfs_msg.abf_fnp_bit_is_wrong b) :
    Hpfs.fnp_warnings (if c then [x] else []) = [] := by
  split
  · rw [Hpfs.fnp_warnings, List.filter_cons]
    split
    · rename_i h
      split at h
      · rename_i b hb
        exact absurd hb (hx b)
      · exact absurd h (by decide)
    · rfl
  · rfl

theorem fnp_add_log (w : Hpfs.storage_walk) (l : List Hpfs.hpfs_warning) :
    (Hpfs.fnp_warnings (Hpfs.add_log w l).log).length
      = (Hpfs.fnp_warnings w.log).length + (Hpfs.fnp_warnings l).length := by
  rw [Hpfs.add_log]
  simp only [fnp_warnings_append, List.length_append]

theorem fnp_header_warnings (alb : Hpfs.ALBLK) (l c s : Nat) (m : Hpfs.hpfs_msg)
    (hm : ∀ b, m ≠ Hpfs.hpfs_msg.abf_fnp_bit_is_wrong b) :
    (Hpfs.fnp_warnings (Hpfs.header_warnings alb l c s m)).length
      = ([(l, alb)].filter Hpfs.fnp_wrong).length := by
  have eB : Hpfs.fnp_warnings (if alb.cFree + alb.cUsed ≠ c then
      [{ level := 1, msg := m }] else []) = [] := fnp_single _ _ hm
  have eC : Hpfs.fnp_warnings (if Hpfs.used_entries alb c * s + 8 ≠ alb.oFree then
      [{ level := 1, msg := Hpfs.hpfs_msg.offset_to_free_entry_is_wrong }] else []) = [] :=
    fnp_single _ _ (by simp)
  rw [Hpfs.header_warnings, fnp_warnings_append, fnp_warnings_append, eB, eC,
    List.append_nil, List.append_nil]
  rw [List.filter_cons, Hpfs.fnp_wrong]
  by_cases h1 : alb.bFlag &&& Hpfs.ABF_FNP = 0 <;> by_cases h2 : l = 1 <;>
    simp [h1, h2, Hpfs.fnp_warnings]

theorem fnp_do_leaf (a : Hpfs.storage_args) (w : Hpfs.storage_walk) (p : Hpfs.ALLEAF) :
    Hpfs.fnp_warnings (Hpfs.do_leaf a w p).log = Hpfs.fnp_warnings w.log := by
  simp only [Hpfs.do_leaf, fnp_warnings_append]
  rw [fnp_single _ _ (by simp), fnp_single _ _ (by simp)]
  split
  · rw [fnp_warnings_append, fnp_single _ _ (by simp), fnp_single _ _ (by simp)]
    simp
  · simp [Hpfs.fnp_warnings]

theorem fnp_foldl_do_leaf (a : Hpfs.storage_args) :
    ∀ (l : List Hpfs.ALLEAF) (w : Hpfs.storage_walk),
      Hpfs.fnp_warnings (l.foldl (Hpfs.do_leaf a) w).log = Hpfs.fnp_warnings w.log := by
  intro l
  induction l with
  | nil => intro w; rfl
  | cons p l ih =>
    intro w
    rw [List.foldl_cons, ih, fnp_do_leaf]

theorem fnp_alnode_warnings (node : Hpfs.ALNODE) (i n e : Nat) :
    Hpfs.fnp_warnings (Hpfs.alnode_warnings node i n e) = [] := by
  rw [Hpfs.alnode_warnings]
  exact fnp_single _ _ (by simp)

theorem fnp_alsec_warnings (s r secno p : Nat) :
    Hpfs.fnp_warnings (Hpfs.alsec_warnings s r secno p) = [] := by
  rw [Hpfs.alsec_warnings, fnp_warnings_append, fnp_single _ _ (by simp),
    fnp_single _ _ (by simp)]
  rfl

theorem fnp_height_step (i h m : Nat) :
    Hpfs.fnp_warnings (Hpfs.height_step i h m).1 = [] := by
  rw [Hpfs.height_step]
  split
  · rfl
  · exact fnp_single _ _ (by simp)

theorem fnp_size_warnings (s f : Nat) :
    Hpfs.fnp_warnings (Hpfs.size_warnings s f) = [] := by
  rw [Hpfs.size_warnings, fnp_warnings_append, fnp_single _ _ (by simp),
    fnp_single _ _ (by simp)]
  rfl

mutual
theorem do_storage_fnp (a : Hpfs.storage_args) :
    ∀ (t : Hpfs.alloc_tree) (secno leaf_count alsec_level : Nat) (w : Hpfs.storage_walk),
      (Hpfs.fnp_warnings (Hpfs.do_storage a t secno leaf_count alsec_level w).2.log).length
        = (Hpfs.fnp_warnings w.log).length
          + ((Hpfs.blocks t leaf_count alsec_level).filter Hpfs.fnp_wrong).length
  | Hpfs.alloc_tree.mk alb aall aaln, secno, leaf_count, alsec_level, w => by
    rw [Hpfs.do_storage, Hpfs.blocks]
    have hc : ∀ l : List (Nat × Hpfs.ALBLK),
        (((alsec_level, alb) :: l).filter Hpfs.fnp_wrong).length
          = ([(alsec_level, alb)].filter Hpfs.fnp_wrong).length
            + (l.filter Hpfs.fnp_wrong).length := by
      intro l
      rw [← List.length_append, ← List.filter_append]
      rfl
    rw [hc]
    by_cases hn : alb.bFlag &&& Hpfs.ABF_NODE ≠ 0
    · have hn2 : Hpfs.is_node alb = true := by simp [Hpfs.is_node, hn]
      simp only [if_pos hn, hn2, if_true]
      have n1 := do_storage_nodes_fnp a aaln secno alsec_level 0
        (Hpfs.used_entries alb (leaf_count + leaf_count / 2)) 0
        (Hpfs.add_log w (Hpfs.header_warnings alb alsec_level (leaf_count + leaf_count / 2) 8
          Hpfs.hpfs_msg.wrong_number_of_alnodes))
      rw [n1, fnp_add_log, fnp_header_warnings alb _ _ _ _ (by simp), Nat.sub_zero,
        Nat.add_assoc]
      rfl
    · have hn2 : Hpfs.is_node alb = false := by simp [Hpfs.is_node, hn]
      simp only [if_neg hn, hn2, fnp_foldl_do_leaf, Bool.false_eq_true, if_false,
        List.filter_nil, List.length_nil, Nat.add_zero]
      exact (fnp_add_log w _).trans (by rw [fnp_header_warnings alb _ _ _ _ (by simp)])
theorem do_storage_nodes_fnp (a : Hpfs.storage_args) :
    ∀ (arr : Hpfs.alnode_array) (secno alsec_level i n m : Nat) (w : Hpfs.storage_walk),
      (Hpfs.fnp_warnings (Hpfs.do_storage_nodes a arr secno alsec_level i n m w).2.log).length
        = (Hpfs.fnp_warnings w.log).length
          + ((Hpfs.blocks_nodes arr (n - i) alsec_level).filter Hpfs.fnp_wrong).length
  | Hpfs.alnode_array.nil, secno, alsec_level, i, n, m, w => by
    simp [Hpfs.do_storage_nodes, Hpfs.blocks_nodes]
  | Hpfs.alnode_array.cons node sec rest, secno, alsec_level, i, n, m, w => by
    rw [Hpfs.do_storage_nodes]
    by_cases hin : i < n
    · obtain ⟨k, hk⟩ : ∃ k, n - i = k + 1 := ⟨n - i - 1, by omega⟩
      have hk2 : n - (i + 1) = k := by omega
      simp only [if_pos hin]
      have a1 := do_alsec_fnp a sec node.lsnPhys secno alsec_level w
      generalize Hpfs.do_alsec a sec node.lsnPhys secno alsec_level w = r at a1 ⊢
      rw [do_storage_nodes_fnp a rest secno alsec_level (i + 1) n, fnp_add_log,
        fnp_warnings_append, fnp_alnode_warnings, fnp_height_step, hk, hk2, Hpfs.blocks_nodes,
        List.filter_append, List.length_append, a1]
      simp only [List.append_nil, List.length_nil, Nat.add_zero, List.length_append]
      omega
    · have hz : n - i = 0 := by omega
      simp [if_neg hin, hz, Hpfs.blocks_nodes]
theorem do_alsec_fnp (a : Hpfs.storage_args) :
    ∀ (sec : Hpfs.alsec_sector) (secno parent_alblk alsec_level : Nat) (w : Hpfs.storage_walk),
      (Hpfs.fnp_warnings (Hpfs.do_alsec a sec secno parent_alblk alsec_level w).2.log).length
        = (Hpfs.fnp_warnings w.log).length
          + ((Hpfs.blocks_sec sec alsec_level).filter Hpfs.fnp_wrong).length
  | Hpfs.alsec_sector.mk seen sig lsnSelf lsnRent alb, secno, parent_alblk, alsec_level, w => by
    rw [Hpfs.do_alsec, Hpfs.blocks_sec]
    cases seen with
    | true =>
      simp only [if_true, true_or, fnp_add_log]
      rfl
    | false =>
      by_cases hsig : sig ≠ Hpfs.ALSEC_SIG1
      · simp only [Bool.false_eq_true, if_false, if_pos hsig, false_or, fnp_add_log]
        rfl
      · simp only [Bool.false_eq_true, if_false, if_neg hsig, false_or]
        rw [do_storage_fnp a alb secno 40 (alsec_level + 1), fnp_add_log, fnp_alsec_warnings]
        rfl
end

/-- C30: the walk of `do_fnode` through the allocation tree of a file emits no
warning "ABF_FNP bit is wrong" if and only if, among the blocks that
`do_storage` examines, the bit `ABF_FNP` is set exactly in the blocks at depth
1: in the ALSECs that the ALNODEs of the FNODE point to, and neither in the
block of the FNODE nor in an ALSEC further down. -/
theorem abf_fnp_check (a : Hpfs.storage_args) (secno fn_fsize : Nat) (fst : Hpfs.alloc_tree) :
    Hpfs.fnp_warnings (Hpfs.do_fnode_file a secno fn_fsize fst).2.log = []
      ↔ ∀ x ∈ Hpfs.blocks fst 8 0, (x.2.bFlag &&& Hpfs.ABF_FNP ≠ 0 ↔ x.1 = 1) := by
  rw [← List.length_eq_zero, Hpfs.do_fnode_file]
  simp only []
  rw [fnp_add_log, fnp_size_warnings, do_storage_fnp]
  simp only [List.length_nil, Nat.add_zero]
  have z : (Hpfs.fnp_warnings []).length = 0 := rfl
  rw [z, Nat.zero_add, List.length_eq_zero, List.filter_eq_nil_iff]
  constructor
  · intro h x hx
    have := h x hx
    rw [Hpfs.fnp_wrong] at this
    by_cases h1 : x.2.bFlag &&& Hpfs.ABF_FNP = 0 <;> by_cases h2 : x.1 = 1 <;>
      simp [h1, h2] at this ⊢
  · intro h x hx
    have := h x hx
    rw [Hpfs.fnp_wrong]
    by_cases h1 : x.2.bFlag &&& Hpfs.ABF_FNP = 0 <;> by_cases h2 : x.1 = 1 <;>
      simp [h1, h2] at this ⊢

/-- C30, the claim as it stands fails in both directions: for a leaf block in
the FNODE that has `ABF_FNP`, the bit is set exactly in the block of the FNODE
and the walk emits the warning; in a tree whose FNODE block has the bit clear
and whose ALSECs have it set, the walk emits no such warning. -/
theorem abf_fnp_check_counterexample :
    ((∀ x ∈ Hpfs.blocks Hpfs.sample_fnp_root 8 0, (x.2.bFlag &&& Hpfs.ABF_FNP ≠ 0 ↔ x.1 = 0))
      ∧ Hpfs.fnp_warnings (Hpfs.do_fnode_file Hpfs.sample_args 100 512 Hpfs.sample_fnp_root).2.log
          = [{ level := 1, msg := Hpfs.hpfs_msg.abf_fnp_bit_is_wrong 1 }])
    ∧ (¬ (∀ x ∈ Hpfs.blocks Hpfs.sample_tree 8 0, (x.2.bFlag &&& Hpfs.ABF_FNP ≠ 0 ↔ x.1 = 0))
      ∧ Hpfs.fnp_warnings (Hpfs.do_fnode_file Hpfs.sample_args 100 2560 Hpfs.sample_tree).2.log
          = []) := by
  decide


/-- C28: for a file of 0xffffffff bytes whose FNODE holds one run of 0x800000
sectors at the file sector 0, the leaves cover the 0x800000 sectors of the
file, and the walk of `do_fnode` emits both "Not enough sectors allocated"
and "Too many sectors allocated": `file_sec * 512` and `DIVIDE_UP (fn_fsize,
512)` are computed in 32 bits. -/
theorem extent_coverage_overflow :
    Hpfs.covers (Hpfs.leaves Hpfs.sample_big_file 8) 0xffffffff = true
      ∧ Hpfs.extent_warnings
          (Hpfs.do_fnode_file Hpfs.sample_args 100 0xffffffff Hpfs.sample_big_file).2.log
        = [{ level := 1, msg := Hpfs.hpfs_msg.not_enough_sectors_allocated },
           { level := 1, msg := Hpfs.hpfs_msg.too_many_sectors_allocated 0x800000 }]
      ∧ DIVIDE_UP 0xffffffff 512 = 0
      ∧ (0x800000 * 512) % 2 ^ 32 = 0 := by
  decide


theorem extent_warnings_append (a b : List Hpfs.hpfs_warning) :
    Hpfs.extent_warnings (a ++ b) = Hpfs.extent_warnings a ++ Hpfs.extent_warnings b := by
  rw [Hpfs.extent_warnings, Hpfs.extent_warnings, Hpfs.extent_warnings, List.filter_append]

theorem extent_single_other (c : Prop) [Decidable c] (x : Hpfs.hpfs_warning)
    (h1 : ∀ f e, x.msg ≠ Hpfs.hpfs_msg.wrong_file_sector f e)
    (h2 : x.msg ≠ Hpfs.hpfs_msg.not_enough_sectors_allocated)
    (h3 : ∀ e, x.msg ≠ Hpfs.hpfs_msg.too_many_sectors_allocated e) :
    Hpfs.extent_warnings (if c then [x] else []) = [] := by
  split
  · rw [Hpfs.extent_warnings, List.filter_cons]
    split
    · rename_i h
      split at h
      · rename_i f e hb
        exact absurd hb (h1 f e)
      · rename_i hb
        exact absurd hb h2
      · rename_i e hb
        exact absurd hb (h3 e)
      · exact absurd h (by decide)
    · rfl
  · rfl

theorem extent_add_log (w : Hpfs.storage_walk) (l : List Hpfs.hpfs_warning) :
    (Hpfs.extent_warnings (Hpfs.add_log w l).log).length
      = (Hpfs.extent_warnings w.log).length + (Hpfs.extent_warnings l).length := by
  rw [Hpfs.add_log]
  simp only [extent_warnings_append, List.length_append]

theorem extent_header_warnings (alb : Hpfs.ALBLK) (l c s : Nat) (m : Hpfs.hpfs_msg)
    (h1 : ∀ f e, m ≠ Hpfs.hpfs_msg.wrong_file_sector f e)
    (h2 : m ≠ Hpfs.hpfs_msg.not_enough_sectors_allocated)
    (h3 : ∀ e, m ≠ Hpfs.hpfs_msg.too_many_sectors_allocated e) :
    Hpfs.extent_warnings (Hpfs.header_warnings alb l c s m) = [] := by
  have eB : Hpfs.extent_warnings (if alb.cFree + alb.cUsed ≠ c then
      [{ level := 1, msg := m }] else []) = [] := extent_single_other _ _ h1 h2 h3
  rw [Hpfs.header_warnings, extent_warnings_append, extent_warnings_append, eB,
    extent_single_other _ _ (by simp) (by simp) (by simp),
    extent_single_other _ _ (by simp) (by simp) (by simp)]
  rfl

theorem extent_alnode_warnings (node : Hpfs.ALNODE) (i n e : Nat) :
    Hpfs.extent_warnings (Hpfs.alnode_warnings node i n e) = [] := by
  rw [Hpfs.alnode_warnings]
  exact extent_single_other _ _ (by simp) (by simp) (by simp)

theorem extent_alsec_warnings (s r secno p : Nat) :
    Hpfs.extent_warnings (Hpfs.alsec_warnings s r secno p) = [] := by
  rw [Hpfs.alsec_warnings, extent_warnings_append,
    extent_single_other _ _ (by simp) (by simp) (by simp),
    extent_single_other _ _ (by simp) (by simp) (by simp)]
  rfl

theorem extent_height_step (i h m : Nat) :
    Hpfs.extent_warnings (Hpfs.height_step i h m).1 = [] := by
  rw [Hpfs.height_step]
  split
  · rfl
  · exact extent_single_other _ _ (by simp) (by simp) (by simp)

theorem do_leaf_extent (a : Hpfs.storage_args) (w : Hpfs.storage_walk) (p : Hpfs.ALLEAF) :
    (Hpfs.do_leaf a w p).exp_file_sec = (w.exp_file_sec + p.csecRun) % 2 ^ 32
      ∧ (Hpfs.extent_warnings (Hpfs.do_leaf a w p).log).length
          = (Hpfs.extent_warnings w.log).length
            + (if p.lsnLog ≠ w.exp_file_sec then 1 else 0) := by
  refine ⟨rfl, ?_⟩
  simp only [Hpfs.do_leaf, extent_warnings_append, List.length_append]
  have e2 : Hpfs.extent_warnings (if a.check_pedantic = true ∧ w.next_disk_sec ≠ 0
        ∧ p.lsnPhys = w.next_disk_sec then
      [{ level := 0, msg := Hpfs.hpfs_msg.contiguous_runs_of_disk_sectors }] else []) = [] :=
    extent_single_other _ _ (by simp) (by simp) (by simp)
  have e3 : Hpfs.extent_warnings (if a.a_check = true ∧ a.sectors_per_block > 1
        ∧ a.what = Hpfs.USE_FILE then
      (if p.csecRun < a.sectors_per_block
          ∧ (w.exp_file_sec + p.csecRun) % 2 ^ 32 < a.total_sectors then
        [{ level := 1, msg := Hpfs.hpfs_msg.too_fragmented_for_multimedia }] else [])
      ++ (if p.lsnPhys &&& 3 ≠ 0 then
        [{ level := 1, msg := Hpfs.hpfs_msg.run_not_aligned_for_multimedia }] else [])
      else []) = [] := by
    split
    · rw [extent_warnings_append, extent_single_other _ _ (by simp) (by simp) (by simp),
        extent_single_other _ _ (by simp) (by simp) (by simp)]
      rfl
    · rfl
  rw [e2, e3]
  split <;> rfl

theorem foldl_do_leaf_extent (a : Hpfs.storage_args) :
    ∀ (l : List Hpfs.ALLEAF) (w : Hpfs.storage_walk),
      (l.foldl (Hpfs.do_leaf a) w).exp_file_sec = Hpfs.advance w.exp_file_sec l
        ∧ (Hpfs.extent_warnings (l.foldl (Hpfs.do_leaf a) w).log).length
            = (Hpfs.extent_warnings w.log).length + Hpfs.mismatches w.exp_file_sec l := by
  intro l
  induction l with
  | nil =>
    intro w
    exact ⟨rfl, rfl⟩
  | cons p l ih =>
    intro w
    obtain ⟨i1, i2⟩ := ih (Hpfs.do_leaf a w p)
    obtain ⟨d1, d2⟩ := do_leaf_extent a w p
    rw [List.foldl_cons, i1, i2, d1, d2, Hpfs.mismatches]
    refine ⟨rfl, ?_⟩
    omega

theorem advance_append (s : Nat) (l1 l2 : List Hpfs.ALLEAF) :
    Hpfs.advance s (l1 ++ l2) = Hpfs.advance (Hpfs.advance s l1) l2 := by
  rw [Hpfs.advance, Hpfs.advance, Hpfs.advance, List.foldl_append]

theorem mismatches_append :
    ∀ (l1 l2 : List Hpfs.ALLEAF) (s : Nat),
      Hpfs.mismatches s (l1 ++ l2)
        = Hpfs.mismatches s l1 + Hpfs.mismatches (Hpfs.advance s l1) l2 := by
  intro l1
  induction l1 with
  | nil =>
    intro l2 s
    simp [Hpfs.mismatches, Hpfs.advance]
  | cons p l1 ih =>
    intro l2 s
    have e : Hpfs.advance s (p :: l1) = Hpfs.advance ((s + p.csecRun) % 2 ^ 32) l1 := rfl
    rw [List.cons_append, Hpfs.mismatches, Hpfs.mismatches, ih, e]
    omega

mutual
theorem do_storage_extent (a : Hpfs.storage_args) :
    ∀ (t : Hpfs.alloc_tree) (secno leaf_count alsec_level : Nat) (w : Hpfs.storage_walk),
      (Hpfs.do_storage a t secno leaf_count alsec_level w).2.exp_file_sec
          = Hpfs.advance w.exp_file_sec (Hpfs.leaves t leaf_count)
        ∧ (Hpfs.extent_warnings
            (Hpfs.do_storage a t secno leaf_count alsec_level w).2.log).length
          = (Hpfs.extent_warnings w.log).length
            + Hpfs.mismatches w.exp_file_sec (Hpfs.leaves t leaf_count)
  | Hpfs.alloc_tree.mk alb aall aaln, secno, leaf_count, alsec_level, w => by
    rw [Hpfs.do_storage, Hpfs.leaves]
    by_cases hn : alb.bFlag &&& Hpfs.ABF_NODE ≠ 0
    · have hn2 : Hpfs.is_node alb = true := by simp [Hpfs.is_node, hn]
      simp only [if_pos hn, hn2, if_true]
      obtain ⟨n1, n2⟩ := do_storage_nodes_extent a aaln secno alsec_level 0
        (Hpfs.used_entries alb (leaf_count + leaf_count / 2)) 0
        (Hpfs.add_log w (Hpfs.header_warnings alb alsec_level (leaf_count + leaf_count / 2) 8
          Hpfs.hpfs_msg.wrong_number_of_alnodes))
      rw [n1, n2, extent_add_log,
        extent_header_warnings alb _ _ _ _ (by simp) (by simp) (by simp), Nat.sub_zero]
      exact ⟨rfl, rfl⟩
    · have hn2 : Hpfs.is_node alb = false := by simp [Hpfs.is_node, hn]
      simp only [if_neg hn, hn2, Bool.false_eq_true, if_false]
      obtain ⟨f1, f2⟩ := foldl_do_leaf_extent a (aall.take (Hpfs.used_entries alb leaf_count))
        { Hpfs.add_log w (Hpfs.header_warnings alb alsec_level leaf_count 12
            Hpfs.hpfs_msg.wrong_number_of_alleafs) with
          extents := (w.extents + Hpfs.used_entries alb leaf_count) % 2 ^ 32 }
      rw [f1, f2]
      refine ⟨rfl, ?_⟩
      have e := extent_add_log w (Hpfs.header_warnings alb alsec_level leaf_count 12
        Hpfs.hpfs_msg.wrong_number_of_alleafs)
      rw [extent_header_warnings alb _ _ _ _ (by simp) (by simp) (by simp)] at e
      exact congrArg (fun x => x + Hpfs.mismatches w.exp_file_sec
        (aall.take (Hpfs.used_entries alb leaf_count))) e
theorem do_storage_nodes_extent (a : Hpfs.storage_args) :
    ∀ (arr : Hpfs.alnode_array) (secno alsec_level i n m : Nat) (w : Hpfs.storage_walk),
      (Hpfs.do_storage_nodes a arr secno alsec_level i n m w).2.exp_file_sec
          = Hpfs.advance w.exp_file_sec (Hpfs.leaves_nodes arr (n - i))
        ∧ (Hpfs.extent_warnings
            (Hpfs.do_storage_nodes a arr secno alsec_level i n m w).2.log).length
          = (Hpfs.extent_warnings w.log).length
            + Hpfs.mismatches w.exp_file_sec (Hpfs.leaves_nodes arr (n - i))
  | Hpfs.alnode_array.nil, secno, alsec_level, i, n, m, w => by
    simp [Hpfs.do_storage_nodes, Hpfs.leaves_nodes, Hpfs.advance, Hpfs.mismatches]
  | Hpfs.alnode_array.cons node sec rest, secno, alsec_level, i, n, m, w => by
    rw [Hpfs.do_storage_nodes]
    by_cases hin : i < n
    · obtain ⟨k, hk⟩ : ∃ k, n - i = k + 1 := ⟨n - i - 1, by omega⟩
      have hk2 : n - (i + 1) = k := by omega
      simp only [if_pos hin]
      obtain ⟨a1, a2⟩ := do_alsec_extent a sec node.lsnPhys secno alsec_level w
      generalize Hpfs.do_alsec a sec node.lsnPhys secno alsec_level w = r at a1 a2 ⊢
      obtain ⟨n1, n2⟩ := do_storage_nodes_extent a rest secno alsec_level (i + 1) n
        (Hpfs.height_step i r.1 m).2
        (Hpfs.add_log r.2 (Hpfs.alnode_warnings node i n r.2.exp_file_sec
          ++ (Hpfs.height_step i r.1 m).1))
      have e0 : (Hpfs.add_log r.2 (Hpfs.alnode_warnings node i n r.2.exp_file_sec
          ++ (Hpfs.height_step i r.1 m).1)).exp_file_sec = r.2.exp_file_sec := rfl
      rw [n1, n2, e0, extent_add_log, extent_warnings_append, extent_alnode_warnings,
        extent_height_step, hk, hk2, Hpfs.leaves_nodes, advance_append, mismatches_append,
        a1, a2]
      refine ⟨rfl, ?_⟩
      simp only [List.append_nil, List.length_nil, Nat.add_zero]
      omega
    · have hz : n - i = 0 := by omega
      simp [if_neg hin, hz, Hpfs.leaves_nodes, Hpfs.advance, Hpfs.mismatches]
theorem do_alsec_extent (a : Hpfs.storage_args) :
    ∀ (sec : Hpfs.alsec_sector) (secno parent_alblk alsec_level : Nat) (w : Hpfs.storage_walk),
      (Hpfs.do_alsec a sec secno parent_alblk alsec_level w).2.exp_file_sec
          = Hpfs.advance w.exp_file_sec (Hpfs.leaves_sec sec)
        ∧ (Hpfs.extent_warnings
            (Hpfs.do_alsec a sec secno parent_alblk alsec_level w).2.log).length
          = (Hpfs.extent_warnings w.log).length
            + Hpfs.mismatches w.exp_file_sec (Hpfs.leaves_sec sec)
  | Hpfs.alsec_sector.mk seen sig lsnSelf lsnRent alb, secno, parent_alblk, alsec_level, w => by
    rw [Hpfs.do_alsec, Hpfs.leaves_sec]
    cases seen with
    | true =>
      simp only [if_true, true_or, extent_add_log]
      exact ⟨rfl, rfl⟩
    | false =>
      by_cases hsig : sig ≠ Hpfs.ALSEC_SIG1
      · simp only [Bool.false_eq_true, if_false, if_pos hsig, false_or, extent_add_log]
        exact ⟨rfl, rfl⟩
      · simp only [Bool.false_eq_true, if_false, if_neg hsig, false_or]
        obtain ⟨s1, s2⟩ := do_storage_extent a alb secno 40 (alsec_level + 1)
          (Hpfs.add_log w (Hpfs.alsec_warnings lsnSelf lsnRent secno parent_alblk))
        rw [s1, s2, extent_add_log, extent_alsec_warnings]
        exact ⟨rfl, rfl⟩
end

theorem advance_no_wrap :
    ∀ (l : List Hpfs.ALLEAF) (s : Nat),
      s + (l.map (fun p => p.csecRun)).sum < 2 ^ 32 →
      Hpfs.advance s l = s + (l.map (fun p => p.csecRun)).sum
        ∧ (Hpfs.mismatches s l = 0 ↔ Hpfs.gap_free s l = true) := by
  intro l
  induction l with
  | nil =>
    intro s _
    simp [Hpfs.advance, Hpfs.mismatches, Hpfs.gap_free]
  | cons p l ih =>
    intro s h
    rw [List.map_cons, List.sum_cons] at h ⊢
    have e : (s + p.csecRun) % 2 ^ 32 = s + p.csecRun := Nat.mod_eq_of_lt (by omega)
    have e2 : Hpfs.advance s (p :: l) = Hpfs.advance ((s + p.csecRun) % 2 ^ 32) l := rfl
    obtain ⟨i1, i2⟩ := ih (s + p.csecRun) (by omega)
    rw [e2, e, i1, Hpfs.mismatches, Hpfs.gap_free, e, Bool.and_eq_true, decide_eq_true_eq, ← i2]
    refine ⟨by omega, ?_⟩
    by_cases c : p.lsnLog = s
    · simp [c]
    · simp [c]

theorem size_warnings_small (file_sec fn_fsize : Nat) (h : fn_fsize + 511 < 2 ^ 32) :
    (Hpfs.extent_warnings (Hpfs.size_warnings file_sec fn_fsize)).length = 0
      ↔ file_sec = (fn_fsize + 511) / 512 := by
  have d : DIVIDE_UP fn_fsize 512 = (fn_fsize + 511) / 512 := by
    have e : (fn_fsize + 512 + (2 ^ 32 - 1)) % 2 ^ 32 = fn_fsize + 511 := by omega
    rw [DIVIDE_UP, e]
  rw [Hpfs.size_warnings, d, extent_warnings_append, List.length_append]
  have t : ∀ e, (Hpfs.extent_warnings
      [{ level := 1, msg := Hpfs.hpfs_msg.too_many_sectors_allocated e }]).length = 1 :=
    fun _ => rfl
  have ne : (Hpfs.extent_warnings
      [{ level := 1, msg := Hpfs.hpfs_msg.not_enough_sectors_allocated }]).length = 1 := rfl
  have z : (Hpfs.extent_warnings []).length = 0 := rfl
  by_cases c1 : (file_sec * 512) % 2 ^ 32 < fn_fsize
  · by_cases c2 : file_sec > (fn_fsize + 511) / 512
    · simp only [if_pos c1, if_pos c2, t, ne]
      omega
    · simp only [if_pos c1, if_neg c2, ne, z]
      omega
  · by_cases c2 : file_sec > (fn_fsize + 511) / 512
    · simp only [if_neg c1, if_pos c2, t, z]
      omega
    · simp only [if_neg c1, if_neg c2, z]
      have hlt : file_sec * 512 < 2 ^ 32 := by omega
      rw [Nat.mod_eq_of_lt hlt] at c1
      have hN : file_sec = (fn_fsize + 511) / 512 := by omega
      exact ⟨fun _ => hN, fun _ => trivial⟩

/-- The check of `do_fnode` of the extents of a file is exact as long as no
32-bit operation wraps: when `fn_fsize + 511` and the number of sectors of all
leaves are below `2 ^ 32`, the walk emits none of the warnings "Wrong file
sector", "Not enough sectors allocated" and "Too many sectors allocated" if
and only if the leaves cover the sectors of the file. -/
theorem extent_coverage_small (a : Hpfs.storage_args) (secno fn_fsize : Nat)
    (fst : Hpfs.alloc_tree) (h1 : fn_fsize + 511 < 2 ^ 32)
    (h2 : ((Hpfs.leaves fst 8).map (fun p => p.csecRun)).sum < 2 ^ 32) :
    Hpfs.extent_warnings (Hpfs.do_fnode_file a secno fn_fsize fst).2.log = []
      ↔ Hpfs.covers (Hpfs.leaves fst 8) fn_fsize = true := by
  obtain ⟨s1, s2⟩ := do_storage_extent
    { a with total_sectors := DIVIDE_UP fn_fsize 512, what := Hpfs.USE_FILE } fst secno 8 0
    { exp_file_sec := 0, next_disk_sec := 0, extents := 0, log := [] }
  obtain ⟨n1, n2⟩ := advance_no_wrap (Hpfs.leaves fst 8) 0 (by omega)
  have z : (Hpfs.extent_warnings []).length = 0 := rfl
  simp only [z, Nat.zero_add] at s1 s2 n1
  rw [← List.length_eq_zero, Hpfs.do_fnode_file]
  simp only []
  rw [extent_add_log, s2, s1, n1, Hpfs.covers, Bool.and_eq_true, decide_eq_true_eq, ← n2,
    ← size_warnings_small _ _ h1]
  omega

theorem extent_coverage_sample :
    Hpfs.extent_warnings
      (Hpfs.do_fnode_file Hpfs.sample_args 100 2560 Hpfs.sample_tree).2.log = [] :=
  (extent_coverage_small Hpfs.sample_args 100 2560 Hpfs.sample_tree (by decide)
    (by decide)).mpr (by decide)


theorem alnode_sector_warnings_append (a b : List Hpfs.hpfs_warning) :
    Hpfs.alnode_sector_warnings (a ++ b)
      = Hpfs.alnode_sector_warnings a ++ Hpfs.alnode_sector_warnings b := by
  rw [Hpfs.alnode_sector_warnings, Hpfs.alnode_sector_warnings, Hpfs.alnode_sector_warnings,
    List.filter_append]

theorem alnode_sector_single (c : Prop) [Decidable c] (x : Hpfs.hpfs_warning)
    (hx : ∀ f e, x.msg ≠ Hpfs.hpfs_msg.wrong_file_sector_in_alnode f e) :
    Hpfs.alnode_sector_warnings (if c then [x] else []) = [] := by
  split
  · rw [Hpfs.alnode_sector_warnings, List.filter_cons]
    split
    · rename_i h
      split at h
      · rename_i f e hb
        exact absurd hb (hx f e)
      · exact absurd h (by decide)
    · rfl
  · rfl

theorem alnode_sector_add_log (w : Hpfs.storage_walk) (l : List Hpfs.hpfs_warning) :
    (Hpfs.alnode_sector_warnings (Hpfs.add_log w l).log).length
      = (Hpfs.alnode_sector_warnings w.log).length
        + (Hpfs.alnode_sector_warnings l).length := by
  rw [Hpfs.add_log]
  simp only [alnode_sector_warnings_append, List.length_append]

theorem alnode_sector_header_warnings (alb : Hpfs.ALBLK) (l c s : Nat) (m : Hpfs.hpfs_msg)
    (hm : ∀ f e, m ≠ Hpfs.hpfs_msg.wrong_file_sector_in_alnode f e) :
    Hpfs.alnode_sector_warnings (Hpfs.header_warnings alb l c s m) = [] := by
  have eB : Hpfs.alnode_sector_warnings (if alb.cFree + alb.cUsed ≠ c then
      [{ level := 1, msg := m }] else []) = [] := alnode_sector_single _ _ hm
  rw [Hpfs.header_warnings, alnode_sector_warnings_append, alnode_sector_warnings_append, eB,
    alnode_sector_single _ _ (by simp), alnode_sector_single _ _ (by simp)]
  rfl

theorem alnode_sector_do_leaf (a : Hpfs.storage_args) (w : Hpfs.storage_walk)
    (p : Hpfs.ALLEAF) :
    Hpfs.alnode_sector_warnings (Hpfs.do_leaf a w p).log
      = Hpfs.alnode_sector_warnings w.log := by
  simp only [Hpfs.do_leaf, alnode_sector_warnings_append]
  rw [alnode_sector_single _ _ (by simp), alnode_sector_single _ _ (by simp)]
  split
  · rw [alnode_sector_warnings_append, alnode_sector_single _ _ (by simp),
      alnode_sector_single _ _ (by simp)]
    simp
  · simp [Hpfs.alnode_sector_warnings]

theorem alnode_sector_foldl_do_leaf (a : Hpfs.storage_args) :
    ∀ (l : List Hpfs.ALLEAF) (w : Hpfs.storage_walk),
      Hpfs.alnode_sector_warnings (l.foldl (Hpfs.do_leaf a) w).log
        = Hpfs.alnode_sector_warnings w.log := by
  intro l
  induction l with
  | nil => intro w; rfl
  | cons p l ih =>
    intro w
    rw [List.foldl_cons, ih, alnode_sector_do_leaf]

theorem alnode_sector_alsec_warnings (s r secno p : Nat) :
    Hpfs.alnode_sector_warnings (Hpfs.alsec_warnings s r secno p) = [] := by
  rw [Hpfs.alsec_warnings, alnode_sector_warnings_append, alnode_sector_single _ _ (by simp),
    alnode_sector_single _ _ (by simp)]
  rfl

theorem alnode_sector_height_step (i h m : Nat) :
    Hpfs.alnode_sector_warnings (Hpfs.height_step i h m).1 = [] := by
  rw [Hpfs.height_step]
  split
  · rfl
  · exact alnode_sector_single _ _ (by simp)

theorem alnode_sector_alnode_warnings (node : Hpfs.ALNODE) (i n e : Nat) :
    (Hpfs.alnode_sector_warnings (Hpfs.alnode_warnings node i n e)).length
      = ([(node.lsnLog, if i + 1 = n then 0xffffffff else e)].filter Hpfs.check_fails).length := by
  rw [Hpfs.alnode_warnings, List.filter_cons, Hpfs.check_fails]
  by_cases c : node.lsnLog = (if i + 1 = n then 0xffffffff else e)
  · simp only [c, ne_eq, not_true_eq_false, if_false, decide_False, Bool.false_eq_true,
      List.filter_nil]
    rfl
  · simp only [ne_eq, c, not_false_eq_true, if_true, decide_True, List.filter_nil]
    rfl

mutual
theorem do_storage_alnode (a : Hpfs.storage_args) :
    ∀ (t : Hpfs.alloc_tree) (secno leaf_count alsec_level : Nat) (w : Hpfs.storage_walk),
      (Hpfs.alnode_sector_warnings
          (Hpfs.do_storage a t secno leaf_count alsec_level w).2.log).length
        = (Hpfs.alnode_sector_warnings w.log).length
          + ((Hpfs.alnode_checks true t leaf_count w.exp_file_sec).filter
              Hpfs.check_fails).length
  | Hpfs.alloc_tree.mk alb aall aaln, secno, leaf_count, alsec_level, w => by
    rw [Hpfs.do_storage, Hpfs.alnode_checks]
    by_cases hn : alb.bFlag &&& Hpfs.ABF_NODE ≠ 0
    · have hn2 : Hpfs.is_node alb = true := by simp [Hpfs.is_node, hn]
      simp only [if_pos hn, hn2, if_true]
      rw [do_storage_nodes_alnode a aaln secno alsec_level 0, alnode_sector_add_log,
        alnode_sector_header_warnings alb _ _ _ _ (by simp)]
      rfl
    · have hn2 : Hpfs.is_node alb = false := by simp [Hpfs.is_node, hn]
      simp only [if_neg hn, hn2, alnode_sector_foldl_do_leaf, Bool.false_eq_true, if_false,
        List.filter_nil, List.length_nil, Nat.add_zero]
      exact (alnode_sector_add_log w _).trans
        (by rw [alnode_sector_header_warnings alb _ _ _ _ (by simp)]; rfl)
theorem do_storage_nodes_alnode (a : Hpfs.storage_args) :
    ∀ (arr : Hpfs.alnode_array) (secno alsec_level i n m : Nat) (w : Hpfs.storage_walk),
      (Hpfs.alnode_sector_warnings
          (Hpfs.do_storage_nodes a arr secno alsec_level i n m w).2.log).length
        = (Hpfs.alnode_sector_warnings w.log).length
          + ((Hpfs.alnode_checks_nodes true arr i n w.exp_file_sec).filter
              Hpfs.check_fails).length
  | Hpfs.alnode_array.nil, secno, alsec_level, i, n, m, w => by
    simp [Hpfs.do_storage_nodes, Hpfs.alnode_checks_nodes]
  | Hpfs.alnode_array.cons node sec rest, secno, alsec_level, i, n, m, w => by
    rw [Hpfs.do_storage_nodes, Hpfs.alnode_checks_nodes]
    by_cases hin : i < n
    · simp only [if_pos hin, if_true]
      have a1 := do_alsec_alnode a sec node.lsnPhys secno alsec_level w
      have a2 := (do_alsec_extent a sec node.lsnPhys secno alsec_level w).1
      generalize Hpfs.do_alsec a sec node.lsnPhys secno alsec_level w = r at a1 a2 ⊢
      have e0 : (Hpfs.add_log r.2 (Hpfs.alnode_warnings node i n r.2.exp_file_sec
          ++ (Hpfs.height_step i r.1 m).1)).exp_file_sec = r.2.exp_file_sec := rfl
      have hc : ∀ (x : Nat × Nat) (l1 l2 : List (Nat × Nat)),
          ((l1 ++ x :: l2).filter Hpfs.check_fails).length
            = (l1.filter Hpfs.check_fails).length + ([x].filter Hpfs.check_fails).length
              + (l2.filter Hpfs.check_fails).length := by
        intro x l1 l2
        have e : l1 ++ x :: l2 = l1 ++ [x] ++ l2 := by simp
        rw [e, List.filter_append, List.filter_append, List.length_append, List.length_append]
      rw [do_storage_nodes_alnode a rest secno alsec_level (i + 1) n, e0, alnode_sector_add_log,
        alnode_sector_warnings_append, List.length_append, alnode_sector_alnode_warnings,
        alnode_sector_height_step, a1, a2, hc]
      simp only [List.length_nil, Nat.add_zero]
      omega
    · simp [if_neg hin]
theorem do_alsec_alnode (a : Hpfs.storage_args) :
    ∀ (sec : Hpfs.alsec_sector) (secno parent_alblk alsec_level : Nat) (w : Hpfs.storage_walk),
      (Hpfs.alnode_sector_warnings
          (Hpfs.do_alsec a sec secno parent_alblk alsec_level w).2.log).length
        = (Hpfs.alnode_sector_warnings w.log).length
          + ((Hpfs.alnode_checks_sec true sec w.exp_file_sec).filter Hpfs.check_fails).length
  | Hpfs.alsec_sector.mk seen sig lsnSelf lsnRent alb, secno, parent_alblk, alsec_level, w => by
    rw [Hpfs.do_alsec, Hpfs.alnode_checks_sec]
    cases seen with
    | true =>
      simp only [if_true, true_or, alnode_sector_add_log]
      rfl
    | false =>
      by_cases hsig : sig ≠ Hpfs.ALSEC_SIG1
      · simp only [Bool.false_eq_true, if_false, if_pos hsig, false_or, alnode_sector_add_log]
        rfl
      · simp only [Bool.false_eq_true, if_false, if_neg hsig, false_or]
        rw [do_storage_alnode a alb secno 40 (alsec_level + 1), alnode_sector_add_log,
          alnode_sector_alsec_warnings]
        rfl
end

/-- C31: `do_storage` adds no warning "Wrong file sector in ALNODE" if and
only if in every node block that it goes through, the `lsnLog` of the last
entry in use is 0xffffffff and the `lsnLog` of every other entry in use is the
file sector at which the leaves below that entry end, which is the file sector
at which the leaves below the next entry start. -/
theorem alnode_file_sector_check (a : Hpfs.storage_args) (t : Hpfs.alloc_tree)
    (secno leaf_count alsec_level : Nat) (w : Hpfs.storage_walk) :
    (Hpfs.alnode_sector_warnings (Hpfs.do_storage a t secno leaf_count alsec_level w).2.log).length
        = (Hpfs.alnode_sector_warnings w.log).length
      ↔ ∀ c ∈ Hpfs.alnode_checks true t leaf_count w.exp_file_sec, c.1 = c.2 := by
  rw [do_storage_alnode]
  have e : ((Hpfs.alnode_checks true t leaf_count w.exp_file_sec).filter
        Hpfs.check_fails).length = 0
      ↔ ∀ c ∈ Hpfs.alnode_checks true t leaf_count w.exp_file_sec, c.1 = c.2 := by
    rw [List.length_eq_zero, List.filter_eq_nil_iff]
    constructor
    · intro h c hc
      have := h c hc
      rw [Hpfs.check_fails] at this
      simpa using this
    · intro h c hc
      rw [Hpfs.check_fails]
      simpa using h c hc
  rw [← e]
  omega

/-- C31, the claim as it stands fails in both directions: in `sample_tree` the
first ALNODE holds the file sector 3 at which the leaves below it end, not the
file sector 0 at which they start, and the walk emits no warning; in
`sample_tree_starts` it holds the file sector 0 at which they start, and the
walk emits the warning. -/
theorem alnode_file_sector_check_counterexample :
    (¬ (∀ c ∈ Hpfs.alnode_checks false Hpfs.sample_tree 8 0, c.1 = c.2)
      ∧ Hpfs.alnode_sector_warnings
          (Hpfs.do_storage Hpfs.sample_args Hpfs.sample_tree 100 8 0 Hpfs.storage_start).2.log
        = [])
    ∧ ((∀ c ∈ Hpfs.alnode_checks false Hpfs.sample_tree_starts 8 0, c.1 = c.2)
      ∧ Hpfs.alnode_sector_warnings
          (Hpfs.do_storage Hpfs.sample_args Hpfs.sample_tree_starts 100 8 0
            Hpfs.storage_start).2.log
        = [{ level := 1, msg := Hpfs.hpfs_msg.wrong_file_sector_in_alnode 0 3 }]) := by
  decide


theorem capacity_warnings_append (a b : List Hpfs.hpfs_warning) :
    Hpfs.capacity_warnings (a ++ b)
      = Hpfs.capacity_warnings a ++ Hpfs.capacity_warnings b := by
  rw [Hpfs.capacity_warnings, Hpfs.capacity_warnings, Hpfs.capacity_warnings,
    List.filter_append]

theorem capacity_single (c : Prop) [Decidable c] (x : Hpfs.hpfs_warning)
    (h1 : x.msg ≠ Hpfs.hpfs_msg.wrong_number_of_alnodes)
    (h2 : x.msg ≠ Hpfs.hpfs_msg.wrong_number_of_alleafs) :
    Hpfs.capacity_warnings (if c then [x] else []) = [] := by
  split
  · simp [Hpfs.capacity_warnings, h1, h2]
  · rfl

theorem capacity_add_log (w : Hpfs.storage_walk) (l : List Hpfs.hpfs_warning) :
    (Hpfs.capacity_warnings (Hpfs.add_log w l).log).length
      = (Hpfs.capacity_warnings w.log).length + (Hpfs.capacity_warnings l).length := by
  rw [Hpfs.add_log]
  simp only [capacity_warnings_append, List.length_append]

theorem capacity_header_warnings (alb : Hpfs.ALBLK) (l c s : Nat) (m : Hpfs.hpfs_msg)
    (hm : m = Hpfs.hpfs_msg.wrong_number_of_alnodes
      ∨ m = Hpfs.hpfs_msg.wrong_number_of_alleafs) :
    (Hpfs.capacity_warnings (Hpfs.header_warnings alb l c s m)).length
      = if alb.cFree + alb.cUsed ≠ c then 1 else 0 := by
  have eA : Hpfs.capacity_warnings
      (if decide (alb.bFlag &&& Hpfs.ABF_FNP = 0) ≠ decide (l ≠ 1) then
        [{ level := 1, msg := Hpfs.hpfs_msg.abf_fnp_bit_is_wrong
            (if alb.bFlag &&& Hpfs.ABF_FNP ≠ 0 then 1 else 0) }]
      else []) = [] := capacity_single _ _ (by simp) (by simp)
  have eC : Hpfs.capacity_warnings (if Hpfs.used_entries alb c * s + 8 ≠ alb.oFree then
      [{ level := 1, msg := Hpfs.hpfs_msg.offset_to_free_entry_is_wrong }] else []) = [] :=
    capacity_single _ _ (by simp) (by simp)
  rw [Hpfs.header_warnings, capacity_warnings_append, capacity_warnings_append, eA, eC,
    List.append_nil, List.nil_append]
  split
  · rcases hm with h | h <;> simp [Hpfs.capacity_warnings, h]
  · rfl

theorem capacity_do_leaf (a : Hpfs.storage_args) (w : Hpfs.storage_walk) (p : Hpfs.ALLEAF) :
    Hpfs.capacity_warnings (Hpfs.do_leaf a w p).log = Hpfs.capacity_warnings w.log := by
  simp only [Hpfs.do_leaf, capacity_warnings_append]
  rw [capacity_single _ _ (by simp) (by simp), capacity_single _ _ (by simp) (by simp)]
  split
  · rw [capacity_warnings_append, capacity_single _ _ (by simp) (by simp),
      capacity_single _ _ (by simp) (by simp)]
    simp
  · simp [Hpfs.capacity_warnings]

theorem capacity_foldl_do_leaf (a : Hpfs.storage_args) :
    ∀ (l : List Hpfs.ALLEAF) (w : Hpfs.storage_walk),
      Hpfs.capacity_warnings (l.foldl (Hpfs.do_leaf a) w).log
        = Hpfs.capacity_warnings w.log := by
  intro l
  induction l with
  | nil => intro w; rfl
  | cons p l ih =>
    intro w
    rw [List.foldl_cons, ih, capacity_do_leaf]

theorem capacity_alnode_warnings (node : Hpfs.ALNODE) (i n e : Nat) :
    Hpfs.capacity_warnings (Hpfs.alnode_warnings node i n e) = [] := by
  rw [Hpfs.alnode_warnings]
  exact capacity_single _ _ (by simp) (by simp)

theorem capacity_alsec_warnings (s r secno p : Nat) :
    Hpfs.capacity_warnings (Hpfs.alsec_warnings s r secno p) = [] := by
  rw [Hpfs.alsec_warnings, capacity_warnings_append, capacity_single _ _ (by simp) (by simp),
    capacity_single _ _ (by simp) (by simp)]
  rfl

theorem capacity_height_step (i h m : Nat) :
    Hpfs.capacity_warnings (Hpfs.height_step i h m).1 = [] := by
  rw [Hpfs.height_step]
  split
  · rfl
  · exact capacity_single _ _ (by simp) (by simp)

theorem capacity_wrong_cons (lc : Nat) (alb : Hpfs.ALBLK) (l : List (Nat × Hpfs.ALBLK)) :
    (((lc, alb) :: l).filter Hpfs.capacity_wrong).length
      = (if alb.cFree + alb.cUsed ≠ Hpfs.capacity alb lc then 1 else 0)
        + (l.filter Hpfs.capacity_wrong).length := by
  rw [List.filter_cons, Hpfs.capacity_wrong]
  by_cases c : alb.cFree + alb.cUsed = Hpfs.capacity alb lc
  · simp [c]
  · simp [c]
    omega

mutual
theorem do_storage_capacity (a : Hpfs.storage_args) :
    ∀ (t : Hpfs.alloc_tree) (secno leaf_count alsec_level : Nat) (w : Hpfs.storage_walk),
      (Hpfs.capacity_warnings (Hpfs.do_storage a t secno leaf_count alsec_level w).2.log).length
        = (Hpfs.capacity_warnings w.log).length
          + ((Hpfs.headers t leaf_count).filter Hpfs.capacity_wrong).length
  | Hpfs.alloc_tree.mk alb aall aaln, secno, leaf_count, alsec_level, w => by
    rw [Hpfs.do_storage, Hpfs.headers, capacity_wrong_cons, Hpfs.capacity]
    by_cases hn : alb.bFlag &&& Hpfs.ABF_NODE ≠ 0
    · have hn2 : Hpfs.is_node alb = true := by simp [Hpfs.is_node, hn]
      simp only [if_pos hn, hn2, if_true]
      rw [do_storage_nodes_capacity a aaln secno alsec_level 0, capacity_add_log,
        capacity_header_warnings alb _ _ _ _ (Or.inl rfl), Nat.sub_zero]
      have hu : Hpfs.used_entries alb (leaf_count + leaf_count / 2)
          = Hpfs.used_nodes alb leaf_count := rfl
      rw [hu]
      omega
    · have hn2 : Hpfs.is_node alb = false := by simp [Hpfs.is_node, hn]
      simp only [if_neg hn, hn2, capacity_foldl_do_leaf, Bool.false_eq_true, if_false,
        List.filter_nil, List.length_nil, Nat.add_zero]
      exact (capacity_add_log w _).trans
        (by rw [capacity_header_warnings alb _ _ _ _ (Or.inr rfl)])
theorem do_storage_nodes_capacity (a : Hpfs.storage_args) :
    ∀ (arr : Hpfs.alnode_array) (secno alsec_level i n m : Nat) (w : Hpfs.storage_walk),
      (Hpfs.capacity_warnings
          (Hpfs.do_storage_nodes a arr secno alsec_level i n m w).2.log).length
        = (Hpfs.capacity_warnings w.log).length
          + ((Hpfs.headers_nodes arr (n - i)).filter Hpfs.capacity_wrong).length
  | Hpfs.alnode_array.nil, secno, alsec_level, i, n, m, w => by
    simp [Hpfs.do_storage_nodes, Hpfs.headers_nodes]
  | Hpfs.alnode_array.cons node sec rest, secno, alsec_level, i, n, m, w => by
    rw [Hpfs.do_storage_nodes]
    by_cases hin : i < n
    · obtain ⟨k, hk⟩ : ∃ k, n - i = k + 1 := ⟨n - i - 1, by omega⟩
      have hk2 : n - (i + 1) = k := by omega
      simp only [if_pos hin]
      have a1 := do_alsec_capacity a sec node.lsnPhys secno alsec_level w
      generalize Hpfs.do_alsec a sec node.lsnPhys secno alsec_level w = r at a1 ⊢
      rw [do_storage_nodes_capacity a rest secno alsec_level (i + 1) n, capacity_add_log,
        capacity_warnings_append, capacity_alnode_warnings, capacity_height_step, hk, hk2,
        Hpfs.headers_nodes, List.filter_append, a1]
      simp only [List.append_nil, List.length_nil, Nat.add_zero, List.length_append]
      omega
    · have hz : n - i = 0 := by omega
      simp [if_neg hin, hz, Hpfs.headers_nodes]
theorem do_alsec_capacity (a : Hpfs.storage_args) :
    ∀ (sec : Hpfs.alsec_sector) (secno parent_alblk alsec_level : Nat) (w : Hpfs.storage_walk),
      (Hpfs.capacity_warnings
          (Hpfs.do_alsec a sec secno parent_alblk alsec_level w).2.log).length
        = (Hpfs.capacity_warnings w.log).length
          + ((Hpfs.headers_sec sec).filter Hpfs.capacity_wrong).length
  | Hpfs.alsec_sector.mk seen sig lsnSelf lsnRent alb, secno, parent_alblk, alsec_level, w => by
    rw [Hpfs.do_alsec, Hpfs.headers_sec]
    cases seen with
    | true =>
      simp only [if_true, true_or, capacity_add_log]
      rfl
    | false =>
      by_cases hsig : sig ≠ Hpfs.ALSEC_SIG1
      · simp only [Bool.false_eq_true, if_false, if_pos hsig, false_or, capacity_add_log]
        rfl
      · simp only [Bool.false_eq_true, if_false, if_neg hsig, false_or]
        rw [do_storage_capacity a alb secno 40 (alsec_level + 1), capacity_add_log,
          capacity_alsec_warnings]
        rfl
end

theorem used_entries_le (alb : Hpfs.ALBLK) (count : Nat) :
    Hpfs.used_entries alb count ≤ count := by
  rw [Hpfs.used_entries]
  split_ifs <;> omega

mutual
theorem headers_leaf_count :
    ∀ (t : Hpfs.alloc_tree) (leaf_count : Nat),
      ∀ x ∈ Hpfs.headers t leaf_count, x.1 = leaf_count ∨ x.1 = 40
  | Hpfs.alloc_tree.mk alb aall aaln, leaf_count => by
    intro x hx
    rw [Hpfs.headers, List.mem_cons] at hx
    rcases hx with h | h
    · rw [h]
      exact Or.inl rfl
    · split at h
      · exact Or.inr (headers_nodes_leaf_count aaln _ x h)
      · exact absurd h (List.not_mem_nil x)
theorem headers_nodes_leaf_count :
    ∀ (arr : Hpfs.alnode_array) (k : Nat), ∀ x ∈ Hpfs.headers_nodes arr k, x.1 = 40
  | Hpfs.alnode_array.nil, k => by
    intro x hx
    rw [Hpfs.headers_nodes] at hx
    exact absurd hx (List.not_mem_nil x)
  | Hpfs.alnode_array.cons node sec rest, 0 => by
    intro x hx
    rw [Hpfs.headers_nodes] at hx
    exact absurd hx (List.not_mem_nil x)
  | Hpfs.alnode_array.cons node sec rest, k + 1 => by
    intro x hx
    rw [Hpfs.headers_nodes, List.mem_append] at hx
    rcases hx with h | h
    · exact headers_sec_leaf_count sec x h
    · exact headers_nodes_leaf_count rest k x h
theorem headers_sec_leaf_count :
    ∀ (sec : Hpfs.alsec_sector), ∀ x ∈ Hpfs.headers_sec sec, x.1 = 40
  | Hpfs.alsec_sector.mk seen sig lsnSelf lsnRent alb => by
    intro x hx
    rw [Hpfs.headers_sec] at hx
    split at hx
    · exact absurd hx (List.not_mem_nil x)
    · rcases headers_leaf_count alb 40 x hx with h | h <;> exact h
end

/-- The loop over the ALLEAFs leaves `*pextents` as it is. -/
theorem foldl_do_leaf_extents (a : Hpfs.storage_args) :
    ∀ (l : List Hpfs.ALLEAF) (w : Hpfs.storage_walk),
      (l.foldl (Hpfs.do_leaf a) w).extents = w.extents := by
  intro l
  induction l with
  | nil => intro w; rfl
  | cons p l ih =>
    intro w
    rw [List.foldl_cons, ih]
    rfl

/-- The loop over the ALNODEs does not go behind the `n` entries to
process. -/
theorem do_storage_nodes_take (a : Hpfs.storage_args) :
    ∀ (arr : Hpfs.alnode_array) (k secno alsec_level i n m : Nat) (w : Hpfs.storage_walk),
      n ≤ i + k →
      Hpfs.do_storage_nodes a (Hpfs.take_nodes k arr) secno alsec_level i n m w
        = Hpfs.do_storage_nodes a arr secno alsec_level i n m w
  | Hpfs.alnode_array.nil, k, secno, alsec_level, i, n, m, w, _ => by
    cases k <;> rfl
  | Hpfs.alnode_array.cons node sec rest, 0, secno, alsec_level, i, n, m, w, h => by
    rw [Hpfs.take_nodes, Hpfs.do_storage_nodes, Hpfs.do_storage_nodes, if_neg (by omega)]
  | Hpfs.alnode_array.cons node sec rest, k + 1, secno, alsec_level, i, n, m, w, h => by
    rw [Hpfs.take_nodes, Hpfs.do_storage_nodes, Hpfs.do_storage_nodes]
    split
    · exact do_storage_nodes_take a rest k secno alsec_level (i + 1) n _ _ (by omega)
    · rfl

mutual
/-- The walk of `do_storage` does not depend on what lies behind the arrays
of the blocks. -/
theorem do_storage_clip (a : Hpfs.storage_args) :
    ∀ (t : Hpfs.alloc_tree) (secno leaf_count alsec_level : Nat) (w : Hpfs.storage_walk),
      Hpfs.do_storage a (Hpfs.clip t leaf_count) secno leaf_count alsec_level w
        = Hpfs.do_storage a t secno leaf_count alsec_level w
  | Hpfs.alloc_tree.mk alb aall aaln, secno, leaf_count, alsec_level, w => by
    rw [Hpfs.clip, Hpfs.do_storage, Hpfs.do_storage]
    split
    · exact do_storage_nodes_clip a aaln (leaf_count + leaf_count / 2) secno alsec_level 0 _ 0 _
        (by have := used_entries_le alb (leaf_count + leaf_count / 2); omega)
    · rw [List.take_take, min_eq_left (used_entries_le alb leaf_count)]
theorem do_storage_nodes_clip (a : Hpfs.storage_args) :
    ∀ (arr : Hpfs.alnode_array) (k secno alsec_level i n m : Nat) (w : Hpfs.storage_walk),
      n ≤ i + k →
      Hpfs.do_storage_nodes a (Hpfs.clip_nodes arr k) secno alsec_level i n m w
        = Hpfs.do_storage_nodes a arr secno alsec_level i n m w
  | Hpfs.alnode_array.nil, k, secno, alsec_level, i, n, m, w, _ => by
    rw [Hpfs.clip_nodes]
  | Hpfs.alnode_array.cons node sec rest, 0, secno, alsec_level, i, n, m, w, h => by
    rw [Hpfs.clip_nodes, Hpfs.do_storage_nodes, Hpfs.do_storage_nodes, if_neg (by omega)]
  | Hpfs.alnode_array.cons node sec rest, k + 1, secno, alsec_level, i, n, m, w, h => by
    rw [Hpfs.clip_nodes, Hpfs.do_storage_nodes, Hpfs.do_storage_nodes]
    split
    · rw [do_alsec_clip a sec node.lsnPhys secno alsec_level w]
      exact do_storage_nodes_clip a rest k secno alsec_level (i + 1) n _ _ (by omega)
    · rfl
theorem do_alsec_clip (a : Hpfs.storage_args) :
    ∀ (sec : Hpfs.alsec_sector) (secno parent_alblk alsec_level : Nat) (w : Hpfs.storage_walk),
      Hpfs.do_alsec a (Hpfs.clip_sec sec) secno parent_alblk alsec_level w
        = Hpfs.do_alsec a sec secno parent_alblk alsec_level w
  | Hpfs.alsec_sector.mk seen sig lsnSelf lsnRent alb, secno, parent_alblk, alsec_level, w => by
    rw [Hpfs.clip_sec, Hpfs.do_alsec, Hpfs.do_alsec]
    split
    · rfl
    · split
      · rfl
      · rw [do_storage_clip a alb secno 40 (alsec_level + 1)]
end
/-- C35: in the walk of `do_fnode` through the allocation tree of a file the
number of warnings "Wrong number of ALLEAFs" and "Wrong number of ALNODEs" is
the number of blocks examined whose `cFree + cUsed` is not the capacity of the
block, which is 8 leaves or 12 nodes in the FNODE and 40 leaves or 60 nodes in
an ALSEC.  The walk does not depend on anything that lies behind the arrays
of the blocks: it is the walk through the tree clipped to these capacities.
In every call of `do_storage` for a leaf block the number `n` of ALLEAFs
processed, which is what the call adds to `*pextents`, is at most
`leaf_count`, and the call is the same for the block cut down to its first `n`
ALLEAFs; in every call for a node block the number of ALNODEs processed is at
most `leaf_count + leaf_count / 2`, the call being the same for the block cut
down to that many ALNODEs. -/
theorem allocation_block_capacity (a : Hpfs.storage_args) (secno fn_fsize : Nat)
    (fst : Hpfs.alloc_tree) :
    (Hpfs.capacity_warnings (Hpfs.do_fnode_file a secno fn_fsize fst).2.log).length
        = ((Hpfs.headers fst 8).filter Hpfs.capacity_wrong).length
      ∧ (∀ x ∈ Hpfs.headers fst 8,
          (x.1 = 8 ∧ Hpfs.capacity x.2 x.1 = (if Hpfs.is_node x.2 then 12 else 8)
            ∨ x.1 = 40 ∧ Hpfs.capacity x.2 x.1 = (if Hpfs.is_node x.2 then 60 else 40))
          ∧ Hpfs.used_entries x.2 (Hpfs.capacity x.2 x.1) ≤ Hpfs.capacity x.2 x.1)
      ∧ Hpfs.do_fnode_file a secno fn_fsize (Hpfs.clip fst 8)
          = Hpfs.do_fnode_file a secno fn_fsize fst
      ∧ (∀ (b : Hpfs.storage_args) (alb : Hpfs.ALBLK) (aall : List Hpfs.ALLEAF)
          (aaln : Hpfs.alnode_array) (sec leaf_count alsec_level : Nat) (w : Hpfs.storage_walk),
          Hpfs.is_node alb = false →
          ∃ n, n ≤ leaf_count
            ∧ (Hpfs.do_storage b (Hpfs.alloc_tree.mk alb aall aaln) sec leaf_count alsec_level
                w).2.extents = (w.extents + n) % 2 ^ 32
            ∧ Hpfs.do_storage b (Hpfs.alloc_tree.mk alb aall aaln) sec leaf_count alsec_level w
              = Hpfs.do_storage b (Hpfs.alloc_tree.mk alb (aall.take n) aaln) sec leaf_count
                  alsec_level w)
      ∧ (∀ (b : Hpfs.storage_args) (alb : Hpfs.ALBLK) (aall : List Hpfs.ALLEAF)
          (aaln : Hpfs.alnode_array) (sec leaf_count alsec_level : Nat) (w : Hpfs.storage_walk),
          Hpfs.is_node alb = true →
          ∃ n, n ≤ leaf_count + leaf_count / 2
            ∧ Hpfs.do_storage b (Hpfs.alloc_tree.mk alb aall aaln) sec leaf_count alsec_level w
              = Hpfs.do_storage b (Hpfs.alloc_tree.mk alb aall (Hpfs.take_nodes n aaln)) sec
                  leaf_count alsec_level w) := by
  refine ⟨?_, ?_, ?_, ?_, ?_⟩
  · rw [Hpfs.do_fnode_file]
    simp only []
    rw [capacity_add_log, do_storage_capacity]
    have z : (Hpfs.capacity_warnings []).length = 0 := rfl
    have e : Hpfs.capacity_warnings (Hpfs.size_warnings
        (Hpfs.do_storage { a with total_sectors := DIVIDE_UP fn_fsize 512, what := Hpfs.USE_FILE }
          fst secno 8 0 { exp_file_sec := 0, next_disk_sec := 0, extents := 0, log := [] }
          ).2.exp_file_sec fn_fsize) = [] := by
      rw [Hpfs.size_warnings, capacity_warnings_append, capacity_single _ _ (by simp) (by simp),
        capacity_single _ _ (by simp) (by simp)]
      rfl
    rw [e, z]
    simp
  · intro x hx
    refine ⟨?_, used_entries_le _ _⟩
    rcases headers_leaf_count fst 8 x hx with h | h
    · left
      refine ⟨h, ?_⟩
      rw [h, Hpfs.capacity]
    · right
      refine ⟨h, ?_⟩
      rw [h, Hpfs.capacity]
  · rw [Hpfs.do_fnode_file, Hpfs.do_fnode_file, do_storage_clip]
  · intro b alb aall aaln sec leaf_count alsec_level w hn
    have hc : ¬ (alb.bFlag &&& Hpfs.ABF_NODE ≠ 0) := by
      rw [Hpfs.is_node] at hn
      exact of_decide_eq_false hn
    refine ⟨Hpfs.used_entries alb leaf_count, used_entries_le alb leaf_count, ?_, ?_⟩
    · rw [Hpfs.do_storage, if_neg hc]
      exact foldl_do_leaf_extents b _ _
    · rw [Hpfs.do_storage, Hpfs.do_storage, if_neg hc, if_neg hc, List.take_take, min_self]
  · intro b alb aall aaln sec leaf_count alsec_level w hn
    have hc : alb.bFlag &&& Hpfs.ABF_NODE ≠ 0 := by
      rw [Hpfs.is_node] at hn
      exact of_decide_eq_true hn
    refine ⟨Hpfs.used_entries alb (leaf_count + leaf_count / 2), used_entries_le alb _, ?_⟩
    rw [Hpfs.do_storage, Hpfs.do_storage, if_pos hc, if_pos hc]
    exact (do_storage_nodes_take b aaln (Hpfs.used_entries alb (leaf_count + leaf_count / 2)) sec
      alsec_level 0 (Hpfs.used_entries alb (leaf_count + leaf_count / 2)) 0 _ (by omega)).symm

theorem allocation_block_capacity_sample :
    Hpfs.capacity_warnings (Hpfs.do_fnode_file Hpfs.sample_args 100 4096
        Hpfs.sample_overfull).2.log = [{ level := 1, msg := Hpfs.hpfs_msg.wrong_number_of_alleafs }]
      ∧ (Hpfs.leaves Hpfs.sample_overfull 8).length = 8
      ∧ (Hpfs.do_fnode_file Hpfs.sample_args 100 4096 Hpfs.sample_overfull).2.exp_file_sec = 8 := by
  decide

/-- The block `sample_overlong` announces 200 leaves in use and ten ALLEAFs
lie behind its header: `do_storage` sets `*pextents` to 8 and goes through the
eight ALLEAFs of the array of the FNODE, as for `sample_overfull`, which holds
these eight only. -/
theorem allocation_block_capacity_overlong :
    (Hpfs.do_fnode_file Hpfs.sample_args 100 4096 Hpfs.sample_overlong).2.extents = 8
      ∧ (Hpfs.do_fnode_file Hpfs.sample_args 100 4096 Hpfs.sample_overlong).2.exp_file_sec = 8
      ∧ Hpfs.clip Hpfs.sample_overlong 8 = Hpfs.sample_overfull
      ∧ Hpfs.do_fnode_file Hpfs.sample_args 100 4096 Hpfs.sample_overlong
        = Hpfs.do_fnode_file Hpfs.sample_args 100 4096 Hpfs.sample_overfull :=
  ⟨by decide, by decide, rfl, by decide⟩


theorem do_leaves_buf_none (a : Hpfs.storage_args) :
    ∀ (l : List Hpfs.ALLEAF) (w : Hpfs.storage_walk),
      Hpfs.do_leaves_buf a none l w = some (l.foldl (Hpfs.do_leaf a) w) := by
  intro l
  induction l with
  | nil => intro w; rfl
  | cons p l ih =>
    intro w
    rw [Hpfs.do_leaves_buf, Hpfs.do_leaf_buf]
    exact ih _

mutual
theorem do_storage_buf_none (a : Hpfs.storage_args) :
    ∀ (t : Hpfs.alloc_tree) (secno leaf_count alsec_level : Nat) (w : Hpfs.storage_walk),
      Hpfs.do_storage_buf a none t secno leaf_count alsec_level w
        = some (Hpfs.do_storage a t secno leaf_count alsec_level w)
  | Hpfs.alloc_tree.mk alb aall aaln, secno, leaf_count, alsec_level, w => by
    rw [Hpfs.do_storage_buf, Hpfs.do_storage]
    split
    · exact do_storage_nodes_buf_none a aaln secno alsec_level 0 _ 0 _
    · rw [do_leaves_buf_none]
      rfl
theorem do_storage_nodes_buf_none (a : Hpfs.storage_args) :
    ∀ (arr : Hpfs.alnode_array) (secno alsec_level i n m : Nat) (w : Hpfs.storage_walk),
      Hpfs.do_storage_nodes_buf a none arr secno alsec_level i n m w
        = some (Hpfs.do_storage_nodes a arr secno alsec_level i n m w)
  | Hpfs.alnode_array.nil, secno, alsec_level, i, n, m, w => by
    rw [Hpfs.do_storage_nodes_buf, Hpfs.do_storage_nodes]
  | Hpfs.alnode_array.cons node sec rest, secno, alsec_level, i, n, m, w => by
    rw [Hpfs.do_storage_nodes_buf, Hpfs.do_storage_nodes]
    split
    · rw [do_alsec_buf_none a sec node.lsnPhys secno alsec_level w]
      exact do_storage_nodes_buf_none a rest secno alsec_level (i + 1) n _ _
    · rfl
theorem do_alsec_buf_none (a : Hpfs.storage_args) :
    ∀ (sec : Hpfs.alsec_sector) (secno parent_alblk alsec_level : Nat) (w : Hpfs.storage_walk),
      Hpfs.do_alsec_buf a none sec secno parent_alblk alsec_level w
        = some (Hpfs.do_alsec a sec secno parent_alblk alsec_level w)
  | Hpfs.alsec_sector.mk seen sig lsnSelf lsnRent alb, secno, parent_alblk, alsec_level, w => by
    rw [Hpfs.do_alsec_buf, Hpfs.do_alsec]
    split
    · rfl
    · split
      · rfl
      · rw [do_storage_buf_none a alb secno 40 (alsec_level + 1)]
end


/-- C40: for extended attributes of 1000 bytes that an ALSEC with one run of
three sectors maps, `do_storage` reaches `abort ()`: the three sectors do not
fit into the buffer of `ROUND_UP (1000, 512)` = 1024 bytes.  The warning "Too
many sectors allocated" is emitted, and the walk goes on, only when there is
no buffer, as for 0x100001 bytes mapped by an ALSEC with a run of 0x802
sectors. -/
theorem auxinfo_alsec_abort :
    Hpfs.do_auxinfo_alsec Hpfs.sample_args true Hpfs.USE_EA 100 1000 0 500
        Hpfs.sample_ea_sector = none
      ∧ Hpfs.ROUND_UP 1000 512 = 1024
      ∧ Hpfs.do_auxinfo_alsec Hpfs.sample_args true Hpfs.USE_EA 100 0x100001 0 500
          (Hpfs.sample_leaf_sector 500 100 0x20 [{ lsnLog := 0, csecRun := 0x802, lsnPhys := 600 }])
        = some (Hpfs.add_log
            { exp_file_sec := 0x802, next_disk_sec := 600 + 0x802, extents := 1, log := [] }
            [{ level := 1, msg := Hpfs.hpfs_msg.more
                (Hpfs.more_msg.too_many_sectors_allocated_for_auxinfo 1) }]) := by
  decide


/-! ## Sectors beyond the end of the volume -/

theorem chain_cluster_succ (fat : List Nat) :
    ∀ (n c : Nat), chain_cluster fat c (n + 1) = fat.getD (chain_cluster fat c n) 0 := by
  intro n
  induction n with
  | zero => intro c; rfl
  | succ n ih =>
    intro c
    rw [chain_cluster, ih (fat.getD c 0)]
    rfl

theorem do_file_loop_linked_steps (fat : List Nat) (tc : Nat) (path : Nat)
    (uv : List Nat) (pv : List (Option Nat)) (S : Nat → Prop)
    (hS : ∀ c, S c → 2 ≤ c ∧ c < tc ∧ c < 0xfff7 ∧ uv.getD c 0 ≠ USE_EMPTY
      ∧ pv.getD c none ≠ some path ∧ S (fat.getD c 0)) :
    ∀ (n fuel cluster count : Nat) (log : List fat_warning), S cluster → count < 2 ^ 32 →
      do_file_loop fat tc (some path) (fuel + n) cluster
          { count := count, usage_vector := uv, path_vector := pv, log := log }
        = do_file_loop fat tc (some path) fuel (chain_cluster fat cluster n)
            { count := (count + n) % 2 ^ 32, usage_vector := uv, path_vector := pv
              log := log ++ conflict_log fat uv cluster n } := by
  intro n
  induction n with
  | zero =>
    intro fuel cluster count log _ hcount
    have e : (count + 0) % 2 ^ 32 = count := Nat.mod_eq_of_lt hcount
    rw [e, conflict_log, List.range_zero, List.map_nil, List.append_nil]
    rfl
  | succ n ih =>
    intro fuel cluster count log hc _
    obtain ⟨h1, h2, h3, h4, h5, h6⟩ := hS cluster hc
    have e : fuel + (n + 1) = (fuel + n) + 1 := by omega
    have hp : (some path ≠ none && some path == pv.getD cluster none) = false := by
      have : (some path == pv.getD cluster none) = false := by
        rw [beq_eq_false_iff_ne]
        exact fun c => h5 c.symm
      rw [this, Bool.and_false]
    rw [e, do_file_loop, if_pos (by omega), if_neg (by omega), if_neg (by omega),
      if_neg (by omega), use_cluster, if_neg (by omega)]
    simp only [h4, ne_eq, not_false_eq_true, if_true, hp, Bool.not_false, Bool.not_true,
      Bool.false_eq_true, if_false]
    have hlog : conflict_log fat uv cluster (n + 1)
        = [{ level := 1, msg := fat_msg.usage_conflict cluster (uv.getD cluster 0) USE_FILE }]
          ++ conflict_log fat uv (fat.getD cluster 0) n := by
      rw [conflict_log, conflict_log, List.range_succ_eq_map, List.map_cons, List.map_map]
      rfl
    have hcnt : ((count + 1) % 2 ^ 32 + n) % 2 ^ 32 = (count + (n + 1)) % 2 ^ 32 := by omega
    rw [ih fuel (fat.getD cluster 0) ((count + 1) % 2 ^ 32) _ h6 (Nat.mod_lt _ (by decide)),
      hcnt, hlog, List.append_assoc]
    rfl

theorem sample_linked_closed :
    ∀ c, (c = 8 ∨ c = 9) → 2 ≤ c ∧ c < 10 ∧ c < 0xfff7
      ∧ sample_linked_walk.usage_vector.getD c 0 ≠ USE_EMPTY
      ∧ sample_linked_walk.path_vector.getD c none ≠ some 2
      ∧ (sample_fat.getD c 0 = 8 ∨ sample_fat.getD c 0 = 9) := by
  intro c hc
  rcases hc with h | h <;> subst h <;> decide

/-- C33: in `sample_fat` the clusters 8 and 9 form a cycle.  The walk of
`do_file` for the file 1 that starts in cluster 8 ends with the warning "Cycle
after 2 clusters" and leaves the two clusters to the file 1.  The walk for a
second file that starts in cluster 9 never ends: after any number `n` of
rounds the loop is at a cluster of the cycle again, with `n` warnings "usage
conflict" emitted and no warning about a cycle, so that with no amount of fuel
the loop returns. -/
theorem do_file_cross_linked_cycle :
    do_file_loop sample_fat 10 (some 1) 3 8
        { count := 0, usage_vector := List.replicate 10 0
          path_vector := List.replicate 10 none, log := [] }
      = some { count := 2, usage_vector := sample_linked_walk.usage_vector
               path_vector := sample_linked_walk.path_vector
               log := [{ level := 1, msg := fat_msg.usage_conflict 8 USE_FILE USE_FILE },
                       { level := 1, msg := fat_msg.cycle_after 2 }] }
    ∧ (∀ n fuel, do_file_loop sample_fat 10 (some 2) (fuel + n) 9 sample_linked_walk
        = do_file_loop sample_fat 10 (some 2) fuel (chain_cluster sample_fat 9 n)
            { count := n % 2 ^ 32, usage_vector := sample_linked_walk.usage_vector
              path_vector := sample_linked_walk.path_vector
              log := conflict_log sample_fat sample_linked_walk.usage_vector 9 n })
    ∧ (∀ n, chain_cluster sample_fat 9 n = 8 ∨ chain_cluster sample_fat 9 n = 9)
    ∧ ∀ fuel, do_file_loop sample_fat 10 (some 2) fuel 9 sample_linked_walk = none := by
  have steps : ∀ n fuel, do_file_loop sample_fat 10 (some 2) (fuel + n) 9 sample_linked_walk
      = do_file_loop sample_fat 10 (some 2) fuel (chain_cluster sample_fat 9 n)
          { count := n % 2 ^ 32, usage_vector := sample_linked_walk.usage_vector
            path_vector := sample_linked_walk.path_vector
            log := conflict_log sample_fat sample_linked_walk.usage_vector 9 n } := by
    intro n fuel
    have h := do_file_loop_linked_steps sample_fat 10 2 sample_linked_walk.usage_vector
      sample_linked_walk.path_vector (fun c => c = 8 ∨ c = 9) sample_linked_closed n fuel 9 0 []
      (Or.inr rfl) (by decide)
    rw [Nat.zero_add, List.nil_append] at h
    exact h
  refine ⟨by decide, steps, ?_, ?_⟩
  · intro n
    induction n with
    | zero => exact Or.inr rfl
    | succ n ih =>
      rw [chain_cluster_succ]
      rcases ih with h | h <;> rw [h]
      · exact Or.inr rfl
      · exact Or.inl rfl
  · intro fuel
    have h := steps fuel 0
    rw [Nat.zero_add] at h
    rw [h, do_file_loop]


/-! ## The sectors of two snapshot files -/

theorem only_in_cons_right (p q : List Nat) (b : Nat) (h : b ∉ p) :
    only_in p (b :: q) = only_in p q := by
  rw [only_in, only_in]
  apply List.filter_congr
  intro x hx
  have : x ≠ b := fun c => h (c ▸ hx)
  simp [this]

theorem in_both_cons_right (p q : List Nat) (b : Nat) (h : b ∉ p) :
    in_both p (b :: q) = in_both p q := by
  rw [in_both, in_both]
  apply List.filter_congr
  intro x hx
  have : x ≠ b := fun c => h (c ▸ hx)
  simp [this]

theorem only_in_cons_not (t q : List Nat) (a : Nat) (h : a ∉ q) :
    only_in (a :: t) q = a :: only_in t q := by
  rw [only_in, only_in, List.filter_cons]
  simp [h]

theorem only_in_cons_mem (t q : List Nat) (a : Nat) (h : a ∈ q) :
    only_in (a :: t) q = only_in t q := by
  rw [only_in, only_in, List.filter_cons]
  simp [h]

theorem in_both_cons_not (t q : List Nat) (a : Nat) (h : a ∉ q) :
    in_both (a :: t) q = in_both t q := by
  rw [in_both, in_both, List.filter_cons]
  simp [h]

theorem in_both_cons_mem (t q : List Nat) (a : Nat) (h : a ∈ q) :
    in_both (a :: t) q = a :: in_both t q := by
  rw [in_both, in_both, List.filter_cons]
  simp [h]

theorem not_mem_of_lt_sorted (a b : Nat) (t : List Nat) (h : (a :: t).Sorted (· < ·))
    (hb : b < a) : b ∉ a :: t := by
  intro c
  rcases List.mem_cons.mp c with e | e
  · omega
  · have := List.rel_of_sorted_cons h b e
    omega

theorem not_mem_tail_sorted (a : Nat) (t : List Nat) (h : (a :: t).Sorted (· < ·)) :
    a ∉ t := by
  intro c
  have := List.rel_of_sorted_cons h a c
  omega

theorem diff_out_nil (d1 d2 : Nat → List Nat) (which : Nat) (r : diff_result) :
    diff_out d1 d2 which [] [] r = r := by
  rw [diff_out]
  simp [in_both, only_in]

theorem diff_out_step (d1 d2 : Nat → List Nat) (which : Nat) (p1 p2 : List Nat)
    (r : diff_result) (h1 : p1.Sorted (· < ·)) (h2 : p2.Sorted (· < ·))
    (hne : p1.length ≠ 0 ∨ p2.length ≠ 0) :
    diff_out d1 d2 which (if diff_cmp p1 p2 ≤ 0 then p1.tail else p1)
        (if diff_cmp p1 p2 ≥ 0 then p2.tail else p2) (diff_step d1 d2 which p1 p2 r)
      = diff_out d1 d2 which p1 p2 r := by
  cases p1 with
  | nil =>
    cases p2 with
    | nil => simp at hne
    | cons b t2 =>
      have hc : diff_cmp [] (b :: t2) = 1 := rfl
      simp only [hc, diff_out, diff_step]
      have e1 : in_both [] (b :: t2) = [] := rfl
      have e2 : in_both [] t2 = [] := rfl
      have e3 : only_in [] (b :: t2) = [] := rfl
      have e4 : only_in [] t2 = [] := rfl
      have e5 : only_in (b :: t2) [] = b :: only_in t2 [] :=
        only_in_cons_not t2 [] b (List.not_mem_nil b)
      by_cases w0 : which = 0
      · simp [w0, e1, e2]
      · by_cases w1 : which = 1
        · simp [w1, e3, e4]
        · by_cases w2 : which = 2
          · simp [w2, e5]
          · simp [w0, w1, w2]
  | cons a t1 =>
    cases p2 with
    | nil =>
      have hc : diff_cmp (a :: t1) [] = -1 := rfl
      simp only [hc, diff_out, diff_step]
      have e1 : in_both (a :: t1) [] = in_both t1 [] :=
        in_both_cons_not t1 [] a (List.not_mem_nil a)
      have e5 : only_in (a :: t1) [] = a :: only_in t1 [] :=
        only_in_cons_not t1 [] a (List.not_mem_nil a)
      have e3 : only_in [] (a :: t1) = [] := rfl
      have e4 : only_in [] t1 = [] := rfl
      by_cases w0 : which = 0
      · simp [w0, e1]
      · by_cases w1 : which = 1
        · simp [w1, e5]
        · by_cases w2 : which = 2
          · simp [w2, e3, e4]
          · simp [w0, w1, w2]
    | cons b t2 =>
      rcases Nat.lt_trichotomy a b with hab | hab | hab
      · have hc : diff_cmp (a :: t1) (b :: t2) = -1 := by
          rw [diff_cmp, if_neg (by omega), if_pos hab]
        have na : a ∉ b :: t2 := not_mem_of_lt_sorted b a t2 h2 hab
        have e1 : in_both (a :: t1) (b :: t2) = in_both t1 (b :: t2) :=
          in_both_cons_not t1 _ a na
        have e2 : only_in (a :: t1) (b :: t2) = a :: only_in t1 (b :: t2) :=
          only_in_cons_not t1 _ a na
        have e3 : only_in (b :: t2) (a :: t1) = only_in (b :: t2) t1 :=
          only_in_cons_right _ t1 a na
        simp only [hc, diff_out, diff_step]
        by_cases w0 : which = 0
        · simp [w0, e1]
        · by_cases w1 : which = 1
          · simp [w1, e2]
          · by_cases w2 : which = 2
            · simp [w2, e3]
            · simp [w0, w1, w2]
      · subst hab
        have hc : diff_cmp (a :: t1) (a :: t2) = 0 := by
          rw [diff_cmp, if_neg (by omega), if_neg (by omega)]
        have n1 : a ∉ t1 := not_mem_tail_sorted a t1 h1
        have n2 : a ∉ t2 := not_mem_tail_sorted a t2 h2
        have e1 : in_both (a :: t1) (a :: t2) = a :: in_both t1 t2 := by
          rw [in_both_cons_mem t1 _ a (List.mem_cons_self a t2), in_both_cons_right t1 t2 a n1]
        have e2 : only_in (a :: t1) (a :: t2) = only_in t1 t2 := by
          rw [only_in_cons_mem t1 _ a (List.mem_cons_self a t2), only_in_cons_right t1 t2 a n1]
        have e3 : only_in (a :: t2) (a :: t1) = only_in t2 t1 := by
          rw [only_in_cons_mem t2 _ a (List.mem_cons_self a t1), only_in_cons_right t2 t1 a n2]
        simp only [hc, diff_out, diff_step]
        by_cases w0 : which = 0
        · by_cases hd : d1 a = d2 a
          · simp [w0, e1, hd]
          · simp [w0, e1, hd]
        · by_cases w1 : which = 1
          · simp [w1, e2]
          · by_cases w2 : which = 2
            · simp [w2, e3]
            · simp [w0, w1, w2]
      · have hc : diff_cmp (a :: t1) (b :: t2) = 1 := by
          rw [diff_cmp, if_pos hab]
        have nb : b ∉ a :: t1 := not_mem_of_lt_sorted a b t1 h1 hab
        have e1 : in_both (a :: t1) (b :: t2) = in_both (a :: t1) t2 :=
          in_both_cons_right _ t2 b nb
        have e2 : only_in (a :: t1) (b :: t2) = only_in (a :: t1) t2 :=
          only_in_cons_right _ t2 b nb
        have e3 : only_in (b :: t2) (a :: t1) = b :: only_in t2 (a :: t1) :=
          only_in_cons_not t2 _ b nb
        simp only [hc, diff_out, diff_step]
        by_cases w0 : which = 0
        · simp [w0, e1]
        · by_cases w1 : which = 1
          · simp [w1, e2]
          · by_cases w2 : which = 2
            · simp [w2, e3]
            · simp [w0, w1, w2]

theorem diff_sectors_loop_spec (d1 d2 : Nat → List Nat) (which : Nat) :
    ∀ (fuel : Nat) (p1 p2 : List Nat) (r : diff_result),
      p1.Sorted (· < ·) → p2.Sorted (· < ·) → p1.length + p2.length ≤ fuel →
      diff_sectors_loop d1 d2 which fuel p1 p2 r = some (diff_out d1 d2 which p1 p2 r) := by
  intro fuel
  induction fuel with
  | zero =>
    intro p1 p2 r _ _ hf
    have e1 : p1 = [] := List.length_eq_zero.mp (by omega)
    have e2 : p2 = [] := List.length_eq_zero.mp (by omega)
    subst e1 e2
    rw [diff_sectors_loop, diff_out_nil]
    simp
  | succ fuel ih =>
    intro p1 p2 r h1 h2 hf
    rw [diff_sectors_loop]
    by_cases hne : p1.length ≠ 0 ∨ p2.length ≠ 0
    · rw [if_pos hne, ← diff_out_step d1 d2 which p1 p2 r h1 h2 hne]
      apply ih
      · split
        · exact h1.tail
        · exact h1
      · split
        · exact h2.tail
        · exact h2
      · -- one of the two arrays gets shorter
        cases p1 with
        | nil =>
          cases p2 with
          | nil => simp at hne
          | cons b t2 =>
            have hc : diff_cmp [] (b :: t2) = 1 := rfl
            simp only [hc]
            simp only [List.length_cons, List.length_nil] at hf ⊢
            simp
            omega
        | cons a t1 =>
          cases p2 with
          | nil =>
            have hc : diff_cmp (a :: t1) [] = -1 := rfl
            simp only [hc]
            simp only [List.length_cons, List.length_nil] at hf ⊢
            simp
            omega
          | cons b t2 =>
            simp only [List.length_cons] at hf
            rw [diff_cmp]
            split_ifs <;> simp only [List.tail_cons, List.length_cons] <;> omega
    · rw [if_neg hne]
      have e1 : p1 = [] := List.length_eq_zero.mp (by omega)
      have e2 : p2 = [] := List.length_eq_zero.mp (by omega)
      subst e1 e2
      rw [diff_out_nil]

/-- C34: for two strictly ascending arrays `p1` and `p2` of sector numbers the
loop of `diff_sectors` ends within `n1 + n2` rounds; with `which` = 1 it lists
the numbers of `p1` that are not in `p2`, with `which` = 2 the numbers of `p2`
that are not in `p1`, and with `which` = 0 it reads the numbers that are in
both arrays, each once and in ascending order, and lists those for which the
two files hold different contents. -/
theorem diff_sectors_merge (d1 d2 : Nat → List Nat) (p1 p2 : List Nat)
    (h1 : p1.Sorted (· < ·)) (h2 : p2.Sorted (· < ·)) :
    diff_sectors d1 d2 p1 p2 1 = some { listed := only_in p1 p2, read := [] }
      ∧ diff_sectors d1 d2 p1 p2 2 = some { listed := only_in p2 p1, read := [] }
      ∧ diff_sectors d1 d2 p1 p2 0
          = some { listed := (in_both p1 p2).filter (fun x => decide (d1 x ≠ d2 x))
                   read := in_both p1 p2 }
      ∧ (in_both p1 p2).Sorted (· < ·)
      ∧ ∀ x, x ∈ in_both p1 p2 ↔ x ∈ p1 ∧ x ∈ p2 := by
  refine ⟨?_, ?_, ?_, ?_, ?_⟩
  · rw [diff_sectors, diff_sectors_loop_spec d1 d2 1 _ p1 p2 _ h1 h2 (Nat.le_refl _), diff_out]
    simp
  · rw [diff_sectors, diff_sectors_loop_spec d1 d2 2 _ p1 p2 _ h1 h2 (Nat.le_refl _), diff_out]
    simp
  · rw [diff_sectors, diff_sectors_loop_spec d1 d2 0 _ p1 p2 _ h1 h2 (Nat.le_refl _), diff_out]
    simp
  · rw [in_both]
    exact List.Pairwise.filter _ h1
  · intro x
    rw [in_both, List.mem_filter, decide_eq_true_eq]

theorem diff_sectors_merge_witness :
    diff_sectors (sample_contents 1) (sample_contents 2) [1, 3, 7, 9] [3, 4, 7] 1
        = some { listed := [1, 9], read := [] }
      ∧ diff_sectors (sample_contents 1) (sample_contents 2) [1, 3, 7, 9] [3, 4, 7] 2
        = some { listed := [4], read := [] }
      ∧ diff_sectors (sample_contents 1) (sample_contents 2) [1, 3, 7, 9] [3, 4, 7] 0
        = some { listed := [7], read := [3, 7] } := by
  have h := diff_sectors_merge (sample_contents 1) (sample_contents 2) [1, 3, 7, 9] [3, 4, 7]
    (by decide) (by decide)
  exact ⟨h.1.trans (by decide), h.2.1.trans (by decide), h.2.2.1.trans (by decide)⟩

/-! ## C37: the bounds of a DIRENT -/

/-- Clearing the two low bits of a 32-bit value rounds it down to a multiple
of 4. -/
theorem land_clear_low_two (v : Nat) (h : v < 2 ^ 32) : v &&& (2 ^ 32 - 4) = v / 4 * 4 := by
  apply Nat.eq_of_testBit_eq
  intro i
  have e1 : (2 ^ 32 - 4 : Nat) = 2 ^ 2 * (2 ^ 30 - 1) := by norm_num
  have e2 : v / 4 * 4 = 2 ^ 2 * (v >>> 2) := by
    rw [Nat.shiftRight_eq_div_pow]
    omega
  rw [Nat.testBit_and, e1, e2, Nat.testBit_mul_pow_two, Nat.testBit_mul_pow_two,
    Nat.testBit_two_pow_sub_one, Nat.testBit_shiftRight]
  by_cases c : 2 ≤ i
  · simp only [ge_iff_le, c, decide_True, Bool.true_and]
    have e3 : 2 + (i - 2) = i := by omega
    rw [e3]
    by_cases c2 : i - 2 < 30
    · simp [c2]
    · simp only [c2, decide_False, Bool.and_false]
      symm
      apply Nat.testBit_lt_two_pow
      calc v < 2 ^ 32 := h
        _ ≤ 2 ^ i := Nat.pow_le_pow_right (by decide) (by omega)
  · simp [c]

/-- The macro `ROUND_UP (x, 4)` does not round down. -/
theorem ROUND_UP_four_ge (x : Nat) (h : x + 3 < 2 ^ 32) : x ≤ Hpfs.ROUND_UP x 4 := by
  unfold Hpfs.ROUND_UP
  have e : (x + 4 + (2 ^ 32 - 1)) % 2 ^ 32 = x + 3 := by omega
  rw [e, land_clear_low_two (x + 3) h]
  omega

/-- What `check_dirent` has tested when it returns a DIRENT. -/
theorem check_dirent_some (pdir : List Nat) (pos : Nat) (warn : Bool) (e : Hpfs.dirent_view)
    (hpos : pos + 32 < 2 ^ 32) (h : (Hpfs.check_dirent pdir pos warn).1 = some e) :
    e.pos = pos ∧ e.length = Hpfs.ushort_at pdir pos
      ∧ e.bFlags = Hpfs.byte_at pdir (pos + 2) ∧ e.cchName = Hpfs.byte_at pdir (pos + 30)
      ∧ 32 ≤ e.length ∧ e.length % 4 = 0 ∧ pos + e.length ≤ 2048
      ∧ pos + 31 + e.cchName + (if e.bFlags &&& Hpfs.DF_BTP ≠ 0 then 4 else 0)
          ≤ pos + e.length := by
  have hlen : Hpfs.ushort_at pdir pos < 65536 := by
    unfold Hpfs.ushort_at
    omega
  have hcch : Hpfs.byte_at pdir (pos + 30) < 256 := by
    unfold Hpfs.byte_at
    omega
  have e1 : (pos + 32) % 2 ^ 32 = pos + 32 := Nat.mod_eq_of_lt hpos
  have e2 : pos + 32 ≤ 2048 →
      (pos + Hpfs.ushort_at pdir pos) % 2 ^ 32 = pos + Hpfs.ushort_at pdir pos := by
    intro hle
    apply Nat.mod_eq_of_lt
    omega
  have hr := ROUND_UP_four_ge (32 + Hpfs.byte_at pdir (pos + 30) - 1) (by omega)
  have e3 : Hpfs.ushort_at pdir pos &&& 3 = Hpfs.ushort_at pdir pos % 4 :=
    Nat.and_pow_two_sub_one_eq_mod _ 2
  unfold Hpfs.check_dirent at h
  rw [e1] at h
  by_cases c1 : pos + 32 > 2048
  · rw [if_pos c1] at h
    exact absurd h (by simp)
  rw [if_neg c1] at h
  dsimp only at h
  rw [e2 (by omega), e3] at h
  by_cases c2 : pos + Hpfs.ushort_at pdir pos > 2048
  · rw [if_pos c2] at h
    exact absurd h (by simp)
  rw [if_neg c2] at h
  by_cases c3 : Hpfs.ushort_at pdir pos < 32
  · rw [if_pos c3] at h
    exact absurd h (by simp)
  rw [if_neg c3] at h
  by_cases c4 : Hpfs.ushort_at pdir pos
      < Hpfs.ROUND_UP (32 + Hpfs.byte_at pdir (pos + 30) - 1) 4
        + (if Hpfs.byte_at pdir (pos + 2) &&& Hpfs.DF_BTP ≠ 0 then 4 else 0)
  · rw [if_pos c4] at h
    exact absurd h (by simp)
  rw [if_neg c4] at h
  by_cases c5 : Hpfs.ushort_at pdir pos % 4 ≠ 0
  · rw [if_pos c5] at h
    exact absurd h (by simp)
  rw [if_neg c5] at h
  simp only [Option.some.injEq] at h
  subst h
  refine ⟨rfl, rfl, rfl, rfl, ?_, ?_, ?_, ?_⟩
  · show 32 ≤ Hpfs.ushort_at pdir pos
    omega
  · show Hpfs.ushort_at pdir pos % 4 = 0
    omega
  · show pos + Hpfs.ushort_at pdir pos ≤ 2048
    omega
  · show pos + 31 + Hpfs.byte_at pdir (pos + 30)
        + (if Hpfs.byte_at pdir (pos + 2) &&& Hpfs.DF_BTP ≠ 0 then 4 else 0)
        ≤ pos + Hpfs.ushort_at pdir pos
    omega

/-- The loop over the entries ends before the fuel does when the fuel exceeds
the number of entries of 32 bytes that fit behind `pos`, and every entry met
lies inside the DIRBLK. -/
theorem dirent_scan_bound (pdir : List Nat) :
    ∀ (fuel pos : Nat), pos ≤ 2048 → (2048 - pos) / 32 < fuel →
      ∃ l, Hpfs.dirent_scan pdir fuel pos = some l ∧ l.length ≤ (2048 - pos) / 32
        ∧ ∀ e ∈ l, pos ≤ e.pos ∧ 32 ≤ e.length ∧ e.pos + e.length ≤ 2048
  | 0, pos, _, hf => by omega
  | fuel + 1, pos, hp, hf => by
    unfold Hpfs.dirent_scan
    cases hc : (Hpfs.check_dirent pdir pos true).1 with
    | none => exact ⟨[], rfl, Nat.zero_le _, by simp⟩
    | some e =>
      obtain ⟨e1, -, -, -, h32, -, hle, -⟩ :=
        check_dirent_some pdir pos true e (by omega) hc
      simp only []
      by_cases hend : e.bFlags &&& Hpfs.DF_END ≠ 0
      · rw [if_pos hend]
        refine ⟨[e], rfl, ?_, ?_⟩
        · simp only [List.length_singleton]
          omega
        · intro x hx
          rw [List.mem_singleton] at hx
          subst hx
          omega
      · rw [if_neg hend]
        have e2 : (pos + e.length) % 2 ^ 32 = pos + e.length := by
          apply Nat.mod_eq_of_lt
          omega
        rw [e2]
        obtain ⟨l, hl, hlen, hall⟩ :=
          dirent_scan_bound pdir fuel (pos + e.length) hle (by omega)
        refine ⟨e :: l, by rw [hl]; rfl, ?_, ?_⟩
        · simp only [List.length_cons]
          omega
        · intro x hx
          rcases List.mem_cons.mp hx with hx | hx
          · subst hx
            omega
          · have := hall x hx
            omega

/-- Claim C37.  When `check_dirent` returns the DIRENT at an offset `pos`
for which `pos + sizeof (DIRENT)` does not wrap, its length `cchThisEntry` is at
least 32, a multiple of 4, and `pos + length` is at most 2048; the name, which
starts at `pos + 31`, ends at or before `pos + length`, and with `DF_BTP` it
ends at or before the down pointer at `pos + length - 4`.  The loop over the
entries of a DIRBLK ends after at most 63 entries, all of them inside the
2048 bytes. -/
theorem check_dirent_bounds (pdir : List Nat) :
    (∀ (pos : Nat) (warn : Bool) (e : Hpfs.dirent_view), pos + 32 < 2 ^ 32 →
        (Hpfs.check_dirent pdir pos warn).1 = some e →
        e.pos = pos ∧ e.length = Hpfs.ushort_at pdir pos
          ∧ e.cchName = Hpfs.byte_at pdir (pos + 30)
          ∧ 32 ≤ e.length ∧ e.length % 4 = 0 ∧ pos + e.length ≤ 2048
          ∧ pos + 31 + e.cchName ≤ pos + e.length
          ∧ (e.bFlags &&& Hpfs.DF_BTP ≠ 0 → pos + 31 + e.cchName ≤ pos + e.length - 4))
      ∧ ∃ l, Hpfs.dirblk_entries pdir = some l ∧ l.length ≤ 63
          ∧ ∀ e ∈ l, 20 ≤ e.pos ∧ 32 ≤ e.length ∧ e.pos + e.length ≤ 2048 := by
  constructor
  · intro pos warn e hpos h
    obtain ⟨h1, h2, h3, h4, h5, h6, h7, h8⟩ := check_dirent_some pdir pos warn e hpos h
    refine ⟨h1, h2, h4, h5, h6, h7, ?_, ?_⟩
    · split_ifs at h8 <;> omega
    · intro hb
      rw [if_pos hb] at h8
      omega
  · obtain ⟨l, hl, hlen, hall⟩ := dirent_scan_bound pdir 64 20 (by decide) (by decide)
    exact ⟨l, hl, by omega, hall⟩

/-- The entry `AB` at the offset 56 of the sample DIRBLK has the length 36
and the name of two bytes ends at 89. -/
theorem check_dirent_bounds_witness :
    (Hpfs.check_dirent Hpfs.sample_dirblk_bytes 56 true).1
        = some { pos := 56, length := 36, bFlags := 0, cchName := 2, name := [0x41, 0x42] }
      ∧ (56 : Nat) + 31 + 2 ≤ 56 + 36 :=
  ⟨by decide,
   ((check_dirent_bounds Hpfs.sample_dirblk_bytes).1 56 true
      { pos := 56, length := 36, bFlags := 0, cchName := 2, name := [0x41, 0x42] }
      (by decide) (by decide)).2.2.2.2.2.2.1⟩

/-! ## C39: the code page table -/

/-- The loop over the chain of the sample: one sector, two entries, the
indexes 0 and 1 written, no warning. -/
theorem sample_cp_chain :
    (Hpfs.do_cpinfosec_loop 8 false [] Hpfs.sample_cp_disk 9 5
        { st := Hpfs.sample_walk_state, count := 0, writes := [] }).map
        (fun s => (s.count, s.writes, s.st.u.log))
      = some (2, [0, 1], []) := by
  decide

/-- Claim C39.  The assignments to `code_pages[*pcount]` in
`do_one_cpinfosec` are not bounded by the number of entries allocated: on a
volume of eight sectors whose only code page information sector, sector 5,
holds two entries, `do_cpinfosec` writes the entries 0 and 1 of `code_pages`
whatever `culCP` is; with `culCP` = 1 the array has one entry, the entry 1 is
written behind its end, and afterwards the warning "Wrong number of code
pages in code page information sectors" is given and `code_page_count` stays
1. -/
theorem code_page_table_overflow :
    (∀ culCP : Nat,
        (Hpfs.do_cpinfosec 8 false [] Hpfs.sample_cp_disk culCP 5 Hpfs.sample_walk_state 9).map
          (fun r => (r.allocated, r.s.writes)) = some (culCP, [0, 1]))
      ∧ (Hpfs.do_cpinfosec 8 false [] Hpfs.sample_cp_disk 1 5 Hpfs.sample_walk_state 9).map
          (fun r => (r.allocated, r.s.writes, r.s.count, r.code_page_count, r.s.st.u.log))
        = some (1, [0, 1], 2, 1,
            [{ level := 1, msg := Hpfs.hpfs_msg.more Hpfs.more_msg.wrong_number_of_code_pages }])
      ∧ ∃ r, Hpfs.do_cpinfosec 8 false [] Hpfs.sample_cp_disk 1 5 Hpfs.sample_walk_state 9 = some r
          ∧ ∃ i ∈ r.s.writes, r.allocated ≤ i := by
  have h := sample_cp_chain
  have h1 : ∀ culCP : Nat,
      (Hpfs.do_cpinfosec 8 false [] Hpfs.sample_cp_disk culCP 5 Hpfs.sample_walk_state 9).map
        (fun r => (r.allocated, r.s.writes)) = some (culCP, [0, 1]) := ?_
  refine ⟨h1, ?_, ?_⟩
  rotate_left
  · have h2 := h1 1
    cases hr : Hpfs.do_cpinfosec 8 false [] Hpfs.sample_cp_disk 1 5 Hpfs.sample_walk_state 9 with
    | none =>
      rw [hr] at h2
      simp at h2
    | some r =>
      rw [hr] at h2
      simp only [Option.map_some', Option.some.injEq, Prod.mk.injEq] at h2
      refine ⟨r, rfl, 1, ?_, ?_⟩
      · rw [h2.2]
        decide
      · rw [h2.1]
  · intro culCP
    unfold Hpfs.do_cpinfosec
    cases hc : Hpfs.do_cpinfosec_loop 8 false [] Hpfs.sample_cp_disk 9 5
        { st := Hpfs.sample_walk_state, count := 0, writes := [] } with
    | none =>
      rw [hc] at h
      simp at h
    | some s =>
      rw [hc] at h
      simp only [Option.map_some', Option.some.injEq, Prod.mk.injEq] at h
      simp only [Option.map_some', Option.some.injEq, Prod.mk.injEq, true_and]
      exact h.2.1
  · decide

/-! ## C38: the list of FEA structures -/

/-- A byte behind a prefix of the buffer. -/
theorem getD_behind_prefix (pre l : List Nat) (k : Nat) :
    (pre ++ l).getD (pre.length + k) 0 = l.getD k 0 := by
  rw [List.getD_append_right _ _ _ _ (Nat.le_add_right _ _)]
  congr 1
  omega

/-- The length of the bytes of a FEA structure with an inline value. -/
theorem inline_ea_bytes_length (e : Hpfs.inline_ea) :
    (Hpfs.inline_ea_bytes e).length = 4 + e.name.length + 1 + e.value.length := by
  unfold Hpfs.inline_ea_bytes
  simp only [List.length_append, List.length_cons, List.length_nil]

/-- The header and the terminator that `do_auxinfo_ea` reads from a
well-formed FEA structure with an inline value behind the prefix `pre`. -/
theorem inline_ea_reads (pre rest : List Nat) (e : Hpfs.inline_ea) (hf : Hpfs.inline_ea_fits e) :
    Hpfs.byte_at (pre ++ (Hpfs.inline_ea_bytes e ++ rest)) pre.length
        = (if e.need then 0x80 else 0)
      ∧ Hpfs.byte_at (pre ++ (Hpfs.inline_ea_bytes e ++ rest)) (pre.length + 1) = e.name.length
      ∧ Hpfs.ushort_at (pre ++ (Hpfs.inline_ea_bytes e ++ rest)) (pre.length + 2)
          = e.value.length
      ∧ Hpfs.byte_at (pre ++ (Hpfs.inline_ea_bytes e ++ rest)) (pre.length + 4 + e.name.length)
          = 0 := by
  obtain ⟨hn, hv⟩ := hf
  have g : ∀ k, (pre ++ (Hpfs.inline_ea_bytes e ++ rest)).getD (pre.length + k) 0
      = (Hpfs.inline_ea_bytes e ++ rest).getD k 0 := getD_behind_prefix pre _
  have g0 := g 0
  have g1 := g 1
  have g2 := g 2
  have g3 := g 3
  have g4 := g (4 + e.name.length)
  rw [Nat.add_zero] at g0
  have a3 : pre.length + 2 + 1 = pre.length + 3 := rfl
  have a4 : pre.length + 4 + e.name.length = pre.length + (4 + e.name.length) := by omega
  unfold Hpfs.byte_at Hpfs.ushort_at
  rw [a3, a4, g0, g1, g2, g3, g4]
  have b0 : (Hpfs.inline_ea_bytes e ++ rest).getD 0 0 = (if e.need then 0x80 else 0) := rfl
  have b1 : (Hpfs.inline_ea_bytes e ++ rest).getD 1 0 = e.name.length := rfl
  have b2 : (Hpfs.inline_ea_bytes e ++ rest).getD 2 0 = e.value.length % 256 := rfl
  have b3 : (Hpfs.inline_ea_bytes e ++ rest).getD 3 0 = e.value.length / 256 := rfl
  have b4 : (Hpfs.inline_ea_bytes e ++ rest).getD (4 + e.name.length) 0 = 0 := by
    unfold Hpfs.inline_ea_bytes
    have e1 : [if e.need = true then 0x80 else 0, e.name.length, e.value.length % 256,
        e.value.length / 256] ++ e.name ++ [0] ++ e.value ++ rest
        = ([if e.need = true then 0x80 else 0, e.name.length, e.value.length % 256,
            e.value.length / 256] ++ e.name) ++ (0 :: (e.value ++ rest)) := by
      simp
    rw [e1]
    have e2 : 4 + e.name.length
        = ([if e.need = true then 0x80 else 0, e.name.length, e.value.length % 256,
            e.value.length / 256] ++ e.name).length + 0 := by
      simp only [List.length_append, List.length_cons, List.length_nil]
      omega
    rw [e2, getD_behind_prefix]
    rfl
  rw [b0, b1, b2, b3, b4]
  refine ⟨?_, ?_, ?_, rfl⟩
  · cases e.need <;> rfl
  · exact Nat.mod_eq_of_lt hn
  · omega
/-- One round of the loop on a well-formed FEA structure with an inline value
behind the prefix `pre`. -/
theorem do_auxinfo_ea_step_inline (a : Hpfs.storage_args) (alsec_at : Nat → Hpfs.alsec_sector)
    (show_eas : Nat) (pre rest : List Nat) (e : Hpfs.inline_ea) (buf_size secno : Nat)
    (s : Hpfs.fea_state) (hf : Hpfs.inline_ea_fits e) (hpos : s.pos = pre.length)
    (hsize : pre.length + (Hpfs.inline_ea_bytes e).length ≤ buf_size)
    (hwrap : buf_size < 2 ^ 32) :
    (Hpfs.do_auxinfo_ea_step a alsec_at show_eas (pre ++ (Hpfs.inline_ea_bytes e ++ rest))
        buf_size secno s).1 = true
      ∧ (Hpfs.do_auxinfo_ea_step a alsec_at show_eas (pre ++ (Hpfs.inline_ea_bytes e ++ rest))
          buf_size secno s).2.pos = pre.length + (Hpfs.inline_ea_bytes e).length
      ∧ (Hpfs.do_auxinfo_ea_step a alsec_at show_eas (pre ++ (Hpfs.inline_ea_bytes e ++ rest))
          buf_size secno s).2.size = (s.size + (Hpfs.inline_ea_bytes e).length) % 2 ^ 32
      ∧ (Hpfs.do_auxinfo_ea_step a alsec_at show_eas (pre ++ (Hpfs.inline_ea_bytes e ++ rest))
          buf_size secno s).2.need_ea_count
          = (if e.need then (s.need_ea_count + 1) % 2 ^ 32 else s.need_ea_count)
      ∧ (Hpfs.do_auxinfo_ea_step a alsec_at show_eas (pre ++ (Hpfs.inline_ea_bytes e ++ rest))
          buf_size secno s).2.log = s.log := by
  obtain ⟨r0, r1, r2, r3⟩ := inline_ea_reads pre rest e hf
  have hl := inline_ea_bytes_length e
  rw [hl] at hsize ⊢
  unfold Hpfs.do_auxinfo_ea_step
  simp only [Hpfs.FEA_SIZE, hpos, r1, r2]
  have e1 : (pre.length + 4) % 2 ^ 32 = pre.length + 4 := Nat.mod_eq_of_lt (by omega)
  have e2 : (pre.length + 4 + e.name.length + 1 + e.value.length) % 2 ^ 32
      = pre.length + 4 + e.name.length + 1 + e.value.length := Nat.mod_eq_of_lt (by omega)
  have e3 : (pre.length + 4 + e.name.length) % 2 ^ 32 = pre.length + 4 + e.name.length :=
    Nat.mod_eq_of_lt (by omega)
  rw [e1, e2, e3, r0, r3]
  have c1 : ¬ pre.length + 4 > buf_size := by omega
  have c2 : ¬ pre.length + 4 + e.name.length + 1 + e.value.length > buf_size := by omega
  have c3 : (if e.need = true then 0x80 else 0) &&& 0x7f = 0 := by
    cases e.need <;> rfl
  rw [if_neg c1, if_neg c2, if_pos c3]
  refine ⟨rfl, ?_, ?_, ?_, ?_⟩
  · show pre.length + 4 + e.name.length + 1 + e.value.length = _
    omega
  · show (s.size + 4 + e.name.length + 1 + e.value.length) % 2 ^ 32 = _
    congr 1
    omega
  · show (if (if e.need = true then 0x80 else 0) &&& Hpfs.FEA_NEEDEA ≠ 0 then _ else _) = _
    cases e.need <;> rfl
  · show s.log ++ (if (0 : Nat) ≠ 0 then _ else []) = s.log
    simp

/-- The number of `need' EAs is at most the number of bytes. -/
theorem need_eas_le : ∀ eas : List Hpfs.inline_ea,
    Hpfs.need_eas eas ≤ (Hpfs.inline_eas_bytes eas).length
  | [] => Nat.le_refl _
  | e :: rest => by
    have ih := need_eas_le rest
    unfold Hpfs.need_eas Hpfs.inline_eas_bytes
    rw [List.length_append, inline_ea_bytes_length]
    split_ifs <;> omega

/-- The loop over a list of well-formed FEA structures with inline values
behind the prefix `pre`: it ends at the end of the buffer with the sums of the
sizes and of the `need' EAs and without a warning. -/
theorem do_auxinfo_ea_loop_inline (a : Hpfs.storage_args) (alsec_at : Nat → Hpfs.alsec_sector)
    (show_eas secno : Nat) :
    ∀ (eas : List Hpfs.inline_ea) (pre : List Nat) (s : Hpfs.fea_state) (fuel : Nat),
      (∀ e ∈ eas, Hpfs.inline_ea_fits e) → s.pos = pre.length →
      (pre ++ Hpfs.inline_eas_bytes eas).length < 2 ^ 32 →
      (Hpfs.inline_eas_bytes eas).length < fuel →
      s.size + (Hpfs.inline_eas_bytes eas).length < 2 ^ 32 →
      s.need_ea_count + (Hpfs.inline_eas_bytes eas).length < 2 ^ 32 →
      ∃ r, Hpfs.do_auxinfo_ea_loop a alsec_at show_eas (pre ++ Hpfs.inline_eas_bytes eas)
            (pre ++ Hpfs.inline_eas_bytes eas).length secno fuel s = some r
        ∧ r.pos = (pre ++ Hpfs.inline_eas_bytes eas).length
        ∧ r.size = s.size + (Hpfs.inline_eas_bytes eas).length
        ∧ r.need_ea_count = s.need_ea_count + Hpfs.need_eas eas
        ∧ r.log = s.log
  | [], pre, s, fuel, _, hpos, _, hfuel, _, _ => by
    cases fuel with
    | zero => exact absurd hfuel (Nat.not_lt_zero _)
    | succ fuel =>
      unfold Hpfs.do_auxinfo_ea_loop
      have c : ¬ s.pos < (pre ++ Hpfs.inline_eas_bytes []).length := by
        rw [hpos]
        simp [Hpfs.inline_eas_bytes]
      rw [if_neg c]
      refine ⟨s, rfl, ?_, rfl, rfl, rfl⟩
      rw [hpos]
      simp [Hpfs.inline_eas_bytes]
  | e :: rest, pre, s, fuel, hfits, hpos, hwrap, hfuel, hsz, hnd => by
    have hl := inline_ea_bytes_length e
    have hb : Hpfs.inline_eas_bytes (e :: rest)
        = Hpfs.inline_ea_bytes e ++ Hpfs.inline_eas_bytes rest := rfl
    have hlen : (pre ++ Hpfs.inline_eas_bytes (e :: rest)).length
        = pre.length + (Hpfs.inline_ea_bytes e).length + (Hpfs.inline_eas_bytes rest).length := by
      rw [hb, List.length_append, List.length_append]
      omega
    have hlen2 : (Hpfs.inline_eas_bytes (e :: rest)).length
        = (Hpfs.inline_ea_bytes e).length + (Hpfs.inline_eas_bytes rest).length := by
      rw [hb, List.length_append]
    have hnle := need_eas_le rest
    cases fuel with
    | zero => exact absurd hfuel (Nat.not_lt_zero _)
    | succ fuel =>
      obtain ⟨s1, s2, s3, s4, s5⟩ := do_auxinfo_ea_step_inline a alsec_at show_eas pre
        (Hpfs.inline_eas_bytes rest) e (pre ++ Hpfs.inline_eas_bytes (e :: rest)).length secno s
        (hfits e (List.mem_cons_self _ _)) hpos (by omega) hwrap
      have hassoc : pre ++ Hpfs.inline_eas_bytes (e :: rest)
          = (pre ++ Hpfs.inline_ea_bytes e) ++ Hpfs.inline_eas_bytes rest := by
        rw [hb, List.append_assoc]
      obtain ⟨r, hr, q1, q2, q3, q4⟩ := do_auxinfo_ea_loop_inline a alsec_at show_eas secno rest
        (pre ++ Hpfs.inline_ea_bytes e)
        (Hpfs.do_auxinfo_ea_step a alsec_at show_eas
          (pre ++ (Hpfs.inline_ea_bytes e ++ Hpfs.inline_eas_bytes rest))
          (pre ++ Hpfs.inline_eas_bytes (e :: rest)).length secno s).2 fuel
        (fun x hx => hfits x (List.mem_cons_of_mem _ hx))
        (by rw [s2, List.length_append])
        (by rw [← hassoc]; exact hwrap)
        (by omega)
        (by rw [s3]; exact lt_of_le_of_lt (Nat.add_le_add_right (Nat.mod_le _ _) _) (by omega))
        (by
          rw [s4]
          split_ifs
          · exact lt_of_le_of_lt (Nat.add_le_add_right (Nat.mod_le _ _) _) (by omega)
          · omega)
      refine ⟨r, ?_, ?_, ?_, ?_, ?_⟩
      · unfold Hpfs.do_auxinfo_ea_loop
        have c : s.pos < (pre ++ Hpfs.inline_eas_bytes (e :: rest)).length := by omega
        rw [if_pos c]
        simp only []
        rw [← hb] at s1
        rw [if_pos s1, hassoc, ← hr]
        rw [List.append_assoc]
        rfl
      · rw [q1, hassoc]
      · rw [q2, s3, hlen2, Nat.mod_eq_of_lt (by omega)]
        omega
      · rw [q3, s4]
        show _ = s.need_ea_count + ((if e.need = true then 1 else 0) + Hpfs.need_eas rest)
        by_cases hn : e.need = true
        · rw [if_pos hn, if_pos hn, Nat.mod_eq_of_lt (by omega)]
          omega
        · rw [if_neg hn, if_neg hn]
          omega
      · rw [q4, s5]
/-- The bytes of a name lie before its terminator. -/
theorem fea_name_reads_lt (pos cbName : Nat) (h : pos + 4 + cbName < 2 ^ 32) :
    ∀ o ∈ Hpfs.fea_name_reads pos cbName, o < pos + 4 + cbName := by
  intro o ho
  unfold Hpfs.fea_name_reads Hpfs.FEA_SIZE at ho
  obtain ⟨k, hk, rfl⟩ := List.mem_map.mp ho
  rw [List.mem_range] at hk
  rw [Nat.mod_eq_of_lt (by omega)]
  omega

/-- The bytes of a SPTR structure. -/
theorem sptr_reads_lt (p : Nat) : ∀ o ∈ Hpfs.sptr_reads p, o < p + 8 := by
  intro o ho
  unfold Hpfs.sptr_reads at ho
  obtain ⟨k, hk, rfl⟩ := List.mem_map.mp ho
  rw [List.mem_range] at hk
  omega

/-- A bound for the elements of a list holds for the list under a
condition. -/
theorem forall_mem_ite_nil (c : Prop) [Decidable c] (l : List Nat) (n : Nat)
    (h : ∀ o ∈ l, o < n) : ∀ o ∈ (if c then l else []), o < n := by
  split_ifs
  · exact h
  · intro o ho
    exact absurd ho (List.not_mem_nil o)

/-- One round of the loop reads inside the buffer, and when the loop goes on
the offset has grown and is at most `buf_size`. -/
theorem do_auxinfo_ea_step_inv (a : Hpfs.storage_args) (alsec_at : Nat → Hpfs.alsec_sector)
    (show_eas : Nat) (buf : List Nat) (buf_size secno : Nat) (s : Hpfs.fea_state)
    (hwrap : buf_size + 65795 ≤ 2 ^ 32) (hpos : s.pos < buf_size)
    (hreads : ∀ o ∈ s.reads, o < buf_size) :
    (∀ o ∈ (Hpfs.do_auxinfo_ea_step a alsec_at show_eas buf buf_size secno s).2.reads,
        o < buf_size)
      ∧ ((Hpfs.do_auxinfo_ea_step a alsec_at show_eas buf buf_size secno s).1 = true →
          s.pos < (Hpfs.do_auxinfo_ea_step a alsec_at show_eas buf buf_size secno s).2.pos
            ∧ (Hpfs.do_auxinfo_ea_step a alsec_at show_eas buf buf_size secno s).2.pos
                ≤ buf_size) := by
  have hv : Hpfs.ushort_at buf (s.pos + 2) < 65536 := by
    unfold Hpfs.ushort_at
    omega
  have hc : Hpfs.byte_at buf (s.pos + 1) < 256 := by
    unfold Hpfs.byte_at
    omega
  have e1 : (s.pos + 4) % 2 ^ 32 = s.pos + 4 := Nat.mod_eq_of_lt (by omega)
  have e2 : (s.pos + 4 + Hpfs.byte_at buf (s.pos + 1) + 1 + Hpfs.ushort_at buf (s.pos + 2))
      % 2 ^ 32 = s.pos + 4 + Hpfs.byte_at buf (s.pos + 1) + 1 + Hpfs.ushort_at buf (s.pos + 2) :=
    Nat.mod_eq_of_lt (by omega)
  have e3 : (s.pos + 4 + Hpfs.byte_at buf (s.pos + 1)) % 2 ^ 32
      = s.pos + 4 + Hpfs.byte_at buf (s.pos + 1) := Nat.mod_eq_of_lt (by omega)
  have e4 : (s.pos + 4 + Hpfs.byte_at buf (s.pos + 1) + 1) % 2 ^ 32
      = s.pos + 4 + Hpfs.byte_at buf (s.pos + 1) + 1 := Nat.mod_eq_of_lt (by omega)
  have hname := fea_name_reads_lt s.pos (Hpfs.byte_at buf (s.pos + 1)) (by omega)
  have hsptr := sptr_reads_lt (s.pos + 4 + Hpfs.byte_at buf (s.pos + 1) + 1)
  generalize hstep : Hpfs.do_auxinfo_ea_step a alsec_at show_eas buf buf_size secno s = r
  unfold Hpfs.do_auxinfo_ea_step Hpfs.FEA_SIZE at hstep
  dsimp only at hstep
  generalize Hpfs.do_alsec _ _ _ _ _ _ = w at hstep
  generalize Hpfs.ushort_at buf (s.pos + 2) = v at *
  generalize Hpfs.byte_at buf (s.pos + 1) = c at *
  rw [e1] at hstep
  simp only [e2, e3, e4] at hstep
  by_cases c1 : s.pos + 4 > buf_size
  · rw [if_pos c1] at hstep
    subst hstep
    exact ⟨hreads, fun h => absurd h Bool.false_ne_true⟩
  rw [if_neg c1] at hstep
  have hhdr : ∀ o ∈ [s.pos + 2, s.pos + 3, s.pos + 1], o < buf_size := by
    intro o ho
    simp only [List.mem_cons, List.mem_singleton, List.not_mem_nil, or_false] at ho
    omega
  by_cases c2 : s.pos + 4 + c + 1 + v > buf_size
  · rw [if_pos c2] at hstep
    subst hstep
    refine ⟨?_, fun h => absurd h Bool.false_ne_true⟩
    show ∀ o ∈ s.reads ++ [s.pos + 2, s.pos + 3, s.pos + 1], o < buf_size
    rw [List.forall_mem_append]
    exact ⟨hreads, hhdr⟩
  rw [if_neg c2] at hstep
  have hbase : ∀ o ∈ s.reads ++ [s.pos + 2, s.pos + 3, s.pos + 1] ++ [s.pos + 4 + c, s.pos],
      o < buf_size := by
    rw [List.forall_mem_append, List.forall_mem_append]
    refine ⟨⟨hreads, hhdr⟩, ?_⟩
    intro o ho
    simp only [List.mem_cons, List.mem_singleton, List.not_mem_nil, or_false] at ho
    omega
  have hname2 : ∀ o ∈ Hpfs.fea_name_reads s.pos c, o < buf_size :=
    fun o ho => lt_of_lt_of_le (hname o ho) (by omega)
  have hgo : s.pos < s.pos + 4 + c + 1 + v ∧ s.pos + 4 + c + 1 + v ≤ buf_size :=
    ⟨by omega, by omega⟩
  by_cases m0 : Hpfs.byte_at buf s.pos &&& 127 = 0
  · rw [if_pos m0] at hstep
    subst hstep
    refine ⟨?_, fun _ => hgo⟩
    show ∀ o ∈ s.reads ++ [s.pos + 2, s.pos + 3, s.pos + 1] ++ [s.pos + 4 + c, s.pos]
      ++ (if show_eas ≥ 1 then Hpfs.fea_name_reads s.pos c else []), o < buf_size
    rw [List.forall_mem_append]
    exact ⟨hbase, forall_mem_ite_nil _ _ _ hname2⟩
  rw [if_neg m0] at hstep
  by_cases m1 : Hpfs.byte_at buf s.pos &&& 127 = 1
  · rw [if_pos m1] at hstep
    by_cases c3 : v ≠ 8
    · rw [if_pos c3] at hstep
      subst hstep
      exact ⟨hbase, fun _ => hgo⟩
    · rw [if_neg c3] at hstep
      subst hstep
      refine ⟨?_, fun _ => hgo⟩
      show ∀ o ∈ s.reads ++ [s.pos + 2, s.pos + 3, s.pos + 1] ++ [s.pos + 4 + c, s.pos]
        ++ Hpfs.sptr_reads (s.pos + 4 + c + 1)
        ++ (if show_eas ≥ 1 then Hpfs.fea_name_reads s.pos c else []), o < buf_size
      rw [List.forall_mem_append, List.forall_mem_append]
      exact ⟨⟨hbase, fun o ho => lt_of_lt_of_le (hsptr o ho) (by omega)⟩,
        forall_mem_ite_nil _ _ _ hname2⟩
  rw [if_neg m1] at hstep
  by_cases m3 : Hpfs.byte_at buf s.pos &&& 127 = 3
  · rw [if_pos m3] at hstep
    by_cases c3 : v ≠ 8
    · rw [if_pos c3] at hstep
      subst hstep
      exact ⟨hbase, fun _ => hgo⟩
    · rw [if_neg c3] at hstep
      subst hstep
      refine ⟨?_, fun _ => hgo⟩
      show ∀ o ∈ s.reads ++ [s.pos + 2, s.pos + 3, s.pos + 1] ++ [s.pos + 4 + c, s.pos]
        ++ Hpfs.sptr_reads (s.pos + 4 + c + 1)
        ++ (if show_eas ≥ 1 then Hpfs.fea_name_reads s.pos c else [])
        ++ (if Hpfs.ea_size_warnings w.2.exp_file_sec
              (Hpfs.ulong_at buf (s.pos + 4 + c + 1)) ≠ []
            then Hpfs.fea_name_reads s.pos c else []), o < buf_size
      rw [List.forall_mem_append, List.forall_mem_append, List.forall_mem_append]
      exact ⟨⟨⟨hbase, fun o ho => lt_of_lt_of_le (hsptr o ho) (by omega)⟩,
        forall_mem_ite_nil _ _ _ hname2⟩, forall_mem_ite_nil _ _ _ hname2⟩
  rw [if_neg m3] at hstep
  subst hstep
  refine ⟨?_, fun h => absurd h Bool.false_ne_true⟩
  show ∀ o ∈ s.reads ++ [s.pos + 2, s.pos + 3, s.pos + 1] ++ [s.pos + 4 + c, s.pos]
    ++ Hpfs.fea_name_reads s.pos c, o < buf_size
  rw [List.forall_mem_append]
  exact ⟨hbase, hname2⟩

/-- The loop ends before the fuel does when the fuel exceeds the number of
bytes behind `pos`, and it reads inside the buffer. -/
theorem do_auxinfo_ea_loop_inv (a : Hpfs.storage_args) (alsec_at : Nat → Hpfs.alsec_sector)
    (show_eas : Nat) (buf : List Nat) (buf_size secno : Nat)
    (hwrap : buf_size + 65795 ≤ 2 ^ 32) :
    ∀ (fuel : Nat) (s : Hpfs.fea_state), s.pos ≤ buf_size → buf_size - s.pos < fuel →
      (∀ o ∈ s.reads, o < buf_size) →
      ∃ r, Hpfs.do_auxinfo_ea_loop a alsec_at show_eas buf buf_size secno fuel s = some r
        ∧ ∀ o ∈ r.reads, o < buf_size
  | 0, _, _, hf, _ => absurd hf (Nat.not_lt_zero _)
  | fuel + 1, s, hle, hf, hreads => by
    unfold Hpfs.do_auxinfo_ea_loop
    by_cases c : s.pos < buf_size
    · rw [if_pos c]
      obtain ⟨h1, h2⟩ :=
        do_auxinfo_ea_step_inv a alsec_at show_eas buf buf_size secno s hwrap c hreads
      dsimp only
      by_cases hgo : (Hpfs.do_auxinfo_ea_step a alsec_at show_eas buf buf_size secno s).1 = true
      · rw [if_pos hgo]
        obtain ⟨h3, h4⟩ := h2 hgo
        exact do_auxinfo_ea_loop_inv a alsec_at show_eas buf buf_size secno hwrap fuel _ h4
          (by omega) h1
      · rw [if_neg hgo]
        exact ⟨_, rfl, h1⟩
    · rw [if_neg c]
      exact ⟨s, rfl, hreads⟩

/-- Claim C38.  For a buffer size at which the sums of `do_auxinfo_ea` do not
wrap (the callers pass at most 0x100000), the loop over the FEA structures
ends and every byte it reads, of an FEA header, of a name, of a name
terminator or of a SPTR structure, has an offset below `buf_size`.  When the
buffer holds well-formed FEA structures with inline values and nothing else,
`size` ends as `buf_size` and `need_ea_count` as the number of FEA structures
with the flag 0x80, and the only warnings are "Incorrect EA size", given iff
`check_ea_size` is set and `size` is not `ea_size`, and "Incorrect number of
need EAs", given iff `need_ea_count` is not `ea_need`. -/
theorem fea_list_parsing (a : Hpfs.storage_args) (alsec_at : Nat → Hpfs.alsec_sector)
    (show_eas : Nat) (buf : List Nat) (buf_size secno ea_size : Nat) (check_ea_size : Bool)
    (ea_need : Nat) (hwrap : buf_size + 65795 ≤ 2 ^ 32) :
    (∃ r, Hpfs.do_auxinfo_ea a alsec_at show_eas buf buf_size secno ea_size check_ea_size
          ea_need = some r
        ∧ ∀ o ∈ r.reads, o < buf_size)
      ∧ ∀ eas : List Hpfs.inline_ea, (∀ e ∈ eas, Hpfs.inline_ea_fits e) →
          buf = Hpfs.inline_eas_bytes eas → buf_size = buf.length →
          ∃ r, Hpfs.do_auxinfo_ea a alsec_at show_eas buf buf_size secno ea_size check_ea_size
                ea_need = some r
            ∧ r.size = buf_size ∧ r.need_ea_count = Hpfs.need_eas eas
            ∧ r.log =
              (if check_ea_size = true ∧ buf_size ≠ ea_size then
                  [Hpfs.fea_warning (Hpfs.more_msg.incorrect_ea_size buf_size ea_size)]
                else [])
              ++ (if Hpfs.need_eas eas ≠ ea_need then
                  [Hpfs.fea_warning
                    (Hpfs.more_msg.incorrect_number_of_need_eas (Hpfs.need_eas eas) ea_need)]
                else []) := by
  constructor
  · obtain ⟨r, hr, hreads⟩ := do_auxinfo_ea_loop_inv a alsec_at show_eas buf buf_size secno hwrap
      (buf_size + 1) { pos := 0, size := 0, need_ea_count := 0, reads := [], log := [] }
      (Nat.zero_le _) (by show buf_size - 0 < buf_size + 1; omega)
      (fun o ho => absurd ho (List.not_mem_nil _))
    unfold Hpfs.do_auxinfo_ea
    rw [hr]
    exact ⟨_, rfl, hreads⟩
  · intro eas hfits hbuf hsize
    subst hbuf
    subst hsize
    have hn := need_eas_le eas
    obtain ⟨r, hr, -, q2, q3, q4⟩ := do_auxinfo_ea_loop_inline a alsec_at show_eas secno eas []
      { pos := 0, size := 0, need_ea_count := 0, reads := [], log := [] }
      ((Hpfs.inline_eas_bytes eas).length + 1) hfits rfl
      (by rw [List.nil_append]; omega) (by omega)
      (by show 0 + _ < _; omega) (by show 0 + _ < _; omega)
    rw [List.nil_append] at hr
    unfold Hpfs.do_auxinfo_ea
    rw [hr]
    have q2b : r.size = (Hpfs.inline_eas_bytes eas).length := by
      rw [q2]
      exact Nat.zero_add _
    have q3b : r.need_ea_count = Hpfs.need_eas eas := by
      rw [q3]
      exact Nat.zero_add _
    refine ⟨_, rfl, q2b, q3b, ?_⟩
    show r.log ++ Hpfs.fea_final_warnings r.size r.need_ea_count ea_size check_ea_size ea_need = _
    rw [q4, q2b, q3b]
    rfl

/-- The two sample attributes fill a buffer of 16 bytes: the loop ends, reads
below the offset 16, and counts 16 bytes and one need EA. -/
theorem fea_list_parsing_witness :
    (16 : Nat) + 65795 ≤ 2 ^ 32
      ∧ (∃ r, Hpfs.do_auxinfo_ea Hpfs.sample_args Hpfs.no_alsec 0
            (Hpfs.inline_eas_bytes Hpfs.sample_eas) 16 100 16 true 1 = some r
          ∧ ∀ o ∈ r.reads, o < 16)
      ∧ ∃ r, Hpfs.do_auxinfo_ea Hpfs.sample_args Hpfs.no_alsec 0
            (Hpfs.inline_eas_bytes Hpfs.sample_eas) 16 100 16 true 1 = some r
          ∧ r.size = 16 ∧ r.need_ea_count = 1 ∧ r.log = [] :=
  ⟨by decide,
   (fea_list_parsing Hpfs.sample_args Hpfs.no_alsec 0 (Hpfs.inline_eas_bytes Hpfs.sample_eas)
      16 100 16 true 1 (by decide)).1,
   (fea_list_parsing Hpfs.sample_args Hpfs.no_alsec 0 (Hpfs.inline_eas_bytes Hpfs.sample_eas)
      16 100 16 true 1 (by decide)).2 Hpfs.sample_eas (by decide) rfl (by decide)⟩

/-! ## C36: the clusters of an EA -/

/-- On the sample volume `read_ea_data` accepts "EA DATA. SF" without a
warning and leaves the tables of `sample_ea_accepted` and four entries of
`ea_usage`. -/
theorem read_ea_data_sample :
    read_ea_data sample_ea_volume (DIVIDE_UP 2048 512) sample_ea_disk
      = some (some (sample_ea_accepted, List.replicate 4 false), []) := by
  decide!

/-- Claim C36.  The loops of `do_ea` over the clusters of an EA are not
confined to the clusters that `read_ea_data` has checked, because the test
"EAs too big" does not take the size `cbList` of the list into account.  On
the sample volume `read_ea_data` accepts "EA DATA. SF" (2048 bytes in the
clusters 2, 3, 4, 5, so `ea_usage` has 4 entries) without a warning.  For a
directory entry with the EA index 1, `do_file` calls `do_ea`; the index leads
to the relative cluster 3, the last of the file, where the EA block announces
`cbList` = 1000, that is 1026 bytes in three clusters.  With `a_check`,
`do_ea` accesses `ea_usage [4]`; without `a_check` and with `a_where` it
follows the chain to the end mark 0xffff and reaches `abort ()`. -/
theorem do_ea_leaves_checked_clusters :
    read_ea_data sample_ea_volume (DIVIDE_UP 2048 512) sample_ea_disk
        = some (some (sample_ea_accepted, List.replicate 4 false), [])
      ∧ do_ea sample_ea_accepted 1 = some (ea_lookup.read 3 5 36)
      ∧ do_file_ea sample_ea_accepted (List.replicate 4 false) true false false sample_ea_disk 1
        = some (ea_end.beyond_ea_usage 4)
      ∧ do_file_ea sample_ea_accepted (List.replicate 4 false) false true false sample_ea_disk 1
        = some ea_end.aborted := by
  refine ⟨?_, ?_, ?_, ?_⟩
  · exact read_ea_data_sample
  · decide
  · decide
  · decide

end Fst
